import Mathlib

/-! # The REBOL lexical scanner (`src/core/l-scan.c`)

A shallow embedding of the scanner: the byte-class table, the prescan, the
token classifier, the quoted-string and tag sub-scanners and the recursive
block scanner, followed by theorems about them.

Conventions of the embedding.

* Memory is a list of bytes (`Buf`); a pointer is an index into it.  A read at
  or past the end of the list yields `0`, so every buffer is NUL-terminated.
  Bytes are natural numbers below 256.
* `REBINT` results that may be negative (tokens, `Scan_Char`) are `Int`.
* A C loop `while (p(*cp)) cp++` whose test fails on NUL is `skipWhile p`.
* Loops that are not of this shape carry a fuel argument that is initialised
  from the buffer length.
* `goto` labels are functions named after the label.
* Functions of the repository that are declared in headers or defined in other
  modules are fields of `Ext` (value constructors, the word table, the UTF-8
  decoder) or are modelled from the specification and marked as such.
* The new-line marker of a value cell (`VAL_SET_LINE`, local `line` of
  `Scan_Block`), series labels, buffer growth (`Extend_Series`) and the C stack
  check are not part of the value model.
-/

namespace Rebol

set_option maxRecDepth 100000

/-! ## Lexical encoding (`sys-scan.h`) -/

/-- Modelled from the spec: `sys-scan.h` is not under `src/`.  Shift that
places the lexical class above the value bits of a `Lex_Map` entry. -/
def LEX_SHIFT : Nat := 5
/-- Modelled from the spec: class bit field of a table entry. -/
def LEX_CLASS : Nat := 3 <<< LEX_SHIFT
/-- Modelled from the spec: value bit field of a table entry. -/
def LEX_VALUE : Nat := 0x1F

/-- Modelled from the spec: the four lexical classes, in the order the
`AT_LEAST` comparisons of the scanner rely on. -/
def LEX_CLASS_DELIMIT : Nat := 0
def LEX_CLASS_SPECIAL : Nat := 1
def LEX_CLASS_WORD : Nat := 2
def LEX_CLASS_NUMBER : Nat := 3

def LEX_DELIMIT : Nat := LEX_CLASS_DELIMIT <<< LEX_SHIFT
def LEX_SPECIAL : Nat := LEX_CLASS_SPECIAL <<< LEX_SHIFT
def LEX_WORD : Nat := LEX_CLASS_WORD <<< LEX_SHIFT
def LEX_NUMBER : Nat := LEX_CLASS_NUMBER <<< LEX_SHIFT

/-- Modelled from the spec: delimiter values (`enum LEX_DELIMIT_ENUM` of
`sys-scan.h`).  `SPACE` is zero and `RETURN` is the last space-like value. -/
def LEX_DELIMIT_SPACE : Nat := 0
def LEX_DELIMIT_END_FILE : Nat := 1
def LEX_DELIMIT_LINEFEED : Nat := 2
def LEX_DELIMIT_RETURN : Nat := 3
def LEX_DELIMIT_LEFT_PAREN : Nat := 4
def LEX_DELIMIT_RIGHT_PAREN : Nat := 5
def LEX_DELIMIT_LEFT_BRACKET : Nat := 6
def LEX_DELIMIT_RIGHT_BRACKET : Nat := 7
def LEX_DELIMIT_LEFT_BRACE : Nat := 8
def LEX_DELIMIT_RIGHT_BRACE : Nat := 9
def LEX_DELIMIT_QUOTE : Nat := 10
def LEX_DELIMIT_SLASH : Nat := 11
def LEX_DELIMIT_SEMICOLON : Nat := 12
def LEX_DELIMIT_UTF8_ERROR : Nat := 13

/-- Modelled from the spec: special-character values (`enum LEX_SPECIAL_ENUM`
of `sys-scan.h`); the scanner compares against `LEX_SPECIAL_PERIOD`, so the
order matters. -/
def LEX_SPECIAL_AT : Nat := 0
def LEX_SPECIAL_PERCENT : Nat := 1
def LEX_SPECIAL_BACKSLASH : Nat := 2
def LEX_SPECIAL_COLON : Nat := 3
def LEX_SPECIAL_TICK : Nat := 4
def LEX_SPECIAL_LESSER : Nat := 5
def LEX_SPECIAL_GREATER : Nat := 6
def LEX_SPECIAL_PLUS : Nat := 7
def LEX_SPECIAL_MINUS : Nat := 8
def LEX_SPECIAL_TILDE : Nat := 9
def LEX_SPECIAL_PERIOD : Nat := 10
def LEX_SPECIAL_COMMA : Nat := 11
def LEX_SPECIAL_POUND : Nat := 12
def LEX_SPECIAL_DOLLAR : Nat := 13
def LEX_SPECIAL_WORD : Nat := 14

/-- Modelled from the spec: control characters count as spaces. -/
def LEX_DEFAULT : Nat := LEX_DELIMIT ||| LEX_DELIMIT_SPACE

/-- Entry used for the bytes that never occur in UTF-8 (`l-scan.c` lines
37-42): `LEX_DEFAULT` in a Unicode build, `LEX_WORD` otherwise. -/
def LEX_UTFE (unicode : Bool) : Nat := if unicode then LEX_DEFAULT else LEX_WORD

/-- Entry of byte `0xA0` (`l-scan.c` lines 202-206). -/
def LEX_A0 (unicode : Bool) : Nat := if unicode then LEX_WORD else LEX_DEFAULT

/-- The table `Lex_Map` for either setting of the build switch
`USE_UNICODE`. -/
def Lex_Map_table (unicode : Bool) : List Nat :=
  let LEX_UTFE := LEX_UTFE unicode
  let LEX_A0 := LEX_A0 unicode
  [
  LEX_DELIMIT ||| LEX_DELIMIT_END_FILE, LEX_DEFAULT, LEX_DEFAULT, LEX_DEFAULT,
  LEX_DEFAULT, LEX_DEFAULT, LEX_DEFAULT, LEX_DEFAULT,
  LEX_DEFAULT, LEX_DEFAULT, LEX_DELIMIT ||| LEX_DELIMIT_LINEFEED, LEX_DEFAULT,
  LEX_DEFAULT, LEX_DELIMIT ||| LEX_DELIMIT_RETURN, LEX_DEFAULT, LEX_DEFAULT,
  LEX_DEFAULT, LEX_DEFAULT, LEX_DEFAULT, LEX_DEFAULT,
  LEX_DEFAULT, LEX_DEFAULT, LEX_DEFAULT, LEX_DEFAULT,
  LEX_DEFAULT, LEX_DEFAULT, LEX_DEFAULT, LEX_DEFAULT,
  LEX_DEFAULT, LEX_DEFAULT, LEX_DEFAULT, LEX_DEFAULT,
  LEX_DELIMIT ||| LEX_DELIMIT_SPACE, LEX_WORD, LEX_DELIMIT ||| LEX_DELIMIT_QUOTE, LEX_SPECIAL ||| LEX_SPECIAL_POUND,
  LEX_SPECIAL ||| LEX_SPECIAL_DOLLAR, LEX_SPECIAL ||| LEX_SPECIAL_PERCENT, LEX_WORD, LEX_SPECIAL ||| LEX_SPECIAL_TICK,
  LEX_DELIMIT ||| LEX_DELIMIT_LEFT_PAREN, LEX_DELIMIT ||| LEX_DELIMIT_RIGHT_PAREN, LEX_WORD, LEX_SPECIAL ||| LEX_SPECIAL_PLUS,
  LEX_SPECIAL ||| LEX_SPECIAL_COMMA, LEX_SPECIAL ||| LEX_SPECIAL_MINUS, LEX_SPECIAL ||| LEX_SPECIAL_PERIOD, LEX_DELIMIT ||| LEX_DELIMIT_SLASH,
  LEX_NUMBER ||| 0, LEX_NUMBER ||| 1, LEX_NUMBER ||| 2, LEX_NUMBER ||| 3,
  LEX_NUMBER ||| 4, LEX_NUMBER ||| 5, LEX_NUMBER ||| 6, LEX_NUMBER ||| 7,
  LEX_NUMBER ||| 8, LEX_NUMBER ||| 9, LEX_SPECIAL ||| LEX_SPECIAL_COLON, LEX_DELIMIT ||| LEX_DELIMIT_SEMICOLON,
  LEX_SPECIAL ||| LEX_SPECIAL_LESSER, LEX_WORD, LEX_SPECIAL ||| LEX_SPECIAL_GREATER, LEX_WORD,
  LEX_SPECIAL ||| LEX_SPECIAL_AT, LEX_WORD ||| 10, LEX_WORD ||| 11, LEX_WORD ||| 12,
  LEX_WORD ||| 13, LEX_WORD ||| 14, LEX_WORD ||| 15, LEX_WORD,
  LEX_WORD, LEX_WORD, LEX_WORD, LEX_WORD,
  LEX_WORD, LEX_WORD, LEX_WORD, LEX_WORD,
  LEX_WORD, LEX_WORD, LEX_WORD, LEX_WORD,
  LEX_WORD, LEX_WORD, LEX_WORD, LEX_WORD,
  LEX_WORD, LEX_WORD, LEX_WORD, LEX_DELIMIT ||| LEX_DELIMIT_LEFT_BRACKET,
  LEX_SPECIAL ||| LEX_SPECIAL_BACKSLASH, LEX_DELIMIT ||| LEX_DELIMIT_RIGHT_BRACKET, LEX_WORD, LEX_WORD,
  LEX_WORD, LEX_WORD ||| 10, LEX_WORD ||| 11, LEX_WORD ||| 12,
  LEX_WORD ||| 13, LEX_WORD ||| 14, LEX_WORD ||| 15, LEX_WORD,
  LEX_WORD, LEX_WORD, LEX_WORD, LEX_WORD,
  LEX_WORD, LEX_WORD, LEX_WORD, LEX_WORD,
  LEX_WORD, LEX_WORD, LEX_WORD, LEX_WORD,
  LEX_WORD, LEX_WORD, LEX_WORD, LEX_WORD,
  LEX_WORD, LEX_WORD, LEX_WORD, LEX_DELIMIT ||| LEX_DELIMIT_LEFT_BRACE,
  LEX_WORD, LEX_DELIMIT ||| LEX_DELIMIT_RIGHT_BRACE, LEX_WORD, LEX_DEFAULT,
  LEX_WORD, LEX_WORD, LEX_WORD, LEX_WORD, LEX_WORD, LEX_WORD, LEX_WORD, LEX_WORD,
  LEX_WORD, LEX_WORD, LEX_WORD, LEX_WORD, LEX_WORD, LEX_WORD, LEX_WORD, LEX_WORD,
  LEX_WORD, LEX_WORD, LEX_WORD, LEX_WORD, LEX_WORD, LEX_WORD, LEX_WORD, LEX_WORD,
  LEX_WORD, LEX_WORD, LEX_WORD, LEX_WORD, LEX_WORD, LEX_WORD, LEX_WORD, LEX_WORD,
  LEX_A0, LEX_WORD, LEX_WORD, LEX_WORD, LEX_WORD, LEX_WORD, LEX_WORD, LEX_WORD,
  LEX_WORD, LEX_WORD, LEX_WORD, LEX_WORD, LEX_WORD, LEX_WORD, LEX_WORD, LEX_WORD,
  LEX_WORD, LEX_WORD, LEX_WORD, LEX_WORD, LEX_WORD, LEX_WORD, LEX_WORD, LEX_WORD,
  LEX_WORD, LEX_WORD, LEX_WORD, LEX_WORD, LEX_WORD, LEX_WORD, LEX_WORD, LEX_WORD,
  LEX_UTFE, LEX_UTFE, LEX_WORD, LEX_WORD, LEX_WORD, LEX_WORD, LEX_WORD, LEX_WORD,
  LEX_WORD, LEX_WORD, LEX_WORD, LEX_WORD, LEX_WORD, LEX_WORD, LEX_WORD, LEX_WORD,
  LEX_WORD, LEX_WORD, LEX_WORD, LEX_WORD, LEX_WORD, LEX_WORD, LEX_WORD, LEX_WORD,
  LEX_WORD, LEX_WORD, LEX_WORD, LEX_WORD, LEX_WORD, LEX_WORD, LEX_WORD, LEX_WORD,
  LEX_WORD, LEX_WORD, LEX_WORD, LEX_WORD, LEX_WORD, LEX_WORD, LEX_WORD, LEX_WORD,
  LEX_WORD, LEX_WORD, LEX_WORD, LEX_WORD, LEX_WORD, LEX_WORD, LEX_WORD, LEX_WORD,
  LEX_WORD, LEX_WORD, LEX_WORD, LEX_WORD, LEX_WORD, LEX_UTFE, LEX_WORD, LEX_WORD,
  LEX_WORD, LEX_WORD, LEX_WORD, LEX_WORD, LEX_WORD, LEX_WORD, LEX_WORD, LEX_UTFE
  ]

/-- Modelled from the spec: the build switch `USE_UNICODE` (the scanner reads
UTF-8, so the Unicode build is the one described). -/
def USE_UNICODE : Bool := true

/-- Table lookup `Lex_Map[c]`. -/
def Lex_Map (c : Nat) : Nat := (Lex_Map_table USE_UNICODE).getD c 0

/-- The table `Upper_Case`. -/
def Upper_Case_table : List Nat := [
  0, 1, 2, 3, 4, 5, 6, 7, 8, 9, 10, 11, 12, 13, 14, 15,
  16, 17, 18, 19, 20, 21, 22, 23, 24, 25, 26, 27, 28, 29, 30, 31,
  32, 33, 34, 35, 36, 37, 38, 39, 40, 41, 42, 43, 44, 45, 46, 47,
  48, 49, 50, 51, 52, 53, 54, 55, 56, 57, 58, 59, 60, 61, 62, 63,
  64, 65, 66, 67, 68, 69, 70, 71, 72, 73, 74, 75, 76, 77, 78, 79,
  80, 81, 82, 83, 84, 85, 86, 87, 88, 89, 90, 91, 92, 93, 94, 95,
  96, 65, 66, 67, 68, 69, 70, 71, 72, 73, 74, 75, 76, 77, 78, 79,
  80, 81, 82, 83, 84, 85, 86, 87, 88, 89, 90, 123, 124, 125, 126, 127,
  128, 129, 130, 131, 132, 133, 134, 135, 136, 137, 138, 139, 140, 141, 142, 143,
  144, 145, 146, 147, 148, 149, 150, 151, 152, 153, 138, 155, 156, 141, 142, 159,
  160, 161, 162, 163, 164, 165, 166, 167, 168, 169, 170, 171, 172, 173, 174, 175,
  176, 177, 178, 179, 180, 181, 182, 183, 184, 185, 186, 187, 188, 189, 190, 191,
  192, 193, 194, 195, 196, 197, 198, 199, 200, 201, 202, 203, 204, 205, 206, 207,
  208, 209, 210, 211, 212, 213, 214, 215, 216, 217, 218, 219, 220, 221, 222, 223,
  192, 193, 194, 195, 196, 197, 198, 199, 200, 201, 202, 203, 204, 205, 206, 207,
  208, 209, 210, 211, 212, 213, 214, 247, 216, 217, 218, 219, 220, 221, 222, 159
  ]

/-- The table `Lower_Case`. -/
def Lower_Case_table : List Nat := [
  0, 1, 2, 3, 4, 5, 6, 7, 8, 9, 10, 11, 12, 13, 14, 15,
  16, 17, 18, 19, 20, 21, 22, 23, 24, 25, 26, 27, 28, 29, 30, 31,
  32, 33, 34, 35, 36, 37, 38, 39, 40, 41, 42, 43, 44, 45, 46, 47,
  48, 49, 50, 51, 52, 53, 54, 55, 56, 57, 58, 59, 60, 61, 62, 63,
  64, 97, 98, 99, 100, 101, 102, 103, 104, 105, 106, 107, 108, 109, 110, 111,
  112, 113, 114, 115, 116, 117, 118, 119, 120, 121, 122, 91, 92, 93, 94, 95,
  96, 97, 98, 99, 100, 101, 102, 103, 104, 105, 106, 107, 108, 109, 110, 111,
  112, 113, 114, 115, 116, 117, 118, 119, 120, 121, 122, 123, 124, 125, 126, 127,
  128, 129, 130, 131, 132, 133, 134, 135, 136, 137, 154, 139, 140, 157, 158, 143,
  144, 145, 146, 147, 148, 149, 150, 151, 152, 153, 154, 155, 156, 157, 158, 255,
  160, 161, 162, 163, 164, 165, 166, 167, 168, 169, 170, 171, 172, 173, 174, 175,
  176, 177, 178, 179, 180, 181, 182, 183, 184, 185, 186, 187, 188, 189, 190, 191,
  224, 225, 226, 227, 228, 229, 230, 231, 232, 233, 234, 235, 236, 237, 238, 239,
  240, 241, 242, 243, 244, 245, 246, 215, 248, 249, 250, 251, 252, 253, 254, 223,
  224, 225, 226, 227, 228, 229, 230, 231, 232, 233, 234, 235, 236, 237, 238, 239,
  240, 241, 242, 243, 244, 245, 246, 247, 248, 249, 250, 251, 252, 253, 254, 255
  ]

def Upper_Case (c : Nat) : Nat := Upper_Case_table.getD c c
def Lower_Case (c : Nat) : Nat := Lower_Case_table.getD c c

/-- Modelled from the spec: `UP_CASE`, the case fold used by `Scan_Char`. -/
def UP_CASE (c : Nat) : Nat := Upper_Case c
/-- Modelled from the spec: `LO_CASE`, the case fold used by `Match_Bytes`. -/
def LO_CASE (c : Nat) : Nat := Lower_Case c

/-! ### Classification macros -/

def GET_LEX_CLASS (c : Nat) : Nat := Lex_Map c >>> LEX_SHIFT
def GET_LEX_VALUE (c : Nat) : Nat := Lex_Map c &&& LEX_VALUE
def MASK_LEX_CLASS (c : Nat) : Nat := Lex_Map c &&& LEX_CLASS

def IS_LEX_SPACE (c : Nat) : Bool := Lex_Map c == 0
def IS_LEX_ANY_SPACE (c : Nat) : Bool := Lex_Map c ≤ LEX_DELIMIT_RETURN
def IS_LEX_DELIMIT (c : Nat) : Bool := MASK_LEX_CLASS c == LEX_DELIMIT
def IS_LEX_SPECIAL (c : Nat) : Bool := MASK_LEX_CLASS c == LEX_SPECIAL
def IS_LEX_WORD (c : Nat) : Bool := MASK_LEX_CLASS c == LEX_WORD
def IS_LEX_NUMBER (c : Nat) : Bool := Lex_Map c ≥ LEX_NUMBER
def IS_LEX_AT_LEAST_SPECIAL (c : Nat) : Bool := Lex_Map c ≥ LEX_SPECIAL
def IS_LEX_AT_LEAST_WORD (c : Nat) : Bool := Lex_Map c ≥ LEX_WORD
def IS_LEX_AT_LEAST_NUMBER (c : Nat) : Bool := Lex_Map c ≥ LEX_NUMBER

def LEX_FLAG (n : Nat) : Nat := 1 <<< n
def SET_LEX_FLAG (f l : Nat) : Nat := f ||| LEX_FLAG l
def HAS_LEX_FLAGS (f l : Nat) : Bool := f &&& l != 0
def HAS_LEX_FLAG (f l : Nat) : Bool := f &&& LEX_FLAG l != 0
def ONLY_LEX_FLAG (f l : Nat) : Bool := f == LEX_FLAG l

/-- Modelled from the spec: flags of the characters a word may not contain. -/
def LEX_WORD_FLAGS : Nat :=
  LEX_FLAG LEX_SPECIAL_AT ||| LEX_FLAG LEX_SPECIAL_PERCENT |||
  LEX_FLAG LEX_SPECIAL_BACKSLASH ||| LEX_FLAG LEX_SPECIAL_COMMA |||
  LEX_FLAG LEX_SPECIAL_POUND ||| LEX_FLAG LEX_SPECIAL_DOLLAR |||
  LEX_FLAG LEX_SPECIAL_COLON

/-- The width of flag words (`REBCNT`), used where the scanner complements. -/
def FLAG_MASK : Nat := 2 ^ 32 - 1

def CR : Nat := 13
def LF : Nat := 10
def TAB : Nat := 9

def NOT_NEWLINE (c : Nat) : Bool := c != 0 && c != CR && c != LF

/-- The characters of `ANGLE_WORD_CHARS`, "-=<|>+~". -/
def IS_ANGLE_CHAR (c : Nat) : Bool :=
  c == 45 || c == 61 || c == 60 || c == 124 || c == 62 || c == 43 || c == 126

/-- The tag escape character `.`; the tag paths of the scanner are compiled
with it (spec 4.8, step 7). -/
def LEX_TAG_ESCAPE_CHAR : Nat := 46

/-! ## Memory -/

abbrev Buf := List Nat

/-- Byte read `*p`: zero at and past the end of the buffer. -/
def rd (b : Buf) (p : Nat) : Nat := b.getD p 0

/-- The slice `[p, q)` of the buffer. -/
def slice (b : Buf) (p q : Nat) : List Nat := (List.range (q - p)).map (fun i => rd b (p + i))

/-- The loop `while (p(*cp)) cp++`, for a test that fails on NUL. -/
def skipWhile (p : Nat → Bool) (b : Buf) (cp : Nat) : Nat :=
  cp + ((b.drop cp).takeWhile p).length

/-- The loop of `Skip_To_Char`: `n` bytes remain before `ep`. -/
def Skip_To_Char_loop (b : Buf) (chr : Nat) : Nat → Nat → Option Nat
  | 0, _ => none
  | n + 1, cp => if rd b cp = chr then some cp else Skip_To_Char_loop b chr n (cp + 1)

/-- Modelled from the spec: `Skip_To_Char(cp, ep, chr)`, the first position in
`[cp, ep)` holding `chr`, if any (defined in another module). -/
def Skip_To_Char (b : Buf) (cp ep chr : Nat) : Option Nat :=
  Skip_To_Char_loop b chr (ep - cp) cp

/-- The C test `strchr(s, c) != 0`: true for members of `s` and for NUL, which
matches the terminator of `s`. -/
def strchr (s : List Nat) (c : Nat) : Bool := c == 0 || s.contains c

/-! ## Tokens and scan state (`sys-scan.h`) -/

/-- Modelled from the spec: token kinds (`enum Value_Types` of `sys-scan.h`),
numbered in declaration order.  `TOKEN_EOF` is zero and `WORD`, `SET`, `GET`,
`LIT` are consecutive, as `Scan_Block` requires. -/
def TOKEN_EOF : Int := 0
def TOKEN_LINE : Int := 1
def TOKEN_BLOCK_END : Int := 2
def TOKEN_PAREN_END : Int := 3
def TOKEN_WORD : Int := 4
def TOKEN_SET : Int := 5
def TOKEN_GET : Int := 6
def TOKEN_LIT : Int := 7
def TOKEN_NONE : Int := 8
def TOKEN_LOGIC : Int := 9
def TOKEN_INTEGER : Int := 10
def TOKEN_DECIMAL : Int := 11
def TOKEN_PERCENT : Int := 12
def TOKEN_MONEY : Int := 13
def TOKEN_TIME : Int := 14
def TOKEN_DATE : Int := 15
def TOKEN_CHAR : Int := 16
def TOKEN_BLOCK : Int := 17
def TOKEN_PAREN : Int := 18
def TOKEN_STRING : Int := 19
def TOKEN_BINARY : Int := 20
def TOKEN_PAIR : Int := 21
def TOKEN_TUPLE : Int := 22
def TOKEN_FILE : Int := 23
def TOKEN_EMAIL : Int := 24
def TOKEN_URL : Int := 25
def TOKEN_ISSUE : Int := 26
def TOKEN_TAG : Int := 27
def TOKEN_PATH : Int := 28
def TOKEN_REFINE : Int := 29
def TOKEN_CONSTRUCT : Int := 30

/-- The option flags of a scan state (`SCAN_NEXT`, `SCAN_ONLY`, `SCAN_RELAX`),
one boolean per bit of `opts`. -/
structure Opts where
  SCAN_NEXT : Bool
  SCAN_ONLY : Bool
  SCAN_RELAX : Bool
  deriving DecidableEq, Repr

/-- Modelled from the spec: `SCAN_STATE` (declared in `sys-scan.h`). -/
structure SCAN_STATE where
  begin : Nat
  end_ : Nat
  limit : Nat
  line_count : Nat
  head_line : Nat
  opts : Opts
  errors : Nat
  deriving DecidableEq, Repr

/-- The macro `ACCEPT_TOKEN`. -/
def ACCEPT_TOKEN (s : SCAN_STATE) : SCAN_STATE := { s with begin := s.end_ }

/-- `Init_Scan_State` (lines 1064-1076). -/
def Init_Scan_State (cp limit : Nat) : SCAN_STATE :=
  { begin := cp, end_ := cp, head_line := cp, limit := cp + limit, line_count := 1,
    opts := ⟨false, false, false⟩, errors := 0 }

/-! ## Value cells -/

/-- Modelled from the spec: the datatypes the scanner produces. -/
inductive REB_TYPE where
  | REB_END | REB_NONE
  | REB_WORD | REB_SET_WORD | REB_GET_WORD | REB_LIT_WORD | REB_REFINEMENT | REB_ISSUE
  | REB_BLOCK | REB_PAREN | REB_PATH | REB_SET_PATH | REB_GET_PATH | REB_LIT_PATH
  | REB_INTEGER | REB_DECIMAL | REB_PERCENT | REB_MONEY | REB_TIME | REB_DATE | REB_CHAR
  | REB_STRING | REB_BINARY | REB_PAIR | REB_TUPLE | REB_FILE | REB_EMAIL | REB_URL | REB_TAG
  | REB_ERROR | REB_OTHER
  deriving DecidableEq, Repr

/-- Modelled from the spec: the error ids raised by the scanner. -/
inductive ERRNUM where
  | RE_INVALID | RE_MISSING | RE_MALCONSTRUCT
  deriving DecidableEq, Repr

/-- Modelled from the spec: a value cell, reduced to what the scanner writes:
the datatype, the word symbol or character, the bytes handed to a value
constructor, the series of a block, paren or path, and the fields of an error
object (`id`, `nearest` as line number and line text, `arg1` as token kind,
`arg2`).  A cell of another kind whose datatype was overwritten is `retyped`:
it has the new datatype and the rest of the cell it was made from. -/
inductive REBVAL where
  | END
  | NONE
  | word (type : REB_TYPE) (sym : Nat)
  | char (n : Int)
  | data (type : REB_TYPE) (bytes : List Nat)
  | series (type : REB_TYPE) (block : List REBVAL)
  | error (id : ERRNUM) (line : Nat) (nearest : List Nat) (arg1 : Int) (arg2 : List Nat)
  | other (block : List REBVAL)
  | retyped (type : REB_TYPE) (cell : REBVAL)

/-- The datatype of a cell (`VAL_TYPE`). -/
def VAL_TYPE : REBVAL → REB_TYPE
  | .END => .REB_END
  | .NONE => .REB_NONE
  | .word t _ => t
  | .char _ => .REB_CHAR
  | .data t _ => t
  | .series t _ => t
  | .error _ _ _ _ _ => .REB_ERROR
  | .other _ => .REB_OTHER
  | .retyped t _ => t

/-- The statement `VAL_SET(v, t)`, which overwrites the datatype of a cell
whatever the cell holds; the rest of the cell stays as it was. -/
def VAL_SET (v : REBVAL) (t : REB_TYPE) : REBVAL :=
  match v with
  | .word _ s => .word t s
  | .data _ d => .data t d
  | .series _ l => .series t l
  | .retyped _ c => .retyped t c
  | v => .retyped t v

/-! ## External collaborators -/

/-- Functions of the interpreter that the scanner calls and that are defined
in other modules.  A value constructor is reduced to its verdict on the bytes
of the lexeme: `true` when it filled in the value.  `Scan_Time` and `Scan_Date`
return the number of bytes they consumed, `none` for a null pointer. -/
structure Ext where
  /-- The code point at a position (zero on error) and the pointer it leaves. -/
  Decode_UTF8_Char : Buf → Nat → Nat × Nat
  Esc_Names : List (List Nat)
  Esc_Codes : List Nat
  Make_Word : List Nat → Nat
  Scan_Integer : List Nat → Bool
  Scan_Decimal : List Nat → Bool
  Scan_Money : List Nat → Bool
  Scan_Time : List Nat → Option Nat
  Scan_Date : List Nat → Option Nat
  Scan_Binary : List Nat → Bool
  Scan_Pair : List Nat → Bool
  Scan_Tuple : List Nat → Bool
  Scan_File : List Nat → Bool
  Scan_Email : List Nat → Bool
  Scan_URL : List Nat → Bool
  /-- The series `Scan_Any` builds for a tag body, `none` when it fails. -/
  Scan_Any : List Nat → Option (List Nat)
  /-- The value `Construct_Value` builds from a construct block, `none` when
  it fails. -/
  Construct_Value : List REBVAL → Option REBVAL

/-- Modelled from the spec: `Match_Bytes(src, pat)`, a case-insensitive match
of the pattern at `src`; the position after the match, if it matches. -/
def Match_Bytes (b : Buf) : Nat → List Nat → Option Nat
  | src, [] => some src
  | src, p :: ps =>
    if rd b src == 0 then none
    else if LO_CASE (rd b src) != LO_CASE p then none
    else Match_Bytes b (src + 1) ps

/-! ## Escape decoder -/

/-- Test of the hexadecimal loop of `Scan_Char` (lines 364-366). -/
def Scan_Char_hex (c : Nat) : Bool :=
  Lex_Map c > LEX_WORD && !((Lex_Map c &&& LEX_VALUE) == 0 && Lex_Map c < LEX_NUMBER)

/-- The identifier search of `Scan_Char` (lines 378-385). -/
def Scan_Char_names (b : Buf) (bp : Nat) : List (List Nat) → List Nat → Option (Int × Nat)
  | name :: names, code :: codes =>
    match Match_Bytes b bp name with
    | some cp => if rd b cp == 41 then some ((code : Int), cp + 1)
                 else Scan_Char_names b bp names codes
    | none => Scan_Char_names b bp names codes
  | _, _ => none

/-- `Scan_Char` (lines 304-396): the character value or `-1`, and the
advanced pointer. -/
def Scan_Char (ext : Ext) (b : Buf) (bp : Nat) : Int × Nat :=
  let c := rd b bp
  if c ≥ 0x80 then
    let r := ext.Decode_UTF8_Char b bp
    (if r.1 = 0 then -1 else (r.1 : Int), r.2 + 1)
  else
    let bp := bp + 1
    if c ≠ 94 then ((c : Int), bp)
    else
      let c := rd b bp
      let bp := bp + 1
      if c = 0 then (0, bp)
      else if c = 47 then ((LF : Int), bp)
      else if c = 94 then ((c : Int), bp)
      else if c = 45 then ((TAB : Int), bp)
      else if c = 33 then (30, bp)
      else if c = 40 then
        let cp := skipWhile Scan_Char_hex b bp
        let n := (slice b bp cp).foldl (fun n d => (n <<< 4) + (Lex_Map d &&& LEX_VALUE)) 0
        if cp - bp > 4 then (-1, bp)
        else if rd b cp = 41 then ((n : Int), cp + 1)
        else
          match Scan_Char_names b bp ext.Esc_Names ext.Esc_Codes with
          | some r => r
          | none => (-1, bp)
      else
        let n := UP_CASE c
        if n ≥ 64 ∧ n ≤ 95 then ((n - 64 : Nat), bp)
        else if n = 126 then (0x7f, bp)
        else ((c : Int), bp)

/-! ## Quoted strings -/

/-- The loop of `Scan_Quote` (lines 419-463).  The result is the position of
the terminator (`none` when the scanner gives up), the line breaks counted and
the mold buffer.  The fuel is the buffer length plus two: every round moves
`src` forward and a NUL ends the loop. -/
def Scan_Quote_loop (ext : Ext) (b : Buf) (term : Nat) :
    Nat → Nat → Nat → Nat → List Nat → Option Nat × Nat × List Nat
  | 0, _, _, lines, buf => (none, lines, buf)
  | fuel + 1, src, nest, lines, buf =>
    if rd b src ≠ term ∨ nest > 0 then
      let chr := rd b src
      if chr = 0 then (none, lines, buf)
      else if chr = 94 then
        let r := Scan_Char ext b src
        if r.1 = -1 then (none, lines, buf)
        else Scan_Quote_loop ext b term fuel r.2 nest lines
               (buf ++ [(r.1 % 65536).toNat])
      else if chr = 123 then
        Scan_Quote_loop ext b term fuel (src + 1) (if term ≠ 34 then nest + 1 else nest) lines
          (buf ++ [chr])
      else if chr = 125 then
        Scan_Quote_loop ext b term fuel (src + 1)
          (if term ≠ 34 ∧ nest > 0 then nest - 1 else nest) lines (buf ++ [chr])
      else if chr = CR ∨ chr = LF then
        let src := if chr = CR ∧ rd b (src + 1) = LF then src + 1 else src
        if term = 34 then (none, lines, buf)
        else Scan_Quote_loop ext b term fuel (src + 1) nest (lines + 1) (buf ++ [LF])
      else if chr ≥ 0x80 then
        let r := ext.Decode_UTF8_Char b src
        if r.1 = 0 then (none, lines, buf)
        else Scan_Quote_loop ext b term fuel (r.2 + 1) nest lines (buf ++ [r.1 % 65536])
      else Scan_Quote_loop ext b term fuel (src + 1) nest lines (buf ++ [chr])
    else (some src, lines, buf)

/-- `Scan_Quote` (lines 401-472): the position after the closing delimiter
(`none` for the null result), the scan state with its line count advanced on
success, and the mold buffer. -/
def Scan_Quote (ext : Ext) (b : Buf) (src : Nat) (scan_state : SCAN_STATE) :
    Option Nat × SCAN_STATE × List Nat :=
  let term := if rd b src = 123 then 125 else 34
  match Scan_Quote_loop ext b term (b.length + 2) (src + 1) 0 0 [] with
  | (some p, lines, buf) =>
    (some (p + 1), { scan_state with line_count := scan_state.line_count + lines }, buf)
  | (none, _, buf) => (none, scan_state, buf)

/-! ## Tags -/

/-- The loop of `Skip_Tag` (lines 557-566). -/
def Skip_Tag_loop (b : Buf) : Nat → Nat → Option Nat
  | 0, _ => none
  | fuel + 1, cp =>
    if rd b cp ≠ 0 ∧ rd b cp ≠ 62 then
      if rd b cp = 34 then
        let cp := skipWhile (fun c => c != 0 && c != 34) b (cp + 1)
        if rd b cp = 0 then none else Skip_Tag_loop b fuel (cp + 1)
      else Skip_Tag_loop b fuel (cp + 1)
    else if rd b cp ≠ 0 then some (cp + 1) else none

/-- `Skip_Tag` (lines 548-567). -/
def Skip_Tag (b : Buf) (cp : Nat) : Option Nat :=
  Skip_Tag_loop b (b.length + 1) (if rd b cp = 60 then cp + 1 else cp)

/-! ## Prescan -/

/-- The loop of `Prescan` (lines 646-668): the end of the lexeme and its
flags.  The fuel is the buffer length plus one: every round moves `cp` forward
and a delimiter ends the loop. -/
def Prescan_loop (b : Buf) (begin : Nat) : Nat → Nat → Nat → Nat × Nat
  | 0, cp, flags => (cp, flags)
  | fuel + 1, cp, flags =>
    let cls := GET_LEX_CLASS (rd b cp)
    if cls = LEX_CLASS_DELIMIT then
      (if cp = begin then cp + 1 else cp, flags)
    else if cls = LEX_CLASS_SPECIAL then
      Prescan_loop b begin fuel (cp + 1)
        (if cp ≠ begin then SET_LEX_FLAG flags (GET_LEX_VALUE (rd b cp)) else flags)
    else if cls = LEX_CLASS_WORD then
      Prescan_loop b begin fuel (skipWhile IS_LEX_AT_LEAST_WORD b cp)
        (SET_LEX_FLAG flags LEX_SPECIAL_WORD)
    else
      Prescan_loop b begin fuel (skipWhile IS_LEX_AT_LEAST_NUMBER b cp) flags

/-- `Prescan` (lines 622-669): the flags, with `begin` and `end` updated. -/
def Prescan (b : Buf) (scan_state : SCAN_STATE) : Nat × SCAN_STATE :=
  let cp := skipWhile IS_LEX_SPACE b scan_state.begin
  let r := Prescan_loop b cp (b.length + 1) cp 0
  (r.2, { scan_state with begin := cp, end_ := r.1 })

/-! ## Token classifier -/

/-- A null pointer is the address zero. -/
def ptr (p : Option Nat) : Nat := p.getD 0

/-- The recovery loop `for (cp = begin + 1; NOT_NEWLINE(*cp); cp++)`. -/
def recover_line (b : Buf) (begin : Nat) : Nat := skipWhile NOT_NEWLINE b (begin + 1)

/-- Test shared by the `:` and `'` cases (lines 838-839, 854-855): a number
follows, possibly after a sign and a decimal mark. -/
def number_follows (b : Buf) (cp : Nat) : Bool :=
  IS_LEX_NUMBER (rd b (cp + 1))
  || (strchr [45, 43, 46, 44] (rd b (cp + 1)) && IS_LEX_NUMBER (rd b (cp + 2)))
  || (strchr [43, 45] (rd b (cp + 1)) && strchr [46, 44] (rd b (cp + 2))
        && IS_LEX_NUMBER (rd b (cp + 3)))

/-- The steps `cp++; while (IS_ANGLE_CHAR(*cp)) cp++` taken `n` bytes after
`cp`. -/
def skip_angle (b : Buf) (cp : Nat) : Nat := skipWhile IS_ANGLE_CHAR b cp

/-- The path-delimiter loop of the file case (lines 829-832).  The inner loop
stops only at a delimiter, so the two loops together skip `/` and the bytes of
class special or above, provided the first byte is `/`. -/
def skip_file_path (b : Buf) (cp : Nat) : Nat :=
  if rd b cp = 47 then skipWhile (fun c => c == 47 || IS_LEX_AT_LEAST_SPECIAL c) b cp else cp

/-- The path-delimiter loop of the URL case (lines 1031-1034). -/
def skip_url_path (b : Buf) (cp : Nat) : Nat :=
  if rd b cp = 47 then skipWhile (fun c => IS_LEX_AT_LEAST_SPECIAL c || c == 47) b (cp + 1)
  else cp

/-- Label `scanword` of `Scan_Token` (lines 1022-1058). -/
def scanword (b : Buf) (ss : SCAN_STATE) (flags cp : Nat) (type : Int) : Int × SCAN_STATE :=
  if HAS_LEX_FLAG flags LEX_SPECIAL_COLON then
    let cp := ptr (Skip_To_Char b cp ss.end_ 58)
    if type ≠ TOKEN_WORD then
      (if IS_LEX_DELIMIT (rd b (cp + 1)) then type else -type, ss)
    else if rd b (cp + 1) ≠ 47 ∧ IS_LEX_DELIMIT (rd b (cp + 1)) then
      if HAS_LEX_FLAGS flags
          ((FLAG_MASK ^^^ LEX_FLAG LEX_SPECIAL_COLON) &&&
            (LEX_WORD_FLAGS ||| LEX_FLAG LEX_SPECIAL_LESSER ||| LEX_FLAG LEX_SPECIAL_GREATER))
      then (-TOKEN_WORD, ss)
      else (TOKEN_SET, ss)
    else
      (TOKEN_URL, { ss with end_ := skip_url_path b ss.end_ })
  else if HAS_LEX_FLAG flags LEX_SPECIAL_AT then (TOKEN_EMAIL, ss)
  else if HAS_LEX_FLAG flags LEX_SPECIAL_DOLLAR then (TOKEN_MONEY, ss)
  else if HAS_LEX_FLAGS flags LEX_WORD_FLAGS then (-type, ss)
  else if HAS_LEX_FLAG flags LEX_SPECIAL_LESSER then
    let bp := cp
    let cp := ptr (Skip_To_Char b bp ss.end_ 60)
    if HAS_LEX_FLAG flags LEX_SPECIAL_GREATER ∧ cp > ptr (Skip_To_Char b bp ss.end_ 62) then
      (-TOKEN_WORD, ss)
    else
      let bp := skip_angle b (cp + 1)
      let bp := skipWhile (fun c => c == LEX_TAG_ESCAPE_CHAR) b bp
      if (IS_LEX_DELIMIT (rd b bp) || (rd b bp == 58 && IS_LEX_DELIMIT (rd b (bp + 1))))
          && (rd b bp != 47 || decide (bp - cp > 1))
      then (-type, ss)
      else (type, { ss with end_ := cp })
  else if HAS_LEX_FLAG flags LEX_SPECIAL_GREATER then (-type, ss)
  else (type, ss)

/-- Label `pound` of `Scan_Token` (lines 917-956); `cp` points at the `#`. -/
def pound (ext : Ext) (b : Buf) (ss : SCAN_STATE) (mold : List Nat) (cp : Nat) :
    Int × SCAN_STATE × List Nat :=
  let cp := cp + 1
  if rd b cp = 91 then (TOKEN_CONSTRUCT, { ss with end_ := cp + 1 }, mold)
  else if rd b cp = 34 then
    let r := Scan_Char ext b (cp + 1)
    if r.1 ≥ 0 ∧ rd b r.2 = 34 then (TOKEN_CHAR, { ss with end_ := r.2 + 1 }, mold)
    else (-TOKEN_CHAR, { ss with end_ := recover_line b ss.begin }, mold)
  else if rd b cp = 123 then
    match Scan_Quote ext b cp ss with
    | (some p, ss1, mold1) => (TOKEN_BINARY, { ss1 with end_ := p }, mold1)
    | (none, ss1, mold1) => (-TOKEN_BINARY, { ss1 with end_ := recover_line b ss.begin }, mold1)
  else if rd b cp = 60 ∨ rd b cp = 62 then
    let cp := skip_angle b (cp + 1)
    (if IS_LEX_DELIMIT (rd b cp) then TOKEN_ISSUE else -TOKEN_ISSUE, { ss with end_ := cp }, mold)
  else if cp - 1 = ss.begin then (TOKEN_ISSUE, ss, mold)
  else (-TOKEN_INTEGER, ss, mold)

/-- The loop of the number case (lines 1005-1013): the token decided by the
first of `-`, `x`, `X`, `E`, `e`, `%` in `[cp, end)`. -/
def num_loop (b : Buf) (end_ : Nat) : Nat → Nat → Option Int
  | 0, _ => none
  | fuel + 1, cp =>
    if cp = end_ then none
    else if rd b cp = 45 then some TOKEN_DATE
    else if rd b cp = 120 ∨ rd b cp = 88 then some TOKEN_PAIR
    else if rd b cp = 69 ∨ rd b cp = 101 then
      if (Skip_To_Char b cp end_ 120).isSome then some TOKEN_PAIR else some TOKEN_DECIMAL
    else if rd b cp = 37 then some TOKEN_PERCENT
    else num_loop b end_ fuel (cp + 1)

/-- Label `num` of `Scan_Token` (lines 971-1016). -/
def num (ext : Ext) (b : Buf) (ss : SCAN_STATE) (mold : List Nat) (flags cp : Nat) :
    Int × SCAN_STATE × List Nat :=
  if flags = 0 then (TOKEN_INTEGER, ss, mold)
  else if HAS_LEX_FLAG flags LEX_SPECIAL_AT then (TOKEN_EMAIL, ss, mold)
  else if HAS_LEX_FLAG flags LEX_SPECIAL_POUND then
    if cp = ss.begin ∧
        ((rd b cp = 54 ∧ rd b (cp + 1) = 52 ∧ rd b (cp + 2) = 35 ∧ rd b (cp + 3) = 123)
          ∨ (rd b cp = 49 ∧ rd b (cp + 1) = 54 ∧ rd b (cp + 2) = 35 ∧ rd b (cp + 3) = 123))
    then pound ext b ss mold (cp + 2)
    else if cp = ss.begin ∧ rd b cp = 50 ∧ rd b (cp + 1) = 35 ∧ rd b (cp + 2) = 123
    then pound ext b ss mold (cp + 1)
    else (-TOKEN_INTEGER, ss, mold)
  else if HAS_LEX_FLAG flags LEX_SPECIAL_COLON then (TOKEN_TIME, ss, mold)
  else if HAS_LEX_FLAG flags LEX_SPECIAL_PERIOD then
    if (Skip_To_Char b cp ss.end_ 120).isSome then (TOKEN_PAIR, ss, mold)
    else
      let cp := ptr (Skip_To_Char b cp ss.end_ 46)
      if !HAS_LEX_FLAG flags LEX_SPECIAL_COMMA ∧ (Skip_To_Char b (cp + 1) ss.end_ 46).isSome
      then (TOKEN_TUPLE, ss, mold)
      else (TOKEN_DECIMAL, ss, mold)
  else if HAS_LEX_FLAG flags LEX_SPECIAL_COMMA then
    if (Skip_To_Char b cp ss.end_ 120).isSome then (TOKEN_PAIR, ss, mold)
    else (TOKEN_DECIMAL, ss, mold)
  else
    match num_loop b ss.end_ (ss.end_ - cp + 1) cp with
    | some t => (t, ss, mold)
    | none =>
      if HAS_LEX_FLAG flags LEX_SPECIAL_TICK then (TOKEN_INTEGER, ss, mold)
      else (-TOKEN_INTEGER, ss, mold)

/-- Case `LEX_SPECIAL_PERCENT` of `next_ls` (lines 821-834). -/
def special_percent (ext : Ext) (b : Buf) (mold : List Nat) (ss : SCAN_STATE) :
    Int × SCAN_STATE × List Nat :=
  let cp := ss.end_
  if rd b cp = 34 then
    match Scan_Quote ext b cp ss with
    | (some p, ss1, mold1) => (TOKEN_FILE, { ss1 with end_ := p }, mold1)
    | (none, ss1, mold1) => (-TOKEN_FILE, ss1, mold1)
  else (TOKEN_FILE, { ss with end_ := skip_file_path b cp }, mold)

/-- Tag/word differentiation mode 2 (lines 843-848, 859-864): the angle-word
after `:` or `'`, with the closing-tag special case. -/
def angle_mode2 (b : Buf) (mold : List Nat) (ss : SCAN_STATE) (cp : Nat) (type : Int) :
    Int × SCAN_STATE × List Nat :=
  let cp := skip_angle b (cp + 2)
  (if IS_LEX_DELIMIT (rd b cp)
      && (rd b cp != 47 || decide (cp - ss.begin > 2) || rd b (cp - 1) != 60)
    then type else -type, { ss with end_ := cp }, mold)

/-- Case `LEX_SPECIAL_COLON` of `next_ls` (lines 836-851). -/
def special_colon (b : Buf) (mold : List Nat) (ss : SCAN_STATE) (flags cp : Nat) :
    Int × SCAN_STATE × List Nat :=
  if IS_LEX_NUMBER (rd b (cp + 1)) then (TOKEN_TIME, ss, mold)
  else if number_follows b cp then (TOKEN_TIME, ss, mold)
  else if ONLY_LEX_FLAG flags LEX_SPECIAL_WORD then (TOKEN_GET, ss, mold)
  else if rd b (cp + 1) = 39 then (-TOKEN_WORD, ss, mold)
  else if rd b (cp + 1) = 60 ∨ rd b (cp + 1) = 62 then angle_mode2 b mold ss cp TOKEN_GET
  else
    let r := scanword b ss flags (cp + 1) TOKEN_GET
    (r.1, r.2, mold)

/-- Case `LEX_SPECIAL_TICK` of `next_ls` (lines 853-867). -/
def special_tick (b : Buf) (mold : List Nat) (ss : SCAN_STATE) (flags cp : Nat) :
    Int × SCAN_STATE × List Nat :=
  if number_follows b cp then (-TOKEN_LIT, ss, mold)
  else if rd b (cp + 1) = 58 then (-TOKEN_LIT, ss, mold)
  else if ONLY_LEX_FLAG flags LEX_SPECIAL_WORD then (TOKEN_LIT, ss, mold)
  else if rd b (cp + 1) = 60 ∨ rd b (cp + 1) = 62 then angle_mode2 b mold ss cp TOKEN_LIT
  else if rd b (cp + 1) = 39 then (-TOKEN_WORD, ss, mold)
  else
    let r := scanword b ss flags cp TOKEN_LIT
    (r.1, r.2, mold)

/-- Cases `LEX_SPECIAL_COMMA` and `LEX_SPECIAL_PERIOD` of `next_ls` (lines
869-875); `v` is the special value of `*cp`. -/
def special_comma_period (ext : Ext) (b : Buf) (mold : List Nat) (ss : SCAN_STATE)
    (flags cp v : Nat) : Int × SCAN_STATE × List Nat :=
  let flags := SET_LEX_FLAG flags v
  if IS_LEX_NUMBER (rd b (cp + 1)) then num ext b ss mold flags cp
  else if v ≠ LEX_SPECIAL_PERIOD then (-TOKEN_WORD, ss, mold)
  else
    let r := scanword b ss flags cp TOKEN_WORD
    (r.1, r.2, mold)

/-- Cases `LEX_SPECIAL_GREATER` and `LEX_SPECIAL_LESSER` of `next_ls` (lines
877-889), tag/word differentiation mode 3. -/
def special_angle (b : Buf) (mold : List Nat) (ss : SCAN_STATE) (cp : Nat) :
    Int × SCAN_STATE × List Nat :=
  let cp := skip_angle b (cp + 1)
  if (IS_LEX_DELIMIT (rd b cp) || (rd b cp == 58 && IS_LEX_DELIMIT (rd b (cp + 1))))
      && (rd b cp != 47 || decide (cp - ss.begin > 1) || rd b (cp - 1) != 60)
  then (if rd b cp = 58 then TOKEN_SET else TOKEN_WORD, ss, mold)
  else if rd b ss.begin ≠ 60 then (-TOKEN_WORD, ss, mold)
  else
    match Skip_Tag b cp with
    | none => (-TOKEN_TAG, ss, mold)
    | some p => (TOKEN_TAG, { ss with end_ := p }, mold)

/-- Cases `LEX_SPECIAL_PLUS` and `LEX_SPECIAL_MINUS` of `next_ls` (lines
891-914); `again` stands for the jump back to the label. -/
def special_sign (ext : Ext) (b : Buf) (mold : List Nat)
    (again : SCAN_STATE → Nat → Nat → Int × SCAN_STATE × List Nat)
    (ss : SCAN_STATE) (flags cp : Nat) : Int × SCAN_STATE × List Nat :=
  if HAS_LEX_FLAG flags LEX_SPECIAL_DOLLAR then (TOKEN_MONEY, ss, mold)
  else
    let colon := HAS_LEX_FLAG flags LEX_SPECIAL_COLON
    let found := Skip_To_Char b cp ss.end_ 58
    if colon ∧ found.isSome ∧ ptr found + 1 ≠ ss.end_ then (TOKEN_TIME, ss, mold)
    else if colon ∧ rd b (ss.begin + 1) = 58 then
      let r := scanword b ss flags ss.begin TOKEN_WORD
      (r.1, r.2, mold)
    else
      let cp := (if colon then ss.begin else cp) + 1
      if IS_LEX_AT_LEAST_NUMBER (rd b cp) then num ext b ss mold flags cp
      else if IS_LEX_SPECIAL (rd b cp) then
        if GET_LEX_VALUE (rd b cp) ≥ LEX_SPECIAL_PERIOD ∧ rd b cp ≠ 35 then again ss flags cp
        else if rd b cp = 43 ∨ rd b cp = 45 then
          let r := scanword b ss flags cp TOKEN_WORD
          (r.1, r.2, mold)
        else (-TOKEN_WORD, ss, mold)
      else
        let r := scanword b ss flags cp TOKEN_WORD
        (r.1, r.2, mold)

/-- Label `next_ls` of `Scan_Token` (lines 815-963), the switch on the special
value of `*cp`.  The `+`/`-` case jumps back to the label at most once, for a
following `.`, `,` or `$`; the fuel bounds that jump. -/
def next_ls (ext : Ext) (b : Buf) (mold : List Nat) :
    Nat → SCAN_STATE → Nat → Nat → Int × SCAN_STATE × List Nat
  | 0, ss, _, _ => (-TOKEN_WORD, ss, mold)
  | fuel + 1, ss, flags, cp =>
    let v := GET_LEX_VALUE (rd b cp)
    if v = LEX_SPECIAL_AT then (-TOKEN_EMAIL, ss, mold)
    else if v = LEX_SPECIAL_PERCENT then special_percent ext b mold ss
    else if v = LEX_SPECIAL_COLON then special_colon b mold ss flags cp
    else if v = LEX_SPECIAL_TICK then special_tick b mold ss flags cp
    else if v = LEX_SPECIAL_COMMA ∨ v = LEX_SPECIAL_PERIOD then
      special_comma_period ext b mold ss flags cp v
    else if v = LEX_SPECIAL_GREATER ∨ v = LEX_SPECIAL_LESSER then special_angle b mold ss cp
    else if v = LEX_SPECIAL_PLUS ∨ v = LEX_SPECIAL_MINUS then
      special_sign ext b mold (next_ls ext b mold fuel) ss flags cp
    else if v = LEX_SPECIAL_POUND then pound ext b ss mold cp
    else if v = LEX_SPECIAL_DOLLAR then (TOKEN_MONEY, ss, mold)
    else (-TOKEN_WORD, ss, mold)

/-- Label `line_feed` of `Scan_Token` (lines 747-750). -/
def line_feed (ss : SCAN_STATE) (mold : List Nat) (cp : Nat) : Int × SCAN_STATE × List Nat :=
  (TOKEN_LINE, { ss with line_count := ss.line_count + 1, end_ := cp + 1 }, mold)

/-- Case `LEX_DELIMIT_RETURN` of the delimiter switch (lines 743-745), which
falls into `line_feed`. -/
def delimit_return (b : Buf) (ss : SCAN_STATE) (mold : List Nat) (cp : Nat) :
    Int × SCAN_STATE × List Nat :=
  line_feed ss mold (if rd b (cp + 1) = LF then cp + 1 else cp)

/-- Cases `LEX_DELIMIT_SPACE` and `LEX_DELIMIT_SEMICOLON` of the delimiter
switch (lines 737-742): a comment up to the end of the line. -/
def delimit_comment (b : Buf) (ss : SCAN_STATE) (mold : List Nat) (cp : Nat) :
    Int × SCAN_STATE × List Nat :=
  let cp := skipWhile NOT_NEWLINE b cp
  let cp := if rd b cp = 0 then cp - 1 else cp
  if rd b cp = LF then line_feed ss mold cp
  else delimit_return b ss mold cp

/-- Cases `LEX_DELIMIT_QUOTE` and `LEX_DELIMIT_LEFT_BRACE` of the delimiter
switch (lines 764-774). -/
def delimit_quote (ext : Ext) (b : Buf) (ss : SCAN_STATE) (cp : Nat) :
    Int × SCAN_STATE × List Nat :=
  match Scan_Quote ext b cp ss with
  | (some p, ss1, mold1) => (TOKEN_STRING, { ss1 with end_ := p }, mold1)
  | (none, ss1, mold1) => (-TOKEN_STRING, { ss1 with end_ := recover_line b ss.begin }, mold1)

/-- Case `LEX_DELIMIT_SLASH` of the delimiter switch (lines 779-802). -/
def delimit_slash (b : Buf) (ss : SCAN_STATE) (mold : List Nat) (cp : Nat) :
    Int × SCAN_STATE × List Nat :=
  let cp := skipWhile (fun c => c != 0 && c == 47) b cp
  let c := rd b cp
  if IS_LEX_AT_LEAST_WORD c || c == 43 || c == 45 || c == 46 || c == 60 || c == 62 then
    if ss.begin + 1 ≠ cp then (-TOKEN_REFINE, { ss with end_ := cp }, mold)
    else
      let r := Prescan b { ss with begin := cp }
      let flags := r.1
      let ss := { r.2 with begin := r.2.begin - 1 }
      if ONLY_LEX_FLAG flags LEX_SPECIAL_WORD then (TOKEN_REFINE, ss, mold)
      else if c = 60 ∨ c = 62 then
        let cp := skip_angle b (cp + 1)
        (if IS_LEX_DELIMIT (rd b cp) then TOKEN_REFINE else -TOKEN_REFINE,
          { ss with end_ := cp }, mold)
      else
        let r := scanword b ss flags cp TOKEN_REFINE
        (r.1, r.2, mold)
  else (TOKEN_WORD, { ss with end_ := cp }, mold)

/-- The delimiter switch of `Scan_Token` (lines 735-811). -/
def Scan_Token_delimit (ext : Ext) (b : Buf) (ss : SCAN_STATE) (mold : List Nat) (cp : Nat) :
    Int × SCAN_STATE × List Nat :=
  let v := GET_LEX_VALUE (rd b cp)
  if v = LEX_DELIMIT_SPACE ∨ v = LEX_DELIMIT_SEMICOLON then delimit_comment b ss mold cp
  else if v = LEX_DELIMIT_RETURN then delimit_return b ss mold cp
  else if v = LEX_DELIMIT_LINEFEED then line_feed ss mold cp
  else if v = LEX_DELIMIT_LEFT_BRACKET then (TOKEN_BLOCK, ss, mold)
  else if v = LEX_DELIMIT_RIGHT_BRACKET then (TOKEN_BLOCK_END, ss, mold)
  else if v = LEX_DELIMIT_LEFT_PAREN then (TOKEN_PAREN, ss, mold)
  else if v = LEX_DELIMIT_RIGHT_PAREN then (TOKEN_PAREN_END, ss, mold)
  else if v = LEX_DELIMIT_QUOTE ∨ v = LEX_DELIMIT_LEFT_BRACE then delimit_quote ext b ss cp
  else if v = LEX_DELIMIT_RIGHT_BRACE then (-TOKEN_STRING, ss, mold)
  else if v = LEX_DELIMIT_SLASH then delimit_slash b ss mold cp
  else if v = LEX_DELIMIT_END_FILE then (TOKEN_EOF, { ss with end_ := ss.end_ - 1 }, mold)
  else (-TOKEN_WORD, ss, mold)

/-- `Scan_Token` (lines 708-1059): the token, the updated scan state and the
mold buffer. -/
def Scan_Token (ext : Ext) (b : Buf) (scan_state : SCAN_STATE) (mold : List Nat) :
    Int × SCAN_STATE × List Nat :=
  let r := Prescan b scan_state
  let flags := r.1
  let ss := r.2
  let cp := ss.begin
  let cls := GET_LEX_CLASS (rd b cp)
  if cls = LEX_CLASS_DELIMIT then Scan_Token_delimit ext b ss mold cp
  else if cls = LEX_CLASS_SPECIAL then
    if HAS_LEX_FLAG flags LEX_SPECIAL_AT ∧ rd b cp ≠ 60 then (TOKEN_EMAIL, ss, mold)
    else next_ls ext b mold 2 ss flags cp
  else if cls = LEX_CLASS_WORD then
    if ONLY_LEX_FLAG flags LEX_SPECIAL_WORD then (TOKEN_WORD, ss, mold)
    else
      let r := scanword b ss flags cp TOKEN_WORD
      (r.1, r.2, mold)
  else num ext b ss mold flags cp

/-! ## Issues and words -/

/-- The check loop of `Scan_Issue` (lines 1676-1700): `true` when the `l`
bytes at `bp` are all of class word or number or one of the specials
`'` `,` `.` `+` `-` `<` `>`. -/
def Scan_Issue_loop (b : Buf) : Nat → Nat → Bool
  | 0, _ => true
  | l + 1, bp =>
    let cls := GET_LEX_CLASS (rd b bp)
    if cls = LEX_CLASS_DELIMIT then false
    else if cls = LEX_CLASS_SPECIAL then
      let c := GET_LEX_VALUE (rd b bp)
      if ¬ (LEX_SPECIAL_TICK = c ∨ LEX_SPECIAL_COMMA = c ∨ LEX_SPECIAL_PERIOD = c
            ∨ LEX_SPECIAL_PLUS = c ∨ LEX_SPECIAL_MINUS = c ∨ LEX_SPECIAL_LESSER = c
            ∨ LEX_SPECIAL_GREATER = c)
      then false
      else Scan_Issue_loop b l (bp + 1)
    else Scan_Issue_loop b l (bp + 1)

/-- The white-space loop of `Scan_Issue` (line 1668): the number of leading
bytes skipped, at most `len`. -/
def Scan_Issue_skip (b : Buf) : Nat → Nat → Nat
  | 0, _ => 0
  | len + 1, cp => if IS_LEX_SPACE (rd b cp) then Scan_Issue_skip b len (cp + 1) + 1 else 0

/-- `Scan_Issue` (lines 1658-1703).  The local `l` is initialised from `len`
before the white space is skipped. -/
def Scan_Issue (ext : Ext) (b : Buf) (cp len : Nat) : Nat :=
  let l := len
  let k := Scan_Issue_skip b len cp
  let cp := cp + k
  let len := len - k
  if len = 0 then 0
  else if Scan_Issue_loop b l cp then ext.Make_Word (slice b cp (cp + len))
  else 0

/-- `Scan_Word` (lines 1638-1653). -/
def Scan_Word (ext : Ext) (b : Buf) (cp len : Nat) : Nat :=
  let r := Scan_Token ext b (Init_Scan_State cp len) []
  if r.1 = TOKEN_WORD ∧ r.2.1.end_ = cp + len then ext.Make_Word (slice b cp (cp + len))
  else 0

/-! ## Block scanner -/

/-- The globals the block scanner works on: the scan state, the emit buffer
`BUF_EMIT` up to its tail, and the mold buffer `BUF_MOLD`. -/
structure G where
  ss : SCAN_STATE
  emit : List REBVAL
  mold : List Nat

/-- How a call ends: it returns, it leaves through `Throw_Error`, or the
model ran out of fuel. -/
inductive Result (α : Type) where
  | ok (a : α)
  | thrown (err : REBVAL)
  | fuel

/-- The locals of one activation of `Scan_Block` that outlive a loop round. -/
structure Frame where
  mode_char : Nat
  begin : Nat
  start : Nat
  start_line : Nat
  just_once : Bool

/-- `Scan_Error` (lines 572-617) up to the throw: the error count goes up and
the error object is built from the line number, the text of the current line,
the token kind and the argument bytes. -/
def Scan_Error (b : Buf) (errnum : ERRNUM) (ss : SCAN_STATE) (tkn : Int) (arg : List Nat) :
    SCAN_STATE × REBVAL :=
  let ss := { ss with errors := ss.errors + 1 }
  let bp := skipWhile IS_LEX_SPACE b ss.head_line
  let cp := skipWhile NOT_NEWLINE b bp
  (ss, .error errnum ss.line_count (slice b bp cp) tkn arg)

/-- Label `exit_block` (lines 1503-1515): the values from `begin` to the tail
are copied out and the tail is set back to `begin`. -/
def exit_block (fr : Frame) (g : G) : List REBVAL × G :=
  (g.emit.drop fr.begin, { g with emit := g.emit.take fr.begin })

/-- The tail of the error labels: `Scan_Error` writes the error into the cell
at the tail when `SCAN_RELAX` is set, and throws otherwise; then
`emitbuf->tail++; goto exit_block`. -/
def scan_error_exit (b : Buf) (fr : Frame) (g : G) (errnum : ERRNUM) (token : Int)
    (arg : List Nat) : Result (List REBVAL × G) :=
  let r := Scan_Error b errnum g.ss token arg
  if g.ss.opts.SCAN_RELAX then .ok (exit_block fr { g with ss := r.1, emit := g.emit ++ [r.2] })
  else .thrown r.2

/-- Label `syntax_error` (lines 1465-1469). -/
def syntax_error (b : Buf) (fr : Frame) (g : G) (token : Int) (bp ep : Nat) :
    Result (List REBVAL × G) :=
  scan_error_exit b fr g .RE_INVALID token (slice b bp ep)

/-- Label `extra_error` (lines 1473-1481). -/
def extra_error (b : Buf) (fr : Frame) (g : G) (token : Int) (mode_char : Nat) :
    Result (List REBVAL × G) :=
  scan_error_exit b fr g .RE_MISSING token [mode_char]

/-- Label `missing_error` (lines 1470-1472), which falls into `extra_error`. -/
def missing_error (b : Buf) (fr : Frame) (g : G) (token : Int) : Result (List REBVAL × G) :=
  extra_error b fr
    { g with ss := { g.ss with line_count := fr.start, head_line := fr.start_line } }
    token fr.mode_char

/-- The datatype `REB_WORD + (token - TOKEN_WORD)` of a word token. -/
def word_type (token : Int) : REB_TYPE :=
  if token = TOKEN_SET then .REB_SET_WORD
  else if token = TOKEN_GET then .REB_GET_WORD
  else if token = TOKEN_LIT then .REB_LIT_WORD
  else .REB_WORD

/-- Unsigned subtraction on `REBCNT`. -/
def sub32 (a k : Nat) : Nat := (a + 2 ^ 32 - k % 2 ^ 32) % 2 ^ 32

/-- What one round of the token switch of `Scan_Block` decides. -/
inductive Action where
  /-- The switch is left by `break` with the cell `value` filled in. -/
  | value (v : REBVAL) (token : Int) (bp ep : Nat) (g : G)
  /-- The round ends with `continue`. -/
  | next (g : G)
  | syntax_error (token : Int) (bp ep : Nat) (g : G)
  | missing_error (token : Int) (g : G)
  | extra_error (token : Int) (mode_char : Nat) (g : G)
  | exit_block (g : G)
  /-- A nested call did not return. -/
  | stop (r : Result (List REBVAL × G))

/-- Case `TOKEN_WORD` of the switch (lines 1266-1271). -/
def case_word (ext : Ext) (b : Buf) (g : G) (token : Int) (bp ep len : Nat) : Action :=
  if len = 0 then .syntax_error token (bp - 1) ep g
  else
    let sym := ext.Make_Word (slice b bp (bp + len))
    if sym = 0 then .syntax_error token bp ep g
    else .value (.word (word_type token) sym) token bp ep g

/-- Case `TOKEN_SET` of the switch (lines 1259-1265), falling into the word
case. -/
def case_set (ext : Ext) (b : Buf) (fr : Frame) (g : G) (token : Int) (bp ep len : Nat) :
    Action :=
  let len := len - 1
  if fr.mode_char = 47 ∧ token = TOKEN_SET then
    if rd b ep = 47 then .syntax_error token bp ep g
    else case_word ext b { g with ss := { g.ss with end_ := g.ss.end_ - 1 } } TOKEN_WORD bp ep len
  else case_word ext b g token bp ep len

/-- Cases `TOKEN_LIT` and `TOKEN_GET` of the switch (lines 1252-1258), falling
into the set case. -/
def case_lit_get (ext : Ext) (b : Buf) (fr : Frame) (g : G) (token : Int) (bp ep len : Nat) :
    Action :=
  if rd b (ep - 1) = 58 then
    if len = 1 ∨ fr.mode_char ≠ 47 ∨ rd b ep = 47 then .syntax_error token bp ep g
    else
      case_set ext b fr { g with ss := { g.ss with end_ := g.ss.end_ - 1 } } token (bp + 1) ep
        (len - 1)
  else case_set ext b fr g token (bp + 1) ep len

/-- The loop of the date case (lines 1358-1364), which extends the lexeme
over `/` segments: the new `ep`, `len` and `scan_state->begin`. -/
def date_loop (b : Buf) (fr : Frame) (bp : Nat) : Nat → Nat → Nat → Nat → Nat × Nat × Nat
  | 0, ep, len, begin => (ep, len, begin)
  | fuel + 1, ep, len, begin =>
    if rd b ep = 47 ∧ fr.mode_char ≠ 47 then
      let ep := skipWhile IS_LEX_AT_LEAST_SPECIAL b (ep + 1)
      let len := ep - bp
      if len > 50 then (ep, len, begin)
      else date_loop b fr bp fuel ep len ep
    else (ep, len, begin)

/-- Tag/word differentiation mode 5 (lines 1411-1422): the series of the tag
after the escape period is removed where the rule asks for it. -/
def tag_unescape (b : Buf) (series : List Nat) (bp len : Nat) : List Nat × Nat :=
  let tag_first_content := bp + 1
  let bp1 := skip_angle b (bp + 1)
  let len := sub32 (sub32 len 2) (bp1 - (bp + 1))
  if rd b bp1 = LEX_TAG_ESCAPE_CHAR then
    let bp2 := bp1 + 1
    let len := sub32 len 1
    let k := min len ((b.drop bp2).takeWhile (fun c => c == LEX_TAG_ESCAPE_CHAR)).length
    let bp3 := bp2 + k
    let len := len - k
    if len = 0
        ∨ (IS_LEX_DELIMIT (rd b bp3) ∧ (bp3 ≠ tag_first_content ∨ rd b bp3 ≠ 47))
        ∨ (len > 1 ∧ rd b bp3 = 58 ∧ IS_LEX_DELIMIT (rd b (bp3 + 1)))
    then (series.eraseIdx (bp3 - tag_first_content - 1), bp3)
    else (series, bp3)
  else (series, bp1)

/-- The cell a value constructor leaves: filled in when it accepts the bytes,
still `END` otherwise. -/
def built (ok : Bool) (type : REB_TYPE) (bytes : List Nat) : REBVAL :=
  if ok then .data type bytes else .END

/-- Case `TOKEN_REFINE` of the switch (lines 1273-1276). -/
def case_refine (ext : Ext) (b : Buf) (g : G) (token : Int) (bp ep len : Nat) : Action :=
  let sym := ext.Make_Word (slice b (bp + 1) (bp + 1 + (len - 1)))
  if sym = 0 then .syntax_error token bp ep g
  else .value (.word .REB_REFINEMENT sym) token bp ep g

/-- Case `TOKEN_ISSUE` of the switch (lines 1278-1287). -/
def case_issue (ext : Ext) (b : Buf) (g : G) (token : Int) (bp ep len : Nat) : Action :=
  if len = 1 then
    if rd b (bp + 1) = 40 then .syntax_error TOKEN_CONSTRUCT bp ep g
    else .value .NONE token bp ep g
  else
    let sym := Scan_Issue ext b (bp + 1) (len - 1)
    if sym = 0 then .syntax_error token bp ep g
    else .value (.word .REB_ISSUE sym) token bp ep g

/-- Cases `TOKEN_BLOCK` and `TOKEN_PAREN` of the switch (lines 1289-1303),
after the nested call: with an error on record the last value of the nested
block is copied to the tail and the frame exits. -/
def case_block (token : Int) (bp : Nat) (r : Result (List REBVAL × G)) : Action :=
  match r with
  | .ok (block, g1) =>
    if g1.ss.errors ≠ 0 then
      .exit_block { g1 with emit := g1.emit ++ [block.getLast?.getD .END] }
    else
      .value (.series (if token = TOKEN_BLOCK then .REB_BLOCK else .REB_PAREN) block)
        token bp g1.ss.end_ g1
  | r => .stop r

/-- Cases `TOKEN_BLOCK_END` and `TOKEN_PAREN_END` of the switch (lines
1308-1316); `closer` is `]` or `)` and `opener` the matching `[` or `(`. -/
def case_end (fr : Frame) (g : G) (token : Int) (closer opener : Nat) : Action :=
  if fr.mode_char = 0 then .extra_error token opener g
  else if fr.mode_char ≠ closer then .missing_error token g
  else .exit_block g

/-- Case `TOKEN_INTEGER` of the switch (lines 1318-1330): an integer, or the
start of a date written with `/`. -/
def case_integer (ext : Ext) (b : Buf) (fr : Frame) (g : G) (token : Int) (bp ep len : Nat) :
    Action :=
  if rd b ep ≠ 47 ∨ fr.mode_char = 47 then
    if ext.Scan_Integer (slice b bp (bp + len)) then
      .value (.data .REB_INTEGER (slice b bp (bp + len))) token bp ep g
    else .syntax_error token bp ep g
  else
    let ep := skipWhile (fun c => c == 47 || IS_LEX_AT_LEAST_SPECIAL c) b ep
    let g := { g with ss := { g.ss with begin := ep } }
    let len := ep - bp
    if ext.Scan_Date (slice b bp (bp + len)) = some len then
      .value (.data .REB_DATE (slice b bp (bp + len))) TOKEN_DATE bp ep g
    else .syntax_error TOKEN_DATE bp ep g

/-- Cases `TOKEN_DECIMAL` and `TOKEN_PERCENT` of the switch (lines
1332-1340). -/
def case_decimal (ext : Ext) (b : Buf) (fr : Frame) (g : G) (token : Int) (bp ep len : Nat) :
    Action :=
  if (rd b ep = 47 ∧ fr.mode_char ≠ 47) ∨ ¬ ext.Scan_Decimal (slice b bp (bp + len)) then
    .syntax_error token bp ep g
  else
    .value (.data (if rd b (bp + len - 1) = 37 then .REB_PERCENT else .REB_DECIMAL)
      (slice b bp (bp + len))) token bp ep g

/-- Case `TOKEN_MONEY` of the switch (lines 1342-1346). -/
def case_money (ext : Ext) (b : Buf) (fr : Frame) (g : G) (token : Int) (bp ep len : Nat) :
    Action :=
  if rd b ep = 47 ∧ fr.mode_char ≠ 47 then .syntax_error token bp (ep + 1) g
  else if ext.Scan_Money (slice b bp (bp + len)) then
    .value (.data .REB_MONEY (slice b bp (bp + len))) token bp ep g
  else .syntax_error token bp ep g

/-- Case `TOKEN_TIME` of the switch (lines 1348-1355). -/
def case_time (ext : Ext) (b : Buf) (fr : Frame) (g : G) (token : Int) (bp ep len : Nat) :
    Action :=
  if rd b (bp + len - 1) = 58 ∧ fr.mode_char = 47 ∧ IS_LEX_DELIMIT (rd b ep) ∧ rd b ep ≠ 47 then
    if ext.Scan_Integer (slice b bp (bp + (len - 1))) then
      .value (.data .REB_INTEGER (slice b bp (bp + (len - 1)))) token bp ep
        { g with ss := { g.ss with end_ := g.ss.end_ - 1 } }
    else .syntax_error token bp ep g
  else if ext.Scan_Time (slice b bp (bp + len)) = some len then
    .value (.data .REB_TIME (slice b bp (bp + len))) token bp ep g
  else .syntax_error token bp ep g

/-- Case `TOKEN_DATE` of the switch (lines 1357-1366). -/
def case_date (ext : Ext) (b : Buf) (fr : Frame) (g : G) (token : Int) (bp ep len : Nat) :
    Action :=
  let r := date_loop b fr bp 51 ep len g.ss.begin
  let ep := r.1
  let len := r.2.1
  let g := { g with ss := { g.ss with begin := r.2.2 } }
  if ext.Scan_Date (slice b bp (bp + len)) = some (ep - bp) then
    .value (.data .REB_DATE (slice b bp (bp + len))) token bp ep g
  else .syntax_error token bp ep g

/-- Case `TOKEN_CHAR` of the switch (lines 1368-1373). -/
def case_char (ext : Ext) (b : Buf) (g : G) (token : Int) (bp ep : Nat) : Action :=
  let r := Scan_Char ext b (bp + 2)
  .value (.char r.1) token (r.2 + 1) ep g

/-- Case `TOKEN_TAG` of the switch (lines 1409-1425). -/
def case_tag (ext : Ext) (b : Buf) (g : G) (token : Int) (bp ep len : Nat) : Action :=
  match ext.Scan_Any (slice b (bp + 1) (bp + 1 + (len - 2))) with
  | some series =>
    let r := tag_unescape b series bp len
    .value (.data .REB_TAG r.1) token r.2 ep g
  | none => .value .END token (tag_unescape b [] bp len).2 ep g

/-- `Scan_Full_Block` (lines 1521-1534): `SCAN_ONLY` is cleared for the
nested call and set again afterwards if it was set. -/
def Scan_Full_Block (rec : G → Nat → Result (List REBVAL × G)) (g : G) (mode_char : Nat) :
    Result (List REBVAL × G) :=
  let only := g.ss.opts.SCAN_ONLY
  match rec { g with ss := { g.ss with opts := { g.ss.opts with SCAN_ONLY := false } } }
      mode_char with
  | .ok (block, g1) =>
    .ok (block,
      if only then
        { g1 with ss := { g1.ss with opts := { g1.ss.opts with SCAN_ONLY := true } } }
      else g1)
  | r => r

/-- Case `TOKEN_CONSTRUCT` of the switch (lines 1427-1438), after
`Scan_Full_Block` returned. -/
def case_construct (ext : Ext) (token : Int) (bp : Nat) (r : Result (List REBVAL × G)) :
    Action :=
  match r with
  | .ok (block, g1) =>
    match ext.Construct_Value block with
    | some v => .value v token bp g1.ss.end_ g1
    | none => .stop (.thrown (.error .RE_MALCONSTRUCT g1.ss.line_count [] token []))
  | r => .stop r

/-- The token switch of `Scan_Block` (lines 1242-1445).  `rec g m` stands for
the nested call `Scan_Block(scan_state, m)`. -/
def Scan_Block_switch (ext : Ext) (b : Buf) (rec : G → Nat → Result (List REBVAL × G))
    (fr : Frame) (g : G) (token : Int) (bp ep len : Nat) : Action :=
  if token = TOKEN_LINE then .next { g with ss := { g.ss with head_line := ep } }
  else if token = TOKEN_LIT ∨ token = TOKEN_GET then case_lit_get ext b fr g token bp ep len
  else if token = TOKEN_SET then case_set ext b fr g token bp ep len
  else if token = TOKEN_WORD then case_word ext b g token bp ep len
  else if token = TOKEN_REFINE then case_refine ext b g token bp ep len
  else if token = TOKEN_ISSUE then case_issue ext b g token bp ep len
  else if token = TOKEN_BLOCK ∨ token = TOKEN_PAREN then
    case_block token bp (rec g (if token = TOKEN_BLOCK then 93 else 41))
  else if token = TOKEN_PATH then .value .END token bp ep g
  else if token = TOKEN_BLOCK_END then case_end fr g token 93 91
  else if token = TOKEN_PAREN_END then case_end fr g token 41 40
  else if token = TOKEN_INTEGER then case_integer ext b fr g token bp ep len
  else if token = TOKEN_DECIMAL ∨ token = TOKEN_PERCENT then
    case_decimal ext b fr g token bp ep len
  else if token = TOKEN_MONEY then case_money ext b fr g token bp ep len
  else if token = TOKEN_TIME then case_time ext b fr g token bp ep len
  else if token = TOKEN_DATE then case_date ext b fr g token bp ep len
  else if token = TOKEN_CHAR then case_char ext b g token bp ep
  else if token = TOKEN_STRING then .value (.data .REB_STRING g.mold) token bp ep g
  else if token = TOKEN_BINARY then
    .value (built (ext.Scan_Binary (slice b bp (bp + len))) .REB_BINARY (slice b bp (bp + len)))
      token bp ep g
  else if token = TOKEN_PAIR then
    .value (built (ext.Scan_Pair (slice b bp (bp + len))) .REB_PAIR (slice b bp (bp + len)))
      token bp ep g
  else if token = TOKEN_TUPLE then
    if ext.Scan_Tuple (slice b bp (bp + len)) then
      .value (.data .REB_TUPLE (slice b bp (bp + len))) token bp ep g
    else .syntax_error token bp ep g
  else if token = TOKEN_FILE then
    .value (built (ext.Scan_File (slice b bp (bp + len))) .REB_FILE (slice b bp (bp + len)))
      token bp ep g
  else if token = TOKEN_EMAIL then
    .value (built (ext.Scan_Email (slice b bp (bp + len))) .REB_EMAIL (slice b bp (bp + len)))
      token bp ep g
  else if token = TOKEN_URL then
    .value (built (ext.Scan_URL (slice b bp (bp + len))) .REB_URL (slice b bp (bp + len)))
      token bp ep g
  else if token = TOKEN_TAG then case_tag ext b g token bp ep len
  else if token = TOKEN_CONSTRUCT then case_construct ext token bp (Scan_Full_Block rec g 93)
  else if token = TOKEN_EOF then .next g
  else .value .NONE token bp ep g

/-- The end of a loop round (lines 1463-1498): the value is appended, a path
frame looks at the byte after the lexeme, and the frame exits after one value
under `SCAN_ONLY` or `just_once`.  The result is the state for the next round,
or the way the frame ends. -/
inductive Step where
  | again (g : G)
  | done (r : Result (List REBVAL × G))

def finish (b : Buf) (fr : Frame) (v : REBVAL) (token : Int) (bp ep : Nat) (g : G) : Step :=
  if VAL_TYPE v = .REB_END then .done (syntax_error b fr g token bp ep)
  else
    let g := { g with emit := g.emit ++ [v] }
    if fr.mode_char = 47 then
      if rd b ep = 47 then
        let ep := ep + 1
        let g := { g with ss := { g.ss with begin := ep } }
        if rd b ep = 47 ∨ rd b ep = 41 ∨ rd b ep = 93 ∨ rd b ep = 59 ∨ IS_LEX_ANY_SPACE (rd b ep)
        then .done (syntax_error b fr g TOKEN_PATH bp ep)
        else if g.ss.opts.SCAN_ONLY ∨ fr.just_once then .done (.ok (exit_block fr g))
        else .again g
      else .done (.ok (exit_block fr g))
    else if g.ss.opts.SCAN_ONLY ∨ fr.just_once then .done (.ok (exit_block fr g))
    else .again g

/-- How the loop goes on after the switch. -/
def after_switch (b : Buf) (fr : Frame) : Action → Step
  | .value v token bp ep g => finish b fr v token bp ep g
  | .next g => .again g
  | .syntax_error token bp ep g => .done (syntax_error b fr g token bp ep)
  | .missing_error token g => .done (missing_error b fr g token)
  | .extra_error token mode_char g => .done (extra_error b fr g token mode_char)
  | .exit_block g => .done (.ok (exit_block fr g))
  | .stop r => .done r

/-- The first value of a path block is retyped as a plain word
(`VAL_SET(BLK_HEAD(block), REB_WORD)`). -/
def retype_head : List REBVAL → List REBVAL
  | [] => []
  | v :: vs => VAL_SET v .REB_WORD :: vs

/-- The new-path branch of `Scan_Block` (lines 1213-1236), after the nested
call returned `block`. -/
def new_path (b : Buf) (fr : Frame) (token : Int) (bp ep : Nat) (block : List REBVAL) (g : G) :
    Step :=
  if token = TOKEN_LIT then
    if rd b g.ss.end_ = 58 then .done (syntax_error b fr g TOKEN_PATH bp ep)
    else finish b fr (.series .REB_LIT_PATH (retype_head block)) TOKEN_PATH bp ep g
  else if token = TOKEN_GET then
    if rd b g.ss.end_ = 58 then .done (syntax_error b fr g TOKEN_PATH bp ep)
    else finish b fr (.series .REB_GET_PATH (retype_head block)) TOKEN_PATH bp ep g
  else if rd b g.ss.end_ = 58 then
    finish b fr (.series .REB_SET_PATH block) TOKEN_PATH bp ep
      { g with ss := { g.ss with end_ := g.ss.end_ + 1, begin := g.ss.end_ + 1 } }
  else finish b fr (.series .REB_PATH block) TOKEN_PATH bp ep g

/-- The nested call for a path (line 1213) and what follows it. -/
def path_call (b : Buf) (fr : Frame) (token : Int) (bp ep : Nat)
    (r : Result (List REBVAL × G)) : Step :=
  match r with
  | .ok (block, g1) => new_path b fr token bp ep block g1
  | r => .done r

/-- One round of the loop of `Scan_Block` (lines 1177-1499), together with
the test after the loop (line 1501). -/
def Scan_Block_body (ext : Ext) (b : Buf) (rec : G → Nat → Result (List REBVAL × G))
    (fr : Frame) (g : G) : Step :=
  let t := Scan_Token ext b g.ss g.mold
  let token := t.1
  let g := { g with ss := t.2.1, mold := t.2.2 }
  if token = TOKEN_EOF then
    if fr.mode_char = 93 ∨ fr.mode_char = 41 then .done (missing_error b fr g token)
    else .done (.ok (exit_block fr g))
  else
    let bp := g.ss.begin
    let ep := g.ss.end_
    let len := ep - bp
    if token < 0 then
      .done (syntax_error b fr { g with ss := ACCEPT_TOKEN g.ss } (-token) bp ep)
    else if fr.mode_char = 47 ∧ rd b bp = 47 then
      .again { g with emit := g.emit ++ [.NONE], ss := { g.ss with begin := bp + 1 } }
    else if (token = TOKEN_PATH
              ∨ ((token = TOKEN_WORD ∨ token = TOKEN_LIT ∨ token = TOKEN_GET) ∧ rd b ep = 47))
            ∧ fr.mode_char ≠ 47 then
      path_call b fr token bp ep (rec g 47)
    else
      after_switch b fr
        (Scan_Block_switch ext b rec fr { g with ss := ACCEPT_TOKEN g.ss } token bp ep len)

/-- The entry of `Scan_Block` (lines 1161-1175): the frame and the state with
`SCAN_NEXT` cleared for deeper frames. -/
def enter (g : G) (mode_char : Nat) : Frame × G :=
  ({ mode_char := mode_char, begin := g.emit.length, start := g.ss.line_count,
     start_line := g.ss.head_line, just_once := g.ss.opts.SCAN_NEXT },
   if g.ss.opts.SCAN_NEXT then
     { g with ss := { g.ss with opts := { g.ss.opts with SCAN_NEXT := false } } }
   else g)

/-- The loop of `Scan_Block`.  The fuel bounds the loop rounds and the depth
of nested calls together. -/
def Scan_Block_loop (ext : Ext) (b : Buf) : Nat → Frame → G → Result (List REBVAL × G)
  | 0, _, _ => .fuel
  | fuel + 1, fr, g =>
    match Scan_Block_body ext b
        (fun g1 m => Scan_Block_loop ext b fuel (enter g1 m).1 (enter g1 m).2) fr g with
    | .again g1 => Scan_Block_loop ext b fuel fr g1
    | .done r => r

/-- `Scan_Block` (lines 1147-1516). -/
def Scan_Block (ext : Ext) (b : Buf) (fuel : Nat) (g : G) (mode_char : Nat) :
    Result (List REBVAL × G) :=
  Scan_Block_loop ext b fuel (enter g mode_char).1 (enter g mode_char).2

/-- `Scan_Code` (lines 1539-1548): the emit buffer is reset first. -/
def Scan_Code (ext : Ext) (b : Buf) (fuel : Nat) (scan_state : SCAN_STATE) (mode_char : Nat) :
    Result (List REBVAL × G) :=
  Scan_Block ext b fuel { ss := scan_state, emit := [], mold := [] } mode_char

/-- `Init_Scan_State` followed by the option flags, as `transcode` sets them
(lines 1619-1623). -/
def scan_state_with (cp limit : Nat) (opts : Opts) : SCAN_STATE :=
  { Init_Scan_State cp limit with opts := opts }

/-- Modelled from the spec: the escape names of `Scan_Char` with their code
points (`Esc_Names`, `Esc_Codes`): line, tab, page, escape, esc, back, del,
null. -/
def Esc_Names : List (List Nat) :=
  [[108, 105, 110, 101], [116, 97, 98], [112, 97, 103, 101], [101, 115, 99, 97, 112, 101],
   [101, 115, 99], [98, 97, 99, 107], [100, 101, 108], [110, 117, 108, 108]]

def Esc_Codes : List Nat := [10, 9, 12, 27, 27, 8, 127, 0]

/-- An instance of the collaborators used to run the scanner on examples:
every value constructor accepts its bytes, a word is interned under a non-zero
symbol, no construct is recognised and the UTF-8 decoder reports an error. -/
def sampleExt : Ext where
  Decode_UTF8_Char := fun _ p => (0, p)
  Esc_Names := Esc_Names
  Esc_Codes := Esc_Codes
  Make_Word := fun l => l.length + 1
  Scan_Integer := fun _ => true
  Scan_Decimal := fun _ => true
  Scan_Money := fun _ => true
  Scan_Time := fun l => some l.length
  Scan_Date := fun l => some l.length
  Scan_Binary := fun _ => true
  Scan_Pair := fun _ => true
  Scan_Tuple := fun _ => true
  Scan_File := fun _ => true
  Scan_Email := fun _ => true
  Scan_URL := fun _ => true
  Scan_Any := fun l => some l
  Construct_Value := fun _ => none

/-! ## Item scanner -/

/-- Modelled from the spec: the value of a hexadecimal digit, either case. -/
def hex_digit (c : Nat) : Option Nat :=
  if 48 ≤ c ∧ c ≤ 57 then some (c - 48)
  else if 65 ≤ c ∧ c ≤ 70 then some (c - 55)
  else if 97 ≤ c ∧ c ≤ 102 then some (c - 87)
  else none

/-- Modelled from the spec: `Scan_Hex2(bp, &n, FALSE)`, which requires two
hexadecimal digits at `bp` and yields the byte they spell. -/
def Scan_Hex2 (b : Buf) (bp : Nat) : Option Nat :=
  match hex_digit (rd b bp), hex_digit (rd b (bp + 1)) with
  | some d1, some d2 => some (d1 * 16 + d2)
  | _, _ => none

/-- The loop of `Scan_Item` (lines 493-529).  `IS_WHITE` stands for the macro
of that name, which the interpreter's headers define; `invalid` is `none` for
a null pointer.  The result is the pointer at which the loop stops (`none`
for `return 0`) and the mold buffer.  The fuel is the buffer length plus two:
a NUL ends the loop. -/
def Scan_Item_loop (ext : Ext) (IS_WHITE : Nat → Bool) (b : Buf) (end_ term : Nat)
    (invalid : Option (List Nat)) : Nat → Nat → List Nat → Option Nat × List Nat
  | 0, _, buf => (none, buf)
  | fuel + 1, src, buf =>
    if src < end_ ∧ rd b src ≠ term then
      let c := rd b src
      if c = 0 then (some src, buf)
      else if term = 0 ∧ IS_WHITE c then (some src, buf)
      else if c < 32 then (none, buf)
      else if c = 92 then
        Scan_Item_loop ext IS_WHITE b end_ term invalid fuel (src + 1) (buf ++ [47])
      else if c = 37 then
        match Scan_Hex2 b (src + 1) with
        | none => (none, buf)
        | some v => Scan_Item_loop ext IS_WHITE b end_ term invalid fuel (src + 3) (buf ++ [v])
      else if c = 94 then
        if src + 1 = end_ then (none, buf)
        else
          let r := Scan_Char ext b src
          let c := (r.1 % 65536).toNat
          if term = 0 ∧ IS_WHITE c then (some r.2, buf)
          else Scan_Item_loop ext IS_WHITE b end_ term invalid fuel r.2 (buf ++ [c])
      else if c ≥ 0x80 then
        let r := ext.Decode_UTF8_Char b src
        if r.1 % 65536 = 0 then (none, buf)
        else
          Scan_Item_loop ext IS_WHITE b end_ term invalid fuel (r.2 + 1)
            (buf ++ [r.1 % 65536])
      else if (match invalid with
               | some s => strchr s c
               | none => false) then (none, buf)
      else Scan_Item_loop ext IS_WHITE b end_ term invalid fuel (src + 1) (buf ++ [c])
    else (some src, buf)

/-- `Scan_Item` (lines 477-543): the continuation point (`none` for zero) and
the mold buffer. -/
def Scan_Item (ext : Ext) (IS_WHITE : Nat → Bool) (b : Buf) (src end_ term : Nat)
    (invalid : Option (List Nat)) : Option Nat × List Nat :=
  match Scan_Item_loop ext IS_WHITE b end_ term invalid (b.length + 2) src [] with
  | (some p, buf) => (some (if rd b p ≠ 0 ∧ rd b p = term then p + 1 else p), buf)
  | (none, buf) => (none, buf)

/-! ## Header scanner -/

/-- Modelled from the spec: the boot string `Str_REBOL`, the word `REBOL`. -/
def Str_REBOL : List Nat := [82, 69, 66, 79, 76]

/-- Label `skipline` of `Scan_Head` (lines 1129-1132): the pointer after the
rest of the line and its line break. -/
def skipline (b : Buf) (cp : Nat) : Nat :=
  let cp := skipWhile NOT_NEWLINE b cp
  let cp := if rd b cp = CR ∧ rd b (cp + 1) = LF then cp + 1 else cp
  if rd b cp ≠ 0 then cp + 1 else cp

/-- The loop of `Scan_Head` (lines 1106-1140).  The pointers `rp` and `bp` are
`none` while they are null.  The result is the return value with the new
`begin` and line count; `none` only when the fuel runs out. -/
def Scan_Head_loop (b : Buf) :
    Nat → Option Nat → Option Nat → Nat → Nat → Option (Int × Option (Nat × Nat))
  | 0, _, _, _, _ => none
  | fuel + 1, rp, bp, cp, count =>
    let cp := skipWhile IS_LEX_SPACE b cp
    let c := rd b cp
    if c = 91 then
      if rp.isSome then some (if bp.isSome then -1 else 1, some (cp + 1, count))
      else Scan_Head_loop b fuel rp (some cp) (cp + 1) count
    else if c = 82 ∨ c = 114 then
      if (Match_Bytes b cp Str_REBOL).isSome then
        Scan_Head_loop b fuel (some cp) bp (cp + 5) count
      else Scan_Head_loop b fuel rp none (skipline b (cp + 1)) (count + 1)
    else if c = 59 then Scan_Head_loop b fuel rp bp (skipline b cp) (count + 1)
    else if c = 0 then some (0, none)
    else if NOT_NEWLINE c then Scan_Head_loop b fuel none none (skipline b cp) (count + 1)
    else Scan_Head_loop b fuel rp bp (skipline b cp) (count + 1)

/-- `Scan_Head` (lines 1081-1141): 0, 1 or -1 and the scan state, whose
`begin` and `line_count` are written when a header is found.  Every round
moves `cp` forward and a NUL ends the loop, so the buffer length plus one is
fuel enough. -/
def Scan_Head (b : Buf) (scan_state : SCAN_STATE) : Option (Int × SCAN_STATE) :=
  match Scan_Head_loop b (b.length + 1) none none scan_state.begin scan_state.line_count with
  | some (r, some (begin, count)) =>
    some (r, { scan_state with begin := begin, line_count := count })
  | some (r, none) => some (r, scan_state)
  | none => none

/-- The loops `while (cp != src && !stop(*cp)) cp--` of `Scan_Header` (lines
1588-1591). -/
def Scan_Header_back (b : Buf) (src : Nat) (stop : Nat → Bool) : Nat → Nat
  | 0 => 0
  | cp + 1 =>
    if cp + 1 ≠ src ∧ !stop (rd b (cp + 1)) then Scan_Header_back b src stop cp else cp + 1

/-- `Scan_Header` (lines 1571-1594): the offset of the header, or -1. -/
def Scan_Header (b : Buf) (src len : Nat) : Option Int :=
  match Scan_Head b (Init_Scan_State src len) with
  | none => none
  | some (result, scan_state) =>
    if result = 0 then some (-1)
    else
      let cp := scan_state.begin - 2
      if result > 0 then
        some ((Scan_Header_back b src (fun c => c == 114 || c == 82) cp : Int) - src)
      else some ((Scan_Header_back b src (fun c => c == 91) cp : Int) - src)

/-! ## Vocabulary of the statements -/

/-- Decimal digits. -/
def isDigit (c : Nat) : Bool := decide (48 ≤ c ∧ c ≤ 57)

/-- The letters `A`-`Z` and `a`-`z`. -/
def isAlpha (c : Nat) : Bool := decide ((65 ≤ c ∧ c ≤ 90) ∨ (97 ≤ c ∧ c ≤ 122))

/-- A simple alphabetic word: one or more letters. -/
def isSimpleWord (w : List Nat) : Prop := w ≠ [] ∧ ∀ c ∈ w, isAlpha c = true

/-- The text `w1/w2/.../wn:` of a set-path. -/
def pathText : List (List Nat) → List Nat
  | [] => [58]
  | [w] => w ++ [58]
  | w :: ws => w ++ 47 :: pathText ws

/-- The number of LF bytes in a list. -/
def countLF (l : List Nat) : Nat := l.count LF

/-- The fields of a scan state that no sub-scanner writes. -/
def sameSetup (s t : SCAN_STATE) : Prop :=
  t.opts = s.opts ∧ t.errors = s.errors ∧ t.head_line = s.head_line ∧ t.limit = s.limit

/-- The options `SCAN_ONLY` and `SCAN_RELAX` are the same in two states. -/
def sameFlags (g g1 : G) : Prop :=
  g1.ss.opts.SCAN_ONLY = g.ss.opts.SCAN_ONLY ∧ g1.ss.opts.SCAN_RELAX = g.ss.opts.SCAN_RELAX

/-- What a nested call of the block scanner guarantees when it returns: the
emit buffer is as it was and the two options are unchanged. -/
def CallOK (rec : G → Nat → Result (List REBVAL × G)) : Prop :=
  ∀ g m blk g1, rec g m = .ok (blk, g1) → g1.emit = g.emit ∧ sameFlags g g1

/-- A value that is not an error, or that the constructor of construct
values built. -/
def Good (ext : Ext) (v : REBVAL) : Prop :=
  VAL_TYPE v ≠ .REB_ERROR ∨ ∃ blk, ext.Construct_Value blk = some v

/-- What the token switch guarantees about the state it hands on, relative to
the state `g0` it was given: the emit buffer is untouched, except that the
exit after a nested error appends one cell, and a `stop` carries a call that
did not return. -/
def ActionOK (ext : Ext) (g0 : G) : Action → Prop
  | .value v _ _ _ g => g.emit = g0.emit ∧ sameFlags g0 g ∧ Good ext v
  | .next g => g.emit = g0.emit ∧ sameFlags g0 g
  | .syntax_error _ _ _ g => g.emit = g0.emit ∧ sameFlags g0 g
  | .missing_error _ g => g.emit = g0.emit ∧ sameFlags g0 g
  | .extra_error _ _ g => g.emit = g0.emit ∧ sameFlags g0 g
  | .exit_block g => sameFlags g0 g ∧ ∃ l, g.emit = g0.emit ++ l ∧ l.length ≤ 1
  | .stop r => ∀ x, r ≠ .ok x

/-- What a frame guarantees when it returns, relative to the state `g` of a
round: the emit buffer is cut back to the frame's `begin`, the options are
kept, and the block is the frame's part of the emit buffer followed by the
values `l` of the last rounds, of which only the last may be an error written
by the scanner. -/
def FrameOK (ext : Ext) (fr : Frame) (g : G) (one : Prop) : Result (List REBVAL × G) → Prop
  | .ok (blk, g1) =>
    g1.emit = g.emit.take fr.begin ∧ sameFlags g g1 ∧
      ∃ l, blk = g.emit.drop fr.begin ++ l ∧ (∀ v ∈ l.dropLast, Good ext v)
        ∧ (one → l.length ≤ 1)
  | _ => True

/-- What one round guarantees: it appends at most one value, none when the
frame is to stop after its first value, and ends the frame within the frame
guarantee. -/
def StepOK (ext : Ext) (fr : Frame) (g : G) : Step → Prop
  | .again g1 =>
    sameFlags g g1 ∧ ∃ l, g1.emit = g.emit ++ l ∧ l.length ≤ 1
      ∧ (∀ v ∈ l, Good ext v)
      ∧ (fr.mode_char ≠ 47 → (g.ss.opts.SCAN_ONLY = true ∨ fr.just_once = true) → l = [])
  | .done r => fr.begin ≤ g.emit.length → FrameOK ext fr g (fr.mode_char ≠ 47) r

/-! ## Vocabulary of the properties -/

/-- The block a call returned; empty when it did not return. -/
def block_of : Result (List REBVAL × G) → List REBVAL
  | .ok (blk, _) => blk
  | _ => []

/-- The text `[a b] c`. -/
def block_then_word : Buf := [91, 97, 32, 98, 93, 32, 99]

/-- The options of a scan: `SCAN_NEXT`, `SCAN_ONLY`, `SCAN_RELAX`. -/
def opts_relax : Opts := ⟨false, false, true⟩

def opts_only : Opts := ⟨false, true, false⟩

def opts_next : Opts := ⟨true, false, false⟩

/-- The text of the current line that an error object quotes: from the first
byte that is not white space after `head_line` up to the line break. -/
def error_line (b : Buf) (head_line : Nat) : List Nat :=
  slice b (skipWhile IS_LEX_SPACE b head_line)
    (skipWhile NOT_NEWLINE b (skipWhile IS_LEX_SPACE b head_line))

/-- The text `}` followed by a space and `a`. -/
def stray_brace : Buf := [125, 32, 97]

/-- The text `1/2/98 x`. -/
def date_then_word : Buf := [49, 47, 50, 47, 57, 56, 32, 120]

/-- The text `1 + 2`. -/
def one_plus_two : Buf := [49, 32, 43, 32, 50]

/-- How a frame ends after `Scan_Error` made the error value `err` in the
state `ss`: under RELAX the frame returns its values followed by the error
value, otherwise the error is thrown. -/
def reports (fr : Frame) (emit : List REBVAL) (ss : SCAN_STATE) (mold : List Nat)
    (err : REBVAL) : Result (List REBVAL × G) :=
  if ss.opts.SCAN_RELAX then
    .ok (emit.drop fr.begin ++ [err],
      { ss := { ss with errors := ss.errors + 1 }, emit := emit.take fr.begin, mold := mold })
  else .thrown err

/-- The token switch leaves through `missing_error` or `extra_error`. -/
def isMissing : Action → Bool
  | .missing_error _ _ => true
  | .extra_error _ _ _ => true
  | _ => false

/-- The text `]`. -/
def stray_bracket : Buf := [93]

/-- The text `a/b/c:` as its three words. -/
def abc_words : List Buf := [[97], [98], [99]]

/-- How one call of `Scan_Token` may change the line count `lc`: a line token
adds one; a token scanned by `Scan_Quote` (string, binary, quoted file) adds
the line breaks counted inside it; every other token leaves it as it was. -/
def LineLaw (lc : Nat) (r : Int × SCAN_STATE × List Nat) : Prop :=
  (r.1 = TOKEN_LINE ∧ r.2.1.line_count = lc + 1)
  ∨ (r.1 ≠ TOKEN_LINE ∧ r.2.1.line_count = lc)
  ∨ ((r.1 = TOKEN_STRING ∨ r.1 = TOKEN_BINARY ∨ r.1 = TOKEN_FILE) ∧ lc ≤ r.2.1.line_count)

/-- A word-like token kind: neither it nor its negation is the line token. -/
def notLine (t : Int) : Prop := t ≠ TOKEN_LINE ∧ -t ≠ TOKEN_LINE

/-- The pieces of the text `a b`, LF, `c`, LF. -/
def two_lines : List (Buf × Nat) := [([97], 32), ([98], 10), ([99], 10)]

/-- The word `REBOL` stands at `p`, in either case. -/
def header_word (b : Buf) (p : Nat) : Prop := (Match_Bytes b p Str_REBOL).isSome = true

/-- The byte at which the backward loop of `Scan_Header` stops: `r` or `R`
after a plain header (result 1), `[` after an embedded one. -/
def header_mark (r : Int) (c : Nat) : Bool :=
  if r > 0 then (c == 114 || c == 82) else c == 91

/-- What the loop of `Scan_Head` holds at the start of a round: `cp` is not
before the start; `rp` is at a word `REBOL` that `cp` has passed; `bp` is at a
`[` before `cp`, and before `rp` when both are set. -/
def head_inv (b : Buf) (src : Nat) (rp bp : Option Nat) (cp : Nat) : Prop :=
  src ≤ cp
  ∧ (∀ p, rp = some p → header_word b p ∧ src ≤ p ∧ p + 5 ≤ cp)
  ∧ (∀ pb, bp = some pb → rd b pb = 91 ∧ src ≤ pb ∧ pb < cp)
  ∧ (∀ p pb, rp = some p → bp = some pb → pb < p)

/-- A header as `Scan_Head` reports it with result `r` and new `begin` `bg`:
the word `REBOL` at `p`, a `[` just before `bg` and after the word, and for
the result -1 a `[` at `pb` before the word. -/
def head_found (b : Buf) (src : Nat) (r : Int) (p pb bg : Nat) : Prop :=
  header_word b p ∧ src ≤ p ∧ p + 6 ≤ bg ∧ rd b (bg - 1) = 91
  ∧ (r = 1 ∨ (r = -1 ∧ rd b pb = 91 ∧ src ≤ pb ∧ pb < p))

/-- The position the offset of `Scan_Header` is claimed to be: the word for a
plain header, the `[` before it for an embedded one. -/
def header_start (r : Int) (p pb : Nat) : Nat := if r > 0 then p else pb

/-- ASCII upper case of a byte. -/
def ascii_upper (c : Nat) : Nat := if 97 ≤ c ∧ c ≤ 122 then c - 32 else c

/-- The character that `^` followed by the single byte `c` stands for, for
`c` other than `(`: the named cases, the control code of a letter and of the
other bytes of the range `@`..`_`, and the byte itself otherwise. -/
def caret_value (c : Nat) : Nat :=
  if c = 0 then 0
  else if c = 47 then LF
  else if c = 94 then 94
  else if c = 45 then TAB
  else if c = 33 then 30
  else if c = 126 then 127
  else if 64 ≤ ascii_upper c ∧ ascii_upper c ≤ 95 then ascii_upper c - 64
  else c

/-- A hexadecimal digit, either case. -/
def isHex (c : Nat) : Bool := (hex_digit c).isSome

/-- The number that a list of hexadecimal digits spells. -/
def hex_value (h : List Nat) : Nat := h.foldl (fun n d => n * 16 + (hex_digit d).getD 0) 0

/-- No escape name followed by `)` matches at `bp`. -/
def noEscapeName (ext : Ext) (b : Buf) (bp : Nat) : Prop :=
  ∀ i cp, i < ext.Esc_Names.length → i < ext.Esc_Codes.length →
    Match_Bytes b bp (ext.Esc_Names.getD i []) = some cp → rd b cp ≠ 41

/-- A piece of the body of a string: a plain byte, `^` with the one byte it
escapes, or a longer sequence (a `^(...)` escape, a UTF-8 sequence) with the
character it decodes to. -/
inductive QItem where
  | plain (c : Nat)
  | esc (c : Nat)
  | seq (bytes : List Nat) (chr : Nat)

/-- The source bytes of a piece. -/
def qitem_bytes : QItem → Buf
  | .plain c => [c]
  | .esc c => [94, c]
  | .seq bytes _ => bytes

/-- The 16-bit character a piece puts into the mold buffer. -/
def qitem_char : QItem → Nat
  | .plain c => c
  | .esc c => caret_value c % 65536
  | .seq _ chr => chr

/-- The bytes `bytes` at `p` are a sequence that decodes to `chr`: an escape
that `Scan_Char` accepts, or a UTF-8 sequence that `Decode_UTF8_Char`
accepts, ending where the bytes end. -/
def seq_ok (ext : Ext) (b : Buf) (p : Nat) (bytes : List Nat) (chr : Nat) : Prop :=
  1 ≤ bytes.length
  ∧ ((rd b p = 94 ∧ (Scan_Char ext b p).1 ≠ -1 ∧ (Scan_Char ext b p).2 = p + bytes.length
        ∧ chr = ((Scan_Char ext b p).1 % 65536).toNat)
    ∨ (128 ≤ rd b p ∧ (ext.Decode_UTF8_Char b p).1 ≠ 0
        ∧ (ext.Decode_UTF8_Char b p).2 + 1 = p + bytes.length
        ∧ chr = (ext.Decode_UTF8_Char b p).1 % 65536))

/-- The pieces of the body of a `"`-string, for a piece at `p`: a plain byte
is an ASCII byte other than NUL, `"`, `^`, CR and LF; an escaped byte is any
byte other than NUL and `(`; a sequence decodes. -/
def qitem_ok (ext : Ext) (b : Buf) (p : Nat) : QItem → Prop
  | .plain c => c ≠ 0 ∧ c ≠ 34 ∧ c ≠ 94 ∧ c ≠ CR ∧ c ≠ LF ∧ c < 128
  | .esc c => c ≠ 0 ∧ c ≠ 40
  | .seq bytes chr => seq_ok ext b p bytes chr

/-- Every piece of a list satisfies `ok` at the position where it stands,
the first one standing at `p`. -/
def items_ok (ok : Nat → QItem → Prop) : Nat → List QItem → Prop
  | _, [] => True
  | p, i :: is => ok p i ∧ items_ok ok (p + (qitem_bytes i).length) is

/-- The source text of a list of pieces. -/
def qitems_text : List QItem → Buf
  | [] => []
  | i :: is => qitem_bytes i ++ qitems_text is

/-- The braces of a body are properly nested above the depth `n`: no `}`
closes more than is open, and the body ends at depth zero. -/
def nested : Nat → Buf → Bool
  | n, [] => n == 0
  | n, c :: r =>
    if c = 123 then nested (n + 1) r
    else if c = 125 then decide (0 < n) && nested (n - 1) r
    else nested n r

/-- A body with each CR LF pair and each other CR written as one LF.  The
flag tells that the byte before was a CR. -/
def nl_norm : Bool → Buf → Buf
  | _, [] => []
  | prev, c :: r =>
    if c = CR then LF :: nl_norm true r
    else if c = LF then (if prev then nl_norm false r else LF :: nl_norm false r)
    else c :: nl_norm false r

/-- A body of ASCII bytes without NUL and `^`. -/
def plainBody (body : Buf) : Prop := ∀ c ∈ body, c ≠ 0 ∧ c ≠ 94 ∧ c < 128

/-- The pieces of the body of a `{`-string, for a piece at `p`: a plain byte
is an ASCII byte other than NUL and `^`; an escaped byte is any byte other
than NUL and `(`; a sequence decodes. -/
def bitem_ok (ext : Ext) (b : Buf) (p : Nat) : QItem → Prop
  | .plain c => c ≠ 0 ∧ c ≠ 94 ∧ c < 128
  | .esc c => c ≠ 0 ∧ c ≠ 40
  | .seq bytes chr => seq_ok ext b p bytes chr

/-- The plain braces of a list of pieces are properly nested above the depth
`n`. -/
def nested_items : Nat → List QItem → Bool
  | n, [] => n == 0
  | n, i :: r =>
    match i with
    | .plain c =>
      if c = 123 then nested_items (n + 1) r
      else if c = 125 then decide (0 < n) && nested_items (n - 1) r
      else nested_items n r
    | _ => nested_items n r

/-- The characters of a list of pieces in a `{`-string: one LF for each pair
of plain CR LF, each other plain CR and each other plain LF, the character of
every other piece.  The flag tells that the piece before was a plain CR. -/
def nl_chars : Bool → List QItem → List Nat
  | _, [] => []
  | prev, i :: r =>
    match i with
    | .plain c =>
      if c = CR then LF :: nl_chars true r
      else if c = LF then (if prev then nl_chars false r else LF :: nl_chars false r)
      else c :: nl_chars false r
    | i => qitem_char i :: nl_chars false r

/-- The number of line breaks of a list of pieces: pairs of plain CR LF,
other plain CRs and other plain LFs.  The flag tells that the piece before was
a plain CR. -/
def nl_breaks : Bool → List QItem → Nat
  | _, [] => 0
  | prev, i :: r =>
    match i with
    | .plain c =>
      if c = CR then 1 + nl_breaks true r
      else if c = LF then (if prev then nl_breaks false r else 1 + nl_breaks false r)
      else nl_breaks false r
    | _ => nl_breaks false r

/-- The number of escapes and sequences of a list of pieces that stand for
the character LF. -/
def lf_escapes : List QItem → Nat
  | [] => 0
  | i :: r =>
    match i with
    | .plain _ => lf_escapes r
    | i => (if qitem_char i = LF then 1 else 0) + lf_escapes r

/-- An instance of the macro `IS_WHITE` used to run `Scan_Item` on examples:
space, tab, line feed and carriage return. -/
def sampleWhite (c : Nat) : Bool := c == 32 || c == 9 || c == 10 || c == 13

/-- Membership of a byte in the forbidden set of `Scan_Item`, the test of
line 529. -/
def forbidden (invalid : Option (List Nat)) (c : Nat) : Bool :=
  match invalid with
  | some s => strchr s c
  | none => false

/-- A piece of an item body: a literal byte, `%` and two bytes, `^` and one
byte, or a longer sequence (a `^(...)` escape, a UTF-8 sequence) with the
character it decodes to. -/
inductive IItem where
  | lit (c : Nat)
  | pct (h1 h2 : Nat)
  | esc (c : Nat)
  | seq (bytes : List Nat) (chr : Nat)

/-- The source bytes of a piece of an item body. -/
def iitem_bytes : IItem → Buf
  | .lit c => [c]
  | .pct h1 h2 => [37, h1, h2]
  | .esc c => [94, c]
  | .seq bytes _ => bytes

/-- The character a piece of an item body stands for. -/
def iitem_char : IItem → Nat
  | .lit c => if c = 92 then 47 else c
  | .pct h1 h2 => hex_value [h1, h2]
  | .esc c => caret_value c % 65536
  | .seq _ chr => chr

/-- The bytes `bytes` at `p` are a sequence that `Scan_Item` decodes to
`chr`: an escape, which `Scan_Char` reads, or a UTF-8 sequence that
`Decode_UTF8_Char` accepts, ending where the bytes end. -/
def iseq_ok (ext : Ext) (IS_WHITE : Nat → Bool) (b : Buf) (end_ term p : Nat)
    (bytes : List Nat) (chr : Nat) : Prop :=
  1 ≤ bytes.length ∧ rd b p ≠ term ∧ (term = 0 → IS_WHITE (rd b p) = false)
  ∧ ((rd b p = 94 ∧ p + 1 ≠ end_ ∧ (Scan_Char ext b p).2 = p + bytes.length
        ∧ chr = ((Scan_Char ext b p).1 % 65536).toNat ∧ (term = 0 → IS_WHITE chr = false))
    ∨ (128 ≤ rd b p ∧ (ext.Decode_UTF8_Char b p).1 % 65536 ≠ 0
        ∧ (ext.Decode_UTF8_Char b p).2 + 1 = p + bytes.length
        ∧ chr = (ext.Decode_UTF8_Char b p).1 % 65536))

/-- The pieces that `Scan_Item` copies, for a piece at `p`: a literal
printable ASCII byte other than `%` and `^` that is not the terminator and is
`\` or outside the forbidden set; `%` with two hexadecimal digits; `^` with a
byte other than `(`; a sequence that decodes.  Without a terminator no white
character is among them. -/
def iitem_ok (ext : Ext) (IS_WHITE : Nat → Bool) (b : Buf) (end_ term : Nat)
    (invalid : Option (List Nat)) (p : Nat) : IItem → Prop
  | .lit c => 32 ≤ c ∧ c < 128 ∧ c ≠ 37 ∧ c ≠ 94 ∧ c ≠ term ∧ (term = 0 → IS_WHITE c = false)
      ∧ (c = 92 ∨ forbidden invalid c = false)
  | .pct h1 h2 => isHex h1 = true ∧ isHex h2 = true ∧ term ≠ 37 ∧ (term = 0 → IS_WHITE 37 = false)
  | .esc c => c ≠ 40 ∧ term ≠ 94
      ∧ (term = 0 → IS_WHITE 94 = false ∧ IS_WHITE (caret_value c % 65536) = false)
  | .seq bytes chr => iseq_ok ext IS_WHITE b end_ term p bytes chr

/-- Every piece of a list satisfies `ok` at the position where it stands,
the first one standing at `p`. -/
def iitems_ok (ok : Nat → IItem → Prop) : Nat → List IItem → Prop
  | _, [] => True
  | p, i :: is => ok p i ∧ iitems_ok ok (p + (iitem_bytes i).length) is

/-- The source text of a list of pieces of an item body. -/
def iitems_text : List IItem → Buf
  | [] => []
  | i :: is => iitem_bytes i ++ iitems_text is

/-- The loop of `Scan_Item` stops at `p`: the end pointer, the terminator, a
NUL, or a white character when there is no terminator. -/
def item_stop (IS_WHITE : Nat → Bool) (b : Buf) (end_ term p : Nat) : Prop :=
  p = end_ ∨ rd b p = term ∨ rd b p = 0 ∨ (term = 0 ∧ IS_WHITE (rd b p) = true)

/-- A piece of a tag body: a plain byte, or a run between two `"`. -/
inductive TagItem where
  | plain (c : Nat)
  | quoted (q : List Nat)

/-- The source bytes of a piece of a tag body. -/
def tagitem_bytes : TagItem → Buf
  | .plain c => [c]
  | .quoted q => 34 :: (q ++ [34])

/-- A plain byte is none of NUL, `"` and `>`; a quoted run holds neither NUL
nor `"`. -/
def tagitem_ok : TagItem → Prop
  | .plain c => c ≠ 0 ∧ c ≠ 34 ∧ c ≠ 62
  | .quoted q => ∀ c ∈ q, c ≠ 0 ∧ c ≠ 34

/-- The source text of a list of pieces of a tag body. -/
def tag_text : List TagItem → Buf
  | [] => []
  | i :: is => tagitem_bytes i ++ tag_text is

/-- The bytes from 0x80 up whose entry in the table of the given build is not
of class WORD. -/
def high_not_word (unicode : Bool) : List Nat :=
  (List.range 256).filter
    (fun c => decide (128 ≤ c) && ((Lex_Map_table unicode).getD c 0 >>> LEX_SHIFT != LEX_CLASS_WORD))

/-- The byte `c` stands in `[p, q)`. -/
def occurs (b : Buf) (p q c : Nat) : Prop := ∃ i, p ≤ i ∧ i < q ∧ rd b i = c

/-- The byte `c` stands at two places of `[p, q)`. -/
def occurs_twice (b : Buf) (p q c : Nat) : Prop :=
  ∃ i j, p ≤ i ∧ i < j ∧ j < q ∧ rd b i = c ∧ rd b j = c

/-- The position of the `{` when the bytes at `bg` are exactly `64#{`, `16#{`
or `2#{`. -/
def radix_brace (b : Buf) (bg : Nat) : Option Nat :=
  if ((rd b bg = 54 ∧ rd b (bg + 1) = 52) ∨ (rd b bg = 49 ∧ rd b (bg + 1) = 54))
      ∧ rd b (bg + 2) = 35 ∧ rd b (bg + 3) = 123 then some (bg + 3)
  else if rd b bg = 50 ∧ rd b (bg + 1) = 35 ∧ rd b (bg + 2) = 123 then some (bg + 2)
  else none

/-- The UTF-8 decoder does not move the pointer backwards. -/
def forward (ext : Ext) (b : Buf) : Prop := ∀ p, p ≤ (ext.Decode_UTF8_Char b p).2

/-- A scan state whose lexeme begins at `bg` and ends inside the memory `b`;
the end is not before the beginning when the decoder moves forward. -/
def inBounds (ext : Ext) (b : Buf) (bg : Nat) (s : SCAN_STATE) : Prop :=
  s.begin = bg ∧ s.end_ ≤ b.length ∧ (forward ext b → bg ≤ s.end_)

/-- The scan state and the mold buffer before call number `n` of
`Scan_Token`, when each token is accepted (`ACCEPT_TOKEN`) before the next
call. -/
def before_call (ext : Ext) (b : Buf) (ss : SCAN_STATE) (mold : List Nat) :
    Nat → SCAN_STATE × List Nat
  | 0 => (ss, mold)
  | n + 1 =>
    let s := before_call ext b ss mold n
    let r := Scan_Token ext b s.1 s.2
    (ACCEPT_TOKEN r.2.1, r.2.2)

/-- The UTF-8 decoder, where it is called on a high byte and succeeds, stays on
bytes of the text: it does not move backwards and passes no NUL. -/
def decoder_in_text (ext : Ext) (b : Buf) : Prop :=
  ∀ p, 128 ≤ rd b p → (ext.Decode_UTF8_Char b p).1 ≠ 0 →
    p ≤ (ext.Decode_UTF8_Char b p).2
      ∧ ∀ x, p ≤ x → x ≤ (ext.Decode_UTF8_Char b p).2 → rd b x ≠ 0

/-- A token that is not the end of input and whose lexeme ends after `bg`. -/
def advances (bg : Nat) (r : Int × SCAN_STATE × List Nat) : Prop :=
  r.1 ≠ TOKEN_EOF ∧ bg < r.2.1.end_

/-- What a call or a frame of the block scanner guarantees about the input
position, relative to a position `p`: with `T` it did not stop for lack of
fuel, and when it returns, `begin` and `end` are not before `p`, and `begin` is
after `p` when `s` holds. -/
def ResultAdv (T : Prop) (p : Nat) (s : Prop) (r : Result (List REBVAL × G)) : Prop :=
  (T → r ≠ .fuel)
    ∧ ∀ blk g1, r = .ok (blk, g1) → p ≤ g1.ss.begin ∧ p ≤ g1.ss.end_ ∧ (s → p < g1.ss.begin)

/-- What one round guarantees about the input position: the next round starts
after `p`, and a frame that ends does so within `ResultAdv`. -/
def StepAdv (T : Prop) (p : Nat) (s : Prop) : Step → Prop
  | .again g => p < g.ss.begin
  | .done r => ResultAdv T p s r

/-- What the token switch guarantees about the input position. -/
def ActionAdv (T : Prop) (p : Nat) : Action → Prop
  | .value _ _ _ ep g => p < g.ss.begin ∧ p ≤ g.ss.end_ ∧ p ≤ ep
  | .next g => p < g.ss.begin
  | .syntax_error _ _ _ g => p < g.ss.begin ∧ p ≤ g.ss.end_
  | .missing_error _ g => p < g.ss.begin ∧ p ≤ g.ss.end_
  | .extra_error _ _ g => p < g.ss.begin ∧ p ≤ g.ss.end_
  | .exit_block g => p < g.ss.begin ∧ p ≤ g.ss.end_
  | .stop r => (T → r ≠ .fuel) ∧ ∀ x, r ≠ .ok x

/-- The next lexeme of the state does not start with a NUL. -/
def nonNul (b : Buf) (g : G) : Prop := rd b (skipWhile IS_LEX_SPACE b g.ss.begin) ≠ 0

/-- What the nested calls of a round at position `p` guarantee: a call that
starts after `p`, and a call in path mode from a frame that is not in path
mode, keeps `ResultAdv` relative to its own start. -/
def RecAdv (b : Buf) (T : Prop) (p mode_char : Nat)
    (rec : G → Nat → Result (List REBVAL × G)) : Prop :=
  ∀ g m, p < b.length → (p < g.ss.begin ∨ (m = 47 ∧ mode_char ≠ 47 ∧ p ≤ g.ss.begin)) →
    ResultAdv T g.ss.begin (nonNul b g) (rec g m)

/-- The fuel that a frame needs with `n` bytes left: two units for a byte, one
more outside a path. -/
def fuel_need (mode_char n : Nat) : Nat := if mode_char = 47 then 2 * n + 1 else 2 * n + 2

/-- The number of `[` and `(` bytes of the memory from `p` on. -/
def opens (b : Buf) (p : Nat) : Nat := ((b.drop p).filter (fun c => c == 91 || c == 40)).length

/-- The loop of `Scan_Block` with a bound `d` on the depth of the nested calls
below the frame: a nested call beyond the bound counts as out of fuel. -/
def Scan_Block_depth (ext : Ext) (b : Buf) :
    Nat → Nat → Frame → G → Result (List REBVAL × G)
  | _, 0, _, _ => .fuel
  | d, fuel + 1, fr, g =>
    match Scan_Block_body ext b
        (fun g1 m =>
          match d with
          | 0 => .fuel
          | d1 + 1 => Scan_Block_depth ext b d1 fuel (enter g1 m).1 (enter g1 m).2) fr g with
    | .again g1 => Scan_Block_depth ext b d fuel fr g1
    | .done r => r

/-- A token kind that opens no nested block. -/
@[reducible]
def plain (t : Int) : Prop := t ≠ TOKEN_BLOCK ∧ t ≠ TOKEN_PAREN ∧ t ≠ TOKEN_CONSTRUCT

/-- A token that opens a nested block has a `[` or a `(` in its lexeme, at or
after `bg`. -/
def opener (b : Buf) (bg : Nat) (r : Int × SCAN_STATE × List Nat) : Prop :=
  (r.1 = TOKEN_BLOCK ∨ r.1 = TOKEN_PAREN ∨ r.1 = TOKEN_CONSTRUCT) →
    ∃ x, bg ≤ x ∧ x < r.2.1.end_ ∧ (rd b x = 91 ∨ rd b x = 40)

/-- The line law of one call of `Scan_Token` on the state `s0` with line count
`lc`: a line token adds one; a string, binary or file token that `Scan_Quote`
scanned carries the state `Scan_Quote` returned, which adds the line breaks it
counted, with `end` after the closing quote; every other token leaves the line
count as it was. -/
def QuoteLaw (ext : Ext) (b : Buf) (lc : Nat) (s0 : SCAN_STATE)
    (r : Int × SCAN_STATE × List Nat) : Prop :=
  (r.1 = TOKEN_LINE ∧ r.2.1.line_count = lc + 1)
  ∨ (r.1 ≠ TOKEN_LINE ∧ r.2.1.line_count = lc)
  ∨ ((r.1 = TOKEN_STRING ∨ r.1 = TOKEN_BINARY ∨ r.1 = TOKEN_FILE)
      ∧ ∃ src p ss1 mold1, Scan_Quote ext b src s0 = (some p, ss1, mold1)
          ∧ r.2.1 = { ss1 with end_ := p } ∧ r.2.2 = mold1)

/-- The nested call a round of `Scan_Block` makes, if it makes one: the state
and the mode it hands to `Scan_Block`, for the start of a path (line 1213), for
`[` and `(` (line 1290) and, through `Scan_Full_Block`, for `#[` (line
1428). -/
def nested_call (ext : Ext) (b : Buf) (fr : Frame) (g : G) : Option (G × Nat) :=
  let t := Scan_Token ext b g.ss g.mold
  let token := t.1
  let g := { g with ss := t.2.1, mold := t.2.2 }
  if token = TOKEN_EOF ∨ token < 0 then none
  else if fr.mode_char = 47 ∧ rd b g.ss.begin = 47 then none
  else if (token = TOKEN_PATH
            ∨ ((token = TOKEN_WORD ∨ token = TOKEN_LIT ∨ token = TOKEN_GET)
                ∧ rd b g.ss.end_ = 47))
          ∧ fr.mode_char ≠ 47 then some (g, 47)
  else if token = TOKEN_BLOCK ∨ token = TOKEN_PAREN then
    some ({ g with ss := ACCEPT_TOKEN g.ss }, if token = TOKEN_BLOCK then 93 else 41)
  else if token = TOKEN_CONSTRUCT then
    some ({ g with ss := { ACCEPT_TOKEN g.ss with
                            opts := { g.ss.opts with SCAN_ONLY := false } } }, 93)
  else none

/-- The tokens a frame of `Scan_Block` and its nested frames read, in the
order of the calls of `Scan_Token`, each with the mode of the frame that read
it. -/
def Scan_Block_tokens (ext : Ext) (b : Buf) : Nat → Frame → G → List (Nat × Int)
  | 0, _, _ => []
  | fuel + 1, fr, g =>
    (fr.mode_char, (Scan_Token ext b g.ss g.mold).1) ::
      ((match nested_call ext b fr g with
        | some c => Scan_Block_tokens ext b fuel (enter c.1 c.2).1 (enter c.1 c.2).2
        | none => []) ++
       (match Scan_Block_body ext b (fun g1 m => Scan_Block ext b fuel g1 m) fr g with
        | .again g1 => Scan_Block_tokens ext b fuel fr g1
        | .done _ => []))

/-- What a token adds to the number of open brackets: `[`, `(` and `#[` open
one; `]` and `)` close one where a frame that is not a path frame reads
them. -/
def bracket_step (e : Nat × Int) : Int :=
  if e.2 = TOKEN_BLOCK ∨ e.2 = TOKEN_PAREN ∨ e.2 = TOKEN_CONSTRUCT then 1
  else if (e.2 = TOKEN_BLOCK_END ∨ e.2 = TOKEN_PAREN_END) ∧ e.1 ≠ 47 then -1
  else 0

/-- The brackets left open by a sequence of tokens. -/
def bracket_sum : List (Nat × Int) → Int
  | [] => 0
  | e :: es => bracket_step e + bracket_sum es

/-- The greatest number of brackets open at once in a sequence of tokens that
starts with `c` open brackets. -/
def bracket_peak : Int → List (Nat × Int) → Int
  | c, [] => c
  | c, e :: es => max c (bracket_peak (c + bracket_step e) es)

/-- The bracket nesting of a sequence of tokens: the greatest number of
brackets open at once. -/
def nesting (l : List (Nat × Int)) : Nat := (bracket_peak 0 l).toNat

/-- The text `[] [] [] []`. -/
def four_blocks : Buf := [91, 93, 32, 91, 93, 32, 91, 93, 32, 91, 93]

/-! ## Basic facts about memory and the class table -/

theorem rd_eq_zero_of_le (b : Buf) (p : Nat) (h : b.length ≤ p) : rd b p = 0 := by
  unfold rd
  rw [List.getD_eq_default _ _ h]

theorem lt_length_of_rd_ne_zero (b : Buf) (p : Nat) (h : rd b p ≠ 0) : p < b.length := by
  by_contra hc
  exact h (rd_eq_zero_of_le b p (Nat.le_of_not_lt hc))

theorem drop_eq_rd_cons (b : Buf) (p : Nat) (h : p < b.length) :
    b.drop p = rd b p :: b.drop (p + 1) := by
  unfold rd
  rw [List.getD_eq_getElem _ _ h]
  exact List.drop_eq_getElem_cons h

/-- One round of a skipping loop whose test holds. -/
theorem skipWhile_step (p : Nat → Bool) (b : Buf) (cp : Nat) (h0 : p 0 = false)
    (h : p (rd b cp) = true) : skipWhile p b cp = skipWhile p b (cp + 1) := by
  have hlt : cp < b.length := by
    apply lt_length_of_rd_ne_zero
    intro hz
    rw [hz, h0] at h
    exact Bool.false_ne_true h
  unfold skipWhile
  rw [drop_eq_rd_cons b cp hlt, List.takeWhile_cons_of_pos h]
  simp only [List.length_cons]
  omega

/-- A skipping loop stops at the first byte that fails its test. -/
theorem skipWhile_stop (p : Nat → Bool) (b : Buf) (cp : Nat)
    (h : p (rd b cp) = false) : skipWhile p b cp = cp := by
  unfold skipWhile
  by_cases hlt : cp < b.length
  · rw [drop_eq_rd_cons b cp hlt, List.takeWhile_cons_of_neg (by simp [h])]
    simp
  · rw [List.drop_eq_nil_of_le (Nat.le_of_not_lt hlt)]
    simp

/-- A skipping loop passes `n` bytes that satisfy its test and stops at a byte
that does not. -/
theorem skipWhile_run (p : Nat → Bool) (b : Buf) (h0 : p 0 = false) (n : Nat) :
    ∀ cp, (∀ i, i < n → p (rd b (cp + i)) = true) → p (rd b (cp + n)) = false →
      skipWhile p b cp = cp + n := by
  induction n with
  | zero =>
    intro cp _ hstop
    exact skipWhile_stop p b cp (by simpa using hstop)
  | succ n ih =>
    intro cp hrun hstop
    rw [skipWhile_step p b cp h0 (by simpa using hrun 0 (Nat.succ_pos n))]
    rw [ih (cp + 1)]
    · omega
    · intro i hi
      have := hrun (i + 1) (by omega)
      rwa [show cp + (i + 1) = cp + 1 + i by omega] at this
    · rwa [show cp + (n + 1) = cp + 1 + n by omega] at hstop

theorem skipWhile_ge (p : Nat → Bool) (b : Buf) (cp : Nat) : cp ≤ skipWhile p b cp := by
  unfold skipWhile
  omega

/-- Every entry of the class table is below 128. -/
theorem Lex_Map_lt (c : Nat) : Lex_Map c < 128 := by
  unfold Lex_Map
  by_cases h : c < 256
  · have : ∀ i : Fin 256, (Lex_Map_table USE_UNICODE).getD i.val 0 < 128 := by decide
    exact this ⟨c, h⟩
  · rw [List.getD_eq_default]
    · decide
    · have : (Lex_Map_table USE_UNICODE).length = 256 := by decide
      omega

/-! ## Facts about the classification macros -/

theorem class_facts_of_lt : ∀ x : Fin 128,
    ((x.val &&& LEX_CLASS == LEX_DELIMIT) = decide (x.val < 32))
    ∧ (x.val >>> LEX_SHIFT = 0 ↔ x.val < 32)
    ∧ (x.val >>> LEX_SHIFT = 1 ↔ 32 ≤ x.val ∧ x.val < 64)
    ∧ (x.val >>> LEX_SHIFT = 2 ↔ 64 ≤ x.val ∧ x.val < 96)
    ∧ ((x.val &&& LEX_CLASS == LEX_SPECIAL) = decide (32 ≤ x.val ∧ x.val < 64)) := by
  decide

/-- A byte is a delimiter exactly when its table entry is below 32. -/
theorem IS_LEX_DELIMIT_iff (c : Nat) : IS_LEX_DELIMIT c = true ↔ Lex_Map c < 32 := by
  have h := (class_facts_of_lt ⟨Lex_Map c, Lex_Map_lt c⟩).1
  unfold IS_LEX_DELIMIT MASK_LEX_CLASS
  simp at h
  simp [h]

theorem GET_LEX_CLASS_delimit_iff (c : Nat) :
    GET_LEX_CLASS c = LEX_CLASS_DELIMIT ↔ Lex_Map c < 32 := by
  have h := (class_facts_of_lt ⟨Lex_Map c, Lex_Map_lt c⟩).2.1
  unfold GET_LEX_CLASS LEX_CLASS_DELIMIT
  simpa using h

/-! ## Facts about the prescan and simple tokens -/

theorem Prescan_loop_delimit (b : Buf) (begin fuel cp flags : Nat)
    (h : Lex_Map (rd b cp) < 32) :
    Prescan_loop b begin (fuel + 1) cp flags = (if cp = begin then cp + 1 else cp, flags) := by
  have hc := (GET_LEX_CLASS_delimit_iff (rd b cp)).2 h
  simp [Prescan_loop, hc]

theorem Prescan_loop_special (b : Buf) (begin fuel cp flags : Nat)
    (h : GET_LEX_CLASS (rd b cp) = LEX_CLASS_SPECIAL) :
    Prescan_loop b begin (fuel + 1) cp flags =
      Prescan_loop b begin fuel (cp + 1)
        (if cp ≠ begin then SET_LEX_FLAG flags (GET_LEX_VALUE (rd b cp)) else flags) := by
  have h1 : LEX_CLASS_SPECIAL ≠ LEX_CLASS_DELIMIT := by decide
  simp [Prescan_loop, h, h1]

theorem Prescan_loop_word (b : Buf) (begin fuel cp flags : Nat)
    (h : GET_LEX_CLASS (rd b cp) = LEX_CLASS_WORD) :
    Prescan_loop b begin (fuel + 1) cp flags =
      Prescan_loop b begin fuel (skipWhile IS_LEX_AT_LEAST_WORD b cp)
        (SET_LEX_FLAG flags LEX_SPECIAL_WORD) := by
  have h1 : LEX_CLASS_WORD ≠ LEX_CLASS_DELIMIT := by decide
  have h2 : LEX_CLASS_WORD ≠ LEX_CLASS_SPECIAL := by decide
  simp [Prescan_loop, h, h1, h2]

theorem Prescan_loop_number (b : Buf) (begin fuel cp flags : Nat)
    (h : GET_LEX_CLASS (rd b cp) = LEX_CLASS_NUMBER) :
    Prescan_loop b begin (fuel + 1) cp flags =
      Prescan_loop b begin fuel (skipWhile IS_LEX_AT_LEAST_NUMBER b cp) flags := by
  have h1 : LEX_CLASS_NUMBER ≠ LEX_CLASS_DELIMIT := by decide
  have h2 : LEX_CLASS_NUMBER ≠ LEX_CLASS_SPECIAL := by decide
  have h3 : LEX_CLASS_NUMBER ≠ LEX_CLASS_WORD := by decide
  simp [Prescan_loop, h, h1, h2, h3]

theorem digit_facts : ∀ c : Fin 58, isDigit c.val = true →
    GET_LEX_CLASS c.val = LEX_CLASS_NUMBER ∧ IS_LEX_AT_LEAST_NUMBER c.val = true
      ∧ IS_LEX_SPACE c.val = false := by
  decide

theorem digit_class (c : Nat) (h : isDigit c = true) :
    GET_LEX_CLASS c = LEX_CLASS_NUMBER ∧ IS_LEX_AT_LEAST_NUMBER c = true
      ∧ IS_LEX_SPACE c = false := by
  have hc : c < 58 := by
    unfold isDigit at h
    simp at h
    omega
  exact digit_facts ⟨c, hc⟩ h

theorem Prescan_eq (b : Buf) (ss : SCAN_STATE) :
    Prescan b ss =
      ((Prescan_loop b (skipWhile IS_LEX_SPACE b ss.begin) (b.length + 1)
          (skipWhile IS_LEX_SPACE b ss.begin) 0).2,
       { ss with begin := skipWhile IS_LEX_SPACE b ss.begin,
                 end_ := (Prescan_loop b (skipWhile IS_LEX_SPACE b ss.begin) (b.length + 1)
                    (skipWhile IS_LEX_SPACE b ss.begin) 0).1 }) := rfl

theorem sign_token (ext : Ext) (b : Buf) (ss : SCAN_STATE) (mold : List Nat)
    (hs : rd b ss.begin = 43 ∨ rd b ss.begin = 45)
    (hd : IS_LEX_DELIMIT (rd b (ss.begin + 1)) = true) :
    Scan_Token ext b ss mold = (TOKEN_WORD, { ss with end_ := ss.begin + 1 }, mold) := by
  have hlt : ss.begin < b.length := by
    apply lt_length_of_rd_ne_zero
    rcases hs with h | h <;> rw [h] <;> decide
  obtain ⟨n, hn⟩ : ∃ n, b.length = n + 1 := ⟨b.length - 1, by omega⟩
  have hsp : IS_LEX_SPACE (rd b ss.begin) = false := by
    rcases hs with h | h <;> rw [h] <;> decide
  have hcls : GET_LEX_CLASS (rd b ss.begin) = LEX_CLASS_SPECIAL := by
    rcases hs with h | h <;> rw [h] <;> decide
  have hdl := (IS_LEX_DELIMIT_iff _).1 hd
  have hpre : Prescan b ss = (0, { ss with end_ := ss.begin + 1 }) := by
    rw [Prescan_eq, skipWhile_stop _ _ _ hsp, hn, Prescan_loop_special _ _ _ _ _ hcls,
      Prescan_loop_delimit _ _ _ _ _ hdl]
    simp
  have hv : GET_LEX_VALUE (rd b ss.begin) = LEX_SPECIAL_PLUS
      ∨ GET_LEX_VALUE (rd b ss.begin) = LEX_SPECIAL_MINUS := by
    rcases hs with h | h <;> rw [h] <;> decide
  have hnn : IS_LEX_AT_LEAST_NUMBER (rd b (ss.begin + 1)) = false := by
    unfold IS_LEX_AT_LEAST_NUMBER
    have : LEX_NUMBER = 96 := by decide
    simp [this]
    omega
  have hns : IS_LEX_SPECIAL (rd b (ss.begin + 1)) = false := by
    have h := (class_facts_of_lt ⟨Lex_Map (rd b (ss.begin + 1)), Lex_Map_lt _⟩).2.2.2.2
    unfold IS_LEX_SPECIAL MASK_LEX_CLASS
    simp at h
    simp [h]
    omega
  have e1 : LEX_CLASS_SPECIAL ≠ LEX_CLASS_DELIMIT := by decide
  have e2 : HAS_LEX_FLAG 0 LEX_SPECIAL_AT = false := by decide
  have e3 : HAS_LEX_FLAG 0 LEX_SPECIAL_DOLLAR = false := by decide
  have e4 : HAS_LEX_FLAG 0 LEX_SPECIAL_COLON = false := by decide
  have e5 : HAS_LEX_FLAGS 0 LEX_WORD_FLAGS = false := by decide
  have e6 : HAS_LEX_FLAG 0 LEX_SPECIAL_LESSER = false := by decide
  have e7 : HAS_LEX_FLAG 0 LEX_SPECIAL_GREATER = false := by decide
  unfold Scan_Token
  rw [hpre]
  rcases hv with hv | hv
  · simp +decide [hcls, e2, next_ls, special_sign, hv, e3, e4, hnn, hns, scanword, e5, e6, e7]
  · simp +decide [hcls, e2, next_ls, special_sign, hv, e3, e4, hnn, hns, scanword, e5, e6, e7]

theorem alpha_facts : ∀ c : Fin 123, isAlpha c.val = true →
    GET_LEX_CLASS c.val = LEX_CLASS_WORD ∧ IS_LEX_AT_LEAST_WORD c.val = true
      ∧ IS_LEX_SPACE c.val = false ∧ IS_LEX_ANY_SPACE c.val = false := by
  decide

theorem alpha_class (c : Nat) (h : isAlpha c = true) :
    GET_LEX_CLASS c = LEX_CLASS_WORD ∧ IS_LEX_AT_LEAST_WORD c = true
      ∧ IS_LEX_SPACE c = false ∧ IS_LEX_ANY_SPACE c = false := by
  have hc : c < 123 := by
    unfold isAlpha at h
    simp at h
    omega
  exact alpha_facts ⟨c, hc⟩ h

theorem alpha_range (c : Nat) (h : isAlpha c = true) :
    (65 ≤ c ∧ c ≤ 90) ∨ (97 ≤ c ∧ c ≤ 122) := by
  unfold isAlpha at h
  simpa using h

/-- Bytes whose table entry is below 32 are in none of the higher classes. -/
theorem delimit_not_higher (c : Nat) (h : Lex_Map c < 32) :
    IS_LEX_AT_LEAST_NUMBER c = false ∧ IS_LEX_AT_LEAST_WORD c = false
      ∧ IS_LEX_AT_LEAST_SPECIAL c = false ∧ IS_LEX_SPECIAL c = false
      ∧ IS_LEX_DELIMIT c = true := by
  have h5 := (class_facts_of_lt ⟨Lex_Map c, Lex_Map_lt c⟩).2.2.2.2
  have hn : LEX_NUMBER = 96 := by decide
  have hw : LEX_WORD = 64 := by decide
  have hs : LEX_SPECIAL = 32 := by decide
  refine ⟨?_, ?_, ?_, ?_, (IS_LEX_DELIMIT_iff c).2 h⟩
  · unfold IS_LEX_AT_LEAST_NUMBER; simp [hn]; omega
  · unfold IS_LEX_AT_LEAST_WORD; simp [hw]; omega
  · unfold IS_LEX_AT_LEAST_SPECIAL; simp [hs]; omega
  · unfold IS_LEX_SPECIAL MASK_LEX_CLASS
    simp at h5
    simp [h5]
    omega

/-- The prescan of a run of digits that ends at a delimiter. -/
theorem Prescan_digits (b : Buf) (ss : SCAN_STATE) (n : Nat) (hn : 0 < n)
    (hdig : ∀ i, i < n → isDigit (rd b (ss.begin + i)) = true)
    (hd : Lex_Map (rd b (ss.begin + n)) < 32) :
    Prescan b ss = (0, { ss with end_ := ss.begin + n }) := by
  have h0 := digit_class _ (hdig 0 hn)
  simp only [Nat.add_zero] at h0
  have hlt : ss.begin < b.length := by
    apply lt_length_of_rd_ne_zero
    intro hz
    rw [hz] at h0
    exact absurd h0.1 (by decide)
  obtain ⟨m, hm⟩ : ∃ m, b.length = m + 1 := ⟨b.length - 1, by omega⟩
  have hrun : skipWhile IS_LEX_AT_LEAST_NUMBER b ss.begin = ss.begin + n :=
    skipWhile_run _ b (by decide) n ss.begin (fun i hi => (digit_class _ (hdig i hi)).2.1)
      (delimit_not_higher _ hd).1
  rw [Prescan_eq, skipWhile_stop _ _ _ h0.2.2, hm, Prescan_loop_number _ _ _ _ _ h0.1, hrun,
    Prescan_loop_delimit _ _ _ _ _ hd]
  have : ss.begin + n ≠ ss.begin := by omega
  simp [this]

/-- A lexeme of decimal digits is an integer token. -/
theorem digits_token (ext : Ext) (b : Buf) (ss : SCAN_STATE) (mold : List Nat) (n : Nat)
    (hn : 0 < n) (hdig : ∀ i, i < n → isDigit (rd b (ss.begin + i)) = true)
    (hd : IS_LEX_DELIMIT (rd b (ss.begin + n)) = true) :
    Scan_Token ext b ss mold = (TOKEN_INTEGER, { ss with end_ := ss.begin + n }, mold) := by
  have hdl := (IS_LEX_DELIMIT_iff _).1 hd
  have h0 := digit_class _ (hdig 0 hn)
  simp only [Nat.add_zero] at h0
  unfold Scan_Token
  rw [Prescan_digits b ss n hn hdig hdl]
  simp +decide [h0.1, num]

/-- At a NUL the token is `TOKEN_EOF` and `end` equals `begin`. -/
theorem eof_token (ext : Ext) (b : Buf) (ss : SCAN_STATE) (mold : List Nat)
    (h : rd b ss.begin = 0) :
    Scan_Token ext b ss mold = (TOKEN_EOF, { ss with end_ := ss.begin }, mold) := by
  have hsp : IS_LEX_SPACE (rd b ss.begin) = false := by rw [h]; decide
  have hd : Lex_Map (rd b ss.begin) < 32 := by rw [h]; decide
  have hpre : Prescan b ss = (0, { ss with end_ := ss.begin + 1 }) := by
    rw [Prescan_eq, skipWhile_stop _ _ _ hsp, Prescan_loop_delimit _ _ _ _ _ hd]
    simp
  unfold Scan_Token
  rw [hpre]
  simp +decide [h, Scan_Token_delimit]

/-- The prescan of a run of letters that ends at a delimiter. -/
theorem Prescan_word (b : Buf) (ss : SCAN_STATE) (n : Nat) (hn : 0 < n)
    (hal : ∀ i, i < n → isAlpha (rd b (ss.begin + i)) = true)
    (hd : Lex_Map (rd b (ss.begin + n)) < 32) :
    Prescan b ss = (LEX_FLAG LEX_SPECIAL_WORD, { ss with end_ := ss.begin + n }) := by
  have h0 := alpha_class _ (hal 0 hn)
  simp only [Nat.add_zero] at h0
  have hlt : ss.begin < b.length := by
    apply lt_length_of_rd_ne_zero
    intro hz
    rw [hz] at h0
    exact absurd h0.1 (by decide)
  obtain ⟨m, hm⟩ : ∃ m, b.length = m + 1 := ⟨b.length - 1, by omega⟩
  have hrun : skipWhile IS_LEX_AT_LEAST_WORD b ss.begin = ss.begin + n :=
    skipWhile_run _ b (by decide) n ss.begin (fun i hi => (alpha_class _ (hal i hi)).2.1)
      (delimit_not_higher _ hd).2.1
  rw [Prescan_eq, skipWhile_stop _ _ _ h0.2.2.1, hm, Prescan_loop_word _ _ _ _ _ h0.1, hrun,
    Prescan_loop_delimit _ _ _ _ _ hd]
  have : ss.begin + n ≠ ss.begin := by omega
  simp +decide [this]

/-- A run of letters that ends at a delimiter is a word token. -/
theorem word_token (ext : Ext) (b : Buf) (ss : SCAN_STATE) (mold : List Nat) (n : Nat)
    (hn : 0 < n) (hal : ∀ i, i < n → isAlpha (rd b (ss.begin + i)) = true)
    (hd : Lex_Map (rd b (ss.begin + n)) < 32) :
    Scan_Token ext b ss mold = (TOKEN_WORD, { ss with end_ := ss.begin + n }, mold) := by
  have h0 := alpha_class _ (hal 0 hn)
  simp only [Nat.add_zero] at h0
  unfold Scan_Token
  rw [Prescan_word b ss n hn hal hd]
  simp +decide [h0.1]

/-- `Skip_To_Char` finds the first occurrence of the byte. -/
theorem Skip_To_Char_loop_run (b : Buf) (chr : Nat) (n : Nat) :
    ∀ cp m, (∀ i, i < n → rd b (cp + i) ≠ chr) → rd b (cp + n) = chr → n < m →
      Skip_To_Char_loop b chr m cp = some (cp + n) := by
  induction n with
  | zero =>
    intro cp m _ hc hm
    obtain ⟨k, rfl⟩ : ∃ k, m = k + 1 := ⟨m - 1, by omega⟩
    simp at hc
    simp [Skip_To_Char_loop, hc]
  | succ n ih =>
    intro cp m hne hc hm
    obtain ⟨k, rfl⟩ : ∃ k, m = k + 1 := ⟨m - 1, by omega⟩
    have h0 := hne 0 (Nat.succ_pos n)
    simp only [Nat.add_zero] at h0
    simp only [Skip_To_Char_loop, h0, if_false]
    rw [ih (cp + 1) k]
    · congr 1; omega
    · intro i hi
      have := hne (i + 1) (by omega)
      rwa [show cp + (i + 1) = cp + 1 + i by omega] at this
    · rwa [show cp + (n + 1) = cp + 1 + n by omega] at hc
    · omega

theorem Skip_To_Char_run (b : Buf) (cp ep chr n : Nat)
    (hne : ∀ i, i < n → rd b (cp + i) ≠ chr) (hc : rd b (cp + n) = chr) (hep : cp + n < ep) :
    Skip_To_Char b cp ep chr = some (cp + n) :=
  Skip_To_Char_loop_run b chr n cp (ep - cp) hne hc (by omega)

/-- The prescan of a run of letters followed by `:` and a delimiter. -/
theorem Prescan_set_word (b : Buf) (ss : SCAN_STATE) (n : Nat) (hn : 0 < n)
    (hal : ∀ i, i < n → isAlpha (rd b (ss.begin + i)) = true)
    (hc : rd b (ss.begin + n) = 58)
    (hd : Lex_Map (rd b (ss.begin + n + 1)) < 32) :
    Prescan b ss = (LEX_FLAG LEX_SPECIAL_WORD ||| LEX_FLAG LEX_SPECIAL_COLON,
      { ss with end_ := ss.begin + n + 1 }) := by
  have h0 := alpha_class _ (hal 0 hn)
  simp only [Nat.add_zero] at h0
  have hlt : ss.begin + n < b.length := by
    apply lt_length_of_rd_ne_zero
    rw [hc]; decide
  obtain ⟨m, hm⟩ : ∃ m, b.length = m + 2 := ⟨b.length - 2, by omega⟩
  have hcw : IS_LEX_AT_LEAST_WORD (rd b (ss.begin + n)) = false := by rw [hc]; decide
  have hcs : GET_LEX_CLASS (rd b (ss.begin + n)) = LEX_CLASS_SPECIAL := by rw [hc]; decide
  have hrun : skipWhile IS_LEX_AT_LEAST_WORD b ss.begin = ss.begin + n :=
    skipWhile_run _ b (by decide) n ss.begin (fun i hi => (alpha_class _ (hal i hi)).2.1) hcw
  rw [Prescan_eq, skipWhile_stop _ _ _ h0.2.2.1, hm, Prescan_loop_word _ _ _ _ _ h0.1, hrun,
    Prescan_loop_special _ _ _ _ _ hcs, Prescan_loop_delimit _ _ _ _ _ hd]
  have h1 : ss.begin + n ≠ ss.begin := by omega
  have h2 : ss.begin + n + 1 ≠ ss.begin := by omega
  simp +decide [h1, h2, hc]

/-- A run of letters followed by `:` and a delimiter other than `/` is a
set-word token. -/
theorem set_word_token (ext : Ext) (b : Buf) (ss : SCAN_STATE) (mold : List Nat) (n : Nat)
    (hn : 0 < n) (hal : ∀ i, i < n → isAlpha (rd b (ss.begin + i)) = true)
    (hc : rd b (ss.begin + n) = 58)
    (hd : Lex_Map (rd b (ss.begin + n + 1)) < 32) (hs : rd b (ss.begin + n + 1) ≠ 47) :
    Scan_Token ext b ss mold = (TOKEN_SET, { ss with end_ := ss.begin + n + 1 }, mold) := by
  have h0 := alpha_class _ (hal 0 hn)
  simp only [Nat.add_zero] at h0
  have hfind : Skip_To_Char b ss.begin (ss.begin + n + 1) 58 = some (ss.begin + n) := by
    apply Skip_To_Char_run _ _ _ _ n _ hc (by omega)
    intro i hi
    have := alpha_range _ (hal i hi)
    omega
  have hdd := (delimit_not_higher _ hd).2.2.2.2
  unfold Scan_Token
  rw [Prescan_set_word b ss n hn hal hc hd]
  simp +decide [h0.1, scanword, hfind, ptr, hdd, hs]

/-! ## The token classifier keeps the options and the error count -/

theorem sameSetup_refl (s : SCAN_STATE) : sameSetup s s := ⟨rfl, rfl, rfl, rfl⟩

theorem sameSetup_trans {s t u : SCAN_STATE} (h1 : sameSetup s t) (h2 : sameSetup t u) :
    sameSetup s u :=
  ⟨h2.1.trans h1.1, h2.2.1.trans h1.2.1, h2.2.2.1.trans h1.2.2.1, h2.2.2.2.trans h1.2.2.2⟩

theorem Prescan_setup (b : Buf) (ss : SCAN_STATE) : sameSetup ss (Prescan b ss).2 := by
  rw [Prescan_eq]
  exact ⟨rfl, rfl, rfl, rfl⟩

theorem Scan_Quote_setup (ext : Ext) (b : Buf) (src : Nat) (ss : SCAN_STATE) :
    sameSetup ss (Scan_Quote ext b src ss).2.1 := by
  unfold Scan_Quote sameSetup
  dsimp only
  split <;> simp

theorem setup_intro (ss t : SCAN_STATE) (h1 : t.opts = ss.opts) (h2 : t.errors = ss.errors)
    (h3 : t.head_line = ss.head_line) (h4 : t.limit = ss.limit) : sameSetup ss t :=
  ⟨h1, h2, h3, h4⟩

theorem setup_ite (ss : SCAN_STATE) (c : Prop) [Decidable c] (x y : Int × SCAN_STATE × List Nat)
    (hx : sameSetup ss x.2.1) (hy : sameSetup ss y.2.1) :
    sameSetup ss (if c then x else y).2.1 := by
  split <;> assumption

theorem setup_ite_pair (ss : SCAN_STATE) (c : Prop) [Decidable c] (x y : Int × SCAN_STATE)
    (hx : sameSetup ss x.2) (hy : sameSetup ss y.2) :
    sameSetup ss (if c then x else y).2 := by
  split <;> assumption

theorem scanword_setup (b : Buf) (ss : SCAN_STATE) (flags cp : Nat) (type : Int) :
    sameSetup ss (scanword b ss flags cp type).2 := by
  unfold scanword
  dsimp only
  repeat' (with_reducible apply setup_ite_pair)
  all_goals (apply setup_intro <;> rfl)

theorem pound_setup (ext : Ext) (b : Buf) (ss : SCAN_STATE) (mold : List Nat) (cp : Nat) :
    sameSetup ss (pound ext b ss mold cp).2.1 := by
  have hq := Scan_Quote_setup ext b (cp + 1) ss
  unfold pound
  dsimp only
  repeat' (with_reducible apply setup_ite)
  all_goals try (apply setup_intro <;> rfl)
  unfold sameSetup at hq ⊢
  split <;> rename_i h <;> rw [h] at hq <;> simpa using hq

theorem num_setup (ext : Ext) (b : Buf) (ss : SCAN_STATE) (mold : List Nat) (flags cp : Nat) :
    sameSetup ss (num ext b ss mold flags cp).2.1 := by
  unfold num
  dsimp only
  repeat' (with_reducible apply setup_ite)
  all_goals try (with_reducible exact pound_setup ext b ss mold _)
  all_goals try (apply setup_intro <;> rfl)
  split
  · exact ⟨rfl, rfl, rfl, rfl⟩
  · apply setup_ite <;> exact ⟨rfl, rfl, rfl, rfl⟩

theorem special_percent_setup (ext : Ext) (b : Buf) (mold : List Nat) (ss : SCAN_STATE) :
    sameSetup ss (special_percent ext b mold ss).2.1 := by
  have hq := Scan_Quote_setup ext b ss.end_ ss
  unfold special_percent
  dsimp only
  apply setup_ite
  · unfold sameSetup at hq ⊢
    split <;> rename_i h <;> rw [h] at hq <;> simpa using hq
  · exact ⟨rfl, rfl, rfl, rfl⟩

theorem angle_mode2_setup (b : Buf) (mold : List Nat) (ss : SCAN_STATE) (cp : Nat) (type : Int) :
    sameSetup ss (angle_mode2 b mold ss cp type).2.1 := ⟨rfl, rfl, rfl, rfl⟩

theorem special_colon_setup (b : Buf) (mold : List Nat) (ss : SCAN_STATE) (flags cp : Nat) :
    sameSetup ss (special_colon b mold ss flags cp).2.1 := by
  unfold special_colon
  dsimp only
  repeat' (with_reducible apply setup_ite)
  all_goals try (with_reducible exact scanword_setup b ss _ _ _)
  all_goals (apply setup_intro <;> rfl)

theorem special_tick_setup (b : Buf) (mold : List Nat) (ss : SCAN_STATE) (flags cp : Nat) :
    sameSetup ss (special_tick b mold ss flags cp).2.1 := by
  unfold special_tick
  dsimp only
  repeat' (with_reducible apply setup_ite)
  all_goals try (with_reducible exact scanword_setup b ss _ _ _)
  all_goals (apply setup_intro <;> rfl)

theorem special_comma_period_setup (ext : Ext) (b : Buf) (mold : List Nat) (ss : SCAN_STATE)
    (flags cp v : Nat) : sameSetup ss (special_comma_period ext b mold ss flags cp v).2.1 := by
  unfold special_comma_period
  dsimp only
  apply setup_ite
  · exact num_setup ext b ss mold _ _
  apply setup_ite
  · exact ⟨rfl, rfl, rfl, rfl⟩
  · exact scanword_setup b ss _ _ _

theorem special_angle_setup (b : Buf) (mold : List Nat) (ss : SCAN_STATE) (cp : Nat) :
    sameSetup ss (special_angle b mold ss cp).2.1 := by
  unfold special_angle
  dsimp only
  apply setup_ite
  · exact ⟨rfl, rfl, rfl, rfl⟩
  apply setup_ite
  · exact ⟨rfl, rfl, rfl, rfl⟩
  · split <;> exact ⟨rfl, rfl, rfl, rfl⟩

theorem special_sign_setup (ext : Ext) (b : Buf) (mold : List Nat)
    (again : SCAN_STATE → Nat → Nat → Int × SCAN_STATE × List Nat)
    (hagain : ∀ ss flags cp, sameSetup ss (again ss flags cp).2.1)
    (ss : SCAN_STATE) (flags cp : Nat) :
    sameSetup ss (special_sign ext b mold again ss flags cp).2.1 := by
  unfold special_sign
  dsimp only
  apply setup_ite
  · exact ⟨rfl, rfl, rfl, rfl⟩
  apply setup_ite
  · exact ⟨rfl, rfl, rfl, rfl⟩
  apply setup_ite
  · exact scanword_setup b ss _ _ _
  apply setup_ite
  · exact num_setup ext b ss mold _ _
  apply setup_ite
  · apply setup_ite
    · exact hagain ss _ _
    apply setup_ite
    · exact scanword_setup b ss _ _ _
    · exact ⟨rfl, rfl, rfl, rfl⟩
  · exact scanword_setup b ss _ _ _

theorem next_ls_setup (ext : Ext) (b : Buf) (mold : List Nat) (fuel : Nat) :
    ∀ (ss : SCAN_STATE) (flags cp : Nat), sameSetup ss (next_ls ext b mold fuel ss flags cp).2.1 := by
  induction fuel with
  | zero => intro ss flags cp; exact ⟨rfl, rfl, rfl, rfl⟩
  | succ fuel ih =>
    intro ss flags cp
    unfold next_ls
    dsimp only
    apply setup_ite
    · exact ⟨rfl, rfl, rfl, rfl⟩
    apply setup_ite
    · exact special_percent_setup ext b mold ss
    apply setup_ite
    · exact special_colon_setup b mold ss _ _
    apply setup_ite
    · exact special_tick_setup b mold ss _ _
    apply setup_ite
    · exact special_comma_period_setup ext b mold ss _ _ _
    apply setup_ite
    · exact special_angle_setup b mold ss _
    apply setup_ite
    · exact special_sign_setup ext b mold _ ih ss _ _
    apply setup_ite
    · exact pound_setup ext b ss mold _
    apply setup_ite
    · exact ⟨rfl, rfl, rfl, rfl⟩
    · exact ⟨rfl, rfl, rfl, rfl⟩

theorem delimit_comment_setup (b : Buf) (ss : SCAN_STATE) (mold : List Nat) (cp : Nat) :
    sameSetup ss (delimit_comment b ss mold cp).2.1 := by
  unfold delimit_comment
  dsimp only
  apply setup_ite <;> exact ⟨rfl, rfl, rfl, rfl⟩

theorem delimit_quote_setup (ext : Ext) (b : Buf) (ss : SCAN_STATE) (cp : Nat) :
    sameSetup ss (delimit_quote ext b ss cp).2.1 := by
  have hq := Scan_Quote_setup ext b cp ss
  unfold sameSetup at hq ⊢
  unfold delimit_quote
  split <;> rename_i h <;> rw [h] at hq <;> simpa using hq

theorem delimit_slash_setup (b : Buf) (ss : SCAN_STATE) (mold : List Nat) (cp : Nat) :
    sameSetup ss (delimit_slash b ss mold cp).2.1 := by
  have hp := Prescan_setup b { ss with begin := skipWhile (fun c => c != 0 && c == 47) b cp }
  have hp' : sameSetup ss
      { (Prescan b { ss with begin := skipWhile (fun c => c != 0 && c == 47) b cp }).2 with
        begin := (Prescan b
          { ss with begin := skipWhile (fun c => c != 0 && c == 47) b cp }).2.begin - 1 } :=
    ⟨hp.1, hp.2.1, hp.2.2.1, hp.2.2.2⟩
  unfold delimit_slash
  dsimp only
  apply setup_ite
  · apply setup_ite
    · exact ⟨rfl, rfl, rfl, rfl⟩
    apply setup_ite
    · exact hp'
    apply setup_ite
    · exact hp'
    · exact sameSetup_trans hp' (scanword_setup b _ _ _ _)
  · exact ⟨rfl, rfl, rfl, rfl⟩

theorem Scan_Token_delimit_setup (ext : Ext) (b : Buf) (ss : SCAN_STATE) (mold : List Nat)
    (cp : Nat) : sameSetup ss (Scan_Token_delimit ext b ss mold cp).2.1 := by
  unfold Scan_Token_delimit
  dsimp only
  apply setup_ite
  · exact delimit_comment_setup b ss mold cp
  apply setup_ite
  · exact ⟨rfl, rfl, rfl, rfl⟩
  apply setup_ite
  · exact ⟨rfl, rfl, rfl, rfl⟩
  apply setup_ite
  · exact ⟨rfl, rfl, rfl, rfl⟩
  apply setup_ite
  · exact ⟨rfl, rfl, rfl, rfl⟩
  apply setup_ite
  · exact ⟨rfl, rfl, rfl, rfl⟩
  apply setup_ite
  · exact ⟨rfl, rfl, rfl, rfl⟩
  apply setup_ite
  · exact delimit_quote_setup ext b ss cp
  apply setup_ite
  · exact ⟨rfl, rfl, rfl, rfl⟩
  apply setup_ite
  · exact delimit_slash_setup b ss mold cp
  apply setup_ite
  · exact ⟨rfl, rfl, rfl, rfl⟩
  · exact ⟨rfl, rfl, rfl, rfl⟩

/-- `Scan_Token` changes only `begin`, `end` and `line_count`. -/
theorem Scan_Token_setup (ext : Ext) (b : Buf) (ss : SCAN_STATE) (mold : List Nat) :
    sameSetup ss (Scan_Token ext b ss mold).2.1 := by
  have hp := Prescan_setup b ss
  unfold Scan_Token
  dsimp only
  apply setup_ite
  · exact sameSetup_trans hp (Scan_Token_delimit_setup ext b _ mold _)
  apply setup_ite
  · apply setup_ite
    · exact hp
    · exact sameSetup_trans hp (next_ls_setup ext b mold 2 _ _ _)
  apply setup_ite
  · apply setup_ite
    · exact hp
    · exact sameSetup_trans hp (scanword_setup b _ _ _ _)
  · exact sameSetup_trans hp (num_setup ext b _ mold _ _)

/-! ## One round of the block scanner -/

theorem Scan_Block_loop_succ (ext : Ext) (b : Buf) (fuel : Nat) (fr : Frame) (g : G) :
    Scan_Block_loop ext b (fuel + 1) fr g =
      match Scan_Block_body ext b (fun g1 m => Scan_Block ext b fuel g1 m) fr g with
      | .again g1 => Scan_Block_loop ext b fuel fr g1
      | .done r => r := rfl

theorem Scan_Block_loop_again (ext : Ext) (b : Buf) (fuel : Nat) (fr : Frame) (g g1 : G)
    (h : Scan_Block_body ext b (fun g1 m => Scan_Block ext b fuel g1 m) fr g = .again g1) :
    Scan_Block_loop ext b (fuel + 1) fr g = Scan_Block_loop ext b fuel fr g1 := by
  rw [Scan_Block_loop_succ, h]

theorem Scan_Block_loop_done (ext : Ext) (b : Buf) (fuel : Nat) (fr : Frame) (g : G)
    (r : Result (List REBVAL × G))
    (h : Scan_Block_body ext b (fun g1 m => Scan_Block ext b fuel g1 m) fr g = .done r) :
    Scan_Block_loop ext b (fuel + 1) fr g = r := by
  rw [Scan_Block_loop_succ, h]

/-- A round that meets the end of the input. -/
theorem body_eof (ext : Ext) (b : Buf) (rec : G → Nat → Result (List REBVAL × G)) (fr : Frame)
    (g : G) (ss : SCAN_STATE) (mold : List Nat)
    (h : Scan_Token ext b g.ss g.mold = (TOKEN_EOF, ss, mold)) :
    Scan_Block_body ext b rec fr g =
      .done (if fr.mode_char = 93 ∨ fr.mode_char = 41 then
          missing_error b fr { g with ss := ss, mold := mold } TOKEN_EOF
        else .ok (exit_block fr { g with ss := ss, mold := mold })) := by
  unfold Scan_Block_body
  simp only [h, if_true]
  split <;> rfl

/-- A round whose token is negative. -/
theorem body_negative (ext : Ext) (b : Buf) (rec : G → Nat → Result (List REBVAL × G))
    (fr : Frame) (g : G) (h : (Scan_Token ext b g.ss g.mold).1 < 0) :
    Scan_Block_body ext b rec fr g =
      .done (syntax_error b fr
        { g with ss := ACCEPT_TOKEN (Scan_Token ext b g.ss g.mold).2.1,
                 mold := (Scan_Token ext b g.ss g.mold).2.2 }
        (-(Scan_Token ext b g.ss g.mold).1)
        (Scan_Token ext b g.ss g.mold).2.1.begin (Scan_Token ext b g.ss g.mold).2.1.end_) := by
  have hne : (Scan_Token ext b g.ss g.mold).1 ≠ TOKEN_EOF := by
    intro h0
    rw [h0] at h
    exact absurd h (by decide)
  unfold Scan_Block_body
  simp only [hne, h, if_true, if_false]

/-- A round that is neither at the end of input, nor an error token, nor the
start of a path, nor a `/` inside a path goes through the token switch. -/
theorem body_switch (ext : Ext) (b : Buf) (rec : G → Nat → Result (List REBVAL × G))
    (fr : Frame) (g : G) (token : Int) (ss : SCAN_STATE) (mold : List Nat)
    (h : Scan_Token ext b g.ss g.mold = (token, ss, mold))
    (h0 : token ≠ TOKEN_EOF) (h1 : ¬ token < 0)
    (h2 : ¬ (fr.mode_char = 47 ∧ rd b ss.begin = 47))
    (h3 : ¬ ((token = TOKEN_PATH
              ∨ ((token = TOKEN_WORD ∨ token = TOKEN_LIT ∨ token = TOKEN_GET)
                  ∧ rd b ss.end_ = 47)) ∧ fr.mode_char ≠ 47)) :
    Scan_Block_body ext b rec fr g =
      after_switch b fr
        (Scan_Block_switch ext b rec fr { g with ss := ACCEPT_TOKEN ss, mold := mold } token
          ss.begin ss.end_ (ss.end_ - ss.begin)) := by
  unfold Scan_Block_body
  simp only [h, h0, h1, h2, h3, if_false]

/-! ## The frame guarantee of the block scanner -/

theorem sameFlags_refl (g : G) : sameFlags g g := ⟨rfl, rfl⟩

theorem sameFlags_trans {g g1 g2 : G} (h1 : sameFlags g g1) (h2 : sameFlags g1 g2) :
    sameFlags g g2 := ⟨h2.1.trans h1.1, h2.2.trans h1.2⟩

theorem FrameOK_exit {ext : Ext} (fr : Frame) (g0 g : G) (one : Prop) (l : List REBVAL)
    (hle : fr.begin ≤ g0.emit.length) (he : g.emit = g0.emit ++ l) (hf : sameFlags g0 g)
    (hl : ∀ v ∈ l.dropLast, Good ext v) (hone : one → l.length ≤ 1) :
    FrameOK ext fr g0 one (.ok (exit_block fr g)) := by
  unfold exit_block FrameOK
  refine ⟨?_, hf, l, ?_, hl, hone⟩
  · simp only [he]
    rw [List.take_append_of_le_length hle]
  · simp only [he]
    rw [List.drop_append_of_le_length hle]

theorem FrameOK_error {ext : Ext} (b : Buf) (fr : Frame) (g0 g : G) (one : Prop) (l : List REBVAL)
    (errnum : ERRNUM) (token : Int) (arg : List Nat)
    (hle : fr.begin ≤ g0.emit.length) (he : g.emit = g0.emit ++ l) (hf : sameFlags g0 g)
    (hl : ∀ v ∈ l, Good ext v) (hone : one → l = []) :
    FrameOK ext fr g0 one (scan_error_exit b fr g errnum token arg) := by
  unfold scan_error_exit
  dsimp only
  split
  · apply FrameOK_exit fr g0 _ one (l ++ [(Scan_Error b errnum g.ss token arg).2]) hle
    · simp [he]
    · exact ⟨hf.1, hf.2⟩
    · intro v hv
      rw [List.dropLast_concat] at hv
      exact hl v hv
    · intro h1
      simp [hone h1]
  · trivial

theorem StepOK_syntax_error {ext : Ext} (b : Buf) (fr : Frame) (g0 g : G) (token : Int) (bp ep : Nat)
    (he : g.emit = g0.emit) (hf : sameFlags g0 g) :
    StepOK ext fr g0 (.done (syntax_error b fr g token bp ep)) := by
  intro hle
  exact FrameOK_error b fr g0 g _ [] _ _ _ hle (by simp [he]) hf (by simp) (fun _ => rfl)

theorem StepOK_extra_error {ext : Ext} (b : Buf) (fr : Frame) (g0 g : G) (token : Int) (m : Nat)
    (he : g.emit = g0.emit) (hf : sameFlags g0 g) :
    StepOK ext fr g0 (.done (extra_error b fr g token m)) := by
  intro hle
  exact FrameOK_error b fr g0 g _ [] _ _ _ hle (by simp [he]) hf (by simp) (fun _ => rfl)

theorem StepOK_missing_error {ext : Ext} (b : Buf) (fr : Frame) (g0 g : G) (token : Int)
    (he : g.emit = g0.emit) (hf : sameFlags g0 g) :
    StepOK ext fr g0 (.done (missing_error b fr g token)) := by
  intro hle
  exact FrameOK_error b fr g0 _ _ [] _ _ _ hle (by simp [he]) hf (by simp) (fun _ => rfl)

theorem StepOK_exit {ext : Ext} (fr : Frame) (g0 g : G) (l : List REBVAL)
    (he : g.emit = g0.emit ++ l) (hf : sameFlags g0 g) (hl : l.length ≤ 1) :
    StepOK ext fr g0 (.done (.ok (exit_block fr g))) := by
  intro hle
  apply FrameOK_exit fr g0 g _ l hle he hf _ (fun _ => hl)
  intro v hv
  have : l.dropLast = [] := by
    rcases l with _ | ⟨a, _ | ⟨c, t⟩⟩
    · rfl
    · rfl
    · simp at hl
  rw [this] at hv
  exact absurd hv (List.not_mem_nil v)

/-- The end of a round that appends a value which is not an error. -/
theorem StepOK_finish {ext : Ext} (b : Buf) (fr : Frame) (g0 g : G) (v : REBVAL) (token : Int) (bp ep : Nat)
    (he : g.emit = g0.emit) (hf : sameFlags g0 g) (hv : Good ext v) :
    StepOK ext fr g0 (finish b fr v token bp ep g) := by
  have hagain : ∀ g1 : G, g1.emit = g0.emit ++ [v] → sameFlags g0 g1 →
      ¬ (g1.ss.opts.SCAN_ONLY = true ∨ fr.just_once = true) → StepOK ext fr g0 (.again g1) := by
    intro g1 h1 h2 h3
    refine ⟨h2, [v], h1, by simp, ?_, ?_⟩
    · intro w hw
      simp at hw
      rw [hw]; exact hv
    · intro _ h4
      exfalso
      apply h3
      rcases h4 with h4 | h4
      · left; rw [h2.1]; exact h4
      · right; exact h4
  unfold finish
  dsimp only
  split
  · exact StepOK_syntax_error b fr g0 g _ _ _ he hf
  split
  · rename_i hm
    split
    · split
      · intro hle
        unfold syntax_error
        apply FrameOK_error b fr g0 _ _ [v] _ _ _ hle
        · show g.emit ++ [v] = g0.emit ++ [v]
          rw [he]
        · exact hf
        · intro w hw
          simp at hw
          rw [hw]; exact hv
        · intro h; exact absurd hm h
      · split
        · exact StepOK_exit fr g0 _ [v] (by simp [he]) hf (by simp)
        · rename_i hno
          exact hagain _ (by simp [he]) hf hno
    · exact StepOK_exit fr g0 _ [v] (by simp [he]) hf (by simp)
  · split
    · exact StepOK_exit fr g0 _ [v] (by simp [he]) hf (by simp)
    · rename_i hno
      exact hagain _ (by simp [he]) hf hno

/-! ### The token switch -/

theorem action_ite {ext : Ext} (g0 : G) (c : Prop) [Decidable c] (x y : Action)
    (hx : ActionOK ext g0 x) (hy : ActionOK ext g0 y) : ActionOK ext g0 (if c then x else y) := by
  split <;> assumption

theorem ActionOK_value {ext : Ext} (g0 g : G) (v : REBVAL) (token : Int) (bp ep : Nat)
    (he : g.emit = g0.emit) (hf : sameFlags g0 g) (hv : VAL_TYPE v ≠ .REB_ERROR) :
    ActionOK ext g0 (.value v token bp ep g) := ⟨he, hf, Or.inl hv⟩

theorem ActionOK_syntax_error {ext : Ext} (g0 g : G) (token : Int) (bp ep : Nat)
    (he : g.emit = g0.emit) (hf : sameFlags g0 g) :
    ActionOK ext g0 (.syntax_error token bp ep g) := ⟨he, hf⟩

theorem word_type_ne_error (token : Int) : word_type token ≠ .REB_ERROR := by
  unfold word_type
  split_ifs <;> decide

theorem built_ne_error (ok : Bool) (t : REB_TYPE) (bytes : List Nat) (ht : t ≠ .REB_ERROR) :
    VAL_TYPE (built ok t bytes) ≠ .REB_ERROR := by
  unfold built
  split
  · exact ht
  · decide

theorem case_word_ok (ext : Ext) (b : Buf) (g0 g : G) (token : Int) (bp ep len : Nat)
    (he : g.emit = g0.emit) (hf : sameFlags g0 g) :
    ActionOK ext g0 (case_word ext b g token bp ep len) := by
  unfold case_word
  dsimp only
  apply action_ite
  · exact ActionOK_syntax_error g0 g _ _ _ he hf
  apply action_ite
  · exact ActionOK_syntax_error g0 g _ _ _ he hf
  · exact ActionOK_value g0 g _ _ _ _ he hf (word_type_ne_error token)

theorem case_set_ok (ext : Ext) (b : Buf) (fr : Frame) (g0 g : G) (token : Int)
    (bp ep len : Nat) (he : g.emit = g0.emit) (hf : sameFlags g0 g) :
    ActionOK ext g0 (case_set ext b fr g token bp ep len) := by
  unfold case_set
  dsimp only
  apply action_ite
  · apply action_ite
    · exact ActionOK_syntax_error g0 g _ _ _ he hf
    · exact case_word_ok ext b g0 _ _ _ _ _ he hf
  · exact case_word_ok ext b g0 g _ _ _ _ he hf

theorem case_lit_get_ok (ext : Ext) (b : Buf) (fr : Frame) (g0 g : G) (token : Int)
    (bp ep len : Nat) (he : g.emit = g0.emit) (hf : sameFlags g0 g) :
    ActionOK ext g0 (case_lit_get ext b fr g token bp ep len) := by
  unfold case_lit_get
  apply action_ite
  · apply action_ite
    · exact ActionOK_syntax_error g0 g _ _ _ he hf
    · exact case_set_ok ext b fr g0 _ _ _ _ _ he hf
  · exact case_set_ok ext b fr g0 g _ _ _ _ he hf

theorem case_refine_ok (ext : Ext) (b : Buf) (g : G) (token : Int) (bp ep len : Nat) :
    ActionOK ext g (case_refine ext b g token bp ep len) := by
  unfold case_refine
  dsimp only
  apply action_ite
  · exact ActionOK_syntax_error g g _ _ _ rfl (sameFlags_refl g)
  · exact ActionOK_value g g _ _ _ _ rfl (sameFlags_refl g) (by simp [VAL_TYPE])

theorem case_issue_ok (ext : Ext) (b : Buf) (g : G) (token : Int) (bp ep len : Nat) :
    ActionOK ext g (case_issue ext b g token bp ep len) := by
  unfold case_issue
  dsimp only
  apply action_ite
  · apply action_ite
    · exact ActionOK_syntax_error g g _ _ _ rfl (sameFlags_refl g)
    · exact ActionOK_value g g _ _ _ _ rfl (sameFlags_refl g) (by simp [VAL_TYPE])
  apply action_ite
  · exact ActionOK_syntax_error g g _ _ _ rfl (sameFlags_refl g)
  · exact ActionOK_value g g _ _ _ _ rfl (sameFlags_refl g) (by simp [VAL_TYPE])

theorem case_block_ok {ext : Ext} (g : G) (token : Int) (bp : Nat) (r : Result (List REBVAL × G))
    (h : ∀ blk g1, r = .ok (blk, g1) → g1.emit = g.emit ∧ sameFlags g g1) :
    ActionOK ext g (case_block token bp r) := by
  unfold case_block
  split
  · rename_i block g1
    have h1 := h block g1 rfl
    apply action_ite
    · exact ⟨h1.2, [block.getLast?.getD .END], by simp [h1.1], by simp⟩
    · refine ActionOK_value g g1 _ _ _ _ h1.1 h1.2 ?_
      simp only [VAL_TYPE]
      split_ifs <;> decide
  · rename_i hno
    intro x hx
    exact hno x.1 x.2 hx

theorem case_end_ok {ext : Ext} (fr : Frame) (g : G) (token : Int) (closer opener : Nat) :
    ActionOK ext g (case_end fr g token closer opener) := by
  unfold case_end
  apply action_ite
  · exact ⟨rfl, sameFlags_refl g⟩
  apply action_ite
  · exact ⟨rfl, sameFlags_refl g⟩
  · exact ⟨sameFlags_refl g, [], by simp, by simp⟩

theorem case_integer_ok (ext : Ext) (b : Buf) (fr : Frame) (g : G) (token : Int)
    (bp ep len : Nat) : ActionOK ext g (case_integer ext b fr g token bp ep len) := by
  unfold case_integer
  dsimp only
  apply action_ite
  · apply action_ite
    · exact ActionOK_value g g _ _ _ _ rfl (sameFlags_refl g) (by simp [VAL_TYPE])
    · exact ActionOK_syntax_error g g _ _ _ rfl (sameFlags_refl g)
  apply action_ite
  · exact ActionOK_value g _ _ _ _ _ rfl (sameFlags_refl g) (by simp [VAL_TYPE])
  · exact ActionOK_syntax_error g _ _ _ _ rfl (sameFlags_refl g)

theorem case_decimal_ok (ext : Ext) (b : Buf) (fr : Frame) (g : G) (token : Int)
    (bp ep len : Nat) : ActionOK ext g (case_decimal ext b fr g token bp ep len) := by
  unfold case_decimal
  apply action_ite
  · exact ActionOK_syntax_error g g _ _ _ rfl (sameFlags_refl g)
  · refine ActionOK_value g g _ _ _ _ rfl (sameFlags_refl g) ?_
    simp only [VAL_TYPE]
    split_ifs <;> decide

theorem case_money_ok (ext : Ext) (b : Buf) (fr : Frame) (g : G) (token : Int)
    (bp ep len : Nat) : ActionOK ext g (case_money ext b fr g token bp ep len) := by
  unfold case_money
  apply action_ite
  · exact ActionOK_syntax_error g g _ _ _ rfl (sameFlags_refl g)
  apply action_ite
  · exact ActionOK_value g g _ _ _ _ rfl (sameFlags_refl g) (by simp [VAL_TYPE])
  · exact ActionOK_syntax_error g g _ _ _ rfl (sameFlags_refl g)

theorem case_time_ok (ext : Ext) (b : Buf) (fr : Frame) (g : G) (token : Int)
    (bp ep len : Nat) : ActionOK ext g (case_time ext b fr g token bp ep len) := by
  unfold case_time
  apply action_ite
  · apply action_ite
    · exact ActionOK_value g _ _ _ _ _ rfl (sameFlags_refl g) (by simp [VAL_TYPE])
    · exact ActionOK_syntax_error g g _ _ _ rfl (sameFlags_refl g)
  apply action_ite
  · exact ActionOK_value g g _ _ _ _ rfl (sameFlags_refl g) (by simp [VAL_TYPE])
  · exact ActionOK_syntax_error g g _ _ _ rfl (sameFlags_refl g)

theorem case_date_ok (ext : Ext) (b : Buf) (fr : Frame) (g : G) (token : Int)
    (bp ep len : Nat) : ActionOK ext g (case_date ext b fr g token bp ep len) := by
  unfold case_date
  dsimp only
  apply action_ite
  · exact ActionOK_value g _ _ _ _ _ rfl (sameFlags_refl g) (by simp [VAL_TYPE])
  · exact ActionOK_syntax_error g _ _ _ _ rfl (sameFlags_refl g)

theorem case_tag_ok (ext : Ext) (b : Buf) (g : G) (token : Int) (bp ep len : Nat) :
    ActionOK ext g (case_tag ext b g token bp ep len) := by
  unfold case_tag
  split
  · exact ActionOK_value g g _ _ _ _ rfl (sameFlags_refl g) (by simp [VAL_TYPE])
  · exact ActionOK_value g g _ _ _ _ rfl (sameFlags_refl g) (by simp [VAL_TYPE])

theorem Scan_Full_Block_ok (rec : G → Nat → Result (List REBVAL × G)) (hrec : CallOK rec)
    (g : G) (m : Nat) (blk : List REBVAL) (g1 : G)
    (h : Scan_Full_Block rec g m = .ok (blk, g1)) : g1.emit = g.emit ∧ sameFlags g g1 := by
  unfold Scan_Full_Block at h
  dsimp only at h
  split at h
  · rename_i block g2 hr
    have h2 := hrec _ _ _ _ hr
    simp only [Result.ok.injEq, Prod.mk.injEq] at h
    obtain ⟨-, rfl⟩ := h
    unfold sameFlags at h2 ⊢
    simp only at h2
    split
    · rename_i ho
      exact ⟨h2.1, ho.symm, h2.2.2⟩
    · rename_i ho
      simp only [Bool.not_eq_true] at ho
      exact ⟨h2.1, by rw [h2.2.1, ho], h2.2.2⟩
  · rename_i hno
    exact absurd h (hno blk g1)

theorem case_construct_ok (ext : Ext) (g : G) (token : Int)
    (bp : Nat) (r : Result (List REBVAL × G))
    (h : ∀ blk g1, r = .ok (blk, g1) → g1.emit = g.emit ∧ sameFlags g g1) :
    ActionOK ext g (case_construct ext token bp r) := by
  unfold case_construct
  split
  · rename_i block g1
    have h1 := h block g1 rfl
    split
    · rename_i v hv
      exact ⟨h1.1, h1.2, Or.inr ⟨_, hv⟩⟩
    · intro x hx
      exact Result.noConfusion hx
  · rename_i hno
    intro x hx
    exact hno x.1 x.2 hx

/-- The token switch keeps the emit buffer and the options. -/
theorem Scan_Block_switch_ok (ext : Ext) (b : Buf)
    (rec : G → Nat → Result (List REBVAL × G)) (hrec : CallOK rec) (fr : Frame) (g : G)
    (token : Int) (bp ep len : Nat) :
    ActionOK ext g (Scan_Block_switch ext b rec fr g token bp ep len) := by
  unfold Scan_Block_switch
  apply action_ite
  · exact ⟨rfl, sameFlags_refl g⟩
  apply action_ite
  · exact case_lit_get_ok ext b fr g g _ _ _ _ rfl (sameFlags_refl g)
  apply action_ite
  · exact case_set_ok ext b fr g g _ _ _ _ rfl (sameFlags_refl g)
  apply action_ite
  · exact case_word_ok ext b g g _ _ _ _ rfl (sameFlags_refl g)
  apply action_ite
  · exact case_refine_ok ext b g _ _ _ _
  apply action_ite
  · exact case_issue_ok ext b g _ _ _ _
  apply action_ite
  · exact case_block_ok g _ _ _ (fun blk g1 h => hrec _ _ _ _ h)
  apply action_ite
  · exact ActionOK_value g g _ _ _ _ rfl (sameFlags_refl g) (by simp [VAL_TYPE])
  apply action_ite
  · exact case_end_ok fr g _ _ _
  apply action_ite
  · exact case_end_ok fr g _ _ _
  apply action_ite
  · exact case_integer_ok ext b fr g _ _ _ _
  apply action_ite
  · exact case_decimal_ok ext b fr g _ _ _ _
  apply action_ite
  · exact case_money_ok ext b fr g _ _ _ _
  apply action_ite
  · exact case_time_ok ext b fr g _ _ _ _
  apply action_ite
  · exact case_date_ok ext b fr g _ _ _ _
  apply action_ite
  · exact ActionOK_value g g _ _ _ _ rfl (sameFlags_refl g) (by simp [case_char, VAL_TYPE])
  apply action_ite
  · exact ActionOK_value g g _ _ _ _ rfl (sameFlags_refl g) (by simp [VAL_TYPE])
  apply action_ite
  · exact ActionOK_value g g _ _ _ _ rfl (sameFlags_refl g) (built_ne_error _ _ _ (by decide))
  apply action_ite
  · exact ActionOK_value g g _ _ _ _ rfl (sameFlags_refl g) (built_ne_error _ _ _ (by decide))
  apply action_ite
  · apply action_ite
    · exact ActionOK_value g g _ _ _ _ rfl (sameFlags_refl g) (by simp [VAL_TYPE])
    · exact ActionOK_syntax_error g g _ _ _ rfl (sameFlags_refl g)
  apply action_ite
  · exact ActionOK_value g g _ _ _ _ rfl (sameFlags_refl g) (built_ne_error _ _ _ (by decide))
  apply action_ite
  · exact ActionOK_value g g _ _ _ _ rfl (sameFlags_refl g) (built_ne_error _ _ _ (by decide))
  apply action_ite
  · exact ActionOK_value g g _ _ _ _ rfl (sameFlags_refl g) (built_ne_error _ _ _ (by decide))
  apply action_ite
  · exact case_tag_ok ext b g _ _ _ _
  apply action_ite
  · exact case_construct_ok ext g _ _ _ (fun blk g1 h => Scan_Full_Block_ok rec hrec _ _ _ _ h)
  apply action_ite
  · exact ⟨rfl, sameFlags_refl g⟩
  · exact ActionOK_value g g _ _ _ _ rfl (sameFlags_refl g) (by simp [VAL_TYPE])

/-- A round keeps its guarantee when it is stated for an earlier state with
the same emit buffer and options. -/
theorem StepOK_of_same {ext : Ext} (fr : Frame) (g0 g : G) (s : Step) (he : g.emit = g0.emit)
    (hf : sameFlags g0 g) (h : StepOK ext fr g s) : StepOK ext fr g0 s := by
  cases s with
  | again g1 =>
    obtain ⟨h1, l, h2, h3, h4, h5⟩ := h
    refine ⟨sameFlags_trans hf h1, l, by rw [h2, he], h3, h4, ?_⟩
    intro hm ho
    apply h5 hm
    rcases ho with ho | ho
    · left; rw [hf.1]; exact ho
    · right; exact ho
  | done r =>
    intro hle
    have h' := h (by rw [he]; exact hle)
    cases r with
    | ok x =>
      obtain ⟨blk, g1⟩ := x
      obtain ⟨h1, h2, l, h3, h4, h5⟩ := h'
      exact ⟨by rw [h1, he], sameFlags_trans hf h2, l, by rw [h3, he], h4, h5⟩
    | thrown e => trivial
    | fuel => trivial

theorem after_switch_ok {ext : Ext} (b : Buf) (fr : Frame) (g : G) (a : Action) (h : ActionOK ext g a) :
    StepOK ext fr g (after_switch b fr a) := by
  cases a with
  | value v token bp ep g1 => exact StepOK_finish b fr g g1 v token bp ep h.1 h.2.1 h.2.2
  | next g1 => exact ⟨h.2, [], by simp [h.1], by simp, by simp, fun _ _ => rfl⟩
  | syntax_error token bp ep g1 => exact StepOK_syntax_error b fr g g1 _ _ _ h.1 h.2
  | missing_error token g1 => exact StepOK_missing_error b fr g g1 _ h.1 h.2
  | extra_error token m g1 => exact StepOK_extra_error b fr g g1 _ _ h.1 h.2
  | exit_block g1 =>
    obtain ⟨h1, l, h2, h3⟩ := h
    exact StepOK_exit fr g g1 l h2 h1 h3
  | stop r =>
    intro _
    cases r with
    | ok x => exact absurd rfl (h x)
    | thrown e => trivial
    | fuel => trivial

theorem new_path_ok {ext : Ext} (b : Buf) (fr : Frame) (g0 g : G) (token : Int) (bp ep : Nat)
    (block : List REBVAL) (he : g.emit = g0.emit) (hf : sameFlags g0 g) :
    StepOK ext fr g0 (new_path b fr token bp ep block g) := by
  unfold new_path
  split
  · split
    · exact StepOK_syntax_error b fr g0 g _ _ _ he hf
    · exact StepOK_finish b fr g0 g _ _ _ _ he hf (Or.inl (by simp [VAL_TYPE]))
  split
  · split
    · exact StepOK_syntax_error b fr g0 g _ _ _ he hf
    · exact StepOK_finish b fr g0 g _ _ _ _ he hf (Or.inl (by simp [VAL_TYPE]))
  split
  · exact StepOK_finish b fr g0 _ _ _ _ _ he hf (Or.inl (by simp [VAL_TYPE]))
  · exact StepOK_finish b fr g0 g _ _ _ _ he hf (Or.inl (by simp [VAL_TYPE]))

theorem path_call_ok {ext : Ext} (b : Buf) (fr : Frame) (g0 : G) (token : Int) (bp ep : Nat)
    (r : Result (List REBVAL × G))
    (h : ∀ blk g1, r = .ok (blk, g1) → g1.emit = g0.emit ∧ sameFlags g0 g1) :
    StepOK ext fr g0 (path_call b fr token bp ep r) := by
  unfold path_call
  cases r with
  | ok x =>
    obtain ⟨blk, g1⟩ := x
    have h1 := h blk g1 rfl
    exact new_path_ok b fr g0 g1 _ _ _ _ h1.1 h1.2
  | thrown e => intro _; trivial
  | fuel => intro _; trivial

/-- A round inside a path whose lexeme starts with `/` appends a none value. -/
theorem body_slash (ext : Ext) (b : Buf) (rec : G → Nat → Result (List REBVAL × G))
    (fr : Frame) (g : G) (token : Int) (ss : SCAN_STATE) (mold : List Nat)
    (h : Scan_Token ext b g.ss g.mold = (token, ss, mold))
    (h0 : token ≠ TOKEN_EOF) (h1 : ¬ token < 0)
    (h2 : fr.mode_char = 47 ∧ rd b ss.begin = 47) :
    Scan_Block_body ext b rec fr g =
      .again { ss := { ss with begin := ss.begin + 1 }, emit := g.emit ++ [.NONE],
               mold := mold } := by
  unfold Scan_Block_body
  simp only [h]
  rw [if_neg h0, if_neg h1, if_pos h2]

/-- A round that starts a path calls the block scanner in path mode. -/
theorem body_path (ext : Ext) (b : Buf) (rec : G → Nat → Result (List REBVAL × G))
    (fr : Frame) (g : G) (token : Int) (ss : SCAN_STATE) (mold : List Nat)
    (h : Scan_Token ext b g.ss g.mold = (token, ss, mold))
    (h0 : token ≠ TOKEN_EOF) (h1 : ¬ token < 0)
    (h2 : ¬ (fr.mode_char = 47 ∧ rd b ss.begin = 47))
    (h3 : (token = TOKEN_PATH
              ∨ ((token = TOKEN_WORD ∨ token = TOKEN_LIT ∨ token = TOKEN_GET)
                  ∧ rd b ss.end_ = 47)) ∧ fr.mode_char ≠ 47) :
    Scan_Block_body ext b rec fr g =
      path_call b fr token ss.begin ss.end_ (rec { g with ss := ss, mold := mold } 47) := by
  unfold Scan_Block_body
  simp only [h]
  rw [if_neg h0, if_neg h1, if_neg h2, if_pos h3]

/-- One round of the block scanner keeps the frame guarantee. -/
theorem Scan_Block_body_ok (ext : Ext) (b : Buf)
    (rec : G → Nat → Result (List REBVAL × G)) (hrec : CallOK rec) (fr : Frame) (g : G) :
    StepOK ext fr g (Scan_Block_body ext b rec fr g) := by
  have hset := (Scan_Token_setup ext b g.ss g.mold).1
  rcases hT : Scan_Token ext b g.ss g.mold with ⟨token, ss, mold⟩
  rw [hT] at hset
  simp only at hset
  have hts : sameFlags g { g with ss := ss, mold := mold } := by
    unfold sameFlags
    simp only [hset, and_self]
  have hta : sameFlags g { g with ss := ACCEPT_TOKEN ss, mold := mold } := by
    unfold sameFlags ACCEPT_TOKEN
    simp only [hset, and_self]
  by_cases h0 : token = TOKEN_EOF
  · subst h0
    rw [body_eof ext b rec fr g ss mold hT]
    split
    · exact StepOK_missing_error b fr g _ _ rfl hts
    · exact StepOK_exit fr g _ [] (by simp) hts (by simp)
  by_cases h1 : token < 0
  · have hneg : (Scan_Token ext b g.ss g.mold).1 < 0 := by rw [hT]; exact h1
    rw [body_negative ext b rec fr g hneg]
    simp only [hT]
    exact StepOK_syntax_error b fr g _ _ _ _ rfl hta
  by_cases h2 : fr.mode_char = 47 ∧ rd b ss.begin = 47
  · rw [body_slash ext b rec fr g token ss mold hT h0 h1 h2]
    refine ⟨?_, [.NONE], rfl, by simp, ?_, ?_⟩
    · unfold sameFlags
      simp only [hset, and_self]
    · intro v hv
      simp at hv
      rw [hv]
      exact Or.inl (by simp [VAL_TYPE])
    · intro h3
      exact absurd h2.1 h3
  by_cases h3 : (token = TOKEN_PATH
              ∨ ((token = TOKEN_WORD ∨ token = TOKEN_LIT ∨ token = TOKEN_GET)
                  ∧ rd b ss.end_ = 47)) ∧ fr.mode_char ≠ 47
  · rw [body_path ext b rec fr g token ss mold hT h0 h1 h2 h3]
    apply path_call_ok
    intro blk g1 hr
    have h4 := hrec _ _ _ _ hr
    exact ⟨h4.1, sameFlags_trans hts h4.2⟩
  · rw [body_switch ext b rec fr g token ss mold hT h0 h1 h2 h3]
    apply StepOK_of_same fr g { g with ss := ACCEPT_TOKEN ss, mold := mold } _ rfl hta
    exact after_switch_ok b fr _ _ (Scan_Block_switch_ok ext b rec hrec fr _ _ _ _ _)

theorem enter_emit (g : G) (m : Nat) :
    (enter g m).2.emit = g.emit ∧ (enter g m).1.begin = g.emit.length
      ∧ sameFlags g (enter g m).2 ∧ (enter g m).1.mode_char = m
      ∧ (enter g m).1.just_once = g.ss.opts.SCAN_NEXT := by
  unfold enter sameFlags
  dsimp only
  split <;> simp

theorem mem_dropLast_append (l l1 : List REBVAL) (v : REBVAL) (h : v ∈ (l ++ l1).dropLast) :
    v ∈ l ∨ v ∈ l1.dropLast := by
  by_cases h1 : l1 = []
  · subst h1
    rw [List.append_nil] at h
    exact Or.inl (List.mem_of_mem_dropLast h)
  · rw [List.dropLast_append_of_ne_nil _ h1] at h
    exact List.mem_append.1 h

/-- The frame guarantee of the loop of `Scan_Block`, for every amount of
fuel. -/
theorem Scan_Block_loop_ok (ext : Ext) (b : Buf) (fuel : Nat) :
    ∀ (fr : Frame) (g : G), fr.begin ≤ g.emit.length →
      FrameOK ext fr g (fr.mode_char ≠ 47 ∧ (g.ss.opts.SCAN_ONLY = true ∨ fr.just_once = true))
        (Scan_Block_loop ext b fuel fr g) := by
  induction fuel with
  | zero => intro fr g _; trivial
  | succ fuel ih =>
    intro fr g hle
    have hrec : CallOK (fun g1 m => Scan_Block ext b fuel g1 m) := by
      intro g0 m blk g1 hr
      have he := enter_emit g0 m
      have h1 := ih (enter g0 m).1 (enter g0 m).2 (by rw [he.1, he.2.1])
      have hr' : Scan_Block_loop ext b fuel (enter g0 m).1 (enter g0 m).2 = .ok (blk, g1) := hr
      rw [hr'] at h1
      obtain ⟨h2, h3, -⟩ := h1
      refine ⟨?_, sameFlags_trans he.2.2.1 h3⟩
      rw [h2, he.1, he.2.1, List.take_length]
    have hb := Scan_Block_body_ok ext b _ hrec fr g
    rw [Scan_Block_loop_succ]
    cases hbody : Scan_Block_body ext b (fun g1 m => Scan_Block ext b fuel g1 m) fr g with
    | again g1 =>
      rw [hbody] at hb
      obtain ⟨hf, l, he, hl1, hl2, hl3⟩ := hb
      have hle1 : fr.begin ≤ g1.emit.length := by
        rw [he, List.length_append]; omega
      have h1 := ih fr g1 hle1
      show FrameOK ext fr g _ (Scan_Block_loop ext b fuel fr g1)
      cases hr : Scan_Block_loop ext b fuel fr g1 with
      | ok x =>
        obtain ⟨blk, g2⟩ := x
        rw [hr] at h1
        obtain ⟨h2, h3, l1, h4, h5, h6⟩ := h1
        refine ⟨?_, sameFlags_trans hf h3, l ++ l1, ?_, ?_, ?_⟩
        · rw [h2, he, List.take_append_of_le_length hle]
        · rw [h4, he, List.drop_append_of_le_length hle, List.append_assoc]
        · intro v hv
          rcases mem_dropLast_append l l1 v hv with h | h
          · exact hl2 v h
          · exact h5 v h
        · intro hone
          have hnil := hl3 hone.1 hone.2
          rw [hnil, List.nil_append]
          apply h6
          refine ⟨hone.1, ?_⟩
          rcases hone.2 with h | h
          · left; rw [hf.1]; exact h
          · right; exact h
      | thrown e => trivial
      | fuel => trivial
    | done r =>
      rw [hbody] at hb
      have h1 := hb hle
      show FrameOK ext fr g _ r
      cases r with
      | ok x =>
        obtain ⟨blk, g2⟩ := x
        obtain ⟨h2, h3, l1, h4, h5, h6⟩ := h1
        exact ⟨h2, h3, l1, h4, h5, fun hone => h6 hone.1⟩
      | thrown e => trivial
      | fuel => trivial

theorem scan_error_exit_reports (b : Buf) (fr : Frame) (g : G) (errnum : ERRNUM) (token : Int)
    (arg : List Nat) (hle : fr.begin ≤ g.emit.length) :
    scan_error_exit b fr g errnum token arg =
      reports fr g.emit g.ss g.mold
        (.error errnum g.ss.line_count (error_line b g.ss.head_line) token arg) := by
  unfold scan_error_exit reports Scan_Error exit_block error_line
  dsimp only
  split
  · rw [List.drop_append_of_le_length hle, List.take_append_of_le_length hle]
  · rfl

theorem missing_ite (c : Prop) [Decidable c] (x y : Action) (hx : isMissing x = false)
    (hy : isMissing y = false) : isMissing (if c then x else y) = false := by
  split <;> assumption

theorem case_word_not_missing (ext : Ext) (b : Buf) (g : G) (token : Int) (bp ep len : Nat) :
    isMissing (case_word ext b g token bp ep len) = false := by
  unfold case_word
  dsimp only
  repeat' (with_reducible apply missing_ite)
  all_goals rfl

theorem case_set_not_missing (ext : Ext) (b : Buf) (fr : Frame) (g : G) (token : Int)
    (bp ep len : Nat) : isMissing (case_set ext b fr g token bp ep len) = false := by
  unfold case_set
  dsimp only
  repeat' (with_reducible apply missing_ite)
  · rfl
  · exact case_word_not_missing ext b _ _ _ _ _
  · exact case_word_not_missing ext b _ _ _ _ _

theorem case_lit_get_not_missing (ext : Ext) (b : Buf) (fr : Frame) (g : G) (token : Int)
    (bp ep len : Nat) : isMissing (case_lit_get ext b fr g token bp ep len) = false := by
  unfold case_lit_get
  repeat' (with_reducible apply missing_ite)
  · rfl
  · exact case_set_not_missing ext b fr _ _ _ _ _
  · exact case_set_not_missing ext b fr _ _ _ _ _

theorem case_refine_not_missing (ext : Ext) (b : Buf) (g : G) (token : Int) (bp ep len : Nat) :
    isMissing (case_refine ext b g token bp ep len) = false := by
  unfold case_refine
  dsimp only
  repeat' (with_reducible apply missing_ite)
  all_goals rfl

theorem case_issue_not_missing (ext : Ext) (b : Buf) (g : G) (token : Int) (bp ep len : Nat) :
    isMissing (case_issue ext b g token bp ep len) = false := by
  unfold case_issue
  dsimp only
  repeat' (with_reducible apply missing_ite)
  all_goals rfl

theorem case_block_not_missing (token : Int) (bp : Nat) (r : Result (List REBVAL × G)) :
    isMissing (case_block token bp r) = false := by
  unfold case_block
  split
  · with_reducible apply missing_ite
    · rfl
    · rfl
  · rfl

theorem case_integer_not_missing (ext : Ext) (b : Buf) (fr : Frame) (g : G) (token : Int)
    (bp ep len : Nat) : isMissing (case_integer ext b fr g token bp ep len) = false := by
  unfold case_integer
  dsimp only
  repeat' (with_reducible apply missing_ite)
  all_goals rfl

theorem case_decimal_not_missing (ext : Ext) (b : Buf) (fr : Frame) (g : G) (token : Int)
    (bp ep len : Nat) : isMissing (case_decimal ext b fr g token bp ep len) = false := by
  unfold case_decimal
  repeat' (with_reducible apply missing_ite)
  all_goals rfl

theorem case_money_not_missing (ext : Ext) (b : Buf) (fr : Frame) (g : G) (token : Int)
    (bp ep len : Nat) : isMissing (case_money ext b fr g token bp ep len) = false := by
  unfold case_money
  repeat' (with_reducible apply missing_ite)
  all_goals rfl

theorem case_time_not_missing (ext : Ext) (b : Buf) (fr : Frame) (g : G) (token : Int)
    (bp ep len : Nat) : isMissing (case_time ext b fr g token bp ep len) = false := by
  unfold case_time
  repeat' (with_reducible apply missing_ite)
  all_goals rfl

theorem case_date_not_missing (ext : Ext) (b : Buf) (fr : Frame) (g : G) (token : Int)
    (bp ep len : Nat) : isMissing (case_date ext b fr g token bp ep len) = false := by
  unfold case_date
  dsimp only
  repeat' (with_reducible apply missing_ite)
  all_goals rfl

theorem case_tag_not_missing (ext : Ext) (b : Buf) (g : G) (token : Int) (bp ep len : Nat) :
    isMissing (case_tag ext b g token bp ep len) = false := by
  unfold case_tag
  split <;> rfl

theorem case_construct_not_missing (ext : Ext) (token : Int) (bp : Nat)
    (r : Result (List REBVAL × G)) : isMissing (case_construct ext token bp r) = false := by
  unfold case_construct
  split
  · split <;> rfl
  · rfl

theorem Scan_Block_switch_not_missing (ext : Ext) (b : Buf)
    (rec : G → Nat → Result (List REBVAL × G)) (fr : Frame) (g : G) (token : Int)
    (bp ep len : Nat) (h1 : token ≠ TOKEN_BLOCK_END) (h2 : token ≠ TOKEN_PAREN_END) :
    isMissing (Scan_Block_switch ext b rec fr g token bp ep len) = false := by
  unfold Scan_Block_switch
  rw [if_neg h1, if_neg h2]
  apply missing_ite
  · rfl
  apply missing_ite
  · exact case_lit_get_not_missing ext b fr g _ _ _ _
  apply missing_ite
  · exact case_set_not_missing ext b fr g _ _ _ _
  apply missing_ite
  · exact case_word_not_missing ext b g _ _ _ _
  apply missing_ite
  · exact case_refine_not_missing ext b g _ _ _ _
  apply missing_ite
  · exact case_issue_not_missing ext b g _ _ _ _
  apply missing_ite
  · exact case_block_not_missing _ _ _
  apply missing_ite
  · rfl
  apply missing_ite
  · exact case_integer_not_missing ext b fr g _ _ _ _
  apply missing_ite
  · exact case_decimal_not_missing ext b fr g _ _ _ _
  apply missing_ite
  · exact case_money_not_missing ext b fr g _ _ _ _
  apply missing_ite
  · exact case_time_not_missing ext b fr g _ _ _ _
  apply missing_ite
  · exact case_date_not_missing ext b fr g _ _ _ _
  apply missing_ite
  · rfl
  apply missing_ite
  · rfl
  apply missing_ite
  · rfl
  apply missing_ite
  · rfl
  apply missing_ite
  · apply missing_ite <;> rfl
  apply missing_ite
  · rfl
  apply missing_ite
  · rfl
  apply missing_ite
  · rfl
  apply missing_ite
  · exact case_tag_not_missing ext b g _ _ _ _
  apply missing_ite
  · exact case_construct_not_missing ext _ _ _
  apply missing_ite
  · rfl
  · rfl

/-- The switch at a closing bracket token. -/
theorem Scan_Block_switch_end (ext : Ext) (b : Buf)
    (rec : G → Nat → Result (List REBVAL × G)) (fr : Frame) (g : G) (token : Int)
    (bp ep len : Nat) (h : token = TOKEN_BLOCK_END ∨ token = TOKEN_PAREN_END) :
    Scan_Block_switch ext b rec fr g token bp ep len =
      case_end fr g token (if token = TOKEN_BLOCK_END then 93 else 41)
        (if token = TOKEN_BLOCK_END then 91 else 40) := by
  unfold Scan_Block_switch
  rcases h with h | h <;> subst h <;> simp +decide

theorem rd_add_of_drop (b l : Buf) (p i : Nat) (h : b.drop p = l) : rd b (p + i) = rd l i := by
  subst h
  unfold rd
  simp [List.getD_eq_getElem?_getD, List.getElem?_drop]

theorem rd_append_left (w l : Buf) (i : Nat) (h : i < w.length) : rd (w ++ l) i = rd w i := by
  unfold rd
  simp [List.getD_eq_getElem?_getD, List.getElem?_append_left h]

theorem rd_append_right (w l : Buf) (i : Nat) : rd (w ++ l) (w.length + i) = rd l i := by
  unfold rd
  simp [List.getD_eq_getElem?_getD, List.getElem?_append_right]

theorem rd_mem (w : Buf) (i : Nat) (h : i < w.length) : rd w i ∈ w := by
  unfold rd
  rw [List.getD_eq_getElem _ _ h]
  exact List.getElem_mem h

theorem slice_of_drop (b w l : Buf) (p : Nat) (h : b.drop p = w ++ l) :
    slice b p (p + w.length) = w := by
  unfold slice
  rw [Nat.add_sub_cancel_left]
  apply List.ext_getElem
  · simp
  · intro i h1 h2
    simp only [List.length_map, List.length_range] at h1
    simp only [List.getElem_map, List.getElem_range]
    rw [rd_add_of_drop b _ p i h, rd_append_left w l i h1]
    unfold rd
    rw [List.getD_eq_getElem _ _ h1]

theorem drop_add_of_drop (b w l : Buf) (p : Nat) (h : b.drop p = w ++ l) :
    b.drop (p + w.length) = l := by
  rw [← List.drop_drop, h, List.drop_left]

theorem alpha_not_special_byte (c : Nat) (h : isAlpha c = true) :
    c ≠ 47 ∧ c ≠ 41 ∧ c ≠ 93 ∧ c ≠ 59 ∧ c ≠ 58 ∧ c ≠ 0 := by
  have := alpha_range c h
  omega

/-- The switch at a word token whose bytes `Make_Word` accepts. -/
theorem Scan_Block_switch_word (ext : Ext) (b : Buf) (rec : G → Nat → Result (List REBVAL × G))
    (fr : Frame) (g : G) (bp ep len : Nat) (hl : len ≠ 0)
    (hs : ext.Make_Word (slice b bp (bp + len)) ≠ 0) :
    Scan_Block_switch ext b rec fr g TOKEN_WORD bp ep len =
      .value (.word .REB_WORD (ext.Make_Word (slice b bp (bp + len)))) TOKEN_WORD bp ep g := by
  unfold Scan_Block_switch
  simp +decide [case_word, hl, hs, word_type]

/-- A round of a path frame at a word that is followed by `/` and a letter. -/
theorem path_round_word (ext : Ext) (b : Buf) (rec : G → Nat → Result (List REBVAL × G))
    (fr : Frame) (g : G) (w tl : Buf)
    (hm : fr.mode_char = 47) (hj : fr.just_once = false) (ho : g.ss.opts.SCAN_ONLY = false)
    (hb : b.drop g.ss.begin = w ++ 47 :: tl) (hw : isSimpleWord w)
    (hs : ext.Make_Word w ≠ 0) (hc : isAlpha (rd tl 0) = true) :
    Scan_Block_body ext b rec fr g =
      .again { ss := { g.ss with begin := g.ss.begin + w.length + 1,
                                 end_ := g.ss.begin + w.length },
               emit := g.emit ++ [.word .REB_WORD (ext.Make_Word w)], mold := g.mold } := by
  have hpos : 0 < w.length := List.length_pos.mpr hw.1
  have hal : ∀ i, i < w.length → isAlpha (rd b (g.ss.begin + i)) = true := by
    intro i hi
    rw [rd_add_of_drop b _ _ i hb, rd_append_left w _ i hi]
    exact hw.2 _ (rd_mem w i hi)
  have h47 : rd b (g.ss.begin + w.length) = 47 := by
    rw [rd_add_of_drop b _ _ _ hb]
    have := rd_append_right w (47 :: tl) 0
    rw [Nat.add_zero] at this
    rw [this]
    rfl
  have hnext : rd b (g.ss.begin + w.length + 1) = rd tl 0 := by
    rw [Nat.add_assoc, rd_add_of_drop b _ _ _ hb, rd_append_right w (47 :: tl) 1]
    rfl
  have hT := word_token ext b g.ss g.mold w.length hpos hal (by rw [h47]; decide)
  have h0 := hal 0 hpos
  rw [Nat.add_zero] at h0
  have hn0 := alpha_not_special_byte _ h0
  rw [body_switch ext b rec fr g TOKEN_WORD _ _ hT (by decide) (by decide)
    (fun h => hn0.1 h.2) (fun h => h.2 hm)]
  have hlen : g.ss.begin + w.length - g.ss.begin = w.length := Nat.add_sub_cancel_left _ _
  have hsl := slice_of_drop b w _ g.ss.begin hb
  dsimp only
  rw [hlen, Scan_Block_switch_word ext b rec fr _ _ _ _ (Nat.pos_iff_ne_zero.mp hpos)
    (by rw [hsl]; exact hs), hsl]
  have hn1 := alpha_not_special_byte _ hc
  have hsp := (alpha_class _ hc).2.2.2
  simp only [after_switch, finish, VAL_TYPE, hm, h47, hnext, hn1.1, hn1.2.1, hn1.2.2.1,
    hn1.2.2.2.1, hsp, ACCEPT_TOKEN, ho, hj, if_true, if_false, or_self, reduceCtorEq,
    Bool.false_eq_true]

/-- A round of a path frame at the last word, which is followed by `:` and
the end of the input. -/
theorem path_round_last (ext : Ext) (b : Buf) (rec : G → Nat → Result (List REBVAL × G))
    (fr : Frame) (g : G) (w : Buf) (hm : fr.mode_char = 47)
    (hb : b.drop g.ss.begin = w ++ [58]) (hw : isSimpleWord w) (hs : ext.Make_Word w ≠ 0) :
    Scan_Block_body ext b rec fr g =
      .done (.ok (exit_block fr
        { ss := { g.ss with begin := g.ss.begin + w.length + 1,
                            end_ := g.ss.begin + w.length },
          emit := g.emit ++ [.word .REB_WORD (ext.Make_Word w)], mold := g.mold })) := by
  have hpos : 0 < w.length := List.length_pos.mpr hw.1
  have hal : ∀ i, i < w.length → isAlpha (rd b (g.ss.begin + i)) = true := by
    intro i hi
    rw [rd_add_of_drop b _ _ i hb, rd_append_left w _ i hi]
    exact hw.2 _ (rd_mem w i hi)
  have h58 : rd b (g.ss.begin + w.length) = 58 := by
    rw [rd_add_of_drop b _ _ _ hb]
    have := rd_append_right w [58] 0
    rw [Nat.add_zero] at this
    rw [this]
    rfl
  have hnext : rd b (g.ss.begin + w.length + 1) = 0 := by
    rw [Nat.add_assoc, rd_add_of_drop b _ _ _ hb, rd_append_right w [58] 1]
    rfl
  have hT := set_word_token ext b g.ss g.mold w.length hpos hal h58 (by rw [hnext]; decide)
    (by rw [hnext]; decide)
  have h0 := hal 0 hpos
  rw [Nat.add_zero] at h0
  have hn0 := alpha_not_special_byte _ h0
  rw [body_switch ext b rec fr g TOKEN_SET _ _ hT (by decide) (by decide)
    (fun h => hn0.1 h.2) (fun h => h.2 hm)]
  have hlen : g.ss.begin + w.length + 1 - g.ss.begin - 1 = w.length := by omega
  have hsl := slice_of_drop b w _ g.ss.begin hb
  have hsw : Scan_Block_switch ext b rec fr
      { ss := ACCEPT_TOKEN { g.ss with end_ := g.ss.begin + w.length + 1 }, emit := g.emit,
        mold := g.mold } TOKEN_SET g.ss.begin (g.ss.begin + w.length + 1)
        (g.ss.begin + w.length + 1 - g.ss.begin) =
      .value (.word .REB_WORD (ext.Make_Word w)) TOKEN_WORD g.ss.begin
        (g.ss.begin + w.length + 1)
        { ss := { g.ss with begin := g.ss.begin + w.length + 1,
                            end_ := g.ss.begin + w.length },
          emit := g.emit, mold := g.mold } := by
    unfold Scan_Block_switch
    simp +decide [case_set, case_word, hm, hnext, hlen, hsl, hs, word_type, ACCEPT_TOKEN,
      Nat.pos_iff_ne_zero.mp hpos]
  dsimp only
  rw [hsw]
  simp only [after_switch, finish, VAL_TYPE, hm, hnext, if_true, if_false, reduceCtorEq]

theorem pathText_cons (w : Buf) (rest : List Buf) : ∃ tl, pathText (w :: rest) = w ++ tl := by
  cases rest with
  | nil => exact ⟨[58], rfl⟩
  | cons w1 rest1 => exact ⟨47 :: pathText (w1 :: rest1), rfl⟩

theorem pathText_head_alpha (w : Buf) (rest : List Buf) (hw : isSimpleWord w) :
    isAlpha (rd (pathText (w :: rest)) 0) = true := by
  obtain ⟨tl, h⟩ := pathText_cons w rest
  have hpos : 0 < w.length := List.length_pos.mpr hw.1
  rw [h, rd_append_left w tl 0 hpos]
  exact hw.2 _ (rd_mem w 0 hpos)

/-- The path frame scans the words of `w1/.../wn:` and returns them. -/
theorem path_frame_loop (ext : Ext) (b : Buf) :
    ∀ (ws : List Buf), ws ≠ [] → (∀ w ∈ ws, isSimpleWord w ∧ ext.Make_Word w ≠ 0) →
    ∀ (k : Nat) (fr : Frame) (g : G), fr.mode_char = 47 → fr.just_once = false →
      g.ss.opts.SCAN_ONLY = false → b.drop g.ss.begin = pathText ws →
      Scan_Block_loop ext b (ws.length + k) fr g =
        .ok (exit_block fr
          { ss := { g.ss with begin := g.ss.begin + (pathText ws).length,
                              end_ := g.ss.begin + (pathText ws).length - 1 },
            emit := g.emit ++ ws.map (fun w => .word .REB_WORD (ext.Make_Word w)),
            mold := g.mold }) := by
  intro ws
  induction ws with
  | nil => intro h; exact absurd rfl h
  | cons w rest ih =>
    intro _ hall k fr g hm hj ho hb
    have hw := hall w (List.mem_cons_self _ _)
    cases rest with
    | nil =>
      have hf : [w].length + k = k + 1 := by simp [Nat.add_comm]
      rw [hf, Scan_Block_loop_done ext b k fr g _
        (path_round_last ext b _ fr g w hm hb hw.1 hw.2)]
      have hl : (pathText [w]).length = w.length + 1 := by simp [pathText]
      simp only [hl, List.map_cons, List.map_nil, ← Nat.add_assoc, Nat.add_sub_cancel]
    | cons w1 rest1 =>
      have hall1 : ∀ x ∈ w1 :: rest1, isSimpleWord x ∧ ext.Make_Word x ≠ 0 :=
        fun x hx => hall x (List.mem_cons_of_mem _ hx)
      have hb1 : b.drop g.ss.begin = w ++ 47 :: pathText (w1 :: rest1) := hb
      have hf : (w :: w1 :: rest1).length + k = (w1 :: rest1).length + k + 1 := by
        simp only [List.length_cons]
        omega
      rw [hf, Scan_Block_loop_again ext b _ fr g _
        (path_round_word ext b _ fr g w _ hm hj ho hb1 hw.1 hw.2
          (pathText_head_alpha w1 rest1 (hall1 w1 (List.mem_cons_self _ _)).1))]
      have hd : b.drop (g.ss.begin + w.length + 1) = pathText (w1 :: rest1) := by
        have h2 : b.drop g.ss.begin = (w ++ [47]) ++ pathText (w1 :: rest1) := by
          rw [hb1]
          simp
        have h3 := drop_add_of_drop b (w ++ [47]) _ g.ss.begin h2
        rw [List.length_append, List.length_singleton, ← Nat.add_assoc] at h3
        exact h3
      rw [ih (List.cons_ne_nil _ _) hall1 k fr
        { ss := { g.ss with begin := g.ss.begin + w.length + 1,
                            end_ := g.ss.begin + w.length },
          emit := g.emit ++ [.word .REB_WORD (ext.Make_Word w)], mold := g.mold } hm hj ho hd]
      have hl : (pathText (w :: w1 :: rest1)).length =
          w.length + 1 + (pathText (w1 :: rest1)).length := by
        show (w ++ 47 :: pathText (w1 :: rest1)).length = _
        rw [List.length_append, List.length_cons]
        omega
      simp only [hl, List.map_cons, List.append_assoc, List.singleton_append, ← Nat.add_assoc]

theorem pathText_last : ∀ ws : List Buf, ∃ init, pathText ws = init ++ [58]
  | [] => ⟨[], rfl⟩
  | [w] => ⟨w, rfl⟩
  | w :: w1 :: rest => by
    obtain ⟨init, h⟩ := pathText_last (w1 :: rest)
    refine ⟨w ++ 47 :: init, ?_⟩
    show w ++ 47 :: pathText (w1 :: rest) = _
    rw [h]
    simp

theorem rd_pathText_last (b : Buf) (p : Nat) (ws : List Buf) (hb : b.drop p = pathText ws) :
    rd b (p + (pathText ws).length - 1) = 58 ∧ rd b (p + (pathText ws).length) = 0 := by
  obtain ⟨init, h⟩ := pathText_last ws
  have h1 : p + (pathText ws).length - 1 = p + init.length := by
    rw [h, List.length_append, List.length_singleton]
    omega
  have h2 : p + (pathText ws).length = p + (init.length + 1) := by
    rw [h, List.length_append, List.length_singleton]
  rw [h1, h2, rd_add_of_drop b _ p _ hb, rd_add_of_drop b _ p _ hb, h]
  have e0 := rd_append_right init [58] 0
  have e1 := rd_append_right init [58] 1
  rw [Nat.add_zero] at e0
  rw [e0, e1]
  exact ⟨rfl, rfl⟩

/-- The round of a frame outside a path at the text `w1/.../wn:`: the path
frame is called and its block becomes one set-path value. -/
theorem round_set_path (ext : Ext) (b : Buf) (k : Nat) (fr : Frame) (g : G) (w w1 : Buf)
    (rest : List Buf) (hm : fr.mode_char ≠ 47) (hj : fr.just_once = false)
    (ho : g.ss.opts.SCAN_ONLY = false) (hx : g.ss.opts.SCAN_NEXT = false)
    (hb : b.drop g.ss.begin = pathText (w :: w1 :: rest))
    (hall : ∀ x ∈ w :: w1 :: rest, isSimpleWord x ∧ ext.Make_Word x ≠ 0) :
    Scan_Block_body ext b
        (fun g1 m => Scan_Block ext b ((w :: w1 :: rest).length + k) g1 m) fr g =
      .again
        { ss := { g.ss with begin := g.ss.begin + (pathText (w :: w1 :: rest)).length,
                            end_ := g.ss.begin + (pathText (w :: w1 :: rest)).length },
          emit := g.emit ++ [.series .REB_SET_PATH
            ((w :: w1 :: rest).map (fun x => .word .REB_WORD (ext.Make_Word x)))],
          mold := g.mold } := by
  have hw := hall w (List.mem_cons_self _ _)
  have hb1 : b.drop g.ss.begin = w ++ 47 :: pathText (w1 :: rest) := hb
  have hpos : 0 < w.length := List.length_pos.mpr hw.1.1
  have hal : ∀ i, i < w.length → isAlpha (rd b (g.ss.begin + i)) = true := by
    intro i hi
    rw [rd_add_of_drop b _ _ i hb1, rd_append_left w _ i hi]
    exact hw.1.2 _ (rd_mem w i hi)
  have h47 : rd b (g.ss.begin + w.length) = 47 := by
    rw [rd_add_of_drop b _ _ _ hb1]
    have := rd_append_right w (47 :: pathText (w1 :: rest)) 0
    rw [Nat.add_zero] at this
    rw [this]
    rfl
  have hT := word_token ext b g.ss g.mold w.length hpos hal (by rw [h47]; decide)
  have h0 := hal 0 hpos
  rw [Nat.add_zero] at h0
  have hn0 := alpha_not_special_byte _ h0
  rw [body_path ext b _ fr g TOKEN_WORD _ _ hT (by decide) (by decide)
    (fun h => hn0.1 h.2) ⟨Or.inr ⟨Or.inl rfl, h47⟩, hm⟩]
  have hL := rd_pathText_last b g.ss.begin _ hb
  have hen :
      enter
          { ss := { g.ss with end_ := g.ss.begin + w.length }, emit := g.emit, mold := g.mold }
          47 =
        ({ mode_char := 47, begin := g.emit.length, start := g.ss.line_count,
           start_line := g.ss.head_line, just_once := false },
         { ss := { g.ss with end_ := g.ss.begin + w.length }, emit := g.emit,
           mold := g.mold }) := by
    unfold enter
    simp only [hx, if_false, Bool.false_eq_true]
  have hc := path_frame_loop ext b (w :: w1 :: rest) (List.cons_ne_nil _ _) hall k
    { mode_char := 47, begin := g.emit.length, start := g.ss.line_count,
      start_line := g.ss.head_line, just_once := false }
    { ss := { g.ss with end_ := g.ss.begin + w.length }, emit := g.emit, mold := g.mold }
    rfl rfl ho hb
  dsimp only
  unfold Scan_Block
  rw [hen]
  dsimp only
  rw [hc]
  unfold exit_block path_call
  dsimp only
  rw [List.drop_left, List.take_left]
  unfold new_path
  dsimp only
  rw [if_neg (by decide), if_neg (by decide), if_pos hL.1]
  have hne : (pathText (w :: w1 :: rest)).length ≠ 0 := by
    show (w ++ 47 :: pathText (w1 :: rest)).length ≠ 0
    rw [List.length_append, List.length_cons]
    omega
  have hsub : g.ss.begin + (pathText (w :: w1 :: rest)).length - 1 + 1 =
      g.ss.begin + (pathText (w :: w1 :: rest)).length := by omega
  simp only [finish, VAL_TYPE, hm, hj, ho, hsub, if_false, reduceCtorEq, or_self,
    Bool.false_eq_true]

theorem line_keep (lc : Nat) (r : Int × SCAN_STATE × List Nat) (h1 : r.1 ≠ TOKEN_LINE)
    (h2 : r.2.1.line_count = lc) : LineLaw lc r := Or.inr (Or.inl ⟨h1, h2⟩)

theorem line_leaf (lc : Nat) (t : Int) (s : SCAN_STATE) (mold : List Nat) (h1 : t ≠ TOKEN_LINE)
    (h2 : s.line_count = lc) : LineLaw lc (t, s, mold) := Or.inr (Or.inl ⟨h1, h2⟩)

theorem line_ite (lc : Nat) (c : Prop) [Decidable c] (x y : Int × SCAN_STATE × List Nat)
    (hx : LineLaw lc x) (hy : LineLaw lc y) : LineLaw lc (if c then x else y) := by
  split <;> assumption

theorem keep_ite_pair (lc : Nat) (c : Prop) [Decidable c] (x y : Int × SCAN_STATE)
    (hx : x.1 ≠ TOKEN_LINE ∧ x.2.line_count = lc) (hy : y.1 ≠ TOKEN_LINE ∧ y.2.line_count = lc) :
    (if c then x else y).1 ≠ TOKEN_LINE ∧ (if c then x else y).2.line_count = lc := by
  split <;> assumption

theorem ite_ne_line (c : Prop) [Decidable c] (t u : Int) (ht : t ≠ TOKEN_LINE)
    (hu : u ≠ TOKEN_LINE) : (if c then t else u) ≠ TOKEN_LINE := by
  split <;> assumption

theorem line_of_pair (lc : Nat) (r : Int × SCAN_STATE) (mold : List Nat)
    (h : r.1 ≠ TOKEN_LINE ∧ r.2.line_count = lc) : LineLaw lc (r.1, r.2, mold) :=
  line_keep lc _ h.1 h.2

theorem Prescan_line (b : Buf) (ss : SCAN_STATE) :
    (Prescan b ss).2.line_count = ss.line_count := by
  rw [Prescan_eq]

theorem Scan_Quote_line (ext : Ext) (b : Buf) (src : Nat) (ss : SCAN_STATE) :
    ss.line_count ≤ (Scan_Quote ext b src ss).2.1.line_count
      ∧ ((Scan_Quote ext b src ss).1 = none →
          (Scan_Quote ext b src ss).2.1.line_count = ss.line_count) := by
  unfold Scan_Quote
  dsimp only
  split <;> simp

theorem scanword_line (b : Buf) (ss : SCAN_STATE) (flags cp : Nat) (type : Int)
    (ht : notLine type) :
    (scanword b ss flags cp type).1 ≠ TOKEN_LINE
      ∧ (scanword b ss flags cp type).2.line_count = ss.line_count := by
  unfold scanword
  dsimp only
  repeat' (with_reducible apply keep_ite_pair)
  all_goals refine ⟨?_, rfl⟩
  all_goals try dsimp only
  all_goals first
    | exact ht.1
    | exact ht.2
    | exact ite_ne_line _ _ _ ht.1 ht.2
    | decide

theorem pound_line (ext : Ext) (b : Buf) (ss : SCAN_STATE) (mold : List Nat) (cp : Nat) :
    LineLaw ss.line_count (pound ext b ss mold cp) := by
  have hq := Scan_Quote_line ext b (cp + 1) ss
  unfold pound
  dsimp only
  apply line_ite
  · exact line_leaf _ _ _ _ (by decide) rfl
  apply line_ite
  · apply line_ite
    · exact line_leaf _ _ _ _ (by decide) rfl
    · exact line_leaf _ _ _ _ (by decide) rfl
  apply line_ite
  · split <;> rename_i h <;> rw [h] at hq
    · exact Or.inr (Or.inr ⟨Or.inr (Or.inl rfl), hq.1⟩)
    · exact line_leaf _ _ _ _ (by decide) (hq.2 rfl)
  apply line_ite
  · exact line_leaf _ _ _ _ (ite_ne_line _ _ _ (by decide) (by decide)) rfl
  apply line_ite
  · exact line_leaf _ _ _ _ (by decide) rfl
  · exact line_leaf _ _ _ _ (by decide) rfl

theorem num_line (ext : Ext) (b : Buf) (ss : SCAN_STATE) (mold : List Nat) (flags cp : Nat) :
    LineLaw ss.line_count (num ext b ss mold flags cp) := by
  unfold num
  dsimp only
  repeat' (with_reducible apply line_ite)
  all_goals try (with_reducible exact pound_line ext b ss mold _)
  all_goals try (exact line_leaf _ _ _ _ (by decide) rfl)
  split
  · rename_i t h
    refine line_leaf _ _ _ _ ?_ rfl
    intro ht
    have ht1 : t = TOKEN_LINE := ht
    subst ht1
    revert h
    generalize ss.end_ - cp + 1 = fuel
    intro h
    induction fuel generalizing cp with
    | zero => simp [num_loop] at h
    | succ n ih =>
      unfold num_loop at h
      split_ifs at h
      all_goals first
        | exact absurd (Option.some.inj h) (by decide)
        | exact ih _ h
  · apply line_ite <;> exact line_leaf _ _ _ _ (by decide) rfl

theorem special_percent_line (ext : Ext) (b : Buf) (mold : List Nat) (ss : SCAN_STATE) :
    LineLaw ss.line_count (special_percent ext b mold ss) := by
  have hq := Scan_Quote_line ext b ss.end_ ss
  unfold special_percent
  dsimp only
  apply line_ite
  · split <;> rename_i h <;> rw [h] at hq
    · exact Or.inr (Or.inr ⟨Or.inr (Or.inr rfl), hq.1⟩)
    · exact line_leaf _ _ _ _ (by decide) (hq.2 rfl)
  · exact line_leaf _ _ _ _ (by decide) rfl

theorem angle_mode2_line (b : Buf) (mold : List Nat) (ss : SCAN_STATE) (cp : Nat) (type : Int)
    (ht : notLine type) : LineLaw ss.line_count (angle_mode2 b mold ss cp type) :=
  line_leaf _ _ _ _ (ite_ne_line _ _ _ ht.1 ht.2) rfl

theorem notLine_get : notLine TOKEN_GET := ⟨by decide, by decide⟩

theorem notLine_lit : notLine TOKEN_LIT := ⟨by decide, by decide⟩

theorem notLine_word : notLine TOKEN_WORD := ⟨by decide, by decide⟩

theorem notLine_refine : notLine TOKEN_REFINE := ⟨by decide, by decide⟩

theorem special_colon_line (b : Buf) (mold : List Nat) (ss : SCAN_STATE) (flags cp : Nat) :
    LineLaw ss.line_count (special_colon b mold ss flags cp) := by
  unfold special_colon
  dsimp only
  repeat' (with_reducible apply line_ite)
  all_goals try (with_reducible exact angle_mode2_line b mold ss _ _ notLine_get)
  all_goals try (with_reducible exact line_of_pair _ _ _ (scanword_line b ss _ _ _ notLine_get))
  all_goals exact line_leaf _ _ _ _ (by decide) rfl

theorem special_tick_line (b : Buf) (mold : List Nat) (ss : SCAN_STATE) (flags cp : Nat) :
    LineLaw ss.line_count (special_tick b mold ss flags cp) := by
  unfold special_tick
  dsimp only
  repeat' (with_reducible apply line_ite)
  all_goals try (with_reducible exact angle_mode2_line b mold ss _ _ notLine_lit)
  all_goals try (with_reducible exact line_of_pair _ _ _ (scanword_line b ss _ _ _ notLine_lit))
  all_goals exact line_leaf _ _ _ _ (by decide) rfl

theorem special_comma_period_line (ext : Ext) (b : Buf) (mold : List Nat) (ss : SCAN_STATE)
    (flags cp v : Nat) :
    LineLaw ss.line_count (special_comma_period ext b mold ss flags cp v) := by
  unfold special_comma_period
  dsimp only
  apply line_ite
  · exact num_line ext b ss mold _ _
  apply line_ite
  · exact line_leaf _ _ _ _ (by decide) rfl
  · exact line_of_pair _ _ _ (scanword_line b ss _ _ _ notLine_word)

theorem special_angle_line (b : Buf) (mold : List Nat) (ss : SCAN_STATE) (cp : Nat) :
    LineLaw ss.line_count (special_angle b mold ss cp) := by
  unfold special_angle
  dsimp only
  apply line_ite
  · exact line_leaf _ _ _ _ (ite_ne_line _ _ _ (by decide) (by decide)) rfl
  apply line_ite
  · exact line_leaf _ _ _ _ (by decide) rfl
  · split <;> exact line_leaf _ _ _ _ (by decide) rfl

theorem special_sign_line (ext : Ext) (b : Buf) (mold : List Nat)
    (again : SCAN_STATE → Nat → Nat → Int × SCAN_STATE × List Nat)
    (hagain : ∀ ss flags cp, LineLaw ss.line_count (again ss flags cp))
    (ss : SCAN_STATE) (flags cp : Nat) :
    LineLaw ss.line_count (special_sign ext b mold again ss flags cp) := by
  unfold special_sign
  dsimp only
  apply line_ite
  · exact line_leaf _ _ _ _ (by decide) rfl
  apply line_ite
  · exact line_leaf _ _ _ _ (by decide) rfl
  apply line_ite
  · exact line_of_pair _ _ _ (scanword_line b ss _ _ _ notLine_word)
  apply line_ite
  · exact num_line ext b ss mold _ _
  apply line_ite
  · apply line_ite
    · exact hagain ss _ _
    apply line_ite
    · exact line_of_pair _ _ _ (scanword_line b ss _ _ _ notLine_word)
    · exact line_leaf _ _ _ _ (by decide) rfl
  · exact line_of_pair _ _ _ (scanword_line b ss _ _ _ notLine_word)

theorem next_ls_line (ext : Ext) (b : Buf) (mold : List Nat) (fuel : Nat) :
    ∀ (ss : SCAN_STATE) (flags cp : Nat),
      LineLaw ss.line_count (next_ls ext b mold fuel ss flags cp) := by
  induction fuel with
  | zero => intro ss flags cp; exact line_leaf _ _ _ _ (by decide) rfl
  | succ fuel ih =>
    intro ss flags cp
    unfold next_ls
    dsimp only
    apply line_ite
    · exact line_leaf _ _ _ _ (by decide) rfl
    apply line_ite
    · exact special_percent_line ext b mold ss
    apply line_ite
    · exact special_colon_line b mold ss _ _
    apply line_ite
    · exact special_tick_line b mold ss _ _
    apply line_ite
    · exact special_comma_period_line ext b mold ss _ _ _
    apply line_ite
    · exact special_angle_line b mold ss _
    apply line_ite
    · exact special_sign_line ext b mold _ ih ss _ _
    apply line_ite
    · exact pound_line ext b ss mold _
    apply line_ite
    · exact line_leaf _ _ _ _ (by decide) rfl
    · exact line_leaf _ _ _ _ (by decide) rfl

theorem line_feed_line (ss : SCAN_STATE) (mold : List Nat) (cp : Nat) :
    LineLaw ss.line_count (line_feed ss mold cp) := Or.inl ⟨rfl, rfl⟩

theorem delimit_comment_line (b : Buf) (ss : SCAN_STATE) (mold : List Nat) (cp : Nat) :
    LineLaw ss.line_count (delimit_comment b ss mold cp) := by
  unfold delimit_comment
  dsimp only
  apply line_ite <;> exact Or.inl ⟨rfl, rfl⟩

theorem delimit_quote_line (ext : Ext) (b : Buf) (ss : SCAN_STATE) (cp : Nat) :
    LineLaw ss.line_count (delimit_quote ext b ss cp) := by
  have hq := Scan_Quote_line ext b cp ss
  unfold delimit_quote
  split <;> rename_i h <;> rw [h] at hq
  · exact Or.inr (Or.inr ⟨Or.inl rfl, hq.1⟩)
  · exact line_leaf _ _ _ _ (by decide) (hq.2 rfl)

theorem delimit_slash_line (b : Buf) (ss : SCAN_STATE) (mold : List Nat) (cp : Nat) :
    LineLaw ss.line_count (delimit_slash b ss mold cp) := by
  have hp := Prescan_line b { ss with begin := skipWhile (fun c => c != 0 && c == 47) b cp }
  have hs := scanword_line b
    { (Prescan b { ss with begin := skipWhile (fun c => c != 0 && c == 47) b cp }).2 with
      begin := (Prescan b
        { ss with begin := skipWhile (fun c => c != 0 && c == 47) b cp }).2.begin - 1 }
  unfold delimit_slash
  dsimp only
  apply line_ite
  · apply line_ite
    · exact line_leaf _ _ _ _ (by decide) rfl
    apply line_ite
    · exact line_leaf _ _ _ _ (by decide) hp
    apply line_ite
    · exact line_leaf _ _ _ _ (ite_ne_line _ _ _ (by decide) (by decide)) hp
    · exact line_of_pair _ _ _ ⟨(hs _ _ _ notLine_refine).1, (hs _ _ _ notLine_refine).2.trans hp⟩
  · exact line_leaf _ _ _ _ (by decide) rfl

theorem Scan_Token_delimit_line (ext : Ext) (b : Buf) (ss : SCAN_STATE) (mold : List Nat)
    (cp : Nat) : LineLaw ss.line_count (Scan_Token_delimit ext b ss mold cp) := by
  unfold Scan_Token_delimit
  dsimp only
  apply line_ite
  · exact delimit_comment_line b ss mold cp
  apply line_ite
  · exact Or.inl ⟨rfl, rfl⟩
  apply line_ite
  · exact Or.inl ⟨rfl, rfl⟩
  apply line_ite
  · exact line_leaf _ _ _ _ (by decide) rfl
  apply line_ite
  · exact line_leaf _ _ _ _ (by decide) rfl
  apply line_ite
  · exact line_leaf _ _ _ _ (by decide) rfl
  apply line_ite
  · exact line_leaf _ _ _ _ (by decide) rfl
  apply line_ite
  · exact delimit_quote_line ext b ss cp
  apply line_ite
  · exact line_leaf _ _ _ _ (by decide) rfl
  apply line_ite
  · exact delimit_slash_line b ss mold cp
  apply line_ite
  · exact line_leaf _ _ _ _ (by decide) rfl
  · exact line_leaf _ _ _ _ (by decide) rfl

/-- One call of `Scan_Token` follows the line law. -/
theorem Scan_Token_line (ext : Ext) (b : Buf) (ss : SCAN_STATE) (mold : List Nat) :
    LineLaw ss.line_count (Scan_Token ext b ss mold) := by
  have hp := Prescan_line b ss
  unfold Scan_Token
  dsimp only
  rw [← hp]
  apply line_ite
  · exact Scan_Token_delimit_line ext b _ mold _
  apply line_ite
  · apply line_ite
    · exact line_leaf _ _ _ _ (by decide) rfl
    · exact next_ls_line ext b mold 2 _ _ _
  apply line_ite
  · apply line_ite
    · exact line_leaf _ _ _ _ (by decide) rfl
    · exact line_of_pair _ _ _ (scanword_line b _ _ _ _ notLine_word)
  · exact num_line ext b _ mold _ _

/-- A skipping loop ends at a byte that fails its test. -/
theorem skipWhile_end (p : Nat → Bool) (b : Buf) (h0 : p 0 = false) :
    ∀ (n cp : Nat), b.length - cp ≤ n → p (rd b (skipWhile p b cp)) = false := by
  intro n
  induction n with
  | zero =>
    intro cp h
    have hz : rd b cp = 0 := rd_eq_zero_of_le b cp (by omega)
    rw [skipWhile_stop p b cp (by rw [hz]; exact h0), hz]
    exact h0
  | succ n ih =>
    intro cp h
    by_cases hp : p (rd b cp) = true
    · rw [skipWhile_step p b cp h0 hp]
      apply ih
      have : cp < b.length := lt_length_of_rd_ne_zero b cp (by
        intro hz
        rw [hz, h0] at hp
        exact Bool.false_ne_true hp)
      omega
    · have hp2 : p (rd b cp) = false := by simpa using hp
      rw [skipWhile_stop p b cp hp2]
      exact hp2

/-- The label `skipline` moves past a byte that is not NUL. -/
theorem skipline_gt (b : Buf) (cp : Nat) (h : rd b cp ≠ 0) : cp < skipline b cp := by
  have hge := skipWhile_ge NOT_NEWLINE b cp
  have hne : rd b (skipWhile NOT_NEWLINE b cp) = 0 → skipWhile NOT_NEWLINE b cp ≠ cp := by
    intro hz e
    rw [e] at hz
    exact h hz
  unfold skipline
  simp only []
  split_ifs with h1 h2 h2
  · omega
  · omega
  · omega
  · have := hne (by
      by_contra hc
      exact h2 hc)
    omega

theorem LO_CASE_r_byte : ∀ c : Fin 256, LO_CASE c.val = LO_CASE 82 → c.val = 82 ∨ c.val = 114 := by
  decide

theorem LO_CASE_r (c : Nat) (h : LO_CASE c = LO_CASE 82) : c = 82 ∨ c = 114 := by
  by_cases hc : c < 256
  · exact LO_CASE_r_byte ⟨c, hc⟩ h
  · have h1 : LO_CASE c = c := by
      unfold LO_CASE Lower_Case
      exact List.getD_eq_default _ _ (by simp [Lower_Case_table]; omega)
    rw [h1] at h
    have h2 : LO_CASE 82 = 114 := by decide
    omega

/-- The word `REBOL` begins with `R` or `r`. -/
theorem header_word_first (b : Buf) (p : Nat) (h : header_word b p) :
    rd b p = 82 ∨ rd b p = 114 := by
  unfold header_word Str_REBOL at h
  rw [Match_Bytes] at h
  by_cases h0 : (rd b p == 0) = true
  · rw [if_pos h0] at h
    exact absurd h (by simp)
  · rw [if_neg h0] at h
    by_cases h1 : (LO_CASE (rd b p) != LO_CASE 82) = true
    · rw [if_pos h1] at h
      exact absurd h (by simp)
    · apply LO_CASE_r
      simpa using h1

/-- The backward loops of `Scan_Header` stop at the nearest marked byte, or
at the start. -/
theorem Scan_Header_back_spec (b : Buf) (src : Nat) (stop : Nat → Bool) :
    ∀ n, src ≤ n →
      src ≤ Scan_Header_back b src stop n ∧ Scan_Header_back b src stop n ≤ n
      ∧ (Scan_Header_back b src stop n = src ∨ stop (rd b (Scan_Header_back b src stop n)) = true)
      ∧ ∀ k, Scan_Header_back b src stop n < k → k ≤ n → stop (rd b k) = false := by
  intro n
  induction n with
  | zero =>
    intro h
    have : src = 0 := by omega
    subst this
    refine ⟨by simp [Scan_Header_back], by simp [Scan_Header_back], Or.inl rfl, ?_⟩
    intro k h1 h2
    simp only [Scan_Header_back] at h1
    omega
  | succ n ih =>
    intro h
    rw [Scan_Header_back]
    by_cases hc : n + 1 ≠ src ∧ (!stop (rd b (n + 1))) = true
    · rw [if_pos hc]
      obtain ⟨i1, i2, i3, i4⟩ := ih (by omega)
      refine ⟨i1, by omega, i3, ?_⟩
      intro k h1 h2
      by_cases hk : k ≤ n
      · exact i4 k h1 hk
      · have : k = n + 1 := by omega
        rw [this]
        simpa using hc.2
    · rw [if_neg hc]
      refine ⟨h, Nat.le_refl _, ?_, ?_⟩
      · by_cases e : n + 1 = src
        · exact Or.inl e
        · right
          by_contra hs
          exact hc ⟨e, by simpa using hs⟩
      · intro k h1 h2
        omega

/-- The loop of `Scan_Head` returns, with fuel for the bytes that remain: 0,
or a header. -/
theorem Scan_Head_loop_spec (b : Buf) (src : Nat) :
    ∀ (fuel : Nat) (rp bp : Option Nat) (cp count : Nat), 1 ≤ fuel → b.length < fuel + cp →
      head_inv b src rp bp cp →
      Scan_Head_loop b fuel rp bp cp count = some (0, none)
      ∨ ∃ r p pb bg cnt, Scan_Head_loop b fuel rp bp cp count = some (r, some (bg, cnt))
          ∧ head_found b src r p pb bg := by
  intro fuel
  induction fuel with
  | zero =>
    intro _ _ _ _ h
    omega
  | succ fuel ih =>
    intro rp bp cp count _ hfuel hinv
    obtain ⟨i1, i2, i3, i4⟩ := hinv
    have hge := skipWhile_ge IS_LEX_SPACE b cp
    have hend := skipWhile_end IS_LEX_SPACE b (by decide) _ cp (Nat.le_refl _)
    rw [Scan_Head_loop]
    generalize skipWhile IS_LEX_SPACE b cp = cp1 at hge hend ⊢
    by_cases h0 : rd b cp1 = 0
    · left
      rw [if_neg (by rw [h0]; decide), if_neg (by rw [h0]; decide), if_neg (by rw [h0]; decide),
        if_pos h0]
    · have hlt : cp1 < b.length := lt_length_of_rd_ne_zero b cp1 h0
      have hf1 : 1 ≤ fuel := by omega
      have hsk := skipline_gt b cp1 h0
      by_cases h91 : rd b cp1 = 91
      · rw [if_pos h91]
        cases rp with
        | some p =>
          right
          obtain ⟨w1, w2, w3⟩ := i2 p rfl
          cases bp with
          | some pb =>
            obtain ⟨b1, b2, _⟩ := i3 pb rfl
            exact ⟨-1, p, pb, cp1 + 1, count, rfl, w1, w2, by omega, h91,
              Or.inr ⟨rfl, b1, b2, i4 p pb rfl rfl⟩⟩
          | none =>
            exact ⟨1, p, 0, cp1 + 1, count, rfl, w1, w2, by omega, h91, Or.inl rfl⟩
        | none =>
          simp only [Option.isSome_none, Bool.false_eq_true, if_false]
          apply ih none (some cp1) (cp1 + 1) count hf1 (by omega)
          refine ⟨by omega, ?_, ?_, ?_⟩
          · intro p hp
            exact absurd hp (by simp)
          · intro pb hpb
            have : cp1 = pb := Option.some.inj hpb
            subst this
            exact ⟨h91, by omega, by omega⟩
          · intro p pb hp
            exact absurd hp (by simp)
      · rw [if_neg h91]
        by_cases hR : rd b cp1 = 82 ∨ rd b cp1 = 114
        · rw [if_pos hR]
          by_cases hm : (Match_Bytes b cp1 Str_REBOL).isSome = true
          · rw [if_pos hm]
            apply ih (some cp1) bp (cp1 + 5) count hf1 (by omega)
            refine ⟨by omega, ?_, ?_, ?_⟩
            · intro p hp
              have : cp1 = p := Option.some.inj hp
              subst this
              exact ⟨hm, by omega, by omega⟩
            · intro pb hpb
              obtain ⟨b1, b2, b3⟩ := i3 pb hpb
              exact ⟨b1, b2, by omega⟩
            · intro p pb hp hpb
              have : cp1 = p := Option.some.inj hp
              subst this
              obtain ⟨_, _, b3⟩ := i3 pb hpb
              omega
          · rw [if_neg hm]
            have hsk2 := skipWhile_ge NOT_NEWLINE b (cp1 + 1)
            have hsl : cp1 + 1 ≤ skipline b (cp1 + 1) := by
              unfold skipline
              simp only []
              split_ifs <;> omega
            apply ih rp none (skipline b (cp1 + 1)) (count + 1) hf1 (by omega)
            refine ⟨by omega, ?_, ?_, ?_⟩
            · intro p hp
              obtain ⟨w1, w2, w3⟩ := i2 p hp
              exact ⟨w1, w2, by omega⟩
            · intro pb hpb
              exact absurd hpb (by simp)
            · intro p pb _ hpb
              exact absurd hpb (by simp)
        · rw [if_neg hR]
          have keep : head_inv b src rp bp (skipline b cp1) := by
            refine ⟨by omega, ?_, ?_, i4⟩
            · intro p hp
              obtain ⟨w1, w2, w3⟩ := i2 p hp
              exact ⟨w1, w2, by omega⟩
            · intro pb hpb
              obtain ⟨b1, b2, b3⟩ := i3 pb hpb
              exact ⟨b1, b2, by omega⟩
          by_cases h59 : rd b cp1 = 59
          · rw [if_pos h59]
            exact ih rp bp (skipline b cp1) (count + 1) hf1 (by omega) keep
          · rw [if_neg h59, if_neg h0]
            by_cases hnl : NOT_NEWLINE (rd b cp1) = true
            · rw [if_pos hnl]
              apply ih none none (skipline b cp1) (count + 1) hf1 (by omega)
              refine ⟨by omega, ?_, ?_, ?_⟩
              · intro p hp
                exact absurd hp (by simp)
              · intro pb hpb
                exact absurd hpb (by simp)
              · intro p pb hp
                exact absurd hp (by simp)
            · rw [if_neg hnl]
              exact ih rp bp (skipline b cp1) (count + 1) hf1 (by omega) keep

/-- `Scan_Head` returns: 0 with the state unchanged, or a header with `begin`
and the line count written. -/
theorem Scan_Head_spec (b : Buf) (ss : SCAN_STATE) :
    Scan_Head b ss = some (0, ss)
    ∨ ∃ r p pb bg cnt,
        Scan_Head b ss = some (r, { ss with begin := bg, line_count := cnt })
        ∧ head_found b ss.begin r p pb bg := by
  have h := Scan_Head_loop_spec b ss.begin (b.length + 1) none none ss.begin ss.line_count
    (by omega) (by omega)
    ⟨Nat.le_refl _, fun p hp => absurd hp (by simp), fun p hp => absurd hp (by simp),
      fun p _ hp => absurd hp (by simp)⟩
  unfold Scan_Head
  rcases h with h | ⟨r, p, pb, bg, cnt, h, hf⟩
  · left
    rw [h]
  · right
    exact ⟨r, p, pb, bg, cnt, by rw [h], hf⟩

/-- The backward loop of `Scan_Header` started at or after a marked byte
stops at the nearest marked byte. -/
theorem Scan_Header_back_nearest (b : Buf) (src : Nat) (stop : Nat → Bool) (n s : Nat)
    (hs : src ≤ s) (hsn : s ≤ n) (hm : stop (rd b s) = true) :
    s ≤ Scan_Header_back b src stop n ∧ Scan_Header_back b src stop n ≤ n
    ∧ stop (rd b (Scan_Header_back b src stop n)) = true
    ∧ ∀ k, Scan_Header_back b src stop n < k → k ≤ n → stop (rd b k) = false := by
  obtain ⟨s1, s2, s3, s4⟩ := Scan_Header_back_spec b src stop n (by omega)
  have hle : s ≤ Scan_Header_back b src stop n := by
    by_contra hc
    have := s4 s (by omega) hsn
    rw [hm] at this
    exact Bool.noConfusion this
  refine ⟨hle, s2, ?_, s4⟩
  rcases s3 with e | e
  · have : Scan_Header_back b src stop n = s := by omega
    rw [this]
    exact hm
  · exact e

/-- `Scan_Header` after a header: the offset of the nearest marked byte before
the byte that precedes the `[` of the header. -/
theorem Scan_Header_found (b : Buf) (src len : Nat) (r : Int) (p pb bg cnt : Nat)
    (hs : Scan_Head b (Init_Scan_State src len) =
      some (r, { Init_Scan_State src len with begin := bg, line_count := cnt }))
    (hf : head_found b src r p pb bg) :
    ∃ q : Nat, Scan_Header b src len = some ((q : Int) - src) ∧ src ≤ q
      ∧ header_start r p pb ≤ q ∧ q + 2 ≤ bg
      ∧ header_mark r (rd b q) = true
      ∧ ∀ k : Nat, q < k → k + 2 ≤ bg → header_mark r (rd b k) = false := by
  obtain ⟨w1, w2, w3, _, w5⟩ := hf
  rcases w5 with e | ⟨e, b1, b2, b3⟩
  · subst e
    have hm : (fun c : Nat => c == 114 || c == 82) (rd b p) = true := by
      rcases header_word_first b p w1 with h | h <;> simp [h]
    obtain ⟨n1, n2, n3, n4⟩ := Scan_Header_back_nearest b src
      (fun c => c == 114 || c == 82) (bg - 2) p w2 (by omega) hm
    refine ⟨Scan_Header_back b src (fun c => c == 114 || c == 82) (bg - 2), ?_, by omega, ?_,
      by omega, ?_, ?_⟩
    · unfold Scan_Header
      rw [hs]
      simp
    · simpa [header_start] using n1
    · simpa [header_mark] using n3
    · intro k h1 h2
      simpa [header_mark] using n4 k h1 (by omega)
  · subst e
    have hm : (fun c : Nat => c == 91) (rd b pb) = true := by simp [b1]
    obtain ⟨n1, n2, n3, n4⟩ := Scan_Header_back_nearest b src
      (fun c => c == 91) (bg - 2) pb b2 (by omega) hm
    refine ⟨Scan_Header_back b src (fun c => c == 91) (bg - 2), ?_, by omega, ?_,
      by omega, ?_, ?_⟩
    · unfold Scan_Header
      rw [hs]
      simp
    · simpa [header_start] using n1
    · simpa [header_mark] using n3
    · intro k h1 h2
      simpa [header_mark] using n4 k h1 (by omega)

theorem UP_CASE_byte : ∀ c : Fin 256,
    ((64 ≤ UP_CASE c.val ∧ UP_CASE c.val ≤ 95) ↔ (64 ≤ ascii_upper c.val ∧ ascii_upper c.val ≤ 95))
    ∧ ((64 ≤ UP_CASE c.val ∧ UP_CASE c.val ≤ 95) → UP_CASE c.val = ascii_upper c.val)
    ∧ (UP_CASE c.val = 126 ↔ c.val = 126) := by
  decide

theorem UP_CASE_facts (c : Nat) :
    ((64 ≤ UP_CASE c ∧ UP_CASE c ≤ 95) ↔ (64 ≤ ascii_upper c ∧ ascii_upper c ≤ 95))
    ∧ ((64 ≤ UP_CASE c ∧ UP_CASE c ≤ 95) → UP_CASE c = ascii_upper c)
    ∧ (UP_CASE c = 126 ↔ c = 126) := by
  by_cases h : c < 256
  · exact UP_CASE_byte ⟨c, h⟩
  · have h1 : UP_CASE c = c := by
      unfold UP_CASE Upper_Case
      exact List.getD_eq_default _ _ (by simp [Upper_Case_table]; omega)
    have h2 : ascii_upper c = c := by
      unfold ascii_upper
      rw [if_neg (by omega)]
    rw [h1, h2]
    exact ⟨Iff.rfl, fun _ => rfl, Iff.rfl⟩

/-- The default case of the escape switch of `Scan_Char`. -/
theorem Scan_Char_caret (ext : Ext) (b : Buf) (bp : Nat) (h : rd b bp = 94)
    (h40 : rd b (bp + 1) ≠ 40) :
    Scan_Char ext b bp = ((caret_value (rd b (bp + 1)) : Int), bp + 2) := by
  have hup := UP_CASE_facts (rd b (bp + 1))
  unfold Scan_Char caret_value
  simp only [h]
  generalize rd b (bp + 1) = c at *
  rw [if_neg (by decide), if_neg (by decide)]
  by_cases h0 : c = 0
  · simp [h0]
  by_cases h47 : c = 47
  · simp +decide [h47]
  by_cases h94 : c = 94
  · simp +decide [h94]
  by_cases h45 : c = 45
  · simp +decide [h45]
  by_cases h33 : c = 33
  · simp +decide [h33]
  rw [if_neg h0, if_neg h47, if_neg h94, if_neg h45, if_neg h33, if_neg h40]
  rw [if_neg h0, if_neg h47, if_neg h94, if_neg h45, if_neg h33]
  by_cases h126 : c = 126
  · simp +decide [h126]
  rw [if_neg h126]
  by_cases hr : 64 ≤ UP_CASE c ∧ UP_CASE c ≤ 95
  · have hr' := hup.1.1 hr
    rw [if_pos hr', ← hup.2.1 hr]
    simp only [ge_iff_le, hr, and_self, if_true]
  · have hr' : ¬ (64 ≤ ascii_upper c ∧ ascii_upper c ≤ 95) := fun h => hr (hup.1.2 h)
    have hne : UP_CASE c ≠ 126 := fun h => h126 (hup.2.2.1 h)
    rw [if_neg hr']
    simp only [ge_iff_le, hr, hne, if_false]

theorem hex_byte_facts : ∀ c : Fin 256,
    Scan_Char_hex c.val = isHex c.val
    ∧ (isHex c.val = true → Lex_Map c.val &&& LEX_VALUE = (hex_digit c.val).getD 0) := by
  decide

theorem hex_facts (c : Nat) :
    Scan_Char_hex c = isHex c
    ∧ (isHex c = true → Lex_Map c &&& LEX_VALUE = (hex_digit c).getD 0) := by
  by_cases h : c < 256
  · exact hex_byte_facts ⟨c, h⟩
  · have h1 : Lex_Map c = 0 := by
      unfold Lex_Map
      exact List.getD_eq_default _ _ (by simp [Lex_Map_table, USE_UNICODE]; omega)
    have h2 : isHex c = false := by
      unfold isHex hex_digit
      rw [if_neg (by omega), if_neg (by omega), if_neg (by omega)]
      rfl
    constructor
    · rw [h2]
      unfold Scan_Char_hex
      rw [h1]
      rfl
    · intro h3
      rw [h2] at h3
      exact Bool.noConfusion h3

theorem skipWhile_ge_run (p : Nat → Bool) (b : Buf) (h0 : p 0 = false) (n : Nat) :
    ∀ cp, (∀ i, i < n → p (rd b (cp + i)) = true) → cp + n ≤ skipWhile p b cp := by
  induction n with
  | zero => intro cp _; exact skipWhile_ge p b cp
  | succ n ih =>
    intro cp h
    have h1 := h 0 (by omega)
    rw [Nat.add_zero] at h1
    rw [skipWhile_step p b cp h0 h1]
    have := ih (cp + 1) (fun i hi => by
      have := h (i + 1) (by omega)
      rwa [show cp + (i + 1) = cp + 1 + i by omega] at this)
    omega

theorem hex_fold (h : List Nat) (hh : ∀ d ∈ h, isHex d = true) :
    ∀ n : Nat, h.foldl (fun n d => (n <<< 4) + (Lex_Map d &&& LEX_VALUE)) n =
      h.foldl (fun n d => n * 16 + (hex_digit d).getD 0) n := by
  induction h with
  | nil => intro n; rfl
  | cons d ds ih =>
    intro n
    simp only [List.foldl_cons]
    rw [(hex_facts d).2 (hh d (List.mem_cons_self _ _)), Nat.shiftLeft_eq]
    exact ih (fun x hx => hh x (List.mem_cons_of_mem _ hx)) _

theorem hex_digit_lt (d : Nat) : (hex_digit d).getD 0 < 16 := by
  unfold hex_digit
  split_ifs <;> simp <;> omega

theorem hex_fold_lt (h : List Nat) :
    ∀ n : Nat, h.foldl (fun n d => n * 16 + (hex_digit d).getD 0) n < (n + 1) * 16 ^ h.length := by
  induction h with
  | nil => intro n; simp
  | cons d ds ih =>
    intro n
    simp only [List.foldl_cons, List.length_cons]
    have h1 := ih (n * 16 + (hex_digit d).getD 0)
    have h2 := hex_digit_lt d
    have h4 : n * 16 + (hex_digit d).getD 0 + 1 ≤ (n + 1) * 16 := by omega
    have h3 : (n * 16 + (hex_digit d).getD 0 + 1) * 16 ^ ds.length
        ≤ (n + 1) * 16 ^ (ds.length + 1) :=
      calc (n * 16 + (hex_digit d).getD 0 + 1) * 16 ^ ds.length
          ≤ ((n + 1) * 16) * 16 ^ ds.length := Nat.mul_le_mul_right _ h4
        _ = (n + 1) * 16 ^ (ds.length + 1) := by rw [pow_succ]; ring
    omega

theorem Scan_Char_names_none (b : Buf) (bp : Nat) :
    ∀ (names : List (List Nat)) (codes : List Nat),
      (∀ i cp, i < names.length → i < codes.length →
        Match_Bytes b bp (names.getD i []) = some cp → rd b cp ≠ 41) →
      Scan_Char_names b bp names codes = none := by
  intro names
  induction names with
  | nil => intro codes _; rfl
  | cons name names ih =>
    intro codes h
    cases codes with
    | nil => rfl
    | cons code codes =>
      have ht := ih codes (fun i cp h1 h2 h3 =>
        h (i + 1) cp (by simpa using h1) (by simpa using h2) (by simpa using h3))
      unfold Scan_Char_names
      split
      · rename_i cp hm
        have := h 0 cp (by simp) (by simp) (by simpa using hm)
        simp only [beq_iff_eq, this, if_false]
        exact ht
      · exact ht

/-- The case `^(` of `Scan_Char`. -/
theorem Scan_Char_paren (ext : Ext) (b : Buf) (bp : Nat) (h94 : rd b bp = 94)
    (h40 : rd b (bp + 1) = 40) :
    Scan_Char ext b bp =
      if skipWhile Scan_Char_hex b (bp + 2) - (bp + 2) > 4 then (-1, bp + 2)
      else if rd b (skipWhile Scan_Char_hex b (bp + 2)) = 41 then
        ((((slice b (bp + 2) (skipWhile Scan_Char_hex b (bp + 2))).foldl
            (fun n d => (n <<< 4) + (Lex_Map d &&& LEX_VALUE)) 0 : Nat) : Int),
          skipWhile Scan_Char_hex b (bp + 2) + 1)
      else
        match Scan_Char_names b (bp + 2) ext.Esc_Names ext.Esc_Codes with
        | some r => r
        | none => (-1, bp + 2) := by
  unfold Scan_Char
  simp only [h94, h40]
  rw [if_neg (by decide), if_neg (by decide), if_neg (by decide), if_neg (by decide),
    if_neg (by decide), if_neg (by decide), if_neg (by decide), if_pos trivial]

/-- What the text `^(` followed by the hexadecimal digits `h` gives the
escape decoder to look at. -/
theorem paren_setup (b : Buf) (bp : Nat) (h rest : List Nat)
    (hb : b.drop bp = 94 :: 40 :: (h ++ rest)) :
    rd b bp = 94 ∧ rd b (bp + 1) = 40 ∧ b.drop (bp + 2) = h ++ rest := by
  refine ⟨?_, ?_, ?_⟩
  · have := rd_add_of_drop b _ bp 0 hb
    rwa [Nat.add_zero] at this
  · exact rd_add_of_drop b _ bp 1 hb
  · exact drop_add_of_drop b [94, 40] _ bp hb

theorem hex_run_exact (b : Buf) (p : Nat) (h rest : List Nat) (hd : b.drop p = h ++ rest)
    (hh : ∀ d ∈ h, isHex d = true) (hr : isHex (rd rest 0) = false) :
    skipWhile Scan_Char_hex b p = p + h.length := by
  apply skipWhile_run Scan_Char_hex b (by decide) h.length p
  · intro i hi
    rw [rd_add_of_drop b _ p i hd, rd_append_left h rest i hi, (hex_facts _).1]
    exact hh _ (rd_mem h i hi)
  · rw [rd_add_of_drop b _ p _ hd]
    have := rd_append_right h rest 0
    rw [Nat.add_zero] at this
    rw [this, (hex_facts _).1]
    exact hr

theorem qitems_text_length (ok : Nat → QItem → Prop)
    (hok : ∀ p i, ok p i → 1 ≤ (qitem_bytes i).length) :
    ∀ (l : List QItem) (p : Nat), items_ok ok p l → l.length ≤ (qitems_text l).length := by
  intro l
  induction l with
  | nil => intro _ _; simp [qitems_text]
  | cons i is ih =>
    intro p h
    have h1 := hok p i h.1
    have h2 := ih _ h.2
    simp only [qitems_text, List.length_cons, List.length_append]
    omega

theorem qitem_ok_pos (ext : Ext) (b : Buf) (p : Nat) (i : QItem) (h : qitem_ok ext b p i) :
    1 ≤ (qitem_bytes i).length := by
  cases i with
  | plain c => simp [qitem_bytes]
  | esc c => simp [qitem_bytes]
  | seq bytes chr => exact h.1

/-- One round of the loop of `Scan_Quote` at a sequence that decodes. -/
theorem Scan_Quote_round_seq (ext : Ext) (b : Buf) (term : Nat) (fuel src nest lines : Nat)
    (buf : List Nat) (bytes : List Nat) (chr : Nat) (ht : term = 34 ∨ term = 125)
    (h : seq_ok ext b src bytes chr) :
    Scan_Quote_loop ext b term (fuel + 1) src nest lines buf =
      Scan_Quote_loop ext b term fuel (src + bytes.length) nest lines (buf ++ [chr]) := by
  obtain ⟨_, h | h⟩ := h
  · obtain ⟨h94, hneg, hpos, hchr⟩ := h
    rw [Scan_Quote_loop, if_pos (Or.inl (by rw [h94]; rcases ht with e | e <;> rw [e] <;> decide))]
    simp only [h94]
    rw [if_neg (by decide), if_pos trivial, if_neg hneg, hpos, ← hchr]
  · obtain ⟨h128, hne, hpos, hchr⟩ := h
    rw [Scan_Quote_loop, if_pos (Or.inl (by rcases ht with e | e <;> rw [e] <;> omega))]
    simp only []
    rw [if_neg (by omega), if_neg (by omega), if_neg (by omega), if_neg (by omega),
      if_neg (by unfold CR LF; omega), if_pos (by omega), if_neg hne, hpos, ← hchr]

/-- One round of the loop of `Scan_Quote` at `^` and a byte other than `(`. -/
theorem Scan_Quote_round_esc (ext : Ext) (b : Buf) (term : Nat) (fuel src nest lines : Nat)
    (buf : List Nat) (c : Nat) (ht : term = 34 ∨ term = 125)
    (h94 : rd b src = 94) (hc : rd b (src + 1) = c) (h40 : c ≠ 40) :
    Scan_Quote_loop ext b term (fuel + 1) src nest lines buf =
      Scan_Quote_loop ext b term fuel (src + 2) nest lines (buf ++ [caret_value c % 65536]) := by
  have hsc := Scan_Char_caret ext b src h94 (by rw [hc]; exact h40)
  rw [hc] at hsc
  have e : ((caret_value c : Int) % 65536).toNat = caret_value c % 65536 := by omega
  have hneg : ¬ ((caret_value c : Int) = -1) := by omega
  rw [Scan_Quote_loop, if_pos (Or.inl (by rw [h94]; rcases ht with e | e <;> rw [e] <;> decide))]
  simp only [h94, hsc]
  rw [if_neg (by decide), if_pos trivial, if_neg hneg, e]

/-- One round of the loop of `Scan_Quote` in a `"`-string at a piece. -/
theorem Scan_Quote_round_item (ext : Ext) (b : Buf) (fuel src lines : Nat) (buf tl : List Nat)
    (i : QItem) (hi : qitem_ok ext b src i) (hb : b.drop src = qitem_bytes i ++ tl) :
    Scan_Quote_loop ext b 34 (fuel + 1) src 0 lines buf =
      Scan_Quote_loop ext b 34 fuel (src + (qitem_bytes i).length) 0 lines
        (buf ++ [qitem_char i]) := by
  cases i with
  | plain c =>
    obtain ⟨h0, h34, h94, hcr, hlf, h128⟩ := hi
    have hrd : rd b src = c := by
      have := rd_add_of_drop b _ src 0 hb
      rwa [Nat.add_zero] at this
    unfold CR at hcr
    unfold LF at hlf
    rw [Scan_Quote_loop]
    simp only [hrd, qitem_bytes, qitem_char, List.length_singleton]
    rw [if_pos (Or.inl h34), if_neg h0, if_neg h94]
    by_cases h123 : c = 123
    · rw [if_pos h123, if_neg (by decide)]
    rw [if_neg h123]
    by_cases h125 : c = 125
    · rw [if_pos h125, if_neg (by simp)]
    rw [if_neg h125, if_neg (by unfold CR LF; omega), if_neg (by omega)]
  | esc c =>
    have hrd : rd b src = 94 := by
      have := rd_add_of_drop b _ src 0 hb
      rwa [Nat.add_zero] at this
    have hrd1 : rd b (src + 1) = c := rd_add_of_drop b _ src 1 hb
    exact Scan_Quote_round_esc ext b 34 fuel src 0 lines buf c (Or.inl rfl) hrd hrd1 hi.2
  | seq bytes chr =>
    exact Scan_Quote_round_seq ext b 34 fuel src 0 lines buf bytes chr (Or.inl rfl) hi

/-- The rounds of the loop of `Scan_Quote` in a `"`-string over a list of
pieces. -/
theorem Scan_Quote_loop_items (ext : Ext) (b : Buf) :
    ∀ (items : List QItem) (fuel src lines : Nat) (buf tl : List Nat),
      items_ok (qitem_ok ext b) src items → b.drop src = qitems_text items ++ tl →
      Scan_Quote_loop ext b 34 (fuel + items.length) src 0 lines buf =
        Scan_Quote_loop ext b 34 fuel (src + (qitems_text items).length) 0 lines
          (buf ++ items.map qitem_char) := by
  intro items
  induction items with
  | nil =>
    intro fuel src lines buf tl _ _
    simp [qitems_text]
  | cons i is ih =>
    intro fuel src lines buf tl hall hb
    have hb1 : b.drop src = qitem_bytes i ++ (qitems_text is ++ tl) := by
      rw [hb]
      simp [qitems_text]
    have hd := drop_add_of_drop b (qitem_bytes i) _ src hb1
    have hf : fuel + (i :: is).length = fuel + is.length + 1 := by
      simp only [List.length_cons]
      omega
    rw [hf, Scan_Quote_round_item ext b _ src lines buf _ i hall.1 hb1,
      ih fuel _ lines _ tl hall.2 hd]
    simp only [qitems_text, List.length_append, List.map_cons, List.append_assoc,
      List.singleton_append, Nat.add_assoc]

theorem length_of_drop (b l : Buf) (p : Nat) (h : b.drop p = l) : p + l.length ≤ b.length ∨ l = [] := by
  subst h
  by_cases hp : p ≤ b.length
  · left
    rw [List.length_drop]
    omega
  · right
    exact List.drop_eq_nil_of_le (by omega)

/-- `Scan_Quote` on a `"`-string that begins with a list of pieces: the rounds
left over. -/
theorem Scan_Quote_items (ext : Ext) (b : Buf) (src : Nat) (ss : SCAN_STATE)
    (items : List QItem) (tl : List Nat) (hi : items_ok (qitem_ok ext b) (src + 1) items)
    (hb : b.drop src = 34 :: (qitems_text items ++ tl)) :
    Scan_Quote ext b src ss =
      (match Scan_Quote_loop ext b 34 (b.length - items.length + 1 + 1)
          (src + 1 + (qitems_text items).length) 0 0 (items.map qitem_char) with
        | (some p, lines, buf) =>
          (some (p + 1), { ss with line_count := ss.line_count + lines }, buf)
        | (none, _, buf) => (none, ss, buf))
      ∧ rd b (src + 1 + (qitems_text items).length) = rd tl 0 := by
  have h34 : rd b src = 34 := by
    have := rd_add_of_drop b _ src 0 hb
    rwa [Nat.add_zero] at this
  have hd : b.drop (src + 1) = qitems_text items ++ tl := drop_add_of_drop b [34] _ src hb
  have hc : rd b (src + 1 + (qitems_text items).length) = rd tl 0 := by
    rw [rd_add_of_drop b _ _ _ hd]
    have := rd_append_right (qitems_text items) tl 0
    rwa [Nat.add_zero] at this
  have hlen : items.length + 1 ≤ b.length := by
    have h1 := qitems_text_length (qitem_ok ext b) (qitem_ok_pos ext b) items _ hi
    rcases length_of_drop b _ src hb with h2 | h2
    · simp only [List.length_cons, List.length_append] at h2
      omega
    · exact absurd h2 (List.cons_ne_nil _ _)
  have hf : b.length + 2 = b.length - items.length + 1 + 1 + items.length := by omega
  refine ⟨?_, hc⟩
  unfold Scan_Quote
  simp only [h34]
  rw [if_neg (by decide), hf, Scan_Quote_loop_items ext b items _ (src + 1) 0 [] tl hi hd]
  rfl

/-- The last round of the loop of `Scan_Quote` in a `"`-string. -/
theorem Scan_Quote_loop_last (ext : Ext) (b : Buf) (fuel src lines : Nat) (buf : List Nat) :
    (rd b src = 34 → Scan_Quote_loop ext b 34 (fuel + 1) src 0 lines buf = (some src, lines, buf))
    ∧ (rd b src = 0 ∨ rd b src = CR ∨ rd b src = LF
        ∨ (rd b src = 94 ∧ (Scan_Char ext b src).1 = -1)
        ∨ (128 ≤ rd b src ∧ (ext.Decode_UTF8_Char b src).1 = 0) →
      (Scan_Quote_loop ext b 34 (fuel + 1) src 0 lines buf).1 = none) := by
  constructor
  · intro h
    rw [Scan_Quote_loop, if_neg (by rw [h]; simp)]
  · intro h
    rw [Scan_Quote_loop]
    rcases h with h | h | h | ⟨h, hs⟩ | ⟨h, hs⟩
    · rw [if_pos (Or.inl (by rw [h]; decide))]
      simp only [h, if_true]
    · rw [if_pos (Or.inl (by rw [h]; decide))]
      simp +decide only [h, CR, LF, if_true, if_false, true_or]
    · rw [if_pos (Or.inl (by rw [h]; decide))]
      simp +decide only [h, CR, LF, if_true, if_false, or_true]
    · rw [if_pos (Or.inl (by rw [h]; decide))]
      simp only [h]
      rw [if_neg (by decide), if_pos trivial, if_pos hs]
    · rw [if_pos (Or.inl (by omega))]
      simp only []
      rw [if_neg (by omega), if_neg (by omega), if_neg (by omega), if_neg (by omega),
        if_neg (by unfold CR LF; omega), if_pos (by omega), if_pos hs]

theorem bitem_ok_pos (ext : Ext) (b : Buf) (p : Nat) (i : QItem) (h : bitem_ok ext b p i) :
    1 ≤ (qitem_bytes i).length := by
  cases i with
  | plain c => simp [qitem_bytes]
  | esc c => simp [qitem_bytes]
  | seq bytes chr => exact h.1

/-- The first byte of a piece of a `{`-string is not LF unless the piece is a
plain LF. -/
theorem bitems_first (ext : Ext) (b : Buf) (p : Nat) (r : List QItem) (rest : List Nat)
    (hi : items_ok (bitem_ok ext b) p r) (hb : b.drop p = qitems_text r ++ 125 :: rest) :
    (rd b p = LF → ∃ r1, r = .plain LF :: r1)
    ∧ (rd b p ≠ LF → nl_chars true r = nl_chars false r ∧ nl_breaks true r = nl_breaks false r) := by
  cases r with
  | nil =>
    have hrd : rd b p = 125 := by
      have := rd_add_of_drop b _ p 0 hb
      rwa [Nat.add_zero] at this
    exact ⟨fun h => absurd (hrd ▸ h) (by decide), fun _ => ⟨rfl, rfl⟩⟩
  | cons i r1 =>
    cases i with
    | plain c =>
      have hrd : rd b p = c := by
        have := rd_add_of_drop b _ p 0 hb
        rwa [Nat.add_zero] at this
      rw [hrd]
      constructor
      · intro h
        exact ⟨r1, by rw [h]⟩
      · intro h
        unfold nl_chars nl_breaks
        by_cases hcr : c = CR
        · simp only [hcr, if_true, and_self]
        · simp only [hcr, h, if_false, and_self]
    | esc c =>
      have hrd : rd b p = 94 := by
        have := rd_add_of_drop b _ p 0 hb
        rwa [Nat.add_zero] at this
      exact ⟨fun h => absurd (hrd ▸ h) (by decide), fun _ => ⟨rfl, rfl⟩⟩
    | seq bytes chr =>
      have hne : rd b p ≠ LF := by
        rcases hi.1.2 with h | h
        · rw [h.1]
          decide
        · unfold LF
          omega
      exact ⟨fun h => absurd h hne, fun _ => ⟨rfl, rfl⟩⟩

/-- The loop of `Scan_Quote` in a `{`-string over a list of pieces whose
braces are properly nested above the current depth. -/
theorem Scan_Quote_loop_bitems (ext : Ext) (b : Buf) (rest : List Nat) :
    ∀ (n : Nat) (items : List QItem), items.length ≤ n →
    ∀ (fuel src nest lines : Nat) (buf : List Nat), nested_items nest items = true →
      items_ok (bitem_ok ext b) src items →
      b.drop src = qitems_text items ++ 125 :: rest → items.length < fuel →
      Scan_Quote_loop ext b 125 fuel src nest lines buf =
        (some (src + (qitems_text items).length), lines + nl_breaks false items,
          buf ++ nl_chars false items) := by
  intro n
  induction n with
  | zero =>
    intro items hlen fuel src nest lines buf hn _ hb hf
    have hnil : items = [] := List.eq_nil_of_length_eq_zero (by omega)
    subst hnil
    obtain ⟨f, rfl⟩ : ∃ f, fuel = f + 1 := ⟨fuel - 1, by simp at hf; omega⟩
    have hrd : rd b src = 125 := by
      have := rd_add_of_drop b _ src 0 hb
      rwa [Nat.add_zero] at this
    have hn0 : nest = 0 := by simpa [nested_items] using hn
    subst hn0
    rw [Scan_Quote_loop, if_neg (by rw [hrd]; simp)]
    simp [nl_breaks, nl_chars, qitems_text]
  | succ n ih =>
    intro items hlen fuel src nest lines buf hn hp hb hf
    cases items with
    | nil => exact ih [] (by simp) fuel src nest lines buf hn hp hb hf
    | cons i r =>
      obtain ⟨f, rfl⟩ : ∃ f, fuel = f + 1 := ⟨fuel - 1, by simp at hf; omega⟩
      have hb1 : b.drop src = qitem_bytes i ++ (qitems_text r ++ 125 :: rest) := by
        rw [hb]
        simp [qitems_text]
      have hd := drop_add_of_drop b (qitem_bytes i) _ src hb1
      have hpr := hp.2
      have hlr : r.length ≤ n := by simpa using hlen
      have hfr : r.length < f := by simpa using hf
      cases i with
      | esc c =>
        have hrd : rd b src = 94 := by
          have := rd_add_of_drop b _ src 0 hb1
          rwa [Nat.add_zero] at this
        have hrd1 : rd b (src + 1) = c := rd_add_of_drop b _ src 1 hb1
        rw [Scan_Quote_round_esc ext b 125 f src nest lines buf c (Or.inr rfl) hrd hrd1 hp.1.2,
          ih r hlr f (src + 2) nest lines _ hn hpr hd hfr]
        simp [nl_breaks, nl_chars, qitems_text, qitem_bytes, qitem_char]
        omega
      | seq bytes chr =>
        rw [Scan_Quote_round_seq ext b 125 f src nest lines buf bytes chr (Or.inr rfl) hp.1,
          ih r hlr f (src + bytes.length) nest lines _ hn hpr hd hfr]
        simp [nl_breaks, nl_chars, qitems_text, qitem_bytes, qitem_char]
        omega
      | plain c =>
        have hrd : rd b src = c := by
          have := rd_add_of_drop b _ src 0 hb1
          rwa [Nat.add_zero] at this
        simp only [qitem_bytes, List.length_singleton] at hd hpr
        obtain ⟨h0, h94, h128⟩ := hp.1
        have htl : (qitems_text (QItem.plain c :: r)).length = (qitems_text r).length + 1 := by
          simp [qitems_text, qitem_bytes]
        by_cases h123 : c = 123
        · subst h123
          have hn1 : nested_items (nest + 1) r = true := by simpa [nested_items] using hn
          rw [Scan_Quote_loop, hrd, if_pos (Or.inl (by decide)), if_neg (by decide),
            if_neg (by decide), if_pos rfl, if_pos (by decide),
            ih r hlr f (src + 1) (nest + 1) lines _ hn1 hpr hd hfr]
          simp +decide [nl_breaks, nl_chars, CR, LF, htl]
          omega
        by_cases h125 : c = 125
        · subst h125
          have hn1 : 0 < nest ∧ nested_items (nest - 1) r = true := by
            simpa [nested_items] using hn
          rw [Scan_Quote_loop, hrd, if_pos (Or.inr hn1.1), if_neg (by decide),
            if_neg (by decide), if_neg (by decide), if_pos rfl,
            if_pos ⟨by decide, hn1.1⟩,
            ih r hlr f (src + 1) (nest - 1) lines _ hn1.2 hpr hd hfr]
          simp +decide [nl_breaks, nl_chars, CR, LF, htl]
          omega
        have hn1 : nested_items nest r = true := by
          unfold nested_items at hn
          simp only [] at hn
          rwa [if_neg h123, if_neg h125] at hn
        obtain ⟨first1, first2⟩ := bitems_first ext b (src + 1) r rest hpr hd
        by_cases hcr : c = CR
        · subst hcr
          by_cases hlf : rd b (src + 1) = LF
          · obtain ⟨r1, hr1⟩ := first1 hlf
            subst hr1
            have hb2 : b.drop (src + 1) = [LF] ++ (qitems_text r1 ++ 125 :: rest) := by
              rw [hd]
              simp [qitems_text, qitem_bytes]
            have hd2 : b.drop (src + 1 + 1) = qitems_text r1 ++ 125 :: rest :=
              drop_add_of_drop b [LF] _ (src + 1) hb2
            have hn2 : nested_items nest r1 = true := by
              unfold nested_items at hn1
              simp only [] at hn1
              rwa [if_neg (by decide), if_neg (by decide)] at hn1
            have hpr1 := hpr.2
            simp only [qitem_bytes, List.length_singleton] at hpr1
            rw [Scan_Quote_loop, hrd, if_pos (Or.inl (by decide)), if_neg (by decide),
              if_neg (by decide), if_neg (by decide), if_neg (by decide),
              if_pos (Or.inl rfl)]
            simp only [hlf, and_self, if_true]
            rw [if_neg (by decide),
              ih r1 (by simp at hlr; omega) f (src + 1 + 1) nest (lines + 1) _ hn2 hpr1 hd2
                (by simp at hfr; omega)]
            simp +decide [nl_breaks, nl_chars, CR, LF, qitems_text, qitem_bytes]
            omega
          · have hnl := first2 hlf
            rw [Scan_Quote_loop, hrd, if_pos (Or.inl (by decide)), if_neg (by decide),
              if_neg (by decide), if_neg (by decide), if_neg (by decide),
              if_pos (Or.inl rfl)]
            simp only [hlf, and_false, if_false]
            rw [if_neg (by decide),
              ih r hlr f (src + 1) nest (lines + 1) _ hn1 hpr hd hfr]
            simp +decide [nl_breaks, nl_chars, hnl.1, hnl.2, htl]
            omega
        by_cases hlf : c = LF
        · subst hlf
          rw [Scan_Quote_loop, hrd, if_pos (Or.inl (by decide)), if_neg (by decide),
            if_neg (by decide), if_neg (by decide), if_neg (by decide),
            if_pos (Or.inr rfl)]
          simp only [show ¬ (LF = CR) by decide, false_and, if_false]
          rw [if_neg (by decide),
            ih r hlr f (src + 1) nest (lines + 1) _ hn1 hpr hd hfr]
          simp +decide [nl_breaks, nl_chars, htl]
          omega
        rw [Scan_Quote_loop, hrd, if_pos (Or.inl h125), if_neg h0, if_neg h94, if_neg h123,
          if_neg h125, if_neg (by simp [hcr, hlf]), if_neg (by omega),
          ih r hlr f (src + 1) nest lines _ hn1 hpr hd hfr]
        simp +decide [nl_breaks, nl_chars, hcr, hlf, htl]
        omega

/-- `Scan_Quote` on `{`, a list of pieces with properly nested braces, and
`}`. -/
theorem Scan_Quote_brace_items (ext : Ext) (b : Buf) (src : Nat) (ss : SCAN_STATE)
    (items : List QItem) (rest : List Nat) (hn : nested_items 0 items = true)
    (hp : items_ok (bitem_ok ext b) (src + 1) items)
    (hb : b.drop src = 123 :: (qitems_text items ++ 125 :: rest)) :
    Scan_Quote ext b src ss =
      (some (src + (qitems_text items).length + 2),
        { ss with line_count := ss.line_count + nl_breaks false items },
        nl_chars false items) := by
  have h123 : rd b src = 123 := by
    have := rd_add_of_drop b _ src 0 hb
    rwa [Nat.add_zero] at this
  have hd : b.drop (src + 1) = qitems_text items ++ 125 :: rest :=
    drop_add_of_drop b [123] _ src hb
  have hlen : items.length < b.length + 2 := by
    have h1 := qitems_text_length (bitem_ok ext b) (bitem_ok_pos ext b) items _ hp
    rcases length_of_drop b _ src hb with h2 | h2
    · simp only [List.length_cons, List.length_append] at h2
      omega
    · exact absurd h2 (List.cons_ne_nil _ _)
  unfold Scan_Quote
  simp only [h123, if_true]
  rw [Scan_Quote_loop_bitems ext b rest items.length items (Nat.le_refl _) (b.length + 2)
    (src + 1) 0 0 [] hn hp hd hlen]
  simp only [Nat.zero_add, List.nil_append]
  have e : src + 1 + (qitems_text items).length + 1 = src + (qitems_text items).length + 2 := by
    omega
  rw [e]

theorem nl_norm_no_cr (body : Buf) (h : ∀ c ∈ body, c ≠ CR) : nl_norm false body = body := by
  induction body with
  | nil => rfl
  | cons c r ih =>
    have hc := h c (List.mem_cons_self _ _)
    have ih1 := ih (fun x hx => h x (List.mem_cons_of_mem _ hx))
    unfold nl_norm
    rw [if_neg hc]
    by_cases hlf : c = LF
    · rw [if_pos hlf, ih1, hlf]
      rfl
    · rw [if_neg hlf, ih1]

/-- A body of plain bytes as a list of pieces. -/
theorem plain_items (ext : Ext) (b : Buf) (body : Buf) :
    qitems_text (body.map QItem.plain) = body
    ∧ (plainBody body → ∀ p, items_ok (bitem_ok ext b) p (body.map QItem.plain))
    ∧ (∀ n, nested_items n (body.map QItem.plain) = nested n body)
    ∧ (∀ prev, nl_chars prev (body.map QItem.plain) = nl_norm prev body) := by
  induction body with
  | nil => exact ⟨rfl, fun _ _ => trivial, fun _ => rfl, fun _ => rfl⟩
  | cons c r ih =>
    obtain ⟨i1, i2, i3, i4⟩ := ih
    refine ⟨?_, ?_, ?_, ?_⟩
    · simp only [List.map_cons, qitems_text, qitem_bytes, i1, List.singleton_append]
    · intro hp p
      exact ⟨hp c (List.mem_cons_self _ _),
        i2 (fun x hx => hp x (List.mem_cons_of_mem _ hx)) _⟩
    · intro n
      simp only [List.map_cons, nested_items, nested, i3]
    · intro prev
      simp only [List.map_cons, nl_chars, nl_norm, i4]

/-- The LFs of the mold buffer of a `{`-string: one for each line break and
one for each escape that stands for LF. -/
theorem nl_chars_count (items : List QItem) :
    ∀ prev, countLF (nl_chars prev items) = nl_breaks prev items + lf_escapes items := by
  have one : ∀ (c : Nat) (l : List Nat), countLF (c :: l) = (if c = LF then 1 else 0) + countLF l := by
    intro c l
    unfold countLF
    rw [List.count_cons]
    by_cases h : c = LF
    · simp [h]
      omega
    · simp [h]
  induction items with
  | nil => intro _; rfl
  | cons i r ih =>
    intro prev
    cases i with
    | plain c =>
      unfold nl_chars nl_breaks lf_escapes
      simp only []
      by_cases hcr : c = CR
      · rw [if_pos hcr, if_pos hcr, one, ih true]
        simp only [if_true]
        omega
      · rw [if_neg hcr, if_neg hcr]
        by_cases hlf : c = LF
        · rw [if_pos hlf, if_pos hlf]
          cases prev
          · simp only [Bool.false_eq_true, if_false]
            rw [one, ih false]
            simp only [if_true]
            omega
          · simp only [if_true]
            exact ih false
        · rw [if_neg hlf, if_neg hlf, one, ih false, if_neg hlf]
          omega
    | esc c =>
      unfold nl_chars nl_breaks lf_escapes
      simp only []
      rw [one, ih false]
      omega
    | seq bytes chr =>
      unfold nl_chars nl_breaks lf_escapes
      simp only []
      rw [one, ih false]
      omega

theorem iitem_bytes_pos (ext : Ext) (IS_WHITE : Nat → Bool) (b : Buf) (end_ term : Nat)
    (invalid : Option (List Nat)) (p : Nat) (i : IItem)
    (h : iitem_ok ext IS_WHITE b end_ term invalid p i) : 1 ≤ (iitem_bytes i).length := by
  cases i with
  | lit c => simp [iitem_bytes]
  | pct h1 h2 => simp [iitem_bytes]
  | esc c => simp [iitem_bytes]
  | seq bytes chr => exact h.1

theorem iitems_text_length (ok : Nat → IItem → Prop)
    (hok : ∀ p i, ok p i → 1 ≤ (iitem_bytes i).length) :
    ∀ (l : List IItem) (p : Nat), iitems_ok ok p l → l.length ≤ (iitems_text l).length := by
  intro l
  induction l with
  | nil => intro _ _; simp [iitems_text]
  | cons i is ih =>
    intro p h
    have h1 := hok p i h.1
    have h2 := ih _ h.2
    simp only [iitems_text, List.length_cons, List.length_append]
    omega

theorem rd_of_drop (b : Buf) (p c : Nat) (tl : List Nat) (h : b.drop p = c :: tl) :
    rd b p = c := by
  have := rd_add_of_drop b _ p 0 h
  rwa [Nat.add_zero] at this

/-- The two digits that `Scan_Hex2` reads. -/
theorem Scan_Hex2_some (b : Buf) (bp h1 h2 : Nat) (r1 : rd b bp = h1) (r2 : rd b (bp + 1) = h2)
    (x1 : isHex h1 = true) (x2 : isHex h2 = true) :
    Scan_Hex2 b bp = some (hex_value [h1, h2]) := by
  unfold isHex at x1 x2
  obtain ⟨d1, e1⟩ := Option.isSome_iff_exists.mp x1
  obtain ⟨d2, e2⟩ := Option.isSome_iff_exists.mp x2
  simp [Scan_Hex2, r1, r2, e1, e2, hex_value]

theorem Scan_Hex2_none (b : Buf) (bp : Nat)
    (h : ¬ (isHex (rd b bp) = true ∧ isHex (rd b (bp + 1)) = true)) :
    Scan_Hex2 b bp = none := by
  unfold isHex at h
  unfold Scan_Hex2
  cases e1 : hex_digit (rd b bp) with
  | none => rfl
  | some d1 =>
    cases e2 : hex_digit (rd b (bp + 1)) with
    | none => rfl
    | some d2 => simp [e1, e2] at h

/-- One round of the loop of `Scan_Item` at a piece. -/
theorem Scan_Item_round (ext : Ext) (IS_WHITE : Nat → Bool) (b : Buf) (end_ term : Nat)
    (invalid : Option (List Nat)) (fuel src : Nat) (buf tl : List Nat) (i : IItem)
    (hi : iitem_ok ext IS_WHITE b end_ term invalid src i)
    (hb : b.drop src = iitem_bytes i ++ tl)
    (he : src + (iitem_bytes i).length ≤ end_) :
    Scan_Item_loop ext IS_WHITE b end_ term invalid (fuel + 1) src buf =
      Scan_Item_loop ext IS_WHITE b end_ term invalid fuel (src + (iitem_bytes i).length)
        (buf ++ [iitem_char i]) := by
  cases i with
  | lit c =>
    obtain ⟨h32, h128, h37, h94, hterm, hw, hf⟩ := hi
    have hrd : rd b src = c := rd_of_drop b src c tl hb
    simp only [iitem_bytes, List.length_cons, List.length_nil] at he
    have hlt : src < end_ := by omega
    have hw2 : ¬ (term = 0 ∧ IS_WHITE c = true) := by
      rintro ⟨t0, w⟩
      rw [hw t0] at w
      exact Bool.noConfusion w
    rw [Scan_Item_loop]
    simp only [hrd]
    rw [if_pos ⟨hlt, hterm⟩, if_neg (by omega), if_neg hw2, if_neg (by omega)]
    by_cases h92 : c = 92
    · rw [if_pos h92]
      simp [iitem_bytes, iitem_char, h92]
    · rw [if_neg h92, if_neg h37, if_neg h94, if_neg (by omega)]
      have hf2 : forbidden invalid c = false := by
        rcases hf with h | h
        · exact absurd h h92
        · exact h
      cases invalid with
      | none => simp [iitem_bytes, iitem_char, h92]
      | some s =>
        simp only [forbidden] at hf2
        simp [iitem_bytes, iitem_char, h92, hf2]
  | pct h1 h2 =>
    obtain ⟨x1, x2, hterm, hw⟩ := hi
    have hrd : rd b src = 37 := rd_of_drop b src 37 _ hb
    have hd : b.drop (src + 1) = h1 :: h2 :: tl := drop_add_of_drop b [37] _ src hb
    have r1 : rd b (src + 1) = h1 := rd_of_drop b _ h1 _ hd
    have r2 : rd b (src + 1 + 1) = h2 := by
      have := rd_add_of_drop b _ (src + 1) 1 hd
      exact this
    simp only [iitem_bytes, List.length_cons, List.length_nil] at he
    have hlt : src < end_ := by omega
    have hw2 : ¬ (term = 0 ∧ IS_WHITE 37 = true) := by
      rintro ⟨t0, w⟩
      rw [hw t0] at w
      exact Bool.noConfusion w
    rw [Scan_Item_loop]
    simp only [hrd]
    rw [if_pos ⟨hlt, fun h => hterm h.symm⟩, if_neg (by decide), if_neg hw2, if_neg (by decide),
      if_neg (by decide), if_pos trivial, Scan_Hex2_some b (src + 1) h1 h2 r1 r2 x1 x2]
    simp [iitem_bytes, iitem_char]
  | esc c =>
    obtain ⟨h40, hterm, hw⟩ := hi
    have hrd : rd b src = 94 := rd_of_drop b src 94 _ hb
    have hd : b.drop (src + 1) = c :: tl := drop_add_of_drop b [94] _ src hb
    have r1 : rd b (src + 1) = c := rd_of_drop b _ c _ hd
    simp only [iitem_bytes, List.length_cons, List.length_nil] at he
    have hlt : src < end_ := by omega
    have hw2 : ¬ (term = 0 ∧ IS_WHITE 94 = true) := by
      rintro ⟨t0, w⟩
      rw [(hw t0).1] at w
      exact Bool.noConfusion w
    have hcast : (((caret_value c : Nat) : Int) % 65536).toNat = caret_value c % 65536 := by
      omega
    have hw3 : ¬ (term = 0 ∧ IS_WHITE (caret_value c % 65536) = true) := by
      rintro ⟨t0, w⟩
      rw [(hw t0).2] at w
      exact Bool.noConfusion w
    have hsc := Scan_Char_caret ext b src hrd (by rw [r1]; exact h40)
    rw [r1] at hsc
    rw [Scan_Item_loop]
    simp only [hrd, hsc, hcast]
    rw [if_pos ⟨hlt, fun h => hterm h.symm⟩, if_neg (by decide), if_neg hw2, if_neg (by decide),
      if_neg (by decide), if_neg (by decide), if_pos trivial, if_neg (by omega), if_neg hw3]
    simp [iitem_bytes, iitem_char]
  | seq bytes chr =>
    obtain ⟨hlen, hterm, hw, h⟩ := hi
    simp only [iitem_bytes] at he
    have hlt : src < end_ := by omega
    have hw2 : ¬ (term = 0 ∧ IS_WHITE (rd b src) = true) := by
      rintro ⟨t0, w⟩
      rw [hw t0] at w
      exact Bool.noConfusion w
    rw [Scan_Item_loop, if_pos ⟨hlt, hterm⟩]
    simp only [iitem_bytes, iitem_char]
    rcases h with ⟨h94, hend, hpos, hchr, hwc⟩ | ⟨h128, hne, hpos, hchr⟩
    · have hw3 : ¬ (term = 0 ∧ IS_WHITE chr = true) := by
        rintro ⟨t0, w⟩
        rw [hwc t0] at w
        exact Bool.noConfusion w
      rw [if_neg (by omega), if_neg hw2, if_neg (by omega), if_neg (by omega),
        if_neg (by omega), if_pos h94, if_neg hend, ← hchr, if_neg hw3, hpos]
    · rw [if_neg (by omega), if_neg hw2, if_neg (by omega), if_neg (by omega),
        if_neg (by omega), if_neg (by omega), if_pos (by omega), if_neg hne, hpos, ← hchr]

/-- The rounds of the loop of `Scan_Item` over a list of pieces. -/
theorem Scan_Item_loop_items (ext : Ext) (IS_WHITE : Nat → Bool) (b : Buf) (end_ term : Nat)
    (invalid : Option (List Nat)) :
    ∀ (items : List IItem) (fuel src : Nat) (buf tl : List Nat),
      iitems_ok (iitem_ok ext IS_WHITE b end_ term invalid) src items →
      b.drop src = iitems_text items ++ tl →
      src + (iitems_text items).length ≤ end_ →
      Scan_Item_loop ext IS_WHITE b end_ term invalid (fuel + items.length) src buf =
        Scan_Item_loop ext IS_WHITE b end_ term invalid fuel
          (src + (iitems_text items).length) (buf ++ items.map iitem_char) := by
  intro items
  induction items with
  | nil =>
    intro fuel src buf tl _ _ _
    simp [iitems_text]
  | cons i is ih =>
    intro fuel src buf tl hall hb he
    have hb1 : b.drop src = iitem_bytes i ++ (iitems_text is ++ tl) := by
      rw [hb]
      simp [iitems_text]
    have hd := drop_add_of_drop b (iitem_bytes i) _ src hb1
    simp only [iitems_text, List.length_append] at he
    have hf : fuel + (i :: is).length = fuel + is.length + 1 := by
      simp only [List.length_cons]
      omega
    rw [hf, Scan_Item_round ext IS_WHITE b end_ term invalid _ src buf _ i hall.1 hb1 (by omega),
      ih fuel _ _ tl hall.2 hd (by omega)]
    simp only [iitems_text, List.length_append, Nat.add_assoc, List.map_cons,
      List.append_assoc, List.singleton_append]

/-- `Scan_Item` over a list of pieces: the rounds left over. -/
theorem Scan_Item_items (ext : Ext) (IS_WHITE : Nat → Bool) (b : Buf) (src end_ term : Nat)
    (invalid : Option (List Nat)) (items : List IItem) (tl : List Nat)
    (hi : iitems_ok (iitem_ok ext IS_WHITE b end_ term invalid) src items)
    (hb : b.drop src = iitems_text items ++ tl)
    (he : src + (iitems_text items).length ≤ end_) :
    Scan_Item ext IS_WHITE b src end_ term invalid =
      (match Scan_Item_loop ext IS_WHITE b end_ term invalid (b.length - items.length + 2)
          (src + (iitems_text items).length) (items.map iitem_char) with
        | (some p, buf) => (some (if rd b p ≠ 0 ∧ rd b p = term then p + 1 else p), buf)
        | (none, buf) => (none, buf)) := by
  have hlen : items.length ≤ b.length := by
    have h1 := iitems_text_length (iitem_ok ext IS_WHITE b end_ term invalid)
      (iitem_bytes_pos ext IS_WHITE b end_ term invalid) items _ hi
    rcases length_of_drop b _ src hb with h2 | h2
    · simp only [List.length_append] at h2
      omega
    · have h3 : (iitems_text items).length = 0 := by
        have := congrArg List.length h2
        simp only [List.length_append, List.length_nil] at this
        omega
      omega
  have hf : b.length + 2 = b.length - items.length + 2 + items.length := by omega
  unfold Scan_Item
  rw [hf, Scan_Item_loop_items ext IS_WHITE b end_ term invalid items _ src [] tl hi hb he]
  rfl

/-- The loop of `Scan_Item` stops. -/
theorem Scan_Item_loop_stop (ext : Ext) (IS_WHITE : Nat → Bool) (b : Buf) (end_ term : Nat)
    (invalid : Option (List Nat)) (fuel p : Nat) (buf : List Nat)
    (hs : item_stop IS_WHITE b end_ term p) :
    Scan_Item_loop ext IS_WHITE b end_ term invalid (fuel + 1) p buf = (some p, buf) := by
  rw [Scan_Item_loop]
  by_cases hc : p < end_ ∧ rd b p ≠ term
  · rw [if_pos hc]
    rcases hs with h | h | h | h
    · omega
    · exact absurd h hc.2
    · simp only [h, if_true]
    · by_cases h0 : rd b p = 0
      · simp only [h0, if_true]
      · simp only [h0, if_false]
        rw [if_pos h]
  · rw [if_neg hc]

/-- The loop of `Scan_Item` fails at a literal control byte and at a literal
byte of the forbidden set. -/
theorem Scan_Item_loop_invalid (ext : Ext) (IS_WHITE : Nat → Bool) (b : Buf) (end_ term : Nat)
    (invalid : Option (List Nat)) (fuel p : Nat) (buf : List Nat) (hp : p < end_)
    (h0 : rd b p ≠ 0) (ht : rd b p ≠ term) (hw : term = 0 → IS_WHITE (rd b p) = false)
    (hbad : rd b p < 32 ∨ (rd b p < 128 ∧ rd b p ≠ 92 ∧ rd b p ≠ 37 ∧ rd b p ≠ 94
      ∧ forbidden invalid (rd b p) = true)) :
    Scan_Item_loop ext IS_WHITE b end_ term invalid (fuel + 1) p buf = (none, buf) := by
  have hw2 : ¬ (term = 0 ∧ IS_WHITE (rd b p) = true) := by
    rintro ⟨t0, w⟩
    rw [hw t0] at w
    exact Bool.noConfusion w
  rw [Scan_Item_loop, if_pos ⟨hp, ht⟩]
  simp only []
  rw [if_neg h0, if_neg hw2]
  by_cases h32 : rd b p < 32
  · rw [if_pos h32]
  · rcases hbad with h | ⟨h128, h92, h37, h94, hf⟩
    · exact absurd h h32
    · rw [if_neg h32, if_neg h92, if_neg h37, if_neg h94, if_neg (by omega)]
      cases invalid with
      | none => simp [forbidden] at hf
      | some s =>
        simp only [forbidden] at hf
        simp [hf]

/-- The loop of `Scan_Item` fails at a `%` that two hexadecimal digits do not
follow. -/
theorem Scan_Item_loop_percent (ext : Ext) (IS_WHITE : Nat → Bool) (b : Buf) (end_ term : Nat)
    (invalid : Option (List Nat)) (fuel p : Nat) (buf : List Nat) (hp : p < end_)
    (h37 : rd b p = 37) (ht : term ≠ 37) (hw : term = 0 → IS_WHITE 37 = false)
    (hx : ¬ (isHex (rd b (p + 1)) = true ∧ isHex (rd b (p + 2)) = true)) :
    Scan_Item_loop ext IS_WHITE b end_ term invalid (fuel + 1) p buf = (none, buf) := by
  have hw2 : ¬ (term = 0 ∧ IS_WHITE 37 = true) := by
    rintro ⟨t0, w⟩
    rw [hw t0] at w
    exact Bool.noConfusion w
  rw [Scan_Item_loop]
  simp only [h37]
  rw [if_pos ⟨hp, fun h => ht h.symm⟩, if_neg (by decide), if_neg hw2, if_neg (by decide),
    if_neg (by decide), if_pos trivial, Scan_Hex2_none b (p + 1) hx]

theorem tagitem_bytes_pos (i : TagItem) : 1 ≤ (tagitem_bytes i).length := by
  cases i <;> simp [tagitem_bytes]

theorem tag_text_length (l : List TagItem) : l.length ≤ (tag_text l).length := by
  induction l with
  | nil => simp [tag_text]
  | cons i is ih =>
    have := tagitem_bytes_pos i
    simp only [tag_text, List.length_cons, List.length_append]
    omega

/-- The inner loop of `Skip_Tag` over a quoted run that `c` ends. -/
theorem quoted_run (b : Buf) (p : Nat) (q tl : List Nat) (c : Nat)
    (hq : ∀ x ∈ q, x ≠ 0 ∧ x ≠ 34) (hc : c = 0 ∨ c = 34) (hd : b.drop p = q ++ tl)
    (htl : rd tl 0 = c) :
    skipWhile (fun c => c != 0 && c != 34) b p = p + q.length
      ∧ rd b (p + q.length) = c := by
  have hrd : rd b (p + q.length) = c := by
    rw [rd_add_of_drop b _ p _ hd]
    have := rd_append_right q tl 0
    rw [Nat.add_zero] at this
    rw [this, htl]
  refine ⟨?_, hrd⟩
  apply skipWhile_run _ b (by decide) q.length p
  · intro i hi
    rw [rd_add_of_drop b _ p i hd, rd_append_left q tl i hi]
    have := hq _ (rd_mem q i hi)
    simp [this.1, this.2]
  · rw [hrd]
    rcases hc with h | h <;> rw [h] <;> decide

/-- One round of the loop of `Skip_Tag` at a piece. -/
theorem Skip_Tag_round (b : Buf) (fuel cp : Nat) (tl : List Nat) (i : TagItem)
    (hi : tagitem_ok i) (hb : b.drop cp = tagitem_bytes i ++ tl) :
    Skip_Tag_loop b (fuel + 1) cp = Skip_Tag_loop b fuel (cp + (tagitem_bytes i).length) := by
  cases i with
  | plain c =>
    obtain ⟨h0, h34, h62⟩ := hi
    have hrd : rd b cp = c := by
      have := rd_add_of_drop b _ cp 0 hb
      rwa [Nat.add_zero] at this
    rw [Skip_Tag_loop, hrd, if_pos ⟨h0, h62⟩, if_neg h34]
    rfl
  | quoted q =>
    have hrd : rd b cp = 34 := by
      have := rd_add_of_drop b _ cp 0 hb
      rwa [Nat.add_zero] at this
    have hd : b.drop (cp + 1) = q ++ (34 :: tl) := by
      have := drop_add_of_drop b [34] (q ++ 34 :: tl) cp (by
        rw [hb]
        simp [tagitem_bytes])
      exact this
    obtain ⟨hs, hr⟩ := quoted_run b (cp + 1) q (34 :: tl) 34 hi (Or.inr rfl) hd rfl
    rw [Skip_Tag_loop, hrd, if_pos ⟨by decide, by decide⟩, if_pos rfl]
    simp only [hs, hr]
    rw [if_neg (by decide)]
    congr 1
    simp only [tagitem_bytes, List.length_cons, List.length_append, List.length_nil]
    omega

/-- The rounds of the loop of `Skip_Tag` over a list of pieces. -/
theorem Skip_Tag_loop_items (b : Buf) :
    ∀ (items : List TagItem), (∀ i ∈ items, tagitem_ok i) →
    ∀ (fuel cp : Nat) (tl : List Nat), b.drop cp = tag_text items ++ tl →
      Skip_Tag_loop b (fuel + items.length) cp =
        Skip_Tag_loop b fuel (cp + (tag_text items).length) := by
  intro items
  induction items with
  | nil =>
    intro _ fuel cp tl _
    simp [tag_text]
  | cons i is ih =>
    intro hall fuel cp tl hb
    have hb1 : b.drop cp = tagitem_bytes i ++ (tag_text is ++ tl) := by
      rw [hb]
      simp [tag_text]
    have hd := drop_add_of_drop b (tagitem_bytes i) _ cp hb1
    have hf : fuel + (i :: is).length = fuel + is.length + 1 := by
      simp only [List.length_cons]
      omega
    rw [hf, Skip_Tag_round b _ cp _ i (hall i (List.mem_cons_self _ _)) hb1,
      ih (fun j hj => hall j (List.mem_cons_of_mem _ hj)) fuel _ tl hd]
    simp only [tag_text, List.length_append, Nat.add_assoc]

/-- `Skip_Tag` at `<` followed by a list of pieces: the rounds left over. -/
theorem Skip_Tag_items (b : Buf) (cp : Nat) (items : List TagItem) (tl : List Nat)
    (hi : ∀ i ∈ items, tagitem_ok i) (hb : b.drop cp = 60 :: (tag_text items ++ tl)) :
    Skip_Tag b cp =
      Skip_Tag_loop b (b.length - items.length + 1) (cp + 1 + (tag_text items).length)
      ∧ b.drop (cp + 1 + (tag_text items).length) = tl := by
  have h60 : rd b cp = 60 := by
    have := rd_add_of_drop b _ cp 0 hb
    rwa [Nat.add_zero] at this
  have hd : b.drop (cp + 1) = tag_text items ++ tl := drop_add_of_drop b [60] _ cp hb
  have hlen : items.length ≤ b.length := by
    have h1 := tag_text_length items
    rcases length_of_drop b _ cp hb with h2 | h2
    · simp only [List.length_cons, List.length_append] at h2
      omega
    · exact absurd h2 (List.cons_ne_nil _ _)
  have hf : b.length + 1 = b.length - items.length + 1 + items.length := by omega
  constructor
  · unfold Skip_Tag
    rw [if_pos h60, hf, Skip_Tag_loop_items b items hi _ (cp + 1) tl hd]
  · exact drop_add_of_drop b (tag_text items) tl (cp + 1) hd

/-- A flag of a flag word is a bit of it. -/
theorem HAS_LEX_FLAG_testBit (f v : Nat) : HAS_LEX_FLAG f v = f.testBit v := by
  unfold HAS_LEX_FLAG LEX_FLAG
  rw [Nat.one_shiftLeft, Nat.and_two_pow]
  cases h : f.testBit v <;> simp [h]

theorem testBit_SET_LEX_FLAG (f l v : Nat) :
    (SET_LEX_FLAG f l).testBit v = (f.testBit v || decide (l = v)) := by
  unfold SET_LEX_FLAG LEX_FLAG
  rw [Nat.one_shiftLeft, Nat.testBit_or, Nat.testBit_two_pow]

/-- The bytes a skipping loop passes satisfy its test. -/
theorem skipWhile_mem (f : Nat → Bool) (b : Buf) (h0 : f 0 = false) :
    ∀ (n cp p : Nat), b.length - cp ≤ n → cp ≤ p → p < skipWhile f b cp → f (rd b p) = true := by
  intro n
  induction n with
  | zero =>
    intro cp p h h1 h2
    have hz : rd b cp = 0 := rd_eq_zero_of_le b cp (by omega)
    rw [skipWhile_stop f b cp (by rw [hz]; exact h0)] at h2
    omega
  | succ n ih =>
    intro cp p h h1 h2
    by_cases hp : f (rd b cp) = true
    · by_cases e : p = cp
      · rw [e]
        exact hp
      · rw [skipWhile_step f b cp h0 hp] at h2
        have hlt : cp < b.length := lt_length_of_rd_ne_zero b cp (by
          intro hz
          rw [hz, h0] at hp
          exact Bool.false_ne_true hp)
        exact ih (cp + 1) p (by omega) (by omega) h2
    · have hp2 : f (rd b cp) = false := by simpa using hp
      rw [skipWhile_stop f b cp hp2] at h2
      omega

theorem skipWhile_le (f : Nat → Bool) (b : Buf) (cp : Nat) (h : cp ≤ b.length) :
    skipWhile f b cp ≤ b.length := by
  unfold skipWhile
  have h1 := (List.takeWhile_prefix f (l := b.drop cp)).length_le
  rw [List.length_drop] at h1
  omega

/-- A skipping loop moves past a byte that satisfies its test. -/
theorem skipWhile_gt (f : Nat → Bool) (b : Buf) (cp : Nat) (h0 : f 0 = false)
    (h : f (rd b cp) = true) : cp < skipWhile f b cp := by
  rw [skipWhile_step f b cp h0 h]
  have := skipWhile_ge f b (cp + 1)
  omega

theorem class_number_of_lt : ∀ x : Fin 128, (x.val >>> LEX_SHIFT = 3 ↔ 96 ≤ x.val) := by
  decide

/-- The class of a byte, read from its table entry. -/
theorem class_ranges (c : Nat) :
    (GET_LEX_CLASS c = LEX_CLASS_DELIMIT ↔ Lex_Map c < 32)
    ∧ (GET_LEX_CLASS c = LEX_CLASS_SPECIAL ↔ 32 ≤ Lex_Map c ∧ Lex_Map c < 64)
    ∧ (GET_LEX_CLASS c = LEX_CLASS_WORD ↔ 64 ≤ Lex_Map c ∧ Lex_Map c < 96)
    ∧ (GET_LEX_CLASS c = LEX_CLASS_NUMBER ↔ 96 ≤ Lex_Map c)
    ∧ (IS_LEX_AT_LEAST_WORD c = true ↔ 64 ≤ Lex_Map c)
    ∧ (IS_LEX_AT_LEAST_NUMBER c = true ↔ 96 ≤ Lex_Map c) := by
  have h := class_facts_of_lt ⟨Lex_Map c, Lex_Map_lt c⟩
  have h3 := class_number_of_lt ⟨Lex_Map c, Lex_Map_lt c⟩
  have hn : LEX_NUMBER = 96 := by decide
  have hw : LEX_WORD = 64 := by decide
  refine ⟨GET_LEX_CLASS_delimit_iff c, ?_, ?_, ?_, ?_, ?_⟩
  · unfold GET_LEX_CLASS LEX_CLASS_SPECIAL
    simpa using h.2.2.1
  · unfold GET_LEX_CLASS LEX_CLASS_WORD
    simpa using h.2.2.2.1
  · unfold GET_LEX_CLASS LEX_CLASS_NUMBER
    simpa using h3
  · unfold IS_LEX_AT_LEAST_WORD
    simp [hw]
  · unfold IS_LEX_AT_LEAST_NUMBER
    simp [hn]

theorem special_value_byte : ∀ c : Fin 256,
    GET_LEX_CLASS c.val = LEX_CLASS_SPECIAL → GET_LEX_VALUE c.val ≠ LEX_SPECIAL_WORD := by
  decide

/-- No byte of class SPECIAL has the value that stands for the WORD flag. -/
theorem special_value_ne_word (c : Nat) (h : GET_LEX_CLASS c = LEX_CLASS_SPECIAL) :
    GET_LEX_VALUE c ≠ LEX_SPECIAL_WORD := by
  by_cases hc : c < 256
  · exact special_value_byte ⟨c, hc⟩ h
  · have h0 : Lex_Map c = 0 := by
      unfold Lex_Map
      exact List.getD_eq_default _ _ (by
        have : (Lex_Map_table USE_UNICODE).length = 256 := by decide
        omega)
    have := ((class_ranges c).2.1.1 h).1
    omega

/-- The loop of `Prescan` from a position that is past the first byte of the
lexeme, or at a first byte that is not a delimiter: it returns, at the first
delimiter at or after the position, with the flags of the bytes passed. -/
theorem Prescan_loop_spec (b : Buf) (begin : Nat) :
    ∀ (fuel cp flags : Nat), begin ≤ cp → cp ≤ b.length → b.length < fuel + cp →
      (cp = begin → ¬ Lex_Map (rd b cp) < 32) →
      ∃ e fl, Prescan_loop b begin fuel cp flags = (e, fl)
        ∧ cp ≤ e ∧ e ≤ b.length ∧ (cp = begin → cp < e)
        ∧ Lex_Map (rd b e) < 32
        ∧ (∀ p, cp ≤ p → p < e → ¬ Lex_Map (rd b p) < 32)
        ∧ (∀ v, fl.testBit v = true ↔
            (flags.testBit v = true
              ∨ (∃ p, cp ≤ p ∧ p < e ∧ p ≠ begin ∧ GET_LEX_CLASS (rd b p) = LEX_CLASS_SPECIAL
                    ∧ GET_LEX_VALUE (rd b p) = v)
              ∨ (v = LEX_SPECIAL_WORD ∧ ∃ p, cp ≤ p ∧ p < e
                    ∧ GET_LEX_CLASS (rd b p) = LEX_CLASS_WORD))) := by
  intro fuel
  induction fuel with
  | zero =>
    intro cp flags _ h1 h2 _
    omega
  | succ fuel ih =>
    intro cp flags hb hle hfuel hnd
    by_cases hd : Lex_Map (rd b cp) < 32
    · have hne : cp ≠ begin := fun e => hnd e hd
      refine ⟨cp, flags, ?_, Nat.le_refl _, hle, fun e => absurd e hne, hd, ?_, ?_⟩
      · rw [Prescan_loop_delimit b begin fuel cp flags hd, if_neg hne]
      · intro p h1 h2
        omega
      · intro v
        constructor
        · exact Or.inl
        · rintro (h | ⟨p, h1, h2, _⟩ | ⟨_, p, h1, h2, _⟩)
          · exact h
          · omega
          · omega
    · have hlt : cp < b.length := lt_length_of_rd_ne_zero b cp (by
        intro hz
        rw [hz] at hd
        exact hd (by decide))
      obtain ⟨c1, c2, c3, c4, c5, c6⟩ := class_ranges (rd b cp)
      by_cases hs : Lex_Map (rd b cp) < 64
      · -- a special character
        have hcls := c2.2 ⟨by omega, hs⟩
        obtain ⟨e, fl, heq, i1, i2, _, i4, i5, i6⟩ := ih (cp + 1)
          (if cp ≠ begin then SET_LEX_FLAG flags (GET_LEX_VALUE (rd b cp)) else flags)
          (by omega) (by omega) (by omega) (fun e => by omega)
        refine ⟨e, fl, ?_, by omega, i2, fun _ => by omega, i4, ?_, ?_⟩
        · rw [Prescan_loop_special b begin fuel cp flags hcls, heq]
        · intro p h1 h2
          by_cases e1 : p = cp
          · rw [e1]
            exact hd
          · exact i5 p (by omega) h2
        · intro v
          rw [i6 v]
          constructor
          · rintro (h | ⟨p, h1, h2, h3⟩ | ⟨hv, p, h1, h2, h3⟩)
            · by_cases hb0 : cp ≠ begin
              · rw [if_pos hb0, testBit_SET_LEX_FLAG] at h
                simp only [Bool.or_eq_true, decide_eq_true_eq] at h
                rcases h with h | h
                · exact Or.inl h
                · exact Or.inr (Or.inl ⟨cp, Nat.le_refl _, by omega, hb0, hcls, h⟩)
              · rw [if_neg hb0] at h
                exact Or.inl h
            · exact Or.inr (Or.inl ⟨p, by omega, h2, h3⟩)
            · exact Or.inr (Or.inr ⟨hv, p, by omega, h2, h3⟩)
          · rintro (h | ⟨p, h1, h2, h3, h4, h5⟩ | ⟨hv, p, h1, h2, h3⟩)
            · left
              by_cases hb0 : cp ≠ begin
              · rw [if_pos hb0, testBit_SET_LEX_FLAG, h]
                rfl
              · rw [if_neg hb0]
                exact h
            · by_cases e1 : p = cp
              · left
                rw [e1] at h3 h5
                rw [if_pos h3, testBit_SET_LEX_FLAG, h5]
                simp
              · exact Or.inr (Or.inl ⟨p, by omega, h2, h3, h4, h5⟩)
            · have e1 : p ≠ cp := by
                intro e1
                rw [e1, hcls] at h3
                exact absurd h3 (by decide)
              exact Or.inr (Or.inr ⟨hv, p, by omega, h2, h3⟩)
      · by_cases hw : Lex_Map (rd b cp) < 96
        · -- a word character
          have hcls := c3.2 ⟨by omega, hw⟩
          have hat : IS_LEX_AT_LEAST_WORD (rd b cp) = true := c5.2 (by omega)
          have hgt := skipWhile_gt IS_LEX_AT_LEAST_WORD b cp (by decide) hat
          have hle2 := skipWhile_le IS_LEX_AT_LEAST_WORD b cp hle
          have hrun : ∀ p, cp ≤ p → p < skipWhile IS_LEX_AT_LEAST_WORD b cp →
              64 ≤ Lex_Map (rd b p) := fun p h1 h2 =>
            (class_ranges (rd b p)).2.2.2.2.1.1
              (skipWhile_mem IS_LEX_AT_LEAST_WORD b (by decide) _ cp p (Nat.le_refl _) h1 h2)
          obtain ⟨e, fl, heq, i1, i2, _, i4, i5, i6⟩ := ih
            (skipWhile IS_LEX_AT_LEAST_WORD b cp) (SET_LEX_FLAG flags LEX_SPECIAL_WORD)
            (by omega) hle2 (by omega) (fun e => by omega)
          refine ⟨e, fl, ?_, by omega, i2, fun _ => by omega, i4, ?_, ?_⟩
          · rw [Prescan_loop_word b begin fuel cp flags hcls, heq]
          · intro p h1 h2
            by_cases e1 : p < skipWhile IS_LEX_AT_LEAST_WORD b cp
            · have := hrun p h1 e1
              omega
            · exact i5 p (by omega) h2
          · intro v
            rw [i6 v, testBit_SET_LEX_FLAG]
            simp only [Bool.or_eq_true, decide_eq_true_eq]
            constructor
            · rintro ((h | h) | ⟨p, h1, h2, h3⟩ | ⟨hv, p, h1, h2, h3⟩)
              · exact Or.inl h
              · exact Or.inr (Or.inr ⟨h.symm, cp, Nat.le_refl _, by omega, hcls⟩)
              · exact Or.inr (Or.inl ⟨p, by omega, h2, h3⟩)
              · exact Or.inr (Or.inr ⟨hv, p, by omega, h2, h3⟩)
            · rintro (h | ⟨p, h1, h2, h3, h4, h5⟩ | ⟨hv, _⟩)
              · exact Or.inl (Or.inl h)
              · have e1 : ¬ p < skipWhile IS_LEX_AT_LEAST_WORD b cp := by
                  intro e1
                  have := hrun p h1 e1
                  have := ((class_ranges (rd b p)).2.1.1 h4).2
                  omega
                exact Or.inr (Or.inl ⟨p, by omega, h2, h3, h4, h5⟩)
              · exact Or.inl (Or.inr hv.symm)
        · -- a digit
          have hcls := c4.2 (by omega)
          have hat : IS_LEX_AT_LEAST_NUMBER (rd b cp) = true := c6.2 (by omega)
          have hgt := skipWhile_gt IS_LEX_AT_LEAST_NUMBER b cp (by decide) hat
          have hle2 := skipWhile_le IS_LEX_AT_LEAST_NUMBER b cp hle
          have hrun : ∀ p, cp ≤ p → p < skipWhile IS_LEX_AT_LEAST_NUMBER b cp →
              96 ≤ Lex_Map (rd b p) := fun p h1 h2 =>
            (class_ranges (rd b p)).2.2.2.2.2.1
              (skipWhile_mem IS_LEX_AT_LEAST_NUMBER b (by decide) _ cp p (Nat.le_refl _) h1 h2)
          obtain ⟨e, fl, heq, i1, i2, _, i4, i5, i6⟩ := ih
            (skipWhile IS_LEX_AT_LEAST_NUMBER b cp) flags
            (by omega) hle2 (by omega) (fun e => by omega)
          refine ⟨e, fl, ?_, by omega, i2, fun _ => by omega, i4, ?_, ?_⟩
          · rw [Prescan_loop_number b begin fuel cp flags hcls, heq]
          · intro p h1 h2
            by_cases e1 : p < skipWhile IS_LEX_AT_LEAST_NUMBER b cp
            · have := hrun p h1 e1
              omega
            · exact i5 p (by omega) h2
          · intro v
            rw [i6 v]
            constructor
            · rintro (h | ⟨p, h1, h2, h3⟩ | ⟨hv, p, h1, h2, h3⟩)
              · exact Or.inl h
              · exact Or.inr (Or.inl ⟨p, by omega, h2, h3⟩)
              · exact Or.inr (Or.inr ⟨hv, p, by omega, h2, h3⟩)
            · rintro (h | ⟨p, h1, h2, h3, h4, h5⟩ | ⟨hv, p, h1, h2, h3⟩)
              · exact Or.inl h
              · have e1 : ¬ p < skipWhile IS_LEX_AT_LEAST_NUMBER b cp := by
                  intro e1
                  have := hrun p h1 e1
                  have := ((class_ranges (rd b p)).2.1.1 h4).2
                  omega
                exact Or.inr (Or.inl ⟨p, by omega, h2, h3, h4, h5⟩)
              · have e1 : ¬ p < skipWhile IS_LEX_AT_LEAST_NUMBER b cp := by
                  intro e1
                  have := hrun p h1 e1
                  have := ((class_ranges (rd b p)).2.2.1.1 h3).2
                  omega
                exact Or.inr (Or.inr ⟨hv, p, by omega, h2, h3⟩)

/-- `Prescan`: the new `begin` is where the white space ends; a delimiter
there is a lexeme of one byte with no flags; otherwise the lexeme ends at the
first delimiter, and a flag is set exactly for the special characters after
the first byte and for a word character. -/
theorem Prescan_spec (b : Buf) (ss : SCAN_STATE) :
    ∃ bg e fl, Prescan b ss = (fl, { ss with begin := bg, end_ := e })
      ∧ bg = skipWhile IS_LEX_SPACE b ss.begin
      ∧ ss.begin ≤ bg
      ∧ (∀ p, ss.begin ≤ p → p < bg → IS_LEX_SPACE (rd b p) = true)
      ∧ IS_LEX_SPACE (rd b bg) = false
      ∧ (Lex_Map (rd b bg) < 32 → e = bg + 1 ∧ fl = 0)
      ∧ (¬ Lex_Map (rd b bg) < 32 → bg < e ∧ e ≤ b.length ∧ Lex_Map (rd b e) < 32
          ∧ ∀ p, bg ≤ p → p < e → ¬ Lex_Map (rd b p) < 32)
      ∧ (∀ v, fl.testBit v = true ↔
          ((∃ p, bg < p ∧ p < e ∧ GET_LEX_CLASS (rd b p) = LEX_CLASS_SPECIAL
                ∧ GET_LEX_VALUE (rd b p) = v)
            ∨ (v = LEX_SPECIAL_WORD ∧ ∃ p, bg ≤ p ∧ p < e
                ∧ GET_LEX_CLASS (rd b p) = LEX_CLASS_WORD))) := by
  have hge := skipWhile_ge IS_LEX_SPACE b ss.begin
  have hsp := skipWhile_mem IS_LEX_SPACE b (by decide) (b.length - ss.begin) ss.begin
  have hend := skipWhile_end IS_LEX_SPACE b (by decide) _ ss.begin (Nat.le_refl _)
  rw [Prescan_eq]
  generalize skipWhile IS_LEX_SPACE b ss.begin = bg at hge hsp hend ⊢
  by_cases hd : Lex_Map (rd b bg) < 32
  · refine ⟨bg, bg + 1, 0, ?_, rfl, hge, fun p h1 h2 => hsp p (Nat.le_refl _) h1 h2, hend,
      fun _ => ⟨rfl, rfl⟩, fun h => absurd hd h, ?_⟩
    · rw [Prescan_loop_delimit b bg b.length bg 0 hd, if_pos rfl]
    · intro v
      rw [Nat.zero_testBit]
      constructor
      · intro h
        exact absurd h (by simp)
      · rintro (⟨p, h1, h2, _⟩ | ⟨_, p, h1, h2, h3⟩)
        · omega
        · have e1 : p = bg := by omega
          rw [e1] at h3
          have := ((class_ranges (rd b bg)).2.2.1.1 h3).1
          omega
  · have hlt : bg < b.length := lt_length_of_rd_ne_zero b bg (by
      intro hz
      rw [hz] at hd
      exact hd (by decide))
    obtain ⟨e, fl, heq, i1, i2, i3, i4, i5, i6⟩ := Prescan_loop_spec b bg (b.length + 1) bg 0
      (Nat.le_refl _) (by omega) (by omega) (fun _ => hd)
    refine ⟨bg, e, fl, by rw [heq], rfl, hge, fun p h1 h2 => hsp p (Nat.le_refl _) h1 h2, hend,
      fun h => absurd h hd, fun _ => ⟨i3 rfl, i2, i4, i5⟩, ?_⟩
    intro v
    rw [i6 v, Nat.zero_testBit]
    constructor
    · rintro (h | ⟨p, h1, h2, h3, h4⟩ | h)
      · exact absurd h (by simp)
      · exact Or.inl ⟨p, by omega, h2, h4⟩
      · exact Or.inr h
    · rintro (⟨p, h1, h2, h3⟩ | h)
      · exact Or.inr (Or.inl ⟨p, by omega, h2, by omega, h3⟩)
      · exact Or.inr (Or.inr h)

theorem Lex_Map_high_byte : ∀ c : Fin 256, 128 ≤ c.val →
    (GET_LEX_CLASS c.val = LEX_CLASS_WORD
      ↔ c.val ≠ 0xC0 ∧ c.val ≠ 0xC1 ∧ c.val ≠ 0xF5 ∧ c.val ≠ 0xFF)
    ∧ (GET_LEX_CLASS c.val ≠ LEX_CLASS_WORD → Lex_Map c.val = LEX_DEFAULT) := by
  decide

theorem Lex_Map_table_high_byte (u : Bool) : ∀ c : Fin 256, 128 ≤ c.val →
    ((c.val = 0xC0 ∨ c.val = 0xC1 ∨ c.val = 0xF5 ∨ c.val = 0xFF) →
        (Lex_Map_table u).getD c.val 0 = LEX_UTFE u)
    ∧ (c.val = 0xA0 → (Lex_Map_table u).getD c.val 0 = LEX_A0 u)
    ∧ (c.val ≠ 0xC0 ∧ c.val ≠ 0xC1 ∧ c.val ≠ 0xF5 ∧ c.val ≠ 0xFF ∧ c.val ≠ 0xA0 →
        (Lex_Map_table u).getD c.val 0 = LEX_WORD) := by
  cases u <;> decide

theorem special_char_byte : ∀ c : Fin 256,
    ((GET_LEX_CLASS c.val = LEX_CLASS_SPECIAL ∧ GET_LEX_VALUE c.val = LEX_SPECIAL_AT) ↔ c.val = 64)
    ∧ ((GET_LEX_CLASS c.val = LEX_CLASS_SPECIAL ∧ GET_LEX_VALUE c.val = LEX_SPECIAL_COMMA)
        ↔ c.val = 44)
    ∧ ((GET_LEX_CLASS c.val = LEX_CLASS_SPECIAL ∧ GET_LEX_VALUE c.val = LEX_SPECIAL_PERIOD)
        ↔ c.val = 46)
    ∧ ((GET_LEX_CLASS c.val = LEX_CLASS_SPECIAL ∧ GET_LEX_VALUE c.val = LEX_SPECIAL_POUND)
        ↔ c.val = 35)
    ∧ ((GET_LEX_CLASS c.val = LEX_CLASS_SPECIAL ∧ GET_LEX_VALUE c.val = LEX_SPECIAL_COLON)
        ↔ c.val = 58)
    ∧ ((GET_LEX_CLASS c.val = LEX_CLASS_SPECIAL ∧ GET_LEX_VALUE c.val = LEX_SPECIAL_DOLLAR)
        ↔ c.val = 36) := by
  decide

/-- The bytes that carry the special values `@`, `,`, `.`, `#`, `:`, `$`. -/
theorem special_char (c : Nat) :
    ((GET_LEX_CLASS c = LEX_CLASS_SPECIAL ∧ GET_LEX_VALUE c = LEX_SPECIAL_AT) ↔ c = 64)
    ∧ ((GET_LEX_CLASS c = LEX_CLASS_SPECIAL ∧ GET_LEX_VALUE c = LEX_SPECIAL_COMMA) ↔ c = 44)
    ∧ ((GET_LEX_CLASS c = LEX_CLASS_SPECIAL ∧ GET_LEX_VALUE c = LEX_SPECIAL_PERIOD) ↔ c = 46)
    ∧ ((GET_LEX_CLASS c = LEX_CLASS_SPECIAL ∧ GET_LEX_VALUE c = LEX_SPECIAL_POUND) ↔ c = 35)
    ∧ ((GET_LEX_CLASS c = LEX_CLASS_SPECIAL ∧ GET_LEX_VALUE c = LEX_SPECIAL_COLON) ↔ c = 58)
    ∧ ((GET_LEX_CLASS c = LEX_CLASS_SPECIAL ∧ GET_LEX_VALUE c = LEX_SPECIAL_DOLLAR) ↔ c = 36) := by
  by_cases hc : c < 256
  · exact special_char_byte ⟨c, hc⟩
  · have h0 : Lex_Map c = 0 := by
      unfold Lex_Map
      exact List.getD_eq_default _ _ (by
        have : (Lex_Map_table USE_UNICODE).length = 256 := by decide
        omega)
    have hn : ¬ GET_LEX_CLASS c = LEX_CLASS_SPECIAL := by
      intro h
      have := ((class_ranges c).2.1.1 h).1
      omega
    refine ⟨⟨fun h => absurd h.1 hn, fun h => by omega⟩, ⟨fun h => absurd h.1 hn, fun h => by omega⟩,
      ⟨fun h => absurd h.1 hn, fun h => by omega⟩, ⟨fun h => absurd h.1 hn, fun h => by omega⟩,
      ⟨fun h => absurd h.1 hn, fun h => by omega⟩, ⟨fun h => absurd h.1 hn, fun h => by omega⟩⟩

/-- A flag of `Prescan` whose special value one byte carries is set exactly
when that byte stands in the lexeme after its first byte. -/
theorem Prescan_flag_char (b : Buf) (ss : SCAN_STATE) (v ch : Nat)
    (hv : ∀ c, (GET_LEX_CLASS c = LEX_CLASS_SPECIAL ∧ GET_LEX_VALUE c = v) ↔ c = ch) :
    HAS_LEX_FLAG (Prescan b ss).1 v = true ↔
      occurs b ((Prescan b ss).2.begin + 1) (Prescan b ss).2.end_ ch := by
  obtain ⟨bg, e, fl, heq, _, _, _, _, _, _, hfl⟩ := Prescan_spec b ss
  rw [heq, HAS_LEX_FLAG_testBit, hfl v]
  constructor
  · rintro (⟨p, h1, h2, h3, h4⟩ | ⟨hw, _⟩)
    · exact ⟨p, h1, h2, (hv _).1 ⟨h3, h4⟩⟩
    · have := (hv ch).2 rfl
      rw [hw] at this
      exact absurd this.2 (special_value_ne_word ch this.1)
  · rintro ⟨p, h1, h2, h3⟩
    have := (hv (rd b p)).2 h3
    exact Or.inl ⟨p, h1, h2, this.1, this.2⟩

/-- The loop of `Skip_To_Char` returns the first position of the byte, or
null when the byte is not there. -/
theorem Skip_To_Char_loop_spec (b : Buf) (chr : Nat) :
    ∀ n cp,
      (Skip_To_Char_loop b chr n cp = none ∧ ∀ p, cp ≤ p → p < cp + n → rd b p ≠ chr)
      ∨ (∃ q, Skip_To_Char_loop b chr n cp = some q ∧ cp ≤ q ∧ q < cp + n ∧ rd b q = chr
          ∧ ∀ p, cp ≤ p → p < q → rd b p ≠ chr) := by
  intro n
  induction n with
  | zero =>
    intro cp
    left
    exact ⟨rfl, fun p h1 h2 => by omega⟩
  | succ n ih =>
    intro cp
    rw [Skip_To_Char_loop]
    by_cases h : rd b cp = chr
    · right
      exact ⟨cp, by rw [if_pos h], Nat.le_refl _, by omega, h, fun p h1 h2 => by omega⟩
    · rw [if_neg h]
      rcases ih (cp + 1) with ⟨e, hn⟩ | ⟨q, e, q1, q2, q3, q4⟩
      · left
        refine ⟨e, fun p h1 h2 => ?_⟩
        by_cases e1 : p = cp
        · rw [e1]
          exact h
        · exact hn p (by omega) (by omega)
      · right
        refine ⟨q, e, by omega, by omega, q3, fun p h1 h2 => ?_⟩
        by_cases e1 : p = cp
        · rw [e1]
          exact h
        · exact q4 p (by omega) h2

theorem Skip_To_Char_spec (b : Buf) (cp ep chr : Nat) :
    (Skip_To_Char b cp ep chr = none ∧ ∀ p, cp ≤ p → p < ep → rd b p ≠ chr)
    ∨ (∃ q, Skip_To_Char b cp ep chr = some q ∧ cp ≤ q ∧ q < ep ∧ rd b q = chr
        ∧ ∀ p, cp ≤ p → p < q → rd b p ≠ chr) := by
  unfold Skip_To_Char
  rcases Skip_To_Char_loop_spec b chr (ep - cp) cp with ⟨e, hn⟩ | ⟨q, e, q1, q2, q3, q4⟩
  · left
    exact ⟨e, fun p h1 h2 => hn p h1 (by omega)⟩
  · right
    exact ⟨q, e, q1, by omega, q3, q4⟩

/-- `Skip_To_Char` finds something exactly when the byte is there. -/
theorem Skip_To_Char_isSome (b : Buf) (cp ep chr : Nat) :
    (Skip_To_Char b cp ep chr).isSome = true ↔ occurs b cp ep chr := by
  rcases Skip_To_Char_spec b cp ep chr with ⟨e, hn⟩ | ⟨q, e, q1, q2, q3, _⟩
  · rw [e]
    constructor
    · intro h
      exact absurd h (by simp)
    · rintro ⟨p, h1, h2, h3⟩
      exact absurd h3 (hn p h1 h2)
  · rw [e]
    exact ⟨fun _ => ⟨q, q1, q2, q3⟩, fun _ => rfl⟩

/-- An angle character is no delimiter, no `@`, no `:` and no NUL. -/
theorem angle_char_facts (c : Nat) (h : IS_ANGLE_CHAR c = true) :
    ¬ Lex_Map c < 32 ∧ c ≠ 64 ∧ c ≠ 58 ∧ c ≠ 0 := by
  have hc : c = 45 ∨ c = 61 ∨ c = 60 ∨ c = 124 ∨ c = 62 ∨ c = 43 ∨ c = 126 := by
    simpa [IS_ANGLE_CHAR, or_assoc] using h
  rcases hc with h | h | h | h | h | h | h <;> subst h <;> decide

/-- The angle loop over a run of angle characters that ends at `e`. -/
theorem skip_angle_run (b : Buf) (bg e : Nat) (he : bg < e)
    (hrun : ∀ p, bg < p → p < e → IS_ANGLE_CHAR (rd b p) = true)
    (hstop : IS_ANGLE_CHAR (rd b e) = false) : skip_angle b (bg + 1) = e := by
  unfold skip_angle
  have h := skipWhile_run IS_ANGLE_CHAR b (by decide) (e - (bg + 1)) (bg + 1)
    (fun i hi => hrun (bg + 1 + i) (by omega) (by omega))
    (by
      have : bg + 1 + (e - (bg + 1)) = e := by omega
      rw [this]
      exact hstop)
  rw [h]
  omega

/-- A lexeme that starts with `<` or `>` is classified by the angle case,
unless it starts with `>` and holds an `@`. -/
theorem angle_token (ext : Ext) (b : Buf) (ss : SCAN_STATE) (mold : List Nat)
    (h : rd b (Prescan b ss).2.begin = 60 ∨ rd b (Prescan b ss).2.begin = 62)
    (hat : HAS_LEX_FLAG (Prescan b ss).1 LEX_SPECIAL_AT = true →
      rd b (Prescan b ss).2.begin = 60) :
    Scan_Token ext b ss mold = special_angle b mold (Prescan b ss).2 (Prescan b ss).2.begin := by
  rcases h with h | h
  · have hcls : GET_LEX_CLASS (rd b (Prescan b ss).2.begin) = LEX_CLASS_SPECIAL := by
      rw [h]
      decide
    have hv : GET_LEX_VALUE (rd b (Prescan b ss).2.begin) = LEX_SPECIAL_LESSER := by
      rw [h]
      decide
    unfold Scan_Token
    simp +decide [hcls, hv, h, next_ls]
  · have hcls : GET_LEX_CLASS (rd b (Prescan b ss).2.begin) = LEX_CLASS_SPECIAL := by
      rw [h]
      decide
    have hv : GET_LEX_VALUE (rd b (Prescan b ss).2.begin) = LEX_SPECIAL_GREATER := by
      rw [h]
      decide
    have hf : HAS_LEX_FLAG (Prescan b ss).1 LEX_SPECIAL_AT = false := by
      cases e : HAS_LEX_FLAG (Prescan b ss).1 LEX_SPECIAL_AT
      · rfl
      · have := hat e
        rw [h] at this
        exact absurd this (by decide)
    unfold Scan_Token
    simp +decide [hcls, hv, hf, next_ls]

/-- The end of the lexeme of an angle run that a delimiter follows. -/
theorem Prescan_angle_run (b : Buf) (ss : SCAN_STATE) (e : Nat)
    (h1 : rd b (Prescan b ss).2.begin = 60 ∨ rd b (Prescan b ss).2.begin = 62)
    (he : (Prescan b ss).2.begin < e)
    (hrun : ∀ p, (Prescan b ss).2.begin < p → p < e → IS_ANGLE_CHAR (rd b p) = true)
    (hd : Lex_Map (rd b e) < 32) :
    (Prescan b ss).2 = { ss with begin := (Prescan b ss).2.begin, end_ := e }
      ∧ HAS_LEX_FLAG (Prescan b ss).1 LEX_SPECIAL_AT = false := by
  have hat := Prescan_flag_char b ss LEX_SPECIAL_AT 64 (fun c => (special_char c).1)
  obtain ⟨bg, e1, fl, hP, _, _, _, _, _, hnd, _⟩ := Prescan_spec b ss
  rw [hP] at h1 he hrun hat ⊢
  simp only at h1 he hrun hat ⊢
  have hn : ¬ Lex_Map (rd b bg) < 32 := by
    rcases h1 with h | h <;> rw [h] <;> decide
  obtain ⟨hlt, _, hde, hin⟩ := hnd hn
  have hee : e1 = e := by
    apply Nat.le_antisymm
    · by_contra hc
      exact hin e (by omega) (by omega) hd
    · by_contra hc
      exact (angle_char_facts _ (hrun e1 hlt (by omega))).1 hde
  subst hee
  refine ⟨rfl, ?_⟩
  cases hf : HAS_LEX_FLAG fl LEX_SPECIAL_AT
  · rfl
  · obtain ⟨p, hp1, hp2, hp3⟩ := hat.1 hf
    exact absurd hp3 (angle_char_facts _ (hrun p (by omega) hp2)).2.1

/-- The end of the lexeme of an angle run that `:` and a delimiter follow. -/
theorem Prescan_angle_set (b : Buf) (ss : SCAN_STATE) (e : Nat)
    (h1 : rd b (Prescan b ss).2.begin = 60 ∨ rd b (Prescan b ss).2.begin = 62)
    (he : (Prescan b ss).2.begin < e)
    (hrun : ∀ p, (Prescan b ss).2.begin < p → p < e → IS_ANGLE_CHAR (rd b p) = true)
    (hc : rd b e = 58) (hd : Lex_Map (rd b (e + 1)) < 32) :
    (Prescan b ss).2 = { ss with begin := (Prescan b ss).2.begin, end_ := e + 1 }
      ∧ HAS_LEX_FLAG (Prescan b ss).1 LEX_SPECIAL_AT = false := by
  have hat := Prescan_flag_char b ss LEX_SPECIAL_AT 64 (fun c => (special_char c).1)
  obtain ⟨bg, e1, fl, hP, _, _, _, _, _, hnd, _⟩ := Prescan_spec b ss
  rw [hP] at h1 he hrun hat ⊢
  simp only at h1 he hrun hat ⊢
  have hn : ¬ Lex_Map (rd b bg) < 32 := by
    rcases h1 with h | h <;> rw [h] <;> decide
  obtain ⟨hlt, _, hde, hin⟩ := hnd hn
  have hce : ¬ Lex_Map (rd b e) < 32 := by
    rw [hc]
    decide
  have hee : e1 = e + 1 := by
    apply Nat.le_antisymm
    · by_contra hcon
      exact hin (e + 1) (by omega) (by omega) hd
    · by_contra hcon
      have hle : e1 ≤ e := by omega
      rcases Nat.lt_or_ge e1 e with h | h
      · exact (angle_char_facts _ (hrun e1 hlt h)).1 hde
      · have : e1 = e := by omega
        rw [this] at hde
        exact hce hde
  subst hee
  refine ⟨rfl, ?_⟩
  cases hf : HAS_LEX_FLAG fl LEX_SPECIAL_AT
  · rfl
  · obtain ⟨p, hp1, hp2, hp3⟩ := hat.1 hf
    rcases Nat.lt_or_ge p e with h | h
    · exact absurd hp3 (angle_char_facts _ (hrun p (by omega) h)).2.1
    · have : p = e := by omega
      rw [this, hc] at hp3
      exact absurd hp3 (by decide)

/-- `Skip_Tag` at a byte other than `<`, followed by a list of pieces and
`>`. -/
theorem Skip_Tag_plain_items (b : Buf) (cp : Nat) (items : List TagItem) (tl : List Nat)
    (h60 : rd b cp ≠ 60) (hi : ∀ i ∈ items, tagitem_ok i)
    (hb : b.drop cp = tag_text items ++ 62 :: tl) :
    Skip_Tag b cp = some (cp + (tag_text items).length + 1) := by
  have hlen : items.length ≤ b.length := by
    have h1 := tag_text_length items
    rcases length_of_drop b _ cp hb with h2 | h2
    · simp only [List.length_cons, List.length_append] at h2
      omega
    · exact absurd h2 (by simp)
  have hf : b.length + 1 = b.length - items.length + 1 + items.length := by omega
  have hd := drop_add_of_drop b (tag_text items) _ cp hb
  have hrd : rd b (cp + (tag_text items).length) = 62 := by
    have := rd_add_of_drop b _ _ 0 hd
    rwa [Nat.add_zero] at this
  unfold Skip_Tag
  rw [if_neg h60, hf, Skip_Tag_loop_items b items hi _ cp _ hb, Skip_Tag_loop, hrd,
    if_neg (by simp), if_pos (by decide)]

/-- A `#` that a delimiter follows is a lexeme of one byte, classified by the
`#` case. -/
theorem pound_token (ext : Ext) (b : Buf) (ss : SCAN_STATE) (mold : List Nat)
    (h : rd b (Prescan b ss).2.begin = 35)
    (hd : Lex_Map (rd b ((Prescan b ss).2.begin + 1)) < 32) :
    (Prescan b ss).2 = { ss with begin := (Prescan b ss).2.begin,
                                 end_ := (Prescan b ss).2.begin + 1 }
      ∧ Scan_Token ext b ss mold = pound ext b (Prescan b ss).2 mold (Prescan b ss).2.begin := by
  have hat := Prescan_flag_char b ss LEX_SPECIAL_AT 64 (fun c => (special_char c).1)
  have hcls : GET_LEX_CLASS (rd b (Prescan b ss).2.begin) = LEX_CLASS_SPECIAL := by
    rw [h]
    decide
  have hv : GET_LEX_VALUE (rd b (Prescan b ss).2.begin) = LEX_SPECIAL_POUND := by
    rw [h]
    decide
  have hend : (Prescan b ss).2 = { ss with begin := (Prescan b ss).2.begin,
                                           end_ := (Prescan b ss).2.begin + 1 } := by
    obtain ⟨bg, e1, fl, hP, _, _, _, _, _, hnd, _⟩ := Prescan_spec b ss
    rw [hP] at h hd ⊢
    simp only at h hd ⊢
    have hn : ¬ Lex_Map (rd b bg) < 32 := by
      rw [h]
      decide
    obtain ⟨hlt, _, _, hin⟩ := hnd hn
    have hee : e1 = bg + 1 := by
      apply Nat.le_antisymm
      · by_contra hc
        exact hin (bg + 1) (by omega) (by omega) hd
      · omega
    rw [hee]
  refine ⟨hend, ?_⟩
  have hf : HAS_LEX_FLAG (Prescan b ss).1 LEX_SPECIAL_AT = false := by
    cases e : HAS_LEX_FLAG (Prescan b ss).1 LEX_SPECIAL_AT
    · rfl
    · obtain ⟨p, hp1, hp2, _⟩ := hat.1 e
      rw [hend] at hp2
      simp only at hp2
      omega
  unfold Scan_Token
  simp +decide [hcls, hv, hf, next_ls]

theorem Match_Bytes_ge (b : Buf) :
    ∀ (pat : List Nat) (src p : Nat), Match_Bytes b src pat = some p → src ≤ p := by
  intro pat
  induction pat with
  | nil =>
    intro src p h
    simp only [Match_Bytes, Option.some.injEq] at h
    omega
  | cons c cs ih =>
    intro src p h
    rw [Match_Bytes] at h
    split_ifs at h
    have := ih _ _ h
    omega

theorem Scan_Char_names_ge (b : Buf) (bp : Nat) :
    ∀ (names : List (List Nat)) (codes : List Nat) (r : Int × Nat),
      Scan_Char_names b bp names codes = some r → bp ≤ r.2 := by
  intro names
  induction names with
  | nil =>
    intro codes r h
    simp [Scan_Char_names] at h
  | cons n ns ih =>
    intro codes r h
    cases codes with
    | nil => simp [Scan_Char_names] at h
    | cons c cs =>
      rw [Scan_Char_names] at h
      split at h
      · rename_i cp hm
        have hge := Match_Bytes_ge b _ _ _ hm
        split_ifs at h
        · have : r = ((c : Int), cp + 1) := (Option.some.inj h).symm
          rw [this]
          simp only
          omega
        · exact ih _ _ h
      · exact ih _ _ h

theorem snd_ite_le (n : Nat) (c : Prop) [Decidable c] (x y : Int × Nat)
    (hx : n ≤ x.2) (hy : n ≤ y.2) : n ≤ (if c then x else y).2 := by
  split <;> assumption

/-- Past its first byte the escape decoder does not move the pointer
backwards. -/
theorem Scan_Char_escape_ge (ext : Ext) (b : Buf) (bp : Nat) :
    bp + 1 ≤ (if rd b bp ≠ 94 then ((rd b bp : Int), bp + 1)
      else
        if rd b (bp + 1) = 0 then (0, bp + 1 + 1)
        else if rd b (bp + 1) = 47 then ((LF : Int), bp + 1 + 1)
        else if rd b (bp + 1) = 94 then ((rd b (bp + 1) : Int), bp + 1 + 1)
        else if rd b (bp + 1) = 45 then ((TAB : Int), bp + 1 + 1)
        else if rd b (bp + 1) = 33 then (30, bp + 1 + 1)
        else if rd b (bp + 1) = 40 then
          if skipWhile Scan_Char_hex b (bp + 1 + 1) - (bp + 1 + 1) > 4 then (-1, bp + 1 + 1)
          else if rd b (skipWhile Scan_Char_hex b (bp + 1 + 1)) = 41 then
            (((slice b (bp + 1 + 1) (skipWhile Scan_Char_hex b (bp + 1 + 1))).foldl
                (fun n d => (n <<< 4) + (Lex_Map d &&& LEX_VALUE)) 0 : Nat),
              skipWhile Scan_Char_hex b (bp + 1 + 1) + 1)
          else
            match Scan_Char_names b (bp + 1 + 1) ext.Esc_Names ext.Esc_Codes with
            | some r => r
            | none => (-1, bp + 1 + 1)
        else
          if UP_CASE (rd b (bp + 1)) ≥ 64 ∧ UP_CASE (rd b (bp + 1)) ≤ 95 then
            ((UP_CASE (rd b (bp + 1)) - 64 : Nat), bp + 1 + 1)
          else if UP_CASE (rd b (bp + 1)) = 126 then (0x7f, bp + 1 + 1)
          else ((rd b (bp + 1) : Int), bp + 1 + 1) : Int × Nat).2 := by
  have h2 := skipWhile_ge Scan_Char_hex b (bp + 1 + 1)
  repeat' (with_reducible apply snd_ite_le)
  all_goals try (with_reducible exact Nat.le_refl _)
  all_goals try (with_reducible exact Nat.le_succ _)
  · show bp + 1 ≤ skipWhile Scan_Char_hex b (bp + 1 + 1) + 1
    omega
  · split
    · rename_i r hr
      have := Scan_Char_names_ge b _ _ _ _ hr
      omega
    · exact Nat.le_succ _

/-- The escape decoder does not move the pointer backwards. -/
theorem Scan_Char_ge (ext : Ext) (b : Buf) (bp : Nat) (hf : forward ext b) :
    bp ≤ (Scan_Char ext b bp).2 := by
  have h1 := hf bp
  have h2 := Scan_Char_escape_ge ext b bp
  unfold Scan_Char
  dsimp only
  by_cases h0 : rd b bp ≥ 0x80
  · rw [if_pos h0]
    show bp ≤ (ext.Decode_UTF8_Char b bp).2 + 1
    omega
  · rw [if_neg h0]
    exact Nat.le_trans (Nat.le_succ _) h2

/-- After `^` the escape decoder moves the pointer forward. -/
theorem Scan_Char_caret_gt (ext : Ext) (b : Buf) (bp : Nat) (h : rd b bp = 94) :
    bp < (Scan_Char ext b bp).2 := by
  have h2 := Scan_Char_escape_ge ext b bp
  unfold Scan_Char
  dsimp only
  rw [if_neg (by rw [h]; decide)]
  exact h2

/-- The loop of `Scan_Quote` stops at the terminator. -/
theorem Scan_Quote_loop_some (ext : Ext) (b : Buf) (term : Nat) :
    ∀ (fuel src nest lines : Nat) (buf : List Nat) (p : Nat),
      (Scan_Quote_loop ext b term fuel src nest lines buf).1 = some p →
      rd b p = term ∧ (forward ext b → src ≤ p) := by
  intro fuel
  induction fuel with
  | zero =>
    intro src nest lines buf p h
    simp [Scan_Quote_loop] at h
  | succ fuel ih =>
    intro src nest lines buf p h
    rw [Scan_Quote_loop] at h
    dsimp only at h
    by_cases h1 : rd b src ≠ term ∨ nest > 0
    · rw [if_pos h1] at h
      by_cases h2 : rd b src = 0
      · rw [if_pos h2] at h
        exact absurd h (by simp)
      rw [if_neg h2] at h
      by_cases h3 : rd b src = 94
      · rw [if_pos h3] at h
        have hgt := Scan_Char_caret_gt ext b src h3
        by_cases h4 : (Scan_Char ext b src).1 = -1
        · rw [if_pos h4] at h
          exact absurd h (by simp)
        · rw [if_neg h4] at h
          obtain ⟨i1, i2⟩ := ih _ _ _ _ _ h
          exact ⟨i1, fun hf => by have := i2 hf; omega⟩
      rw [if_neg h3] at h
      by_cases h5 : rd b src = 123
      · rw [if_pos h5] at h
        obtain ⟨i1, i2⟩ := ih _ _ _ _ _ h
        exact ⟨i1, fun hf => by have := i2 hf; omega⟩
      rw [if_neg h5] at h
      by_cases h6 : rd b src = 125
      · rw [if_pos h6] at h
        obtain ⟨i1, i2⟩ := ih _ _ _ _ _ h
        exact ⟨i1, fun hf => by have := i2 hf; omega⟩
      rw [if_neg h6] at h
      by_cases h7 : rd b src = CR ∨ rd b src = LF
      · rw [if_pos h7] at h
        by_cases h8 : term = 34
        · rw [if_pos h8] at h
          exact absurd h (by simp)
        · rw [if_neg h8] at h
          obtain ⟨i1, i2⟩ := ih _ _ _ _ _ h
          exact ⟨i1, fun hf => by
            have := i2 hf
            split_ifs at this <;> omega⟩
      rw [if_neg h7] at h
      by_cases h9 : rd b src ≥ 0x80
      · rw [if_pos h9] at h
        by_cases h10 : (ext.Decode_UTF8_Char b src).1 = 0
        · rw [if_pos h10] at h
          exact absurd h (by simp)
        · rw [if_neg h10] at h
          obtain ⟨i1, i2⟩ := ih _ _ _ _ _ h
          exact ⟨i1, fun hf => by
            have := i2 hf
            have := hf src
            omega⟩
      · rw [if_neg h9] at h
        obtain ⟨i1, i2⟩ := ih _ _ _ _ _ h
        exact ⟨i1, fun hf => by have := i2 hf; omega⟩
    · rw [if_neg h1] at h
      have hp : src = p := Option.some.inj h
      subst hp
      have : rd b src = term := by
        by_contra hc
        exact h1 (Or.inl hc)
      exact ⟨this, fun _ => Nat.le_refl _⟩

/-- `Scan_Quote` keeps `begin` and `end`; the position it returns is inside
the memory, and after `src` when the decoder moves forward. -/
theorem Scan_Quote_bounds (ext : Ext) (b : Buf) (src : Nat) (ss : SCAN_STATE) :
    (Scan_Quote ext b src ss).2.1.begin = ss.begin
      ∧ (Scan_Quote ext b src ss).2.1.end_ = ss.end_
      ∧ ∀ p, (Scan_Quote ext b src ss).1 = some p →
          p ≤ b.length ∧ (forward ext b → src < p) := by
  unfold Scan_Quote
  dsimp only
  split
  · rename_i p lines buf hq
    refine ⟨rfl, rfl, ?_⟩
    intro q hq1
    have hq2 : p + 1 = q := Option.some.inj hq1
    have hl := Scan_Quote_loop_some ext b _ _ _ _ _ _ p (by rw [hq])
    have hne : rd b p ≠ 0 := by
      rw [hl.1]
      split_ifs <;> decide
    have := lt_length_of_rd_ne_zero b p hne
    exact ⟨by omega, fun hf => by have := hl.2 hf; omega⟩
  · exact ⟨rfl, rfl, fun p h => absurd h (by simp)⟩

theorem Skip_Tag_loop_some (b : Buf) :
    ∀ (fuel cp p : Nat), Skip_Tag_loop b fuel cp = some p → cp < p ∧ p ≤ b.length := by
  intro fuel
  induction fuel with
  | zero =>
    intro cp p h
    simp [Skip_Tag_loop] at h
  | succ fuel ih =>
    intro cp p h
    rw [Skip_Tag_loop] at h
    dsimp only at h
    by_cases h1 : rd b cp ≠ 0 ∧ rd b cp ≠ 62
    · rw [if_pos h1] at h
      by_cases h2 : rd b cp = 34
      · rw [if_pos h2] at h
        have hge := skipWhile_ge (fun c => c != 0 && c != 34) b (cp + 1)
        by_cases h3 : rd b (skipWhile (fun c => c != 0 && c != 34) b (cp + 1)) = 0
        · rw [if_pos h3] at h
          exact absurd h (by simp)
        · rw [if_neg h3] at h
          have := ih _ _ h
          omega
      · rw [if_neg h2] at h
        have := ih _ _ h
        omega
    · rw [if_neg h1] at h
      by_cases h4 : rd b cp ≠ 0
      · rw [if_pos h4] at h
        have hp : cp + 1 = p := Option.some.inj h
        have := lt_length_of_rd_ne_zero b cp h4
        omega
      · rw [if_neg h4] at h
        exact absurd h (by simp)

theorem Skip_Tag_some (b : Buf) (cp p : Nat) (h : Skip_Tag b cp = some p) :
    cp < p ∧ p ≤ b.length := by
  unfold Skip_Tag at h
  have := Skip_Tag_loop_some b _ _ _ h
  split_ifs at this <;> omega

theorem recover_line_bounds (b : Buf) (bg : Nat) (h : bg < b.length) :
    bg < recover_line b bg ∧ recover_line b bg ≤ b.length := by
  unfold recover_line
  have := skipWhile_ge NOT_NEWLINE b (bg + 1)
  have := skipWhile_le NOT_NEWLINE b (bg + 1) (by omega)
  omega

theorem skip_url_path_bounds (b : Buf) (cp : Nat) (h : cp ≤ b.length) :
    cp ≤ skip_url_path b cp ∧ skip_url_path b cp ≤ b.length := by
  unfold skip_url_path
  split_ifs with h1
  · have := skipWhile_ge (fun c => IS_LEX_AT_LEAST_SPECIAL c || c == 47) b (cp + 1)
    have hlt := lt_length_of_rd_ne_zero b cp (by rw [h1]; decide)
    have := skipWhile_le (fun c => IS_LEX_AT_LEAST_SPECIAL c || c == 47) b (cp + 1) (by omega)
    omega
  · omega

theorem skip_file_path_bounds (b : Buf) (cp : Nat) (h : cp ≤ b.length) :
    cp ≤ skip_file_path b cp ∧ skip_file_path b cp ≤ b.length := by
  unfold skip_file_path
  split_ifs with h1
  · have := skipWhile_ge (fun c => c == 47 || IS_LEX_AT_LEAST_SPECIAL c) b cp
    have := skipWhile_le (fun c => c == 47 || IS_LEX_AT_LEAST_SPECIAL c) b cp h
    omega
  · omega

theorem skip_angle_bounds (b : Buf) (cp : Nat) (h : cp ≤ b.length) :
    cp ≤ skip_angle b cp ∧ skip_angle b cp ≤ b.length := by
  unfold skip_angle
  exact ⟨skipWhile_ge _ _ _, skipWhile_le _ _ _ h⟩

theorem bounds_ite (ext : Ext) (b : Buf) (bg : Nat) (c : Prop) [Decidable c]
    (x y : Int × SCAN_STATE × List Nat)
    (hx : c → inBounds ext b bg x.2.1) (hy : ¬ c → inBounds ext b bg y.2.1) :
    inBounds ext b bg (if c then x else y).2.1 := by
  split
  · exact hx (by assumption)
  · exact hy (by assumption)

theorem bounds_ite_pair (ext : Ext) (b : Buf) (bg : Nat) (c : Prop) [Decidable c]
    (x y : Int × SCAN_STATE)
    (hx : c → inBounds ext b bg x.2) (hy : ¬ c → inBounds ext b bg y.2) :
    inBounds ext b bg (if c then x else y).2 := by
  split
  · exact hx (by assumption)
  · exact hy (by assumption)

/-- The byte that carries the special value of `<`. -/
theorem lesser_char_byte : ∀ c : Fin 256,
    ((GET_LEX_CLASS c.val = LEX_CLASS_SPECIAL ∧ GET_LEX_VALUE c.val = LEX_SPECIAL_LESSER)
      ↔ c.val = 60) := by
  decide

theorem lesser_char (c : Nat) :
    (GET_LEX_CLASS c = LEX_CLASS_SPECIAL ∧ GET_LEX_VALUE c = LEX_SPECIAL_LESSER) ↔ c = 60 := by
  by_cases hc : c < 256
  · exact lesser_char_byte ⟨c, hc⟩
  · have h0 : Lex_Map c = 0 := by
      unfold Lex_Map
      exact List.getD_eq_default _ _ (by
        have : (Lex_Map_table USE_UNICODE).length = 256 := by decide
        omega)
    have hn : ¬ GET_LEX_CLASS c = LEX_CLASS_SPECIAL := by
      intro h
      have := ((class_ranges c).2.1.1 h).1
      omega
    exact ⟨fun h => absurd h.1 hn, fun h => by omega⟩

/-- The word cases keep the lexeme inside the memory. -/
theorem scanword_bounds (ext : Ext) (b : Buf) (ss : SCAN_STATE) (flags cp : Nat) (type : Int)
    (hbe : ss.begin ≤ ss.end_) (he : ss.end_ ≤ b.length) (hcp : ss.begin ≤ cp)
    (hcp1 : cp ≤ ss.begin + 1)
    (hfl : HAS_LEX_FLAG flags LEX_SPECIAL_LESSER = true → occurs b (ss.begin + 1) ss.end_ 60) :
    inBounds ext b ss.begin (scanword b ss flags cp type).2 := by
  have hkeep : inBounds ext b ss.begin ss := ⟨rfl, he, fun _ => hbe⟩
  have hurl := skip_url_path_bounds b ss.end_ he
  unfold scanword
  dsimp only
  repeat' (with_reducible apply bounds_ite_pair <;> intro)
  all_goals try (with_reducible exact hkeep)
  · exact ⟨rfl, hurl.2, fun _ => Nat.le_trans hbe hurl.1⟩
  · have hl : HAS_LEX_FLAG flags LEX_SPECIAL_LESSER = true := by assumption
    obtain ⟨i, i1, i2, i3⟩ := hfl hl
    rcases Skip_To_Char_spec b cp ss.end_ 60 with ⟨_, hn⟩ | ⟨q, e, q1, q2, _⟩
    · exact absurd i3 (hn i (by omega) i2)
    · rw [e]
      exact ⟨rfl, (by show q ≤ b.length; omega), fun _ => (by show ss.begin ≤ q; omega)⟩

/-- The `#` cases keep the lexeme inside the memory. -/
theorem pound_bounds (ext : Ext) (b : Buf) (ss : SCAN_STATE) (mold : List Nat) (cp : Nat)
    (hb : ss.begin < b.length) (hbe : ss.begin ≤ ss.end_) (he : ss.end_ ≤ b.length)
    (hcp : ss.begin ≤ cp) :
    inBounds ext b ss.begin (pound ext b ss mold cp).2.1 := by
  have hkeep : inBounds ext b ss.begin ss := ⟨rfl, he, fun _ => hbe⟩
  have hrec := recover_line_bounds b ss.begin hb
  have hq := Scan_Quote_bounds ext b (cp + 1) ss
  unfold pound
  dsimp only
  apply bounds_ite
  · intro h
    have := lt_length_of_rd_ne_zero b (cp + 1) (by rw [h]; decide)
    exact ⟨rfl, (by show cp + 1 + 1 ≤ b.length; omega),
      fun _ => (by show ss.begin ≤ cp + 1 + 1; omega)⟩
  intro _
  apply bounds_ite
  · intro _
    apply bounds_ite
    · intro h
      have := lt_length_of_rd_ne_zero b _ (by rw [h.2]; decide)
      exact ⟨rfl, (by show (Scan_Char ext b (cp + 1 + 1)).2 + 1 ≤ b.length; omega),
        fun hf => (by
          have := Scan_Char_ge ext b (cp + 1 + 1) hf
          show ss.begin ≤ (Scan_Char ext b (cp + 1 + 1)).2 + 1
          omega)⟩
    · intro _
      exact ⟨rfl, hrec.2, fun _ => Nat.le_of_lt hrec.1⟩
  intro _
  apply bounds_ite
  · intro _
    split
    · rename_i p ss1 mold1 heq
      rw [heq] at hq
      obtain ⟨q1, _, q3⟩ := hq
      obtain ⟨q4, q5⟩ := q3 p rfl
      exact ⟨q1, q4, fun hf => (by
        have := q5 hf
        show ss.begin ≤ p
        omega)⟩
    · rename_i ss1 mold1 heq
      rw [heq] at hq
      exact ⟨hq.1, hrec.2, fun _ => Nat.le_of_lt hrec.1⟩
  intro _
  apply bounds_ite
  · intro h
    have hlt : cp + 1 < b.length := by
      rcases h with h | h
      · exact lt_length_of_rd_ne_zero b (cp + 1) (by rw [h]; decide)
      · exact lt_length_of_rd_ne_zero b (cp + 1) (by rw [h]; decide)
    have := skip_angle_bounds b (cp + 1 + 1) (by omega)
    exact ⟨rfl, this.2, fun _ => (by
      show ss.begin ≤ skip_angle b (cp + 1 + 1)
      omega)⟩
  intro _
  apply bounds_ite
  · intro _
    exact hkeep
  · intro _
    exact hkeep

/-- The number cases keep the lexeme inside the memory. -/
theorem num_bounds (ext : Ext) (b : Buf) (ss : SCAN_STATE) (mold : List Nat) (flags cp : Nat)
    (hb : ss.begin < b.length) (hbe : ss.begin ≤ ss.end_) (he : ss.end_ ≤ b.length) :
    inBounds ext b ss.begin (num ext b ss mold flags cp).2.1 := by
  have hkeep : inBounds ext b ss.begin ss := ⟨rfl, he, fun _ => hbe⟩
  unfold num
  dsimp only
  repeat' (with_reducible apply bounds_ite <;> intro)
  all_goals try (with_reducible exact hkeep)
  all_goals try (with_reducible exact pound_bounds ext b ss mold _ hb hbe he (by omega))
  split
  · exact hkeep
  · apply bounds_ite <;> intro <;> exact hkeep

theorem special_percent_bounds (ext : Ext) (b : Buf) (mold : List Nat) (ss : SCAN_STATE)
    (hbe : ss.begin ≤ ss.end_) (he : ss.end_ ≤ b.length) :
    inBounds ext b ss.begin (special_percent ext b mold ss).2.1 := by
  have hq := Scan_Quote_bounds ext b ss.end_ ss
  have hf := skip_file_path_bounds b ss.end_ he
  unfold special_percent
  dsimp only
  apply bounds_ite
  · intro _
    split
    · rename_i p ss1 mold1 heq
      rw [heq] at hq
      obtain ⟨q1, _, q3⟩ := hq
      obtain ⟨q4, q5⟩ := q3 p rfl
      exact ⟨q1, q4, fun hf => (by
        have := q5 hf
        show ss.begin ≤ p
        omega)⟩
    · rename_i ss1 mold1 heq
      rw [heq] at hq
      obtain ⟨q1, q2, _⟩ := hq
      simp only at q1 q2
      exact ⟨q1, (by show ss1.end_ ≤ b.length; omega),
        fun _ => (by show ss.begin ≤ ss1.end_; omega)⟩
  · intro _
    exact ⟨rfl, hf.2, fun _ => Nat.le_trans hbe hf.1⟩

theorem angle_mode2_bounds (ext : Ext) (b : Buf) (mold : List Nat) (ss : SCAN_STATE)
    (cp : Nat) (type : Int) (hcp : ss.begin ≤ cp)
    (h : rd b (cp + 1) = 60 ∨ rd b (cp + 1) = 62) :
    inBounds ext b ss.begin (angle_mode2 b mold ss cp type).2.1 := by
  have hlt : cp + 1 < b.length := by
    rcases h with h | h
    · exact lt_length_of_rd_ne_zero b (cp + 1) (by rw [h]; decide)
    · exact lt_length_of_rd_ne_zero b (cp + 1) (by rw [h]; decide)
  have := skip_angle_bounds b (cp + 2) (by omega)
  unfold angle_mode2
  exact ⟨rfl, this.2, fun _ => (by
    show ss.begin ≤ skip_angle b (cp + 2)
    omega)⟩

theorem special_colon_bounds (ext : Ext) (b : Buf) (mold : List Nat) (ss : SCAN_STATE)
    (flags : Nat) (hbe : ss.begin ≤ ss.end_) (he : ss.end_ ≤ b.length)
    (hfl : HAS_LEX_FLAG flags LEX_SPECIAL_LESSER = true → occurs b (ss.begin + 1) ss.end_ 60) :
    inBounds ext b ss.begin (special_colon b mold ss flags ss.begin).2.1 := by
  have hkeep : inBounds ext b ss.begin ss := ⟨rfl, he, fun _ => hbe⟩
  have hw := scanword_bounds ext b ss flags (ss.begin + 1) TOKEN_GET hbe he (by omega)
    (by omega) hfl
  unfold special_colon
  dsimp only
  repeat' (with_reducible apply bounds_ite <;> intro)
  all_goals try (with_reducible exact hkeep)
  · exact angle_mode2_bounds ext b mold ss _ _ (Nat.le_refl _) (by assumption)
  · exact hw

theorem special_tick_bounds (ext : Ext) (b : Buf) (mold : List Nat) (ss : SCAN_STATE)
    (flags : Nat) (hbe : ss.begin ≤ ss.end_) (he : ss.end_ ≤ b.length)
    (hfl : HAS_LEX_FLAG flags LEX_SPECIAL_LESSER = true → occurs b (ss.begin + 1) ss.end_ 60) :
    inBounds ext b ss.begin (special_tick b mold ss flags ss.begin).2.1 := by
  have hkeep : inBounds ext b ss.begin ss := ⟨rfl, he, fun _ => hbe⟩
  have hw := scanword_bounds ext b ss flags ss.begin TOKEN_LIT hbe he (by omega)
    (by omega) hfl
  unfold special_tick
  dsimp only
  repeat' (with_reducible apply bounds_ite <;> intro)
  all_goals try (with_reducible exact hkeep)
  · exact angle_mode2_bounds ext b mold ss _ _ (Nat.le_refl _) (by assumption)
  · exact hw

theorem special_comma_period_bounds (ext : Ext) (b : Buf) (mold : List Nat) (ss : SCAN_STATE)
    (flags cp v : Nat) (hb : ss.begin < b.length) (hbe : ss.begin ≤ ss.end_)
    (he : ss.end_ ≤ b.length) (hcp : ss.begin ≤ cp) (hcp1 : cp ≤ ss.begin + 1)
    (hv : v ≠ LEX_SPECIAL_LESSER)
    (hfl : HAS_LEX_FLAG flags LEX_SPECIAL_LESSER = true → occurs b (ss.begin + 1) ss.end_ 60) :
    inBounds ext b ss.begin (special_comma_period ext b mold ss flags cp v).2.1 := by
  have hkeep : inBounds ext b ss.begin ss := ⟨rfl, he, fun _ => hbe⟩
  have hfl1 : HAS_LEX_FLAG (SET_LEX_FLAG flags v) LEX_SPECIAL_LESSER = true →
      occurs b (ss.begin + 1) ss.end_ 60 := by
    intro h
    apply hfl
    rw [HAS_LEX_FLAG_testBit] at h ⊢
    rw [testBit_SET_LEX_FLAG] at h
    simpa [hv] using h
  unfold special_comma_period
  dsimp only
  repeat' (with_reducible apply bounds_ite <;> intro)
  · exact num_bounds ext b ss mold _ cp hb hbe he
  · exact hkeep
  · exact scanword_bounds ext b ss _ cp TOKEN_WORD hbe he hcp hcp1 hfl1

theorem special_angle_bounds (ext : Ext) (b : Buf) (mold : List Nat) (ss : SCAN_STATE)
    (cp : Nat) (hbe : ss.begin ≤ ss.end_) (he : ss.end_ ≤ b.length) (hcp : ss.begin ≤ cp) :
    inBounds ext b ss.begin (special_angle b mold ss cp).2.1 := by
  have hkeep : inBounds ext b ss.begin ss := ⟨rfl, he, fun _ => hbe⟩
  have hge := skipWhile_ge IS_ANGLE_CHAR b (cp + 1)
  unfold special_angle skip_angle
  dsimp only
  repeat' (with_reducible apply bounds_ite <;> intro)
  all_goals try (with_reducible exact hkeep)
  split
  · exact hkeep
  · rename_i p hp
    have := Skip_Tag_some b _ p hp
    exact ⟨rfl, this.2, fun _ => (by show ss.begin ≤ p; omega)⟩

theorem special_sign_bounds (ext : Ext) (b : Buf) (mold : List Nat)
    (again : SCAN_STATE → Nat → Nat → Int × SCAN_STATE × List Nat)
    (ss : SCAN_STATE) (flags : Nat)
    (hagain : LEX_SPECIAL_PERIOD ≤ GET_LEX_VALUE (rd b (ss.begin + 1)) →
      inBounds ext b ss.begin (again ss flags (ss.begin + 1)).2.1)
    (hb : ss.begin < b.length) (hbe : ss.begin ≤ ss.end_) (he : ss.end_ ≤ b.length)
    (hfl : HAS_LEX_FLAG flags LEX_SPECIAL_LESSER = true → occurs b (ss.begin + 1) ss.end_ 60) :
    inBounds ext b ss.begin (special_sign ext b mold again ss flags ss.begin).2.1 := by
  have hkeep : inBounds ext b ss.begin ss := ⟨rfl, he, fun _ => hbe⟩
  have hw0 := scanword_bounds ext b ss flags ss.begin TOKEN_WORD hbe he (by omega)
    (by omega) hfl
  have hw1 := scanword_bounds ext b ss flags (ss.begin + 1) TOKEN_WORD hbe he (by omega)
    (by omega) hfl
  have hn := num_bounds ext b ss mold flags (ss.begin + 1) hb hbe he
  unfold special_sign
  dsimp only
  simp only [ite_self]
  repeat' (with_reducible apply bounds_ite <;> intro)
  all_goals try (with_reducible exact hkeep)
  all_goals try (with_reducible exact hw0)
  all_goals try (with_reducible exact hw1)
  all_goals try (with_reducible exact hn)
  apply hagain
  have h : GET_LEX_VALUE (rd b (ss.begin + 1)) ≥ LEX_SPECIAL_PERIOD ∧ rd b (ss.begin + 1) ≠ 35 := by
    assumption
  exact h.1

theorem next_ls_bounds (ext : Ext) (b : Buf) (mold : List Nat) (fuel : Nat) :
    ∀ (ss : SCAN_STATE) (flags cp : Nat),
      ss.begin < b.length → ss.begin ≤ ss.end_ → ss.end_ ≤ b.length →
      (HAS_LEX_FLAG flags LEX_SPECIAL_LESSER = true → occurs b (ss.begin + 1) ss.end_ 60) →
      (cp = ss.begin ∨ (cp = ss.begin + 1 ∧ LEX_SPECIAL_PERIOD ≤ GET_LEX_VALUE (rd b cp))) →
      inBounds ext b ss.begin (next_ls ext b mold fuel ss flags cp).2.1 := by
  induction fuel with
  | zero =>
    intro ss flags cp hb hbe he hfl hcp
    exact ⟨rfl, he, fun _ => hbe⟩
  | succ fuel ih =>
    intro ss flags cp hb hbe he hfl hcp
    have hkeep : inBounds ext b ss.begin ss := ⟨rfl, he, fun _ => hbe⟩
    have hle : ss.begin ≤ cp ∧ cp ≤ ss.begin + 1 := by
      rcases hcp with h | h <;> omega
    have hlow : GET_LEX_VALUE (rd b cp) < LEX_SPECIAL_PERIOD → cp = ss.begin := by
      intro h
      rcases hcp with h1 | h1
      · exact h1
      · omega
    rw [next_ls]
    apply bounds_ite
    · intro _
      exact hkeep
    intro _
    apply bounds_ite
    · intro _
      exact special_percent_bounds ext b mold ss hbe he
    intro _
    apply bounds_ite
    · intro h
      have hc := hlow (by rw [h]; decide)
      rw [hc]
      exact special_colon_bounds ext b mold ss flags hbe he hfl
    intro _
    apply bounds_ite
    · intro h
      have hc := hlow (by rw [h]; decide)
      rw [hc]
      exact special_tick_bounds ext b mold ss flags hbe he hfl
    intro _
    apply bounds_ite
    · intro h
      exact special_comma_period_bounds ext b mold ss flags cp _ hb hbe he hle.1 hle.2
        (by rcases h with h | h <;> rw [h] <;> decide) hfl
    intro _
    apply bounds_ite
    · intro _
      exact special_angle_bounds ext b mold ss cp hbe he hle.1
    intro _
    apply bounds_ite
    · intro h
      have hc := hlow (by rcases h with h | h <;> rw [h] <;> decide)
      rw [hc]
      exact special_sign_bounds ext b mold _ ss flags
        (fun hv => ih ss flags (ss.begin + 1) hb hbe he hfl (Or.inr ⟨rfl, hv⟩)) hb hbe he hfl
    intro _
    apply bounds_ite
    · intro _
      exact pound_bounds ext b ss mold cp hb hbe he hle.1
    intro _
    apply bounds_ite
    · intro _
      exact hkeep
    · intro _
      exact hkeep

theorem delimit_return_bounds (ext : Ext) (b : Buf) (ss : SCAN_STATE) (mold : List Nat)
    (cp : Nat) (hcp : ss.begin ≤ cp + 1) (hlt : cp < b.length) :
    inBounds ext b ss.begin (delimit_return b ss mold cp).2.1 := by
  unfold delimit_return line_feed
  by_cases h : rd b (cp + 1) = LF
  · rw [if_pos h]
    have := lt_length_of_rd_ne_zero b (cp + 1) (by rw [h]; decide)
    exact ⟨rfl, (by show cp + 1 + 1 ≤ b.length; omega),
      fun _ => (by show ss.begin ≤ cp + 1 + 1; omega)⟩
  · rw [if_neg h]
    exact ⟨rfl, (by show cp + 1 ≤ b.length; omega), fun _ => (by show ss.begin ≤ cp + 1; omega)⟩

theorem delimit_comment_bounds (ext : Ext) (b : Buf) (ss : SCAN_STATE) (mold : List Nat)
    (hb : ss.begin < b.length) :
    inBounds ext b ss.begin (delimit_comment b ss mold ss.begin).2.1 := by
  have hge := skipWhile_ge NOT_NEWLINE b ss.begin
  have hle := skipWhile_le NOT_NEWLINE b ss.begin (Nat.le_of_lt hb)
  unfold delimit_comment
  dsimp only
  have hcp2 : ss.begin ≤ (if rd b (skipWhile NOT_NEWLINE b ss.begin) = 0
        then skipWhile NOT_NEWLINE b ss.begin - 1 else skipWhile NOT_NEWLINE b ss.begin) + 1
      ∧ (if rd b (skipWhile NOT_NEWLINE b ss.begin) = 0
        then skipWhile NOT_NEWLINE b ss.begin - 1 else skipWhile NOT_NEWLINE b ss.begin)
          < b.length := by
    by_cases h0 : rd b (skipWhile NOT_NEWLINE b ss.begin) = 0
    · rw [if_pos h0]
      omega
    · rw [if_neg h0]
      have := lt_length_of_rd_ne_zero b _ h0
      omega
  generalize (if rd b (skipWhile NOT_NEWLINE b ss.begin) = 0
        then skipWhile NOT_NEWLINE b ss.begin - 1 else skipWhile NOT_NEWLINE b ss.begin) = cp2
    at hcp2 ⊢
  apply bounds_ite
  · intro _
    unfold line_feed
    exact ⟨rfl, (by show cp2 + 1 ≤ b.length; omega), fun _ => (by show ss.begin ≤ cp2 + 1; omega)⟩
  · intro _
    exact delimit_return_bounds ext b ss mold cp2 hcp2.1 hcp2.2

theorem delimit_quote_bounds (ext : Ext) (b : Buf) (ss : SCAN_STATE)
    (hb : ss.begin < b.length) :
    inBounds ext b ss.begin (delimit_quote ext b ss ss.begin).2.1 := by
  have hq := Scan_Quote_bounds ext b ss.begin ss
  have hrec := recover_line_bounds b ss.begin hb
  unfold delimit_quote
  split
  · rename_i p ss1 mold1 heq
    rw [heq] at hq
    obtain ⟨q1, _, q3⟩ := hq
    obtain ⟨q4, q5⟩ := q3 p rfl
    exact ⟨q1, q4, fun hf => (by
      have := q5 hf
      show ss.begin ≤ p
      omega)⟩
  · rename_i ss1 mold1 heq
    rw [heq] at hq
    exact ⟨hq.1, hrec.2, fun _ => Nat.le_of_lt hrec.1⟩

/-- A byte that can follow the `/` of a refinement is no space and no
delimiter. -/
theorem slash_follow (c : Nat)
    (h : (IS_LEX_AT_LEAST_WORD c || c == 43 || c == 45 || c == 46 || c == 60 || c == 62) = true) :
    ¬ Lex_Map c < 32 ∧ IS_LEX_SPACE c = false := by
  simp only [Bool.or_eq_true, beq_iff_eq] at h
  rcases h with ((((h | h) | h) | h) | h) | h
  · have := (class_ranges c).2.2.2.2.1.1 h
    refine ⟨by omega, ?_⟩
    unfold IS_LEX_SPACE
    simp
    omega
  all_goals (subst h; exact ⟨by decide, by decide⟩)

theorem delimit_slash_bounds (ext : Ext) (b : Buf) (ss : SCAN_STATE) (mold : List Nat)
    (hb : ss.begin < b.length) :
    inBounds ext b ss.begin (delimit_slash b ss mold ss.begin).2.1 := by
  have hge := skipWhile_ge (fun c => c != 0 && c == 47) b ss.begin
  have hle := skipWhile_le (fun c => c != 0 && c == 47) b ss.begin (Nat.le_of_lt hb)
  have hat := Prescan_flag_char b
    { ss with begin := skipWhile (fun c => c != 0 && c == 47) b ss.begin }
    LEX_SPECIAL_LESSER 60 lesser_char
  obtain ⟨bg1, e1, fl, hP, hbg, _, _, _, _, hnd, _⟩ := Prescan_spec b
    { ss with begin := skipWhile (fun c => c != 0 && c == 47) b ss.begin }
  unfold delimit_slash
  dsimp only
  rw [hP] at hat ⊢
  dsimp only at hat hbg ⊢
  generalize skipWhile (fun c => c != 0 && c == 47) b ss.begin = cp at *
  apply bounds_ite
  · intro hc
    obtain ⟨hc1, hc2⟩ := slash_follow _ hc
    have hlt := lt_length_of_rd_ne_zero b cp (by
      intro h0
      rw [h0] at hc1
      exact hc1 (by decide))
    apply bounds_ite
    · intro _
      exact ⟨rfl, hle, fun _ => hge⟩
    intro hcp
    have hcp1 : ss.begin + 1 = cp := by
      by_contra hne
      exact hcp hne
    have hbg1 : bg1 = cp := by
      rw [hbg]
      exact skipWhile_stop _ _ _ hc2
    subst hbg1
    obtain ⟨h1, h2, _, _⟩ := hnd hc1
    have hbeg : ss.begin = bg1 - 1 := by omega
    apply bounds_ite
    · intro _
      exact ⟨hbeg.symm, h2, fun _ => (by show ss.begin ≤ e1; omega)⟩
    intro _
    apply bounds_ite
    · intro _
      have := skip_angle_bounds b (bg1 + 1) (by omega)
      exact ⟨hbeg.symm, this.2, fun _ => (by
        show ss.begin ≤ skip_angle b (bg1 + 1)
        omega)⟩
    · intro _
      have hw := scanword_bounds ext b
        { begin := bg1 - 1, end_ := e1, limit := ss.limit, line_count := ss.line_count,
          head_line := ss.head_line, opts := ss.opts, errors := ss.errors }
        fl bg1 TOKEN_REFINE (by show bg1 - 1 ≤ e1; omega) h2 (by show bg1 - 1 ≤ bg1; omega)
        (by show bg1 ≤ bg1 - 1 + 1; omega)
        (fun hl => by
          obtain ⟨i, i1, i2, i3⟩ := hat.1 hl
          exact ⟨i, by show bg1 - 1 + 1 ≤ i; omega, i2, i3⟩)
      rw [hbeg]
      exact hw
  · intro _
    exact ⟨rfl, hle, fun _ => hge⟩

theorem Scan_Token_delimit_bounds (ext : Ext) (b : Buf) (ss : SCAN_STATE) (mold : List Nat)
    (hb : ss.begin < b.length) (hbe : ss.begin < ss.end_) (he : ss.end_ ≤ b.length) :
    inBounds ext b ss.begin (Scan_Token_delimit ext b ss mold ss.begin).2.1 := by
  have hkeep : inBounds ext b ss.begin ss := ⟨rfl, he, fun _ => Nat.le_of_lt hbe⟩
  unfold Scan_Token_delimit
  dsimp only
  repeat' (with_reducible apply bounds_ite <;> intro)
  all_goals try (with_reducible exact hkeep)
  · exact delimit_comment_bounds ext b ss mold hb
  · exact delimit_return_bounds ext b ss mold ss.begin (by omega) hb
  · unfold line_feed
    exact ⟨rfl, (by show ss.begin + 1 ≤ b.length; omega),
      fun _ => (by show ss.begin ≤ ss.begin + 1; omega)⟩
  · exact delimit_quote_bounds ext b ss hb
  · exact delimit_slash_bounds ext b ss mold hb
  · exact ⟨rfl, (by show ss.end_ - 1 ≤ b.length; omega),
      fun _ => (by show ss.begin ≤ ss.end_ - 1; omega)⟩

/-- A NUL at the start of the lexeme is the end of the input: the lexeme is
empty. -/
theorem eof_lexeme (ext : Ext) (b : Buf) (ss : SCAN_STATE) (mold : List Nat)
    (h : rd b (Prescan b ss).2.begin = 0) :
    Scan_Token ext b ss mold =
      (TOKEN_EOF, { ss with begin := (Prescan b ss).2.begin,
                            end_ := (Prescan b ss).2.begin }, mold) := by
  obtain ⟨bg, e, fl, hP, _, _, _, _, hdel, _, _⟩ := Prescan_spec b ss
  unfold Scan_Token
  rw [hP] at h ⊢
  dsimp only at h ⊢
  obtain ⟨h1, h2⟩ := hdel (by rw [h]; decide)
  subst h1 h2
  simp +decide [h, Scan_Token_delimit]

/-- `Scan_Token` leaves `begin` at the first byte of the lexeme and `end`
inside the memory, not before `begin` when the decoder moves forward. -/
theorem Scan_Token_bounds (ext : Ext) (b : Buf) (ss : SCAN_STATE) (mold : List Nat)
    (h : ss.begin ≤ b.length) :
    inBounds ext b (Prescan b ss).2.begin (Scan_Token ext b ss mold).2.1 := by
  by_cases h0 : rd b (Prescan b ss).2.begin = 0
  · rw [eof_lexeme ext b ss mold h0]
    have : (Prescan b ss).2.begin ≤ b.length := by
      rw [Prescan_eq]
      exact skipWhile_le _ _ _ h
    exact ⟨rfl, this, fun _ => Nat.le_refl _⟩
  · have hat := Prescan_flag_char b ss LEX_SPECIAL_LESSER 60 lesser_char
    have hb := lt_length_of_rd_ne_zero b _ h0
    have hend : (Prescan b ss).2.begin < (Prescan b ss).2.end_
        ∧ (Prescan b ss).2.end_ ≤ b.length := by
      obtain ⟨bg, e, fl, hP, _, _, _, _, hdel, hnd, _⟩ := Prescan_spec b ss
      rw [hP] at hb ⊢
      dsimp only at hb ⊢
      by_cases hd : Lex_Map (rd b bg) < 32
      · have := (hdel hd).1
        omega
      · have := hnd hd
        omega
    have hkeep : inBounds ext b (Prescan b ss).2.begin (Prescan b ss).2 :=
      ⟨rfl, hend.2, fun _ => Nat.le_of_lt hend.1⟩
    unfold Scan_Token
    dsimp only
    apply bounds_ite
    · intro _
      exact Scan_Token_delimit_bounds ext b _ mold hb hend.1 hend.2
    intro _
    apply bounds_ite
    · intro _
      apply bounds_ite
      · intro _
        exact hkeep
      · intro _
        exact next_ls_bounds ext b mold 2 _ _ _ hb (Nat.le_of_lt hend.1) hend.2 hat.1
          (Or.inl rfl)
    intro _
    apply bounds_ite
    · intro _
      apply bounds_ite
      · intro _
        exact hkeep
      · intro _
        exact scanword_bounds ext b _ _ _ TOKEN_WORD (Nat.le_of_lt hend.1) hend.2
          (Nat.le_refl _) (Nat.le_succ _) hat.1
    · intro _
      exact num_bounds ext b _ mold _ _ hb (Nat.le_of_lt hend.1) hend.2

/-- `Scan_Token` does not lower the line count. -/
theorem Scan_Token_line_mono (ext : Ext) (b : Buf) (ss : SCAN_STATE) (mold : List Nat) :
    ss.line_count ≤ (Scan_Token ext b ss mold).2.1.line_count := by
  rcases Scan_Token_line ext b ss mold with h | h | h
  · omega
  · omega
  · exact h.2

/-- A string that opens with `"^` and a NUL: the escape decoder steps over the
NUL, and a `"` after the NUL closes the string. -/
theorem caret_nul_string (ext : Ext) (b : Buf) (ss : SCAN_STATE) (mold : List Nat)
    (h1 : rd b (Prescan b ss).2.begin = 34) (h2 : rd b ((Prescan b ss).2.begin + 1) = 94)
    (h3 : rd b ((Prescan b ss).2.begin + 2) = 0) (h4 : rd b ((Prescan b ss).2.begin + 3) = 34) :
    Scan_Token ext b ss mold =
      (TOKEN_STRING, { ss with begin := (Prescan b ss).2.begin,
                               end_ := (Prescan b ss).2.begin + 4 }, [0]) := by
  obtain ⟨bg, e, fl, hP, _, _, _, _, hdel, _, _⟩ := Prescan_spec b ss
  unfold Scan_Token
  rw [hP] at h1 h2 h3 h4 ⊢
  dsimp only at h1 h2 h3 h4 ⊢
  obtain ⟨e1, e2⟩ := hdel (by rw [h1]; decide)
  subst e1 e2
  have hc : Scan_Char ext b (bg + 1) = (0, bg + 3) := by
    unfold Scan_Char
    simp +decide [h2, h3]
  have hq : Scan_Quote_loop ext b 34 (b.length + 2) (bg + 1) 0 0 [] = (some (bg + 3), 0, [0]) := by
    rw [Scan_Quote_loop]
    simp +decide [h2, hc]
    rw [Scan_Quote_loop]
    simp +decide [h4]
  simp +decide [h1, Scan_Token_delimit, delimit_quote, Scan_Quote, hq]

/-- The state before every call in a run of `Scan_Token` from
`Init_Scan_State`. -/
theorem before_call_inv (ext : Ext) (b : Buf) (cp limit : Nat) (h : cp ≤ b.length) :
    ∀ n, (before_call ext b (Init_Scan_State cp limit) [] n).1.begin ≤ b.length
      ∧ (before_call ext b (Init_Scan_State cp limit) [] n).1.limit = cp + limit
      ∧ 1 ≤ (before_call ext b (Init_Scan_State cp limit) [] n).1.line_count
      ∧ (forward ext b → cp ≤ (before_call ext b (Init_Scan_State cp limit) [] n).1.begin) := by
  intro n
  induction n with
  | zero => exact ⟨h, rfl, Nat.le_refl _, fun _ => Nat.le_refl _⟩
  | succ n ih =>
    obtain ⟨i1, i2, i3, i4⟩ := ih
    have e : before_call ext b (Init_Scan_State cp limit) [] (n + 1) =
        (ACCEPT_TOKEN (Scan_Token ext b (before_call ext b (Init_Scan_State cp limit) [] n).1
            (before_call ext b (Init_Scan_State cp limit) [] n).2).2.1,
          (Scan_Token ext b (before_call ext b (Init_Scan_State cp limit) [] n).1
            (before_call ext b (Init_Scan_State cp limit) [] n).2).2.2) := rfl
    rw [e]
    generalize before_call ext b (Init_Scan_State cp limit) [] n = s at *
    have hb := Scan_Token_bounds ext b s.1 s.2 i1
    have hs := (Scan_Token_setup ext b s.1 s.2).2.2.2
    have hl := Scan_Token_line_mono ext b s.1 s.2
    obtain ⟨_, _, _, _, _, hge, _⟩ := Prescan_spec b s.1
    show (ACCEPT_TOKEN (Scan_Token ext b s.1 s.2).2.1).begin ≤ b.length
      ∧ (ACCEPT_TOKEN (Scan_Token ext b s.1 s.2).2.1).limit = cp + limit
      ∧ 1 ≤ (ACCEPT_TOKEN (Scan_Token ext b s.1 s.2).2.1).line_count
      ∧ (forward ext b → cp ≤ (ACCEPT_TOKEN (Scan_Token ext b s.1 s.2).2.1).begin)
    unfold ACCEPT_TOKEN
    dsimp only
    refine ⟨hb.2.1, by omega, by omega, fun hf => ?_⟩
    have := hb.2.2 hf
    have := i4 hf
    have hbg : (Prescan b s.1).2.begin = skipWhile IS_LEX_SPACE b s.1.begin := by
      rw [Prescan_eq]
    have := skipWhile_ge IS_LEX_SPACE b s.1.begin
    omega

theorem hex_table_byte : ∀ c : Fin 256,
    ((48 ≤ c.val ∧ c.val ≤ 57) →
        GET_LEX_CLASS c.val = LEX_CLASS_NUMBER ∧ GET_LEX_VALUE c.val = c.val - 48)
    ∧ (GET_LEX_CLASS c.val = LEX_CLASS_NUMBER → 48 ≤ c.val ∧ c.val ≤ 57)
    ∧ ((65 ≤ c.val ∧ c.val ≤ 70) →
        GET_LEX_CLASS c.val = LEX_CLASS_WORD ∧ GET_LEX_VALUE c.val = c.val - 55)
    ∧ ((97 ≤ c.val ∧ c.val ≤ 102) →
        GET_LEX_CLASS c.val = LEX_CLASS_WORD ∧ GET_LEX_VALUE c.val = c.val - 87)
    ∧ (GET_LEX_CLASS c.val = LEX_CLASS_WORD → ¬ (65 ≤ c.val ∧ c.val ≤ 70) →
        ¬ (97 ≤ c.val ∧ c.val ≤ 102) → GET_LEX_VALUE c.val = 0)
    ∧ (Scan_Char_hex c.val = true ↔
        ((48 ≤ c.val ∧ c.val ≤ 57) ∨ (65 ≤ c.val ∧ c.val ≤ 70) ∨ (97 ≤ c.val ∧ c.val ≤ 102))) := by
  decide

theorem case_table_byte : ∀ c : Fin 256,
    Upper_Case (Upper_Case c.val) = Upper_Case c.val
    ∧ Lower_Case (Lower_Case c.val) = Lower_Case c.val
    ∧ Upper_Case (Lower_Case c.val) = Upper_Case c.val
    ∧ Lower_Case (Upper_Case c.val) = Lower_Case c.val
    ∧ (c.val < 128 → Upper_Case c.val = if 97 ≤ c.val ∧ c.val ≤ 122 then c.val - 32 else c.val)
    ∧ (c.val < 128 → Lower_Case c.val = if 65 ≤ c.val ∧ c.val ≤ 90 then c.val + 32 else c.val) := by
  decide

theorem Lex_Map_out (c : Nat) (h : ¬ c < 256) : Lex_Map c = 0 := by
  unfold Lex_Map
  exact List.getD_eq_default _ _ (by
    have : (Lex_Map_table USE_UNICODE).length = 256 := by decide
    omega)

theorem case_out (c : Nat) (h : ¬ c < 256) : Upper_Case c = c ∧ Lower_Case c = c := by
  unfold Upper_Case Lower_Case
  constructor
  · exact List.getD_eq_default _ _ (by
      have : Upper_Case_table.length = 256 := by decide
      omega)
  · exact List.getD_eq_default _ _ (by
      have : Lower_Case_table.length = 256 := by decide
      omega)

theorem Match_Bytes_nonzero (b : Buf) :
    ∀ (pat : List Nat) (src p : Nat), Match_Bytes b src pat = some p →
      ∀ x, src ≤ x → x < p → rd b x ≠ 0 := by
  intro pat
  induction pat with
  | nil =>
    intro src p h x h1 h2
    simp only [Match_Bytes, Option.some.injEq] at h
    omega
  | cons c cs ih =>
    intro src p h x h1 h2
    rw [Match_Bytes] at h
    by_cases h0 : (rd b src == 0) = true
    · rw [if_pos h0] at h
      exact absurd h (by simp)
    rw [if_neg h0] at h
    by_cases hl : (LO_CASE (rd b src) != LO_CASE c) = true
    · rw [if_pos hl] at h
      exact absurd h (by simp)
    rw [if_neg hl] at h
    by_cases hx : x = src
    · subst hx
      simpa using h0
    · exact ih _ _ h x (by omega) h2

/-- A named escape that is found ends at `)` and spans no NUL. -/
theorem Scan_Char_names_span (b : Buf) (bp : Nat) :
    ∀ (names : List (List Nat)) (codes : List Nat) (r : Int × Nat),
      Scan_Char_names b bp names codes = some r →
      ∀ x, bp ≤ x → x < r.2 → rd b x ≠ 0 := by
  intro names
  induction names with
  | nil =>
    intro codes r h
    simp [Scan_Char_names] at h
  | cons n ns ih =>
    intro codes r h
    cases codes with
    | nil => simp [Scan_Char_names] at h
    | cons c cs =>
      rw [Scan_Char_names] at h
      split at h
      · rename_i cp hm
        by_cases h41 : (rd b cp == 41) = true
        · rw [if_pos h41] at h
          have : r = ((c : Int), cp + 1) := (Option.some.inj h).symm
          rw [this]
          intro x h1 h2
          by_cases hx : x = cp
          · subst hx
            have : rd b x = 41 := by simpa using h41
            omega
          · exact Match_Bytes_nonzero b _ _ _ hm x h1 (by
              have : x < cp + 1 := h2
              omega)
        · rw [if_neg h41] at h
          exact ih _ _ h
      · exact ih _ _ h

/-- The only NUL that the escape decoder steps over is one right after the
`^`. -/
theorem Scan_Char_caret_nul (ext : Ext) (b : Buf) (bp : Nat) (h : rd b bp = 94) :
    ∀ x, bp ≤ x → x < (Scan_Char ext b bp).2 → rd b x = 0 → x = bp + 1 := by
  have fin2 : ∀ (r : Int × Nat), r.2 = bp + 1 + 1 →
      ∀ x, bp ≤ x → x < r.2 → rd b x = 0 → x = bp + 1 := by
    intro r hr x h1 h2 h3
    rw [hr] at h2
    by_contra hne
    have : x = bp := by omega
    subst this
    omega
  unfold Scan_Char
  dsimp only
  rw [if_neg (by rw [h]; decide), if_neg (by rw [h]; decide)]
  by_cases h0 : rd b (bp + 1) = 0
  · rw [if_pos h0]
    exact fin2 _ rfl
  rw [if_neg h0]
  by_cases h47 : rd b (bp + 1) = 47
  · rw [if_pos h47]
    exact fin2 _ rfl
  rw [if_neg h47]
  by_cases h94 : rd b (bp + 1) = 94
  · rw [if_pos h94]
    exact fin2 _ rfl
  rw [if_neg h94]
  by_cases h45 : rd b (bp + 1) = 45
  · rw [if_pos h45]
    exact fin2 _ rfl
  rw [if_neg h45]
  by_cases h33 : rd b (bp + 1) = 33
  · rw [if_pos h33]
    exact fin2 _ rfl
  rw [if_neg h33]
  by_cases h40 : rd b (bp + 1) = 40
  · rw [if_pos h40]
    by_cases h4 : skipWhile Scan_Char_hex b (bp + 1 + 1) - (bp + 1 + 1) > 4
    · rw [if_pos h4]
      exact fin2 _ rfl
    rw [if_neg h4]
    by_cases h41 : rd b (skipWhile Scan_Char_hex b (bp + 1 + 1)) = 41
    · rw [if_pos h41]
      intro x h1 h2 h3
      have h2 : x < skipWhile Scan_Char_hex b (bp + 1 + 1) + 1 := h2
      by_contra hne
      by_cases hx : x = bp
      · subst hx
        omega
      by_cases hc : x = skipWhile Scan_Char_hex b (bp + 1 + 1)
      · rw [← hc] at h41
        omega
      have := skipWhile_mem Scan_Char_hex b (by decide) b.length (bp + 1 + 1) x (by omega)
        (by omega) (by omega)
      rw [h3] at this
      exact absurd this (by decide)
    rw [if_neg h41]
    split
    · rename_i r hr
      intro x h1 h2 h3
      by_contra hne
      by_cases hx : x = bp
      · subst hx
        omega
      exact Scan_Char_names_span b _ _ _ _ hr x (by omega) h2 h3
    · exact fin2 _ rfl
  rw [if_neg h40]
  by_cases hu : UP_CASE (rd b (bp + 1)) ≥ 64 ∧ UP_CASE (rd b (bp + 1)) ≤ 95
  · rw [if_pos hu]
    exact fin2 _ rfl
  rw [if_neg hu]
  by_cases hd : UP_CASE (rd b (bp + 1)) = 126
  · rw [if_pos hd]
    exact fin2 _ rfl
  rw [if_neg hd]
  exact fin2 _ rfl

/-- A NUL that the loop of `Scan_Quote` passes on its way to the terminator
stands right after a `^`. -/
theorem Scan_Quote_loop_nul (ext : Ext) (b : Buf) (term : Nat) (hd : decoder_in_text ext b) :
    ∀ (fuel src nest lines : Nat) (buf : List Nat) (p : Nat),
      (Scan_Quote_loop ext b term fuel src nest lines buf).1 = some p →
      ∀ x, src ≤ x → x < p → rd b x = 0 → src < x ∧ rd b (x - 1) = 94 := by
  intro fuel
  induction fuel with
  | zero =>
    intro src nest lines buf p h
    simp [Scan_Quote_loop] at h
  | succ fuel ih =>
    intro src nest lines buf p h x hx1 hx2 hx3
    rw [Scan_Quote_loop] at h
    dsimp only at h
    by_cases h1 : rd b src ≠ term ∨ nest > 0
    · rw [if_pos h1] at h
      by_cases h2 : rd b src = 0
      · rw [if_pos h2] at h
        exact absurd h (by simp)
      rw [if_neg h2] at h
      have one : ∀ (nest lines : Nat) (buf : List Nat),
          (Scan_Quote_loop ext b term fuel (src + 1) nest lines buf).1 = some p →
          src < x ∧ rd b (x - 1) = 94 := by
        intro nest lines buf h
        by_cases hx : x = src
        · subst hx
          exact absurd hx3 h2
        · have := ih _ _ _ _ _ h x (by omega) hx2 hx3
          exact ⟨by omega, this.2⟩
      by_cases h3 : rd b src = 94
      · rw [if_pos h3] at h
        by_cases h4 : (Scan_Char ext b src).1 = -1
        · rw [if_pos h4] at h
          exact absurd h (by simp)
        · rw [if_neg h4] at h
          by_cases hx : x < (Scan_Char ext b src).2
          · have := Scan_Char_caret_nul ext b src h3 x hx1 hx hx3
            subst this
            exact ⟨by omega, by simpa using h3⟩
          · have := ih _ _ _ _ _ h x (by omega) hx2 hx3
            have := Scan_Char_caret_gt ext b src h3
            exact ⟨by omega, by tauto⟩
      rw [if_neg h3] at h
      by_cases h5 : rd b src = 123
      · rw [if_pos h5] at h
        exact one _ _ _ h
      rw [if_neg h5] at h
      by_cases h6 : rd b src = 125
      · rw [if_pos h6] at h
        exact one _ _ _ h
      rw [if_neg h6] at h
      by_cases h7 : rd b src = CR ∨ rd b src = LF
      · rw [if_pos h7] at h
        by_cases h8 : term = 34
        · rw [if_pos h8] at h
          exact absurd h (by simp)
        · rw [if_neg h8] at h
          by_cases h9 : rd b src = CR ∧ rd b (src + 1) = LF
          · rw [if_pos h9] at h
            by_cases hx : x = src
            · subst hx
              exact absurd hx3 h2
            by_cases hy : x = src + 1
            · subst hy
              rw [h9.2] at hx3
              exact absurd hx3 (by decide)
            have := ih _ _ _ _ _ h x (by omega) hx2 hx3
            exact ⟨by omega, this.2⟩
          · rw [if_neg h9] at h
            exact one _ _ _ h
      rw [if_neg h7] at h
      by_cases h9 : rd b src ≥ 0x80
      · rw [if_pos h9] at h
        by_cases h10 : (ext.Decode_UTF8_Char b src).1 = 0
        · rw [if_pos h10] at h
          exact absurd h (by simp)
        · rw [if_neg h10] at h
          obtain ⟨d1, d2⟩ := hd src h9 h10
          by_cases hx : x ≤ (ext.Decode_UTF8_Char b src).2
          · exact absurd hx3 (d2 x hx1 hx)
          · have := ih _ _ _ _ _ h x (by omega) hx2 hx3
            exact ⟨by omega, this.2⟩
      · rw [if_neg h9] at h
        exact one _ _ _ h
    · rw [if_neg h1] at h
      have hp : src = p := Option.some.inj h
      omega

/-- With a decoder that stays on the text the loop of `Scan_Quote` stops at or
after its start. -/
theorem Scan_Quote_loop_ge (ext : Ext) (b : Buf) (term : Nat) (hd : decoder_in_text ext b) :
    ∀ (fuel src nest lines : Nat) (buf : List Nat) (p : Nat),
      (Scan_Quote_loop ext b term fuel src nest lines buf).1 = some p → src ≤ p := by
  intro fuel
  induction fuel with
  | zero =>
    intro src nest lines buf p h
    simp [Scan_Quote_loop] at h
  | succ fuel ih =>
    intro src nest lines buf p h
    rw [Scan_Quote_loop] at h
    dsimp only at h
    by_cases h1 : rd b src ≠ term ∨ nest > 0
    · rw [if_pos h1] at h
      by_cases h2 : rd b src = 0
      · rw [if_pos h2] at h
        exact absurd h (by simp)
      rw [if_neg h2] at h
      by_cases h3 : rd b src = 94
      · rw [if_pos h3] at h
        have hgt := Scan_Char_caret_gt ext b src h3
        by_cases h4 : (Scan_Char ext b src).1 = -1
        · rw [if_pos h4] at h
          exact absurd h (by simp)
        · rw [if_neg h4] at h
          have := ih _ _ _ _ _ h
          omega
      rw [if_neg h3] at h
      by_cases h5 : rd b src = 123
      · rw [if_pos h5] at h
        have := ih _ _ _ _ _ h
        omega
      rw [if_neg h5] at h
      by_cases h6 : rd b src = 125
      · rw [if_pos h6] at h
        have := ih _ _ _ _ _ h
        omega
      rw [if_neg h6] at h
      by_cases h7 : rd b src = CR ∨ rd b src = LF
      · rw [if_pos h7] at h
        by_cases h8 : term = 34
        · rw [if_pos h8] at h
          exact absurd h (by simp)
        · rw [if_neg h8] at h
          have := ih _ _ _ _ _ h
          split_ifs at this <;> omega
      rw [if_neg h7] at h
      by_cases h9 : rd b src ≥ 0x80
      · rw [if_pos h9] at h
        by_cases h10 : (ext.Decode_UTF8_Char b src).1 = 0
        · rw [if_pos h10] at h
          exact absurd h (by simp)
        · rw [if_neg h10] at h
          have := ih _ _ _ _ _ h
          have := (hd src h9 h10).1
          omega
      · rw [if_neg h9] at h
        have := ih _ _ _ _ _ h
        omega
    · rw [if_neg h1] at h
      have hp : src = p := Option.some.inj h
      omega

/-- With a decoder that moves forward the loop of `Scan_Quote` needs no more
fuel than the bytes left and one: more fuel gives the same result. -/
theorem Scan_Quote_loop_fuel (ext : Ext) (b : Buf) (term : Nat) (hf : forward ext b) :
    ∀ (f1 f2 src nest lines : Nat) (buf : List Nat),
      b.length + 1 - src < f1 → b.length + 1 - src < f2 →
      Scan_Quote_loop ext b term f1 src nest lines buf =
        Scan_Quote_loop ext b term f2 src nest lines buf := by
  intro f1
  induction f1 with
  | zero =>
    intro f2 src nest lines buf h
    omega
  | succ f1 ih =>
    intro f2 src nest lines buf h1 h2
    cases f2 with
    | zero => omega
    | succ f2 =>
      rw [Scan_Quote_loop, Scan_Quote_loop]
      dsimp only
      by_cases c1 : rd b src ≠ term ∨ nest > 0
      · rw [if_pos c1, if_pos c1]
        by_cases c2 : rd b src = 0
        · rw [if_pos c2, if_pos c2]
        rw [if_neg c2, if_neg c2]
        have hlt : src < b.length := lt_length_of_rd_ne_zero b src c2
        have one : ∀ (nest lines : Nat) (buf : List Nat),
            Scan_Quote_loop ext b term f1 (src + 1) nest lines buf =
              Scan_Quote_loop ext b term f2 (src + 1) nest lines buf :=
          fun _ _ _ => ih _ _ _ _ _ (by omega) (by omega)
        by_cases c3 : rd b src = 94
        · rw [if_pos c3, if_pos c3]
          have := Scan_Char_caret_gt ext b src c3
          rw [ih f2 _ _ _ _ (by omega) (by omega)]
        rw [if_neg c3, if_neg c3]
        by_cases c5 : rd b src = 123
        · rw [if_pos c5, if_pos c5]
          exact one _ _ _
        rw [if_neg c5, if_neg c5]
        by_cases c6 : rd b src = 125
        · rw [if_pos c6, if_pos c6]
          exact one _ _ _
        rw [if_neg c6, if_neg c6]
        by_cases c7 : rd b src = CR ∨ rd b src = LF
        · rw [if_pos c7, if_pos c7]
          rw [ih f2 _ _ _ _ (by split_ifs <;> omega) (by split_ifs <;> omega)]
        rw [if_neg c7, if_neg c7]
        by_cases c9 : rd b src ≥ 0x80
        · rw [if_pos c9, if_pos c9]
          have := hf src
          rw [ih f2 _ _ _ _ (by omega) (by omega)]
        · rw [if_neg c9, if_neg c9]
          exact one _ _ _
      · rw [if_neg c1, if_neg c1]

/-- A string that opens with `"^` and a NUL: the escape decoder steps over the
NUL and a `"` after it closes the string. -/
theorem Scan_Quote_caret_nul (ext : Ext) (b : Buf) (src : Nat) (ss : SCAN_STATE)
    (h1 : rd b src = 34) (h2 : rd b (src + 1) = 94) (h3 : rd b (src + 2) = 0)
    (h4 : rd b (src + 3) = 34) :
    Scan_Quote ext b src ss = (some (src + 4), ss, [0]) := by
  have hc : Scan_Char ext b (src + 1) = (0, src + 3) := by
    unfold Scan_Char
    simp +decide [h2, h3]
  have hq : Scan_Quote_loop ext b 34 (b.length + 2) (src + 1) 0 0 [] =
      (some (src + 3), 0, [0]) := by
    rw [Scan_Quote_loop]
    simp +decide [h2, hc]
    rw [Scan_Quote_loop]
    simp +decide [h4]
  unfold Scan_Quote
  simp +decide [h1, hq]

/-- With a decoder that moves forward the loop of `Scan_Item` stops at or after
its start. -/
theorem Scan_Item_loop_ge (ext : Ext) (IS_WHITE : Nat → Bool) (b : Buf) (end_ term : Nat)
    (invalid : Option (List Nat)) (hf : forward ext b) :
    ∀ (fuel src : Nat) (buf : List Nat) (p : Nat),
      (Scan_Item_loop ext IS_WHITE b end_ term invalid fuel src buf).1 = some p → src ≤ p := by
  intro fuel
  induction fuel with
  | zero =>
    intro src buf p h
    simp [Scan_Item_loop] at h
  | succ fuel ih =>
    intro src buf p h
    rw [Scan_Item_loop] at h
    dsimp only at h
    by_cases h1 : src < end_ ∧ rd b src ≠ term
    · rw [if_pos h1] at h
      by_cases h2 : rd b src = 0
      · rw [if_pos h2] at h
        have : src = p := Option.some.inj h
        omega
      rw [if_neg h2] at h
      by_cases h3 : term = 0 ∧ IS_WHITE (rd b src) = true
      · rw [if_pos h3] at h
        have : src = p := Option.some.inj h
        omega
      rw [if_neg h3] at h
      by_cases h4 : rd b src < 32
      · rw [if_pos h4] at h
        exact absurd h (by simp)
      rw [if_neg h4] at h
      by_cases h5 : rd b src = 92
      · rw [if_pos h5] at h
        have := ih _ _ _ h
        omega
      rw [if_neg h5] at h
      by_cases h6 : rd b src = 37
      · rw [if_pos h6] at h
        split at h
        · exact absurd h (by simp)
        · have := ih _ _ _ h
          omega
      rw [if_neg h6] at h
      by_cases h7 : rd b src = 94
      · rw [if_pos h7] at h
        have hgt := Scan_Char_caret_gt ext b src h7
        by_cases h8 : src + 1 = end_
        · rw [if_pos h8] at h
          exact absurd h (by simp)
        rw [if_neg h8] at h
        by_cases h9 : term = 0 ∧ IS_WHITE (((Scan_Char ext b src).1 % 65536).toNat) = true
        · rw [if_pos h9] at h
          have : (Scan_Char ext b src).2 = p := Option.some.inj h
          omega
        · rw [if_neg h9] at h
          have := ih _ _ _ h
          omega
      rw [if_neg h7] at h
      by_cases h10 : rd b src ≥ 0x80
      · rw [if_pos h10] at h
        by_cases h11 : (ext.Decode_UTF8_Char b src).1 % 65536 = 0
        · rw [if_pos h11] at h
          exact absurd h (by simp)
        · rw [if_neg h11] at h
          have := ih _ _ _ h
          have := hf src
          omega
      rw [if_neg h10] at h
      split at h
      · exact absurd h (by simp)
      · have := ih _ _ _ h
        omega
    · rw [if_neg h1] at h
      have : src = p := Option.some.inj h
      omega

/-- Over literal bytes (no `%`, no `^`, no high byte before `end`) the loop of
`Scan_Item` stops at or before `end`. -/
theorem Scan_Item_loop_le (ext : Ext) (IS_WHITE : Nat → Bool) (b : Buf) (end_ term : Nat)
    (invalid : Option (List Nat)) :
    ∀ (fuel src : Nat) (buf : List Nat) (p : Nat), src ≤ end_ →
      (∀ x, src ≤ x → x < end_ → rd b x ≠ 37 ∧ rd b x ≠ 94 ∧ rd b x < 128) →
      (Scan_Item_loop ext IS_WHITE b end_ term invalid fuel src buf).1 = some p → p ≤ end_ := by
  intro fuel
  induction fuel with
  | zero =>
    intro src buf p _ _ h
    simp [Scan_Item_loop] at h
  | succ fuel ih =>
    intro src buf p hle hlit h
    rw [Scan_Item_loop] at h
    dsimp only at h
    by_cases h1 : src < end_ ∧ rd b src ≠ term
    · rw [if_pos h1] at h
      obtain ⟨l1, l2, l3⟩ := hlit src (Nat.le_refl _) h1.1
      have hnext : ∀ x, src + 1 ≤ x → x < end_ → rd b x ≠ 37 ∧ rd b x ≠ 94 ∧ rd b x < 128 :=
        fun x hx1 hx2 => hlit x (by omega) hx2
      by_cases h2 : rd b src = 0
      · rw [if_pos h2] at h
        have : src = p := Option.some.inj h
        omega
      rw [if_neg h2] at h
      by_cases h3 : term = 0 ∧ IS_WHITE (rd b src) = true
      · rw [if_pos h3] at h
        have : src = p := Option.some.inj h
        omega
      rw [if_neg h3] at h
      by_cases h4 : rd b src < 32
      · rw [if_pos h4] at h
        exact absurd h (by simp)
      rw [if_neg h4] at h
      by_cases h5 : rd b src = 92
      · rw [if_pos h5] at h
        exact ih _ _ _ (by omega) hnext h
      rw [if_neg h5, if_neg l1, if_neg l2, if_neg (by omega)] at h
      split at h
      · exact absurd h (by simp)
      · exact ih _ _ _ (by omega) hnext h
    · rw [if_neg h1] at h
      have : src = p := Option.some.inj h
      omega

/-- The loop of `Scan_Item` only appends to the mold buffer. -/
theorem Scan_Item_loop_prefix (ext : Ext) (IS_WHITE : Nat → Bool) (b : Buf) (end_ term : Nat)
    (invalid : Option (List Nat)) :
    ∀ (fuel src : Nat) (buf : List Nat),
      ∃ l, (Scan_Item_loop ext IS_WHITE b end_ term invalid fuel src buf).2 = buf ++ l := by
  intro fuel
  induction fuel with
  | zero =>
    intro src buf
    exact ⟨[], by simp [Scan_Item_loop]⟩
  | succ fuel ih =>
    intro src buf
    have stop : ∀ (r : Option Nat), ∃ l, ((r, buf) : Option Nat × List Nat).2 = buf ++ l :=
      fun _ => ⟨[], by simp⟩
    have next : ∀ (q c : Nat),
        ∃ l, (Scan_Item_loop ext IS_WHITE b end_ term invalid fuel q (buf ++ [c])).2 = buf ++ l := by
      intro q c
      obtain ⟨l, hl⟩ := ih q (buf ++ [c])
      exact ⟨c :: l, by rw [hl]; simp⟩
    rw [Scan_Item_loop]
    dsimp only
    by_cases h1 : src < end_ ∧ rd b src ≠ term
    · rw [if_pos h1]
      by_cases h2 : rd b src = 0
      · rw [if_pos h2]
        exact stop _
      rw [if_neg h2]
      by_cases h3 : term = 0 ∧ IS_WHITE (rd b src) = true
      · rw [if_pos h3]
        exact stop _
      rw [if_neg h3]
      by_cases h4 : rd b src < 32
      · rw [if_pos h4]
        exact stop _
      rw [if_neg h4]
      by_cases h5 : rd b src = 92
      · rw [if_pos h5]
        exact next _ _
      rw [if_neg h5]
      by_cases h6 : rd b src = 37
      · rw [if_pos h6]
        split
        · exact stop _
        · exact next _ _
      rw [if_neg h6]
      by_cases h7 : rd b src = 94
      · rw [if_pos h7]
        by_cases h8 : src + 1 = end_
        · rw [if_pos h8]
          exact stop _
        rw [if_neg h8]
        by_cases h9 : term = 0 ∧ IS_WHITE (((Scan_Char ext b src).1 % 65536).toNat) = true
        · rw [if_pos h9]
          exact stop _
        · rw [if_neg h9]
          exact next _ _
      rw [if_neg h7]
      by_cases h10 : rd b src ≥ 0x80
      · rw [if_pos h10]
        by_cases h11 : (ext.Decode_UTF8_Char b src).1 % 65536 = 0
        · rw [if_pos h11]
          exact stop _
        · rw [if_neg h11]
          exact next _ _
      rw [if_neg h10]
      split
      · exact stop _
      · exact next _ _
    · rw [if_neg h1]
      exact stop _

/-- The round of the loop of `Scan_Item` at a `%` that two hexadecimal digits
follow: no test against `end`. -/
theorem Scan_Item_loop_hex (ext : Ext) (IS_WHITE : Nat → Bool) (b : Buf) (end_ term : Nat)
    (invalid : Option (List Nat)) (fuel p v : Nat) (buf : List Nat) (hp : p < end_)
    (h37 : rd b p = 37) (ht : term ≠ 37) (hw : term = 0 → IS_WHITE 37 = false)
    (hx : Scan_Hex2 b (p + 1) = some v) :
    Scan_Item_loop ext IS_WHITE b end_ term invalid (fuel + 1) p buf =
      Scan_Item_loop ext IS_WHITE b end_ term invalid fuel (p + 3) (buf ++ [v]) := by
  have hw2 : ¬ (term = 0 ∧ IS_WHITE 37 = true) := by
    rintro ⟨t0, w⟩
    rw [hw t0] at w
    exact Bool.noConfusion w
  rw [Scan_Item_loop]
  simp only [h37]
  rw [if_pos ⟨hp, fun h => ht h.symm⟩, if_neg (by decide), if_neg hw2, if_neg (by decide),
    if_neg (by decide), if_pos trivial, hx]

/-- The round of the loop of `Scan_Item` at a `^` escape that `Scan_Char`
rejects: the result -1 is stored as the character 65535. -/
theorem Scan_Item_loop_rejected (ext : Ext) (IS_WHITE : Nat → Bool) (b : Buf) (end_ term : Nat)
    (invalid : Option (List Nat)) (fuel p : Nat) (buf : List Nat) (hp : p < end_)
    (h94 : rd b p = 94) (he : p + 1 ≠ end_) (hc : (Scan_Char ext b p).1 = -1)
    (ht : term ≠ 94) (hw : term = 0 → IS_WHITE 94 = false ∧ IS_WHITE 65535 = false) :
    Scan_Item_loop ext IS_WHITE b end_ term invalid (fuel + 1) p buf =
      Scan_Item_loop ext IS_WHITE b end_ term invalid fuel (Scan_Char ext b p).2
        (buf ++ [65535]) := by
  have hw2 : ¬ (term = 0 ∧ IS_WHITE 94 = true) := by
    rintro ⟨t0, w⟩
    rw [(hw t0).1] at w
    exact Bool.noConfusion w
  have hw3 : ¬ (term = 0 ∧ IS_WHITE 65535 = true) := by
    rintro ⟨t0, w⟩
    rw [(hw t0).2] at w
    exact Bool.noConfusion w
  have hcast : (((-1 : Int)) % 65536).toNat = 65535 := by decide
  rw [Scan_Item_loop]
  simp only [h94, hc, hcast]
  rw [if_pos ⟨hp, fun h => ht h.symm⟩, if_neg (by decide), if_neg hw2, if_neg (by decide),
    if_neg (by decide), if_neg (by decide), if_pos trivial, if_neg he, if_neg hw3]

theorem adv_ite (bg : Nat) (c : Prop) [Decidable c] (x y : Int × SCAN_STATE × List Nat)
    (hx : c → advances bg x) (hy : ¬ c → advances bg y) :
    advances bg (if c then x else y) := by
  split
  · exact hx (by assumption)
  · exact hy (by assumption)

theorem adv_ite_pair (bg : Nat) (c : Prop) [Decidable c] (x y : Int × SCAN_STATE)
    (hx : c → x.1 ≠ TOKEN_EOF ∧ bg < x.2.end_) (hy : ¬ c → y.1 ≠ TOKEN_EOF ∧ bg < y.2.end_) :
    (if c then x else y).1 ≠ TOKEN_EOF ∧ bg < (if c then x else y).2.end_ := by
  split
  · exact hx (by assumption)
  · exact hy (by assumption)

theorem ite_ne_eof (c : Prop) [Decidable c] (t u : Int) (ht : t ≠ TOKEN_EOF)
    (hu : u ≠ TOKEN_EOF) : (if c then t else u) ≠ TOKEN_EOF := by
  split <;> assumption

theorem neg_ne_eof (t : Int) (h : t ≠ TOKEN_EOF) : -t ≠ TOKEN_EOF := by
  unfold TOKEN_EOF at h ⊢
  omega

theorem adv_leaf (bg : Nat) (t : Int) (s : SCAN_STATE) (mold : List Nat) (ht : t ≠ TOKEN_EOF)
    (hs : bg < s.end_) : advances bg (t, s, mold) := ⟨ht, hs⟩

theorem adv_leaf_pair (bg : Nat) (t : Int) (s : SCAN_STATE) (ht : t ≠ TOKEN_EOF)
    (hs : bg < s.end_) : (t, s).1 ≠ TOKEN_EOF ∧ bg < (t, s).2.end_ := ⟨ht, hs⟩

theorem adv_of_pair (bg : Nat) (r : Int × SCAN_STATE) (mold : List Nat)
    (h : r.1 ≠ TOKEN_EOF ∧ bg < r.2.end_) : advances bg (r.1, r.2, mold) := h

/-- The byte `<` carries the special value of `<`. -/
theorem value_of_lesser (c : Nat) (h : GET_LEX_VALUE c ≠ LEX_SPECIAL_LESSER) : c ≠ 60 := by
  intro h60
  exact h ((lesser_char c).2 h60).2

/-- The only byte of the end-of-file class value is the NUL. -/
theorem end_file_byte : ∀ c : Fin 256,
    GET_LEX_CLASS c.val = LEX_CLASS_DELIMIT → GET_LEX_VALUE c.val = LEX_DELIMIT_END_FILE →
      c.val = 0 := by
  decide

theorem end_file_char (c : Nat) (h1 : GET_LEX_CLASS c = LEX_CLASS_DELIMIT)
    (h2 : GET_LEX_VALUE c = LEX_DELIMIT_END_FILE) : c = 0 := by
  by_cases hc : c < 256
  · exact end_file_byte ⟨c, hc⟩ h1 h2
  · have h0 : Lex_Map c = 0 := by
      unfold Lex_Map
      exact List.getD_eq_default _ _ (by
        have : (Lex_Map_table USE_UNICODE).length = 256 := by decide
        omega)
    unfold GET_LEX_VALUE at h2
    rw [h0] at h2
    exact absurd h2 (by decide)

/-- The word cases give a token and a lexeme that ends after its start. -/
theorem scanword_adv (b : Buf) (ss : SCAN_STATE) (flags cp : Nat) (type : Int)
    (ht : type ≠ TOKEN_EOF) (hbe : ss.begin < ss.end_) (hcp : ss.begin ≤ cp)
    (hcp1 : cp ≤ ss.begin + 1) (h60 : rd b ss.begin ≠ 60)
    (hfl : HAS_LEX_FLAG flags LEX_SPECIAL_LESSER = true → occurs b (ss.begin + 1) ss.end_ 60) :
    (scanword b ss flags cp type).1 ≠ TOKEN_EOF
      ∧ ss.begin < (scanword b ss flags cp type).2.end_ := by
  have hnt := neg_ne_eof type ht
  have hge : ss.end_ ≤ skip_url_path b ss.end_ := by
    unfold skip_url_path
    split_ifs with h1
    · have := skipWhile_ge (fun c => IS_LEX_AT_LEAST_SPECIAL c || c == 47) b (ss.end_ + 1)
      omega
    · omega
  unfold scanword
  dsimp only
  repeat' (with_reducible apply adv_ite_pair <;> intro)
  all_goals first
    | exact adv_leaf_pair _ _ _ (ite_ne_eof _ _ _ ht hnt) hbe
    | exact adv_leaf_pair _ _ _ ht hbe
    | exact adv_leaf_pair _ _ _ hnt hbe
    | exact adv_leaf_pair _ _ _ (by decide) hbe
    | exact adv_leaf_pair _ _ _ (by decide) (Nat.lt_of_lt_of_le hbe hge)
    | skip
  · have hl : HAS_LEX_FLAG flags LEX_SPECIAL_LESSER = true := by assumption
    obtain ⟨i, i1, i2, i3⟩ := hfl hl
    rcases Skip_To_Char_spec b cp ss.end_ 60 with ⟨_, hn⟩ | ⟨q, e, q1, q2, q3, _⟩
    · exact absurd i3 (hn i (by omega) i2)
    · rw [e]
      refine ⟨ht, ?_⟩
      show ss.begin < q
      by_contra hc
      have : q = ss.begin := by omega
      rw [this] at q3
      exact h60 q3

theorem recover_line_gt (b : Buf) (bg : Nat) : bg < recover_line b bg := by
  unfold recover_line
  have := skipWhile_ge NOT_NEWLINE b (bg + 1)
  omega

/-- The `#` cases give a token and a lexeme that ends after its start. -/
theorem pound_adv (ext : Ext) (b : Buf) (hf : forward ext b) (ss : SCAN_STATE)
    (mold : List Nat) (cp : Nat) (hbe : ss.begin < ss.end_) (hcp : ss.begin ≤ cp) :
    advances ss.begin (pound ext b ss mold cp) := by
  have hrec := recover_line_gt b ss.begin
  have hq := Scan_Quote_bounds ext b (cp + 1) ss
  unfold pound
  dsimp only
  apply adv_ite
  · intro _
    exact adv_leaf _ _ _ _ (by decide) (by show ss.begin < cp + 1 + 1; omega)
  intro _
  apply adv_ite
  · intro _
    apply adv_ite
    · intro _
      have := Scan_Char_ge ext b (cp + 1 + 1) hf
      exact adv_leaf _ _ _ _ (by decide) (by show ss.begin < (Scan_Char ext b (cp + 1 + 1)).2 + 1; omega)
    · intro _
      exact adv_leaf _ _ _ _ (by decide) hrec
  intro _
  apply adv_ite
  · intro _
    split
    · rename_i p ss1 mold1 heq
      rw [heq] at hq
      have := (hq.2.2 p rfl).2 hf
      exact adv_leaf _ _ _ _ (by decide) (by show ss.begin < p; omega)
    · exact adv_leaf _ _ _ _ (by decide) hrec
  intro _
  apply adv_ite
  · intro _
    have := skipWhile_ge IS_ANGLE_CHAR b (cp + 1 + 1)
    exact adv_leaf _ _ _ _ (ite_ne_eof _ _ _ (by decide) (by decide)) (by
      show ss.begin < skip_angle b (cp + 1 + 1)
      unfold skip_angle
      omega)
  intro _
  apply adv_ite
  · intro _
    exact adv_leaf _ _ _ _ (by decide) hbe
  · intro _
    exact adv_leaf _ _ _ _ (by decide) hbe

theorem num_loop_ne_eof (b : Buf) (end_ : Nat) :
    ∀ (fuel cp : Nat) (t : Int), num_loop b end_ fuel cp = some t → t ≠ TOKEN_EOF := by
  intro fuel
  induction fuel with
  | zero =>
    intro cp t h
    simp [num_loop] at h
  | succ n ih =>
    intro cp t h
    unfold num_loop at h
    split_ifs at h
    all_goals first
      | exact ih _ _ h
      | (rw [← Option.some.inj h]
         decide)

/-- The number cases give a token and a lexeme that ends after its start. -/
theorem num_adv (ext : Ext) (b : Buf) (hf : forward ext b) (ss : SCAN_STATE) (mold : List Nat)
    (flags cp : Nat) (hbe : ss.begin < ss.end_) :
    advances ss.begin (num ext b ss mold flags cp) := by
  unfold num
  dsimp only
  repeat' (with_reducible apply adv_ite <;> intro)
  all_goals try (with_reducible exact pound_adv ext b hf ss mold _ hbe (by omega))
  all_goals try (exact adv_leaf _ _ _ _ (by decide) hbe)
  split
  · rename_i t h
    exact ⟨num_loop_ne_eof b _ _ _ t h, hbe⟩
  · apply adv_ite <;> intro <;> exact adv_leaf _ _ _ _ (by decide) hbe

theorem special_percent_adv (ext : Ext) (b : Buf) (hf : forward ext b) (mold : List Nat)
    (ss : SCAN_STATE) (hbe : ss.begin < ss.end_) :
    advances ss.begin (special_percent ext b mold ss) := by
  have hq := Scan_Quote_bounds ext b ss.end_ ss
  have hge : ss.end_ ≤ skip_file_path b ss.end_ := by
    unfold skip_file_path
    split_ifs with h1
    · exact skipWhile_ge _ b ss.end_
    · omega
  unfold special_percent
  dsimp only
  apply adv_ite
  · intro _
    split
    · rename_i p ss1 mold1 heq
      rw [heq] at hq
      have := (hq.2.2 p rfl).2 hf
      exact adv_leaf _ _ _ _ (by decide) (by show ss.begin < p; omega)
    · rename_i ss1 mold1 heq
      rw [heq] at hq
      obtain ⟨_, q2, _⟩ := hq
      simp only at q2
      exact adv_leaf _ _ _ _ (by decide) (by show ss.begin < ss1.end_; omega)
  · intro _
    exact adv_leaf _ _ _ _ (by decide) (by show ss.begin < skip_file_path b ss.end_; omega)

theorem angle_mode2_adv (b : Buf) (mold : List Nat) (ss : SCAN_STATE) (cp : Nat) (type : Int)
    (ht : type ≠ TOKEN_EOF) (hcp : ss.begin ≤ cp) :
    advances ss.begin (angle_mode2 b mold ss cp type) := by
  have := skipWhile_ge IS_ANGLE_CHAR b (cp + 2)
  unfold angle_mode2
  exact adv_leaf _ _ _ _ (ite_ne_eof _ _ _ ht (neg_ne_eof type ht)) (by
    show ss.begin < skip_angle b (cp + 2)
    unfold skip_angle
    omega)

theorem special_colon_adv (b : Buf) (mold : List Nat) (ss : SCAN_STATE) (flags : Nat)
    (hbe : ss.begin < ss.end_) (h60 : rd b ss.begin ≠ 60)
    (hfl : HAS_LEX_FLAG flags LEX_SPECIAL_LESSER = true → occurs b (ss.begin + 1) ss.end_ 60) :
    advances ss.begin (special_colon b mold ss flags ss.begin) := by
  have hw := scanword_adv b ss flags (ss.begin + 1) TOKEN_GET (by decide) hbe (by omega)
    (by omega) h60 hfl
  unfold special_colon
  dsimp only
  repeat' (with_reducible apply adv_ite <;> intro)
  all_goals try (exact adv_leaf _ _ _ _ (by decide) hbe)
  · exact angle_mode2_adv b mold ss _ _ (by decide) (Nat.le_refl _)
  · exact adv_of_pair _ _ _ hw

theorem special_tick_adv (b : Buf) (mold : List Nat) (ss : SCAN_STATE) (flags : Nat)
    (hbe : ss.begin < ss.end_) (h60 : rd b ss.begin ≠ 60)
    (hfl : HAS_LEX_FLAG flags LEX_SPECIAL_LESSER = true → occurs b (ss.begin + 1) ss.end_ 60) :
    advances ss.begin (special_tick b mold ss flags ss.begin) := by
  have hw := scanword_adv b ss flags ss.begin TOKEN_LIT (by decide) hbe (by omega)
    (by omega) h60 hfl
  unfold special_tick
  dsimp only
  repeat' (with_reducible apply adv_ite <;> intro)
  all_goals try (exact adv_leaf _ _ _ _ (by decide) hbe)
  · exact angle_mode2_adv b mold ss _ _ (by decide) (Nat.le_refl _)
  · exact adv_of_pair _ _ _ hw

theorem special_comma_period_adv (ext : Ext) (b : Buf) (hf : forward ext b) (mold : List Nat)
    (ss : SCAN_STATE) (flags cp v : Nat) (hbe : ss.begin < ss.end_) (hcp : ss.begin ≤ cp)
    (hcp1 : cp ≤ ss.begin + 1) (hv : v ≠ LEX_SPECIAL_LESSER) (h60 : rd b ss.begin ≠ 60)
    (hfl : HAS_LEX_FLAG flags LEX_SPECIAL_LESSER = true → occurs b (ss.begin + 1) ss.end_ 60) :
    advances ss.begin (special_comma_period ext b mold ss flags cp v) := by
  have hfl1 : HAS_LEX_FLAG (SET_LEX_FLAG flags v) LEX_SPECIAL_LESSER = true →
      occurs b (ss.begin + 1) ss.end_ 60 := by
    intro h
    apply hfl
    rw [HAS_LEX_FLAG_testBit] at h ⊢
    rw [testBit_SET_LEX_FLAG] at h
    simpa [hv] using h
  unfold special_comma_period
  dsimp only
  repeat' (with_reducible apply adv_ite <;> intro)
  · exact num_adv ext b hf ss mold _ cp hbe
  · exact adv_leaf _ _ _ _ (by decide) hbe
  · exact adv_of_pair _ _ _ (scanword_adv b ss _ cp TOKEN_WORD (by decide) hbe hcp hcp1 h60 hfl1)

theorem special_angle_adv (b : Buf) (mold : List Nat) (ss : SCAN_STATE) (cp : Nat)
    (hbe : ss.begin < ss.end_) (hcp : ss.begin ≤ cp) :
    advances ss.begin (special_angle b mold ss cp) := by
  have hge := skipWhile_ge IS_ANGLE_CHAR b (cp + 1)
  unfold special_angle skip_angle
  dsimp only
  repeat' (with_reducible apply adv_ite <;> intro)
  all_goals try (exact adv_leaf _ _ _ _ (by decide) hbe)
  · exact adv_leaf _ _ _ _ (ite_ne_eof _ _ _ (by decide) (by decide)) hbe
  · split
    · exact adv_leaf _ _ _ _ (by decide) hbe
    · rename_i p hp
      have := Skip_Tag_some b _ p hp
      exact adv_leaf _ _ _ _ (by decide) (by show ss.begin < p; omega)

theorem special_sign_adv (ext : Ext) (b : Buf) (hf : forward ext b) (mold : List Nat)
    (again : SCAN_STATE → Nat → Nat → Int × SCAN_STATE × List Nat)
    (ss : SCAN_STATE) (flags : Nat)
    (hagain : LEX_SPECIAL_PERIOD ≤ GET_LEX_VALUE (rd b (ss.begin + 1)) →
      advances ss.begin (again ss flags (ss.begin + 1)))
    (hbe : ss.begin < ss.end_) (h60 : rd b ss.begin ≠ 60)
    (hfl : HAS_LEX_FLAG flags LEX_SPECIAL_LESSER = true → occurs b (ss.begin + 1) ss.end_ 60) :
    advances ss.begin (special_sign ext b mold again ss flags ss.begin) := by
  have hw0 := scanword_adv b ss flags ss.begin TOKEN_WORD (by decide) hbe (by omega)
    (by omega) h60 hfl
  have hw1 := scanword_adv b ss flags (ss.begin + 1) TOKEN_WORD (by decide) hbe (by omega)
    (by omega) h60 hfl
  have hn := num_adv ext b hf ss mold flags (ss.begin + 1) hbe
  unfold special_sign
  dsimp only
  simp only [ite_self]
  repeat' (with_reducible apply adv_ite <;> intro)
  all_goals try (with_reducible exact adv_of_pair _ _ _ hw0)
  all_goals try (with_reducible exact adv_of_pair _ _ _ hw1)
  all_goals try (with_reducible exact hn)
  all_goals try (exact adv_leaf _ _ _ _ (by decide) hbe)
  apply hagain
  have h : GET_LEX_VALUE (rd b (ss.begin + 1)) ≥ LEX_SPECIAL_PERIOD ∧ rd b (ss.begin + 1) ≠ 35 := by
    assumption
  exact h.1

theorem next_ls_adv (ext : Ext) (b : Buf) (hf : forward ext b) (mold : List Nat) (fuel : Nat) :
    ∀ (ss : SCAN_STATE) (flags cp : Nat), ss.begin < ss.end_ →
      (HAS_LEX_FLAG flags LEX_SPECIAL_LESSER = true → occurs b (ss.begin + 1) ss.end_ 60) →
      (cp = ss.begin ∨ (cp = ss.begin + 1 ∧ LEX_SPECIAL_PERIOD ≤ GET_LEX_VALUE (rd b cp)
        ∧ rd b ss.begin ≠ 60)) →
      advances ss.begin (next_ls ext b mold fuel ss flags cp) := by
  induction fuel with
  | zero =>
    intro ss flags cp hbe hfl hcp
    exact adv_leaf _ _ _ _ (by decide) hbe
  | succ fuel ih =>
    intro ss flags cp hbe hfl hcp
    have hle : ss.begin ≤ cp ∧ cp ≤ ss.begin + 1 := by
      rcases hcp with h | h <;> omega
    have hlow : GET_LEX_VALUE (rd b cp) < LEX_SPECIAL_PERIOD → cp = ss.begin := by
      intro h
      rcases hcp with h1 | h1
      · exact h1
      · omega
    have h60 : GET_LEX_VALUE (rd b cp) ≠ LEX_SPECIAL_LESSER → rd b ss.begin ≠ 60 := by
      intro h
      rcases hcp with h1 | h1
      · rw [← h1]
        exact value_of_lesser _ h
      · exact h1.2.2
    rw [next_ls]
    apply adv_ite
    · intro _
      exact adv_leaf _ _ _ _ (by decide) hbe
    intro _
    apply adv_ite
    · intro _
      exact special_percent_adv ext b hf mold ss hbe
    intro _
    apply adv_ite
    · intro h
      have hc := hlow (by rw [h]; decide)
      have := h60 (by rw [h]; decide)
      rw [hc]
      exact special_colon_adv b mold ss flags hbe this hfl
    intro _
    apply adv_ite
    · intro h
      have hc := hlow (by rw [h]; decide)
      have := h60 (by rw [h]; decide)
      rw [hc]
      exact special_tick_adv b mold ss flags hbe this hfl
    intro _
    apply adv_ite
    · intro h
      exact special_comma_period_adv ext b hf mold ss flags cp _ hbe hle.1 hle.2
        (by rcases h with h | h <;> rw [h] <;> decide)
        (h60 (by rcases h with h | h <;> rw [h] <;> decide)) hfl
    intro _
    apply adv_ite
    · intro _
      exact special_angle_adv b mold ss cp hbe hle.1
    intro _
    apply adv_ite
    · intro h
      have hc := hlow (by rcases h with h | h <;> rw [h] <;> decide)
      have h6 := h60 (by rcases h with h | h <;> rw [h] <;> decide)
      rw [hc]
      exact special_sign_adv ext b hf mold _ ss flags
        (fun hv => ih ss flags (ss.begin + 1) hbe hfl (Or.inr ⟨rfl, hv, h6⟩)) hbe h6 hfl
    intro _
    apply adv_ite
    · intro _
      exact pound_adv ext b hf ss mold cp hbe hle.1
    intro _
    apply adv_ite
    · intro _
      exact adv_leaf _ _ _ _ (by decide) hbe
    · intro _
      exact adv_leaf _ _ _ _ (by decide) hbe

theorem delimit_return_adv (b : Buf) (ss : SCAN_STATE) (mold : List Nat)
    (cp : Nat) (hcp : ss.begin ≤ cp) :
    advances ss.begin (delimit_return b ss mold cp) := by
  unfold delimit_return line_feed
  by_cases h : rd b (cp + 1) = LF
  · rw [if_pos h]
    exact adv_leaf _ _ _ _ (by decide) (by show ss.begin < cp + 1 + 1; omega)
  · rw [if_neg h]
    exact adv_leaf _ _ _ _ (by decide) (by show ss.begin < cp + 1; omega)

theorem delimit_comment_adv (b : Buf) (ss : SCAN_STATE) (mold : List Nat)
    (h0 : rd b ss.begin ≠ 0) :
    advances ss.begin (delimit_comment b ss mold ss.begin) := by
  have hge := skipWhile_ge NOT_NEWLINE b ss.begin
  unfold delimit_comment
  dsimp only
  have hcp2 : ss.begin ≤ (if rd b (skipWhile NOT_NEWLINE b ss.begin) = 0
        then skipWhile NOT_NEWLINE b ss.begin - 1 else skipWhile NOT_NEWLINE b ss.begin) := by
    by_cases hz : rd b (skipWhile NOT_NEWLINE b ss.begin) = 0
    · rw [if_pos hz]
      have : skipWhile NOT_NEWLINE b ss.begin ≠ ss.begin := by
        intro he
        rw [he] at hz
        exact h0 hz
      omega
    · rw [if_neg hz]
      exact hge
  generalize (if rd b (skipWhile NOT_NEWLINE b ss.begin) = 0
        then skipWhile NOT_NEWLINE b ss.begin - 1 else skipWhile NOT_NEWLINE b ss.begin) = cp2
    at hcp2 ⊢
  apply adv_ite
  · intro _
    unfold line_feed
    exact adv_leaf _ _ _ _ (by decide) (by show ss.begin < cp2 + 1; omega)
  · intro _
    exact delimit_return_adv b ss mold cp2 hcp2

theorem delimit_quote_adv (ext : Ext) (b : Buf) (hf : forward ext b) (ss : SCAN_STATE) :
    advances ss.begin (delimit_quote ext b ss ss.begin) := by
  have hq := Scan_Quote_bounds ext b ss.begin ss
  have hrec := recover_line_gt b ss.begin
  unfold delimit_quote
  split
  · rename_i p ss1 mold1 heq
    rw [heq] at hq
    have := (hq.2.2 p rfl).2 hf
    exact adv_leaf _ _ _ _ (by decide) (by show ss.begin < p; omega)
  · exact adv_leaf _ _ _ _ (by decide) hrec

theorem delimit_slash_adv (b : Buf) (ss : SCAN_STATE) (mold : List Nat)
    (h47 : rd b ss.begin = 47) :
    advances ss.begin (delimit_slash b ss mold ss.begin) := by
  have hgt : ss.begin < skipWhile (fun c => c != 0 && c == 47) b ss.begin :=
    skipWhile_gt _ b ss.begin (by decide) (by rw [h47]; decide)
  have hat := Prescan_flag_char b
    { ss with begin := skipWhile (fun c => c != 0 && c == 47) b ss.begin }
    LEX_SPECIAL_LESSER 60 lesser_char
  obtain ⟨bg1, e1, fl, hP, hbg, _, _, _, _, hnd, _⟩ := Prescan_spec b
    { ss with begin := skipWhile (fun c => c != 0 && c == 47) b ss.begin }
  unfold delimit_slash
  dsimp only
  rw [hP] at hat ⊢
  dsimp only at hat hbg ⊢
  generalize skipWhile (fun c => c != 0 && c == 47) b ss.begin = cp at *
  apply adv_ite
  · intro hc
    obtain ⟨hc1, hc2⟩ := slash_follow _ hc
    apply adv_ite
    · intro _
      exact adv_leaf _ _ _ _ (by decide) hgt
    intro hcp
    have hcp1 : ss.begin + 1 = cp := by
      by_contra hne
      exact hcp hne
    have hbg1 : bg1 = cp := by
      rw [hbg]
      exact skipWhile_stop _ _ _ hc2
    subst hbg1
    obtain ⟨h1, h2, _, _⟩ := hnd hc1
    have hbeg : ss.begin = bg1 - 1 := by omega
    apply adv_ite
    · intro _
      exact adv_leaf _ _ _ _ (by decide) (by show ss.begin < e1; omega)
    intro _
    apply adv_ite
    · intro _
      have := skipWhile_ge IS_ANGLE_CHAR b (bg1 + 1)
      exact adv_leaf _ _ _ _ (ite_ne_eof _ _ _ (by decide) (by decide)) (by
        show ss.begin < skip_angle b (bg1 + 1)
        unfold skip_angle
        omega)
    · intro _
      have hw := scanword_adv b
        { begin := bg1 - 1, end_ := e1, limit := ss.limit, line_count := ss.line_count,
          head_line := ss.head_line, opts := ss.opts, errors := ss.errors }
        fl bg1 TOKEN_REFINE (by decide) (by show bg1 - 1 < e1; omega)
        (by show bg1 - 1 ≤ bg1; omega) (by show bg1 ≤ bg1 - 1 + 1; omega)
        (by show rd b (bg1 - 1) ≠ 60; rw [← hbeg, h47]; decide)
        (fun hl => by
          obtain ⟨i, i1, i2, i3⟩ := hat.1 hl
          exact ⟨i, by show bg1 - 1 + 1 ≤ i; omega, i2, i3⟩)
      rw [hbeg]
      exact adv_of_pair _ _ _ hw
  · intro _
    exact adv_leaf _ _ _ _ (by decide) hgt

theorem slash_value_byte : ∀ c : Fin 256,
    GET_LEX_CLASS c.val = LEX_CLASS_DELIMIT → GET_LEX_VALUE c.val = LEX_DELIMIT_SLASH →
      c.val = 47 := by
  decide

theorem slash_value_char (c : Nat) (h1 : GET_LEX_CLASS c = LEX_CLASS_DELIMIT)
    (h2 : GET_LEX_VALUE c = LEX_DELIMIT_SLASH) : c = 47 := by
  by_cases hc : c < 256
  · exact slash_value_byte ⟨c, hc⟩ h1 h2
  · have h0 : Lex_Map c = 0 := by
      unfold Lex_Map
      exact List.getD_eq_default _ _ (by
        have : (Lex_Map_table USE_UNICODE).length = 256 := by decide
        omega)
    unfold GET_LEX_VALUE at h2
    rw [h0] at h2
    exact absurd h2 (by decide)

theorem Scan_Token_delimit_adv (ext : Ext) (b : Buf) (hf : forward ext b) (ss : SCAN_STATE)
    (mold : List Nat) (hcls : GET_LEX_CLASS (rd b ss.begin) = LEX_CLASS_DELIMIT)
    (h0 : rd b ss.begin ≠ 0) (hbe : ss.begin < ss.end_) :
    advances ss.begin (Scan_Token_delimit ext b ss mold ss.begin) := by
  unfold Scan_Token_delimit
  dsimp only
  repeat' (with_reducible apply adv_ite <;> intro)
  all_goals try (exact adv_leaf _ _ _ _ (by decide) hbe)
  · exact delimit_comment_adv b ss mold h0
  · exact delimit_return_adv b ss mold ss.begin (Nat.le_refl _)
  · unfold line_feed
    exact adv_leaf _ _ _ _ (by decide) (by show ss.begin < ss.begin + 1; omega)
  · exact delimit_quote_adv ext b hf ss
  · exact delimit_slash_adv b ss mold (slash_value_char _ hcls (by assumption))
  · exact absurd (end_file_char _ hcls (by assumption)) h0

/-- A call of `Scan_Token` at a lexeme that does not start with a NUL gives a
token other than the end of input and leaves `end` after the start of the
lexeme, when the UTF-8 decoder does not move backwards. -/
theorem Scan_Token_adv (ext : Ext) (b : Buf) (hf : forward ext b) (ss : SCAN_STATE)
    (mold : List Nat) (h0 : rd b (Prescan b ss).2.begin ≠ 0) :
    advances (Prescan b ss).2.begin (Scan_Token ext b ss mold) := by
  have hat := Prescan_flag_char b ss LEX_SPECIAL_LESSER 60 lesser_char
  have hend : (Prescan b ss).2.begin < (Prescan b ss).2.end_ := by
    obtain ⟨bg, e, fl, hP, _, _, _, _, hdel, hnd, _⟩ := Prescan_spec b ss
    rw [hP]
    dsimp only
    by_cases hd : Lex_Map (rd b bg) < 32
    · have := (hdel hd).1
      omega
    · have := hnd hd
      omega
  unfold Scan_Token
  dsimp only
  apply adv_ite
  · intro hc
    exact Scan_Token_delimit_adv ext b hf _ mold hc h0 hend
  intro _
  apply adv_ite
  · intro _
    apply adv_ite
    · intro _
      exact adv_leaf _ _ _ _ (by decide) hend
    · intro _
      exact next_ls_adv ext b hf mold 2 _ _ _ hend hat.1 (Or.inl rfl)
  intro _
  apply adv_ite
  · intro hw
    have h60 : rd b (Prescan b ss).2.begin ≠ 60 := by
      intro h
      rw [h] at hw
      exact absurd hw (by decide)
    apply adv_ite
    · intro _
      exact adv_leaf _ _ _ _ (by decide) hend
    · intro _
      exact adv_of_pair _ _ _ (scanword_adv b _ _ _ TOKEN_WORD (by decide) hend
        (Nat.le_refl _) (Nat.le_succ _) h60 hat.1)
  · intro _
    exact num_adv ext b hf _ mold _ _ hend

/-- The token is the end of input exactly when the lexeme starts with a
NUL. -/
theorem eof_iff_nul (ext : Ext) (b : Buf) (hf : forward ext b) (ss : SCAN_STATE)
    (mold : List Nat) :
    (Scan_Token ext b ss mold).1 = TOKEN_EOF ↔ rd b (Prescan b ss).2.begin = 0 := by
  constructor
  · intro h
    by_contra h0
    exact (Scan_Token_adv ext b hf ss mold h0).1 h
  · intro h
    rw [eof_lexeme ext b ss mold h]

theorem ResultAdv_ok (T : Prop) (p : Nat) (s : Prop) (x : List REBVAL × G)
    (h1 : p < x.2.ss.begin) (h2 : p ≤ x.2.ss.end_) : ResultAdv T p s (.ok x) := by
  refine ⟨fun _ h => Result.noConfusion h, ?_⟩
  intro blk g1 h
  have : x = (blk, g1) := Result.ok.inj h
  subst this
  exact ⟨Nat.le_of_lt h1, h2, fun _ => h1⟩

theorem scan_error_exit_adv (T : Prop) (p : Nat) (s : Prop) (b : Buf) (fr : Frame) (g : G)
    (errnum : ERRNUM) (token : Int) (arg : List Nat)
    (h1 : p < g.ss.begin) (h2 : p ≤ g.ss.end_) :
    ResultAdv T p s (scan_error_exit b fr g errnum token arg) := by
  unfold scan_error_exit
  dsimp only
  split
  · exact ResultAdv_ok T p s _ h1 h2
  · exact ⟨fun _ h => Result.noConfusion h, fun _ _ h => Result.noConfusion h⟩

theorem StepAdv_syntax_error (T : Prop) (p : Nat) (s : Prop) (b : Buf) (fr : Frame) (g : G)
    (token : Int) (bp ep : Nat) (h1 : p < g.ss.begin) (h2 : p ≤ g.ss.end_) :
    StepAdv T p s (.done (syntax_error b fr g token bp ep)) :=
  scan_error_exit_adv T p s b fr g _ _ _ h1 h2

theorem StepAdv_extra_error (T : Prop) (p : Nat) (s : Prop) (b : Buf) (fr : Frame) (g : G)
    (token : Int) (m : Nat) (h1 : p < g.ss.begin) (h2 : p ≤ g.ss.end_) :
    StepAdv T p s (.done (extra_error b fr g token m)) :=
  scan_error_exit_adv T p s b fr g _ _ _ h1 h2

theorem StepAdv_missing_error (T : Prop) (p : Nat) (s : Prop) (b : Buf) (fr : Frame) (g : G)
    (token : Int) (h1 : p < g.ss.begin) (h2 : p ≤ g.ss.end_) :
    StepAdv T p s (.done (missing_error b fr g token)) :=
  scan_error_exit_adv T p s b fr _ _ _ _ h1 h2

theorem StepAdv_exit (T : Prop) (p : Nat) (s : Prop) (fr : Frame) (g : G)
    (h1 : p < g.ss.begin) (h2 : p ≤ g.ss.end_) :
    StepAdv T p s (.done (.ok (exit_block fr g))) :=
  ResultAdv_ok T p s _ h1 h2

/-- The end of a round that appends a value keeps the position after `p`. -/
theorem finish_adv (T : Prop) (p : Nat) (s : Prop) (b : Buf) (fr : Frame) (g : G) (v : REBVAL)
    (token : Int) (bp ep : Nat) (h1 : p < g.ss.begin) (h2 : p ≤ g.ss.end_) (h3 : p ≤ ep) :
    StepAdv T p s (finish b fr v token bp ep g) := by
  unfold finish
  dsimp only
  split
  · exact StepAdv_syntax_error T p s b fr g _ _ _ h1 h2
  split
  · split
    · split
      · exact StepAdv_syntax_error T p s b fr _ _ _ _ (by show p < ep + 1; omega) h2
      · split
        · exact StepAdv_exit T p s fr _ (by show p < ep + 1; omega) h2
        · show p < ep + 1
          omega
    · exact StepAdv_exit T p s fr _ h1 h2
  · split
    · exact StepAdv_exit T p s fr _ h1 h2
    · exact h1

theorem adv_action_ite (T : Prop) (p : Nat) (c : Prop) [Decidable c] (x y : Action)
    (hx : c → ActionAdv T p x) (hy : ¬ c → ActionAdv T p y) :
    ActionAdv T p (if c then x else y) := by
  split
  · exact hx (by assumption)
  · exact hy (by assumption)

theorem case_word_adv (T : Prop) (p : Nat) (ext : Ext) (b : Buf) (g : G) (token : Int)
    (bp ep len : Nat) (h1 : p < g.ss.begin) (h2 : p ≤ g.ss.end_) (h3 : p ≤ ep) :
    ActionAdv T p (case_word ext b g token bp ep len) := by
  unfold case_word
  dsimp only
  repeat' (with_reducible apply adv_action_ite <;> intro)
  · exact ⟨h1, h2⟩
  · exact ⟨h1, h2⟩
  · exact ⟨h1, h2, h3⟩

theorem case_set_adv (T : Prop) (p : Nat) (ext : Ext) (b : Buf) (fr : Frame) (g : G)
    (token : Int) (bp ep len : Nat) (h1 : p < g.ss.begin) (h2 : p ≤ g.ss.end_)
    (hs : token = TOKEN_SET → p < g.ss.end_) (h3 : p ≤ ep) :
    ActionAdv T p (case_set ext b fr g token bp ep len) := by
  unfold case_set
  dsimp only
  apply adv_action_ite
  · intro hc
    have := hs hc.2
    apply adv_action_ite
    · intro _
      exact ⟨h1, h2⟩
    · intro _
      exact case_word_adv T p ext b _ _ _ _ _ h1 (by show p ≤ g.ss.end_ - 1; omega) h3
  · intro _
    exact case_word_adv T p ext b g _ _ _ _ h1 h2 h3

theorem case_lit_get_adv (T : Prop) (p : Nat) (ext : Ext) (b : Buf) (fr : Frame) (g : G)
    (token : Int) (bp ep len : Nat) (ht : token ≠ TOKEN_SET) (h1 : p < g.ss.begin)
    (h2 : p < g.ss.end_) (h3 : p ≤ ep) :
    ActionAdv T p (case_lit_get ext b fr g token bp ep len) := by
  unfold case_lit_get
  apply adv_action_ite
  · intro _
    apply adv_action_ite
    · intro _
      exact ⟨h1, Nat.le_of_lt h2⟩
    · intro _
      exact case_set_adv T p ext b fr _ _ _ _ _ h1 (by show p ≤ g.ss.end_ - 1; omega)
        (fun h => absurd h ht) h3
  · intro _
    exact case_set_adv T p ext b fr g _ _ _ _ h1 (Nat.le_of_lt h2) (fun h => absurd h ht) h3

theorem case_refine_adv (T : Prop) (p : Nat) (ext : Ext) (b : Buf) (g : G) (token : Int)
    (bp ep len : Nat) (h1 : p < g.ss.begin) (h2 : p ≤ g.ss.end_) (h3 : p ≤ ep) :
    ActionAdv T p (case_refine ext b g token bp ep len) := by
  unfold case_refine
  dsimp only
  apply adv_action_ite
  · intro _
    exact ⟨h1, h2⟩
  · intro _
    exact ⟨h1, h2, h3⟩

theorem case_issue_adv (T : Prop) (p : Nat) (ext : Ext) (b : Buf) (g : G) (token : Int)
    (bp ep len : Nat) (h1 : p < g.ss.begin) (h2 : p ≤ g.ss.end_) (h3 : p ≤ ep) :
    ActionAdv T p (case_issue ext b g token bp ep len) := by
  unfold case_issue
  dsimp only
  repeat' (with_reducible apply adv_action_ite <;> intro)
  · exact ⟨h1, h2⟩
  · exact ⟨h1, h2, h3⟩
  · exact ⟨h1, h2⟩
  · exact ⟨h1, h2, h3⟩

theorem case_block_adv (T : Prop) (p : Nat) (s : Prop) (q : Nat) (token : Int) (bp : Nat)
    (r : Result (List REBVAL × G)) (hq : p < q) (h : ResultAdv T q s r) :
    ActionAdv T p (case_block token bp r) := by
  unfold case_block
  split
  · rename_i block g1
    obtain ⟨i1, i2, _⟩ := h.2 block g1 rfl
    apply adv_action_ite
    · intro _
      exact ⟨(by show p < g1.ss.begin; omega), (by show p ≤ g1.ss.end_; omega)⟩
    · intro _
      exact ⟨by omega, by omega, by omega⟩
  · rename_i hno
    exact ⟨h.1, fun x hx => hno x.1 x.2 hx⟩

theorem case_end_adv (T : Prop) (p : Nat) (fr : Frame) (g : G) (token : Int)
    (closer opener : Nat) (h1 : p < g.ss.begin) (h2 : p ≤ g.ss.end_) :
    ActionAdv T p (case_end fr g token closer opener) := by
  unfold case_end
  repeat' (with_reducible apply adv_action_ite <;> intro)
  all_goals exact ⟨h1, h2⟩

theorem case_integer_adv (T : Prop) (p : Nat) (ext : Ext) (b : Buf) (fr : Frame) (g : G)
    (token : Int) (bp ep len : Nat) (h1 : p < g.ss.begin) (h2 : p ≤ g.ss.end_) (h3 : p < ep) :
    ActionAdv T p (case_integer ext b fr g token bp ep len) := by
  have hge := skipWhile_ge (fun c => c == 47 || IS_LEX_AT_LEAST_SPECIAL c) b ep
  unfold case_integer
  dsimp only
  repeat' (with_reducible apply adv_action_ite <;> intro)
  · exact ⟨h1, h2, Nat.le_of_lt h3⟩
  · exact ⟨h1, h2⟩
  · exact ⟨(by
      show p < skipWhile (fun c => c == 47 || IS_LEX_AT_LEAST_SPECIAL c) b ep
      omega), h2, (by omega)⟩
  · exact ⟨(by
      show p < skipWhile (fun c => c == 47 || IS_LEX_AT_LEAST_SPECIAL c) b ep
      omega), h2⟩

theorem case_decimal_adv (T : Prop) (p : Nat) (ext : Ext) (b : Buf) (fr : Frame) (g : G)
    (token : Int) (bp ep len : Nat) (h1 : p < g.ss.begin) (h2 : p ≤ g.ss.end_) (h3 : p ≤ ep) :
    ActionAdv T p (case_decimal ext b fr g token bp ep len) := by
  unfold case_decimal
  apply adv_action_ite
  · intro _
    exact ⟨h1, h2⟩
  · intro _
    exact ⟨h1, h2, h3⟩

theorem case_money_adv (T : Prop) (p : Nat) (ext : Ext) (b : Buf) (fr : Frame) (g : G)
    (token : Int) (bp ep len : Nat) (h1 : p < g.ss.begin) (h2 : p ≤ g.ss.end_) (h3 : p ≤ ep) :
    ActionAdv T p (case_money ext b fr g token bp ep len) := by
  unfold case_money
  repeat' (with_reducible apply adv_action_ite <;> intro)
  · exact ⟨h1, h2⟩
  · exact ⟨h1, h2, h3⟩
  · exact ⟨h1, h2⟩

theorem case_time_adv (T : Prop) (p : Nat) (ext : Ext) (b : Buf) (fr : Frame) (g : G)
    (token : Int) (bp ep len : Nat) (h1 : p < g.ss.begin) (h2 : p < g.ss.end_) (h3 : p ≤ ep) :
    ActionAdv T p (case_time ext b fr g token bp ep len) := by
  unfold case_time
  repeat' (with_reducible apply adv_action_ite <;> intro)
  · exact ⟨h1, (by show p ≤ g.ss.end_ - 1; omega), h3⟩
  · exact ⟨h1, Nat.le_of_lt h2⟩
  · exact ⟨h1, Nat.le_of_lt h2, h3⟩
  · exact ⟨h1, Nat.le_of_lt h2⟩

/-- The loop of the date case leaves `begin` as it was or moves it, and `ep`,
forward. -/
theorem date_loop_adv (b : Buf) (fr : Frame) (bp : Nat) :
    ∀ (fuel ep len begin : Nat),
      ep ≤ (date_loop b fr bp fuel ep len begin).1
        ∧ ((date_loop b fr bp fuel ep len begin).2.2 = begin
          ∨ ep < (date_loop b fr bp fuel ep len begin).2.2) := by
  intro fuel
  induction fuel with
  | zero =>
    intro ep len begin
    exact ⟨Nat.le_refl _, Or.inl rfl⟩
  | succ n ih =>
    intro ep len begin
    have hge := skipWhile_ge IS_LEX_AT_LEAST_SPECIAL b (ep + 1)
    rw [date_loop]
    dsimp only
    by_cases h1 : rd b ep = 47 ∧ fr.mode_char ≠ 47
    · rw [if_pos h1]
      by_cases h2 : skipWhile IS_LEX_AT_LEAST_SPECIAL b (ep + 1) - bp > 50
      · rw [if_pos h2]
        exact ⟨by show ep ≤ skipWhile IS_LEX_AT_LEAST_SPECIAL b (ep + 1); omega, Or.inl rfl⟩
      · rw [if_neg h2]
        obtain ⟨i1, i2⟩ := ih (skipWhile IS_LEX_AT_LEAST_SPECIAL b (ep + 1))
          (skipWhile IS_LEX_AT_LEAST_SPECIAL b (ep + 1) - bp)
          (skipWhile IS_LEX_AT_LEAST_SPECIAL b (ep + 1))
        refine ⟨by omega, Or.inr ?_⟩
        rcases i2 with h | h
        · rw [h]
          omega
        · omega
    · rw [if_neg h1]
      exact ⟨Nat.le_refl _, Or.inl rfl⟩

theorem case_date_adv (T : Prop) (p : Nat) (ext : Ext) (b : Buf) (fr : Frame) (g : G)
    (token : Int) (bp ep len : Nat) (h1 : p < g.ss.begin) (h2 : p ≤ g.ss.end_) (h3 : p ≤ ep) :
    ActionAdv T p (case_date ext b fr g token bp ep len) := by
  obtain ⟨d1, d2⟩ := date_loop_adv b fr bp 51 ep len g.ss.begin
  have hb : p < (date_loop b fr bp 51 ep len g.ss.begin).2.2 := by
    rcases d2 with h | h
    · rw [h]
      exact h1
    · omega
  unfold case_date
  dsimp only
  apply adv_action_ite
  · intro _
    exact ⟨hb, h2, by omega⟩
  · intro _
    exact ⟨hb, h2⟩

theorem case_tag_adv (T : Prop) (p : Nat) (ext : Ext) (b : Buf) (g : G) (token : Int)
    (bp ep len : Nat) (h1 : p < g.ss.begin) (h2 : p ≤ g.ss.end_) (h3 : p ≤ ep) :
    ActionAdv T p (case_tag ext b g token bp ep len) := by
  unfold case_tag
  split
  · exact ⟨h1, h2, h3⟩
  · exact ⟨h1, h2, h3⟩

theorem Scan_Full_Block_adv (T : Prop) (q : Nat) (s : Prop)
    (rec : G → Nat → Result (List REBVAL × G)) (g : G) (m : Nat)
    (h : ResultAdv T q s
      (rec { g with ss := { g.ss with opts := { g.ss.opts with SCAN_ONLY := false } } } m)) :
    ResultAdv T q s (Scan_Full_Block rec g m) := by
  unfold Scan_Full_Block
  dsimp only
  split
  · rename_i block g1 hr
    rw [hr] at h
    obtain ⟨i1, i2, i3⟩ := h.2 block g1 rfl
    refine ⟨fun _ hx => Result.noConfusion hx, ?_⟩
    intro blk g2 hx
    have hx2 : (block, if g.ss.opts.SCAN_ONLY = true then
        { g1 with ss := { g1.ss with opts := { g1.ss.opts with SCAN_ONLY := true } } }
        else g1) = (blk, g2) := Result.ok.inj hx
    have hg : g2 = if g.ss.opts.SCAN_ONLY = true then
        { g1 with ss := { g1.ss with opts := { g1.ss.opts with SCAN_ONLY := true } } }
        else g1 := (congrArg Prod.snd hx2).symm
    rw [hg]
    split
    · exact ⟨i1, i2, i3⟩
    · exact ⟨i1, i2, i3⟩
  · rename_i r hno
    refine ⟨h.1, ?_⟩
    intro blk g2 hx
    exact absurd hx (hno blk g2)

theorem case_construct_adv (T : Prop) (p : Nat) (s : Prop) (q : Nat) (ext : Ext) (token : Int)
    (bp : Nat) (r : Result (List REBVAL × G)) (hq : p < q) (h : ResultAdv T q s r) :
    ActionAdv T p (case_construct ext token bp r) := by
  unfold case_construct
  split
  · rename_i block g1
    obtain ⟨i1, i2, _⟩ := h.2 block g1 rfl
    split
    · exact ⟨by omega, by omega, by omega⟩
    · exact ⟨fun _ hx => Result.noConfusion hx, fun x hx => Result.noConfusion hx⟩
  · rename_i hno
    exact ⟨h.1, fun x hx => hno x.1 x.2 hx⟩

/-- The token switch, entered after the token is accepted, hands on a state
whose `begin` is after the start of the round. -/
theorem Scan_Block_switch_adv (T : Prop) (p : Nat) (ext : Ext) (b : Buf)
    (rec : G → Nat → Result (List REBVAL × G)) (fr : Frame) (g : G)
    (token : Int) (bp ep len : Nat) (hpl : p < b.length)
    (hrec : RecAdv b T p fr.mode_char rec)
    (h1 : p < g.ss.begin) (h2 : p < g.ss.end_) (h3 : p < ep) :
    ActionAdv T p (Scan_Block_switch ext b rec fr g token bp ep len) := by
  have h2' := Nat.le_of_lt h2
  have h3' := Nat.le_of_lt h3
  unfold Scan_Block_switch
  apply adv_action_ite
  · intro _
    exact h1
  intro hline
  apply adv_action_ite
  · intro ht
    exact case_lit_get_adv T p ext b fr g _ _ _ _
      (by rcases ht with h | h <;> rw [h] <;> decide) h1 h2 h3'
  intro _
  apply adv_action_ite
  · intro _
    exact case_set_adv T p ext b fr g _ _ _ _ h1 h2' (fun _ => h2) h3'
  intro _
  apply adv_action_ite
  · intro _
    exact case_word_adv T p ext b g _ _ _ _ h1 h2' h3'
  intro _
  apply adv_action_ite
  · intro _
    exact case_refine_adv T p ext b g _ _ _ _ h1 h2' h3'
  intro _
  apply adv_action_ite
  · intro _
    exact case_issue_adv T p ext b g _ _ _ _ h1 h2' h3'
  intro _
  apply adv_action_ite
  · intro _
    exact case_block_adv T p _ g.ss.begin _ _ _ h1 (hrec g _ hpl (Or.inl h1))
  intro _
  apply adv_action_ite
  · intro _
    exact ⟨h1, h2', h3'⟩
  intro _
  apply adv_action_ite
  · intro _
    exact case_end_adv T p fr g _ _ _ h1 h2'
  intro _
  apply adv_action_ite
  · intro _
    exact case_end_adv T p fr g _ _ _ h1 h2'
  intro _
  apply adv_action_ite
  · intro _
    exact case_integer_adv T p ext b fr g _ _ _ _ h1 h2' h3
  intro _
  apply adv_action_ite
  · intro _
    exact case_decimal_adv T p ext b fr g _ _ _ _ h1 h2' h3'
  intro _
  apply adv_action_ite
  · intro _
    exact case_money_adv T p ext b fr g _ _ _ _ h1 h2' h3'
  intro _
  apply adv_action_ite
  · intro _
    exact case_time_adv T p ext b fr g _ _ _ _ h1 h2 h3'
  intro _
  apply adv_action_ite
  · intro _
    exact case_date_adv T p ext b fr g _ _ _ _ h1 h2' h3'
  intro _
  apply adv_action_ite
  · intro _
    exact ⟨h1, h2', h3'⟩
  intro _
  apply adv_action_ite
  · intro _
    exact ⟨h1, h2', h3'⟩
  intro _
  apply adv_action_ite
  · intro _
    exact ⟨h1, h2', h3'⟩
  intro _
  apply adv_action_ite
  · intro _
    exact ⟨h1, h2', h3'⟩
  intro _
  apply adv_action_ite
  · intro _
    apply adv_action_ite
    · intro _
      exact ⟨h1, h2', h3'⟩
    · intro _
      exact ⟨h1, h2'⟩
  intro _
  apply adv_action_ite
  · intro _
    exact ⟨h1, h2', h3'⟩
  intro _
  apply adv_action_ite
  · intro _
    exact ⟨h1, h2', h3'⟩
  intro _
  apply adv_action_ite
  · intro _
    exact ⟨h1, h2', h3'⟩
  intro _
  apply adv_action_ite
  · intro _
    exact case_tag_adv T p ext b g _ _ _ _ h1 h2' h3'
  intro _
  apply adv_action_ite
  · intro _
    exact case_construct_adv T p _ g.ss.begin ext _ _ _ h1
      (Scan_Full_Block_adv T _ _ rec g 93 (hrec _ _ hpl (Or.inl h1)))
  intro _
  apply adv_action_ite
  · intro _
    exact h1
  · intro _
    exact ⟨h1, h2', h3'⟩

theorem after_switch_adv (T : Prop) (p : Nat) (s : Prop) (b : Buf) (fr : Frame) (a : Action)
    (h : ActionAdv T p a) : StepAdv T p s (after_switch b fr a) := by
  cases a with
  | value v token bp ep g1 => exact finish_adv T p s b fr g1 v token bp ep h.1 h.2.1 h.2.2
  | next g1 => exact h
  | syntax_error token bp ep g1 => exact StepAdv_syntax_error T p s b fr g1 _ _ _ h.1 h.2
  | missing_error token g1 => exact StepAdv_missing_error T p s b fr g1 _ h.1 h.2
  | extra_error token m g1 => exact StepAdv_extra_error T p s b fr g1 _ _ h.1 h.2
  | exit_block g1 => exact StepAdv_exit T p s fr g1 h.1 h.2
  | stop r =>
    refine ⟨h.1, ?_⟩
    intro blk g1 hx
    exact absurd hx (h.2 (blk, g1))

theorem new_path_adv (T : Prop) (p : Nat) (s : Prop) (b : Buf) (fr : Frame) (g : G)
    (token : Int) (bp ep : Nat) (block : List REBVAL)
    (h1 : p < g.ss.begin) (h2 : p ≤ g.ss.end_) (h3 : p ≤ ep) :
    StepAdv T p s (new_path b fr token bp ep block g) := by
  unfold new_path
  split
  · split
    · exact StepAdv_syntax_error T p s b fr g _ _ _ h1 h2
    · exact finish_adv T p s b fr g _ _ _ _ h1 h2 h3
  split
  · split
    · exact StepAdv_syntax_error T p s b fr g _ _ _ h1 h2
    · exact finish_adv T p s b fr g _ _ _ _ h1 h2 h3
  split
  · exact finish_adv T p s b fr _ _ _ _ _ (by show p < g.ss.end_ + 1; omega)
      (by show p ≤ g.ss.end_ + 1; omega) h3
  · exact finish_adv T p s b fr g _ _ _ _ h1 h2 h3

theorem path_call_adv (T : Prop) (p : Nat) (s : Prop) (b : Buf) (fr : Frame) (token : Int)
    (bp ep : Nat) (r : Result (List REBVAL × G)) (h3 : p ≤ ep)
    (h : (T → r ≠ .fuel) ∧ ∀ blk g1, r = .ok (blk, g1) → p < g1.ss.begin ∧ p ≤ g1.ss.end_) :
    StepAdv T p s (path_call b fr token bp ep r) := by
  unfold path_call
  cases r with
  | ok x =>
    obtain ⟨blk, g1⟩ := x
    have h1 := h.2 blk g1 rfl
    exact new_path_adv T p s b fr g1 _ _ _ _ h1.1 h1.2 h3
  | thrown e => exact ⟨fun _ hx => Result.noConfusion hx, fun _ _ hx => Result.noConfusion hx⟩
  | fuel => exact ⟨h.1, fun _ _ hx => Result.noConfusion hx⟩

theorem Prescan_begin (b : Buf) (ss : SCAN_STATE) :
    (Prescan b ss).2.begin = skipWhile IS_LEX_SPACE b ss.begin := by
  rw [Prescan_eq]

/-- One round of the block scanner moves forward: the next round starts after
the start of this one, and a frame that ends has not moved backwards. -/
theorem Scan_Block_body_adv (T : Prop) (ext : Ext) (b : Buf) (hf : forward ext b)
    (rec : G → Nat → Result (List REBVAL × G)) (fr : Frame) (g : G)
    (hrec : RecAdv b T g.ss.begin fr.mode_char rec) :
    StepAdv T g.ss.begin (nonNul b g) (Scan_Block_body ext b rec fr g) := by
  have hbg := Prescan_begin b g.ss
  have hge := skipWhile_ge IS_LEX_SPACE b g.ss.begin
  by_cases h0 : rd b (Prescan b g.ss).2.begin = 0
  · have hT := eof_lexeme ext b g.ss g.mold h0
    rw [body_eof ext b rec fr g _ _ hT]
    have hs : ¬ nonNul b g := by
      unfold nonNul
      rw [← hbg]
      exact fun h => h h0
    split
    · refine ⟨?_, ?_⟩
      · intro _
        unfold missing_error extra_error scan_error_exit
        dsimp only
        split <;> exact fun hx => Result.noConfusion hx
      · intro blk g1 hx
        unfold missing_error extra_error scan_error_exit at hx
        dsimp only at hx
        split at hx
        · have hx2 := Result.ok.inj hx
          have hg : g1 = _ := (congrArg Prod.snd hx2).symm
          rw [hg]
          unfold exit_block Scan_Error
          dsimp only
          exact ⟨by omega, by omega, fun h => absurd h hs⟩
        · exact Result.noConfusion hx
    · refine ⟨fun _ hx => Result.noConfusion hx, ?_⟩
      intro blk g1 hx
      have hx2 := Result.ok.inj hx
      have hg : g1 = _ := (congrArg Prod.snd hx2).symm
      rw [hg]
      unfold exit_block
      dsimp only
      exact ⟨by omega, by omega, fun h => absurd h hs⟩
  · have hlt := lt_length_of_rd_ne_zero b _ h0
    have hadv := Scan_Token_adv ext b hf g.ss g.mold h0
    have hbd := (Scan_Token_bounds ext b g.ss g.mold (by omega)).1
    have hsp : skipWhile IS_LEX_SPACE b (Prescan b g.ss).2.begin = (Prescan b g.ss).2.begin := by
      obtain ⟨bg, e, fl, hP, _, _, _, hns, _⟩ := Prescan_spec b g.ss
      rw [hP]
      exact skipWhile_stop _ _ _ hns
    rcases hT : Scan_Token ext b g.ss g.mold with ⟨token, ss, mold⟩
    rw [hT] at hadv hbd
    obtain ⟨hne, hend⟩ := hadv
    simp only at hne hend hbd
    have hpl : g.ss.begin < b.length := by omega
    have hpb : g.ss.begin ≤ ss.begin := by omega
    by_cases h1 : token < 0
    · have hneg : (Scan_Token ext b g.ss g.mold).1 < 0 := by rw [hT]; exact h1
      rw [body_negative ext b rec fr g hneg]
      simp only [hT]
      exact StepAdv_syntax_error T _ _ b fr _ _ _ _
        (by show g.ss.begin < ss.end_; omega) (by show g.ss.begin ≤ ss.end_; omega)
    by_cases h2 : fr.mode_char = 47 ∧ rd b ss.begin = 47
    · rw [body_slash ext b rec fr g token ss mold hT hne h1 h2]
      show g.ss.begin < ss.begin + 1
      omega
    by_cases h3 : (token = TOKEN_PATH
                ∨ ((token = TOKEN_WORD ∨ token = TOKEN_LIT ∨ token = TOKEN_GET)
                    ∧ rd b ss.end_ = 47)) ∧ fr.mode_char ≠ 47
    · rw [body_path ext b rec fr g token ss mold hT hne h1 h2 h3]
      have hr := hrec { g with ss := ss, mold := mold } 47 hpl (Or.inr ⟨rfl, h3.2, hpb⟩)
      have hnn : nonNul b { g with ss := ss, mold := mold } := by
        unfold nonNul
        show rd b (skipWhile IS_LEX_SPACE b ss.begin) ≠ 0
        rw [hbd, hsp]
        exact h0
      apply path_call_adv T _ _ b fr _ _ _ _ (by omega)
      refine ⟨hr.1, ?_⟩
      intro blk g1 hx
      obtain ⟨i1, i2, i3⟩ := hr.2 blk g1 hx
      have i4 := i3 hnn
      have i5 : ss.begin ≤ g1.ss.end_ := i2
      have i6 : ss.begin < g1.ss.begin := i4
      exact ⟨by omega, by omega⟩
    · rw [body_switch ext b rec fr g token ss mold hT hne h1 h2 h3]
      apply after_switch_adv
      exact Scan_Block_switch_adv T _ ext b rec fr _ _ _ _ _ hpl hrec
        (by show g.ss.begin < ss.end_; omega) (by show g.ss.begin < ss.end_; omega) (by omega)

theorem enter_ss (g : G) (m : Nat) :
    (enter g m).2.ss.begin = g.ss.begin ∧ (enter g m).1.mode_char = m := by
  unfold enter
  dsimp only
  split <;> exact ⟨rfl, rfl⟩

/-- A round that goes on did not start at the end of the memory. -/
theorem body_again_lt (ext : Ext) (b : Buf) (rec : G → Nat → Result (List REBVAL × G))
    (fr : Frame) (g g1 : G) (h : Scan_Block_body ext b rec fr g = .again g1) :
    g.ss.begin < b.length := by
  have hbg := Prescan_begin b g.ss
  have hge := skipWhile_ge IS_LEX_SPACE b g.ss.begin
  by_cases h0 : rd b (Prescan b g.ss).2.begin = 0
  · have hT := eof_lexeme ext b g.ss g.mold h0
    rw [body_eof ext b rec fr g _ _ hT] at h
    exact Step.noConfusion h
  · have := lt_length_of_rd_ne_zero b _ h0
    omega

/-- The loop of `Scan_Block` moves forward, and with two units of fuel for
each byte left (and two more) it does not stop for lack of fuel. -/
theorem Scan_Block_loop_adv (T : Prop) (ext : Ext) (b : Buf) (hf : forward ext b) (fuel : Nat) :
    ∀ (fr : Frame) (g : G), (T → fuel_need fr.mode_char (b.length - g.ss.begin) ≤ fuel) →
      ResultAdv T g.ss.begin (nonNul b g) (Scan_Block_loop ext b fuel fr g) := by
  induction fuel with
  | zero =>
    intro fr g hT
    refine ⟨?_, fun _ _ hx => Result.noConfusion hx⟩
    intro t
    have := hT t
    unfold fuel_need at this
    split_ifs at this <;> omega
  | succ fuel ih =>
    intro fr g hT
    have hrec : RecAdv b T g.ss.begin fr.mode_char (fun g1 m => Scan_Block ext b fuel g1 m) := by
      intro gc m hpl hc
      obtain ⟨e1, e2⟩ := enter_ss gc m
      have h1 := ih (enter gc m).1 (enter gc m).2 (by
        intro t
        have := hT t
        rw [e1, e2]
        unfold fuel_need at this ⊢
        rcases hc with hc | ⟨hm, hmode, hc⟩
        · split_ifs at this ⊢ <;> omega
        · rw [if_pos hm]
          rw [if_neg hmode] at this
          omega)
      rw [e1] at h1
      have hn : nonNul b (enter gc m).2 = nonNul b gc := by
        unfold nonNul
        rw [e1]
      rw [hn] at h1
      exact h1
    have hb := Scan_Block_body_adv T ext b hf _ fr g hrec
    rw [Scan_Block_loop_succ]
    cases hbody : Scan_Block_body ext b (fun g1 m => Scan_Block ext b fuel g1 m) fr g with
    | again g1 =>
      rw [hbody] at hb
      have hlt : g.ss.begin < g1.ss.begin := hb
      have hpl := body_again_lt ext b _ fr g g1 hbody
      have h1 := ih fr g1 (by
        intro t
        have := hT t
        unfold fuel_need at this ⊢
        split_ifs at this ⊢ <;> omega)
      show ResultAdv T g.ss.begin (nonNul b g) (Scan_Block_loop ext b fuel fr g1)
      refine ⟨h1.1, ?_⟩
      intro blk g2 hx
      obtain ⟨i1, i2, _⟩ := h1.2 blk g2 hx
      exact ⟨by omega, by omega, fun _ => by omega⟩
    | done r =>
      rw [hbody] at hb
      exact hb

/-- The loop of `Prescan` needs no more fuel than the bytes left and one: more
fuel gives the same result. -/
theorem Prescan_loop_fuel (b : Buf) (bg : Nat) :
    ∀ (f1 f2 cp flags : Nat), b.length - cp < f1 → b.length - cp < f2 →
      Prescan_loop b bg f1 cp flags = Prescan_loop b bg f2 cp flags := by
  intro f1
  induction f1 with
  | zero =>
    intro f2 cp flags h
    omega
  | succ f1 ih =>
    intro f2 cp flags h1 h2
    cases f2 with
    | zero => omega
    | succ f2 =>
      rw [Prescan_loop, Prescan_loop]
      by_cases c1 : GET_LEX_CLASS (rd b cp) = LEX_CLASS_DELIMIT
      · rw [if_pos c1, if_pos c1]
      rw [if_neg c1, if_neg c1]
      have hz : rd b cp ≠ 0 := by
        intro h0
        rw [h0] at c1
        exact c1 (by decide)
      have hlt := lt_length_of_rd_ne_zero b cp hz
      have hcr := class_ranges (rd b cp)
      by_cases c2 : GET_LEX_CLASS (rd b cp) = LEX_CLASS_SPECIAL
      · rw [if_pos c2, if_pos c2]
        exact ih _ _ _ (by omega) (by omega)
      rw [if_neg c2, if_neg c2]
      by_cases c3 : GET_LEX_CLASS (rd b cp) = LEX_CLASS_WORD
      · rw [if_pos c3, if_pos c3]
        have := skipWhile_gt IS_LEX_AT_LEAST_WORD b cp (by decide)
          (hcr.2.2.2.2.1.2 (hcr.2.2.1.1 c3).1)
        exact ih _ _ _ (by omega) (by omega)
      · rw [if_neg c3, if_neg c3]
        have hn : 96 ≤ Lex_Map (rd b cp) := by
          have h1 := hcr.1
          have h2 := hcr.2.1
          have h3 := hcr.2.2.1
          by_contra hc
          by_cases ha : Lex_Map (rd b cp) < 32
          · exact c1 (h1.2 ha)
          by_cases hb : Lex_Map (rd b cp) < 64
          · exact c2 (h2.2 ⟨by omega, hb⟩)
          · exact c3 (h3.2 ⟨by omega, by omega⟩)
        have := skipWhile_gt IS_LEX_AT_LEAST_NUMBER b cp (by decide) (hcr.2.2.2.2.2.2 hn)
        exact ih _ _ _ (by omega) (by omega)

/-- The `+`/`-` case depends on the jump back to `next_ls` only at a byte whose
special value is that of `.` or above. -/
theorem special_sign_congr (ext : Ext) (b : Buf) (mold : List Nat)
    (A B : SCAN_STATE → Nat → Nat → Int × SCAN_STATE × List Nat)
    (ss : SCAN_STATE) (flags cp : Nat)
    (h : ∀ cp1, LEX_SPECIAL_PERIOD ≤ GET_LEX_VALUE (rd b cp1) → A ss flags cp1 = B ss flags cp1) :
    special_sign ext b mold A ss flags cp = special_sign ext b mold B ss flags cp := by
  unfold special_sign
  dsimp only
  split_ifs <;> first
    | rfl
    | (apply h
       rename_i hc
       exact hc.1)

/-- At a byte that is no sign the switch on the special value does not jump
back: one unit of fuel is as good as more. -/
theorem next_ls_one (ext : Ext) (b : Buf) (mold : List Nat) (fuel : Nat) (ss : SCAN_STATE)
    (flags cp : Nat)
    (h : ¬ (GET_LEX_VALUE (rd b cp) = LEX_SPECIAL_PLUS ∨ GET_LEX_VALUE (rd b cp) = LEX_SPECIAL_MINUS)) :
    next_ls ext b mold (fuel + 1) ss flags cp = next_ls ext b mold 1 ss flags cp := by
  rw [next_ls, next_ls]
  rw [if_neg h, if_neg h]

/-- The switch on the special value jumps back at most once: two units of fuel
are as good as more. -/
theorem next_ls_fuel (ext : Ext) (b : Buf) (mold : List Nat) (k : Nat) (ss : SCAN_STATE)
    (flags cp : Nat) :
    next_ls ext b mold (k + 2) ss flags cp = next_ls ext b mold 2 ss flags cp := by
  rw [next_ls, next_ls]
  have e : special_sign ext b mold (next_ls ext b mold (k + 1)) ss flags cp =
      special_sign ext b mold (next_ls ext b mold 1) ss flags cp := by
    apply special_sign_congr
    intro cp1 hv
    exact next_ls_one ext b mold k ss flags cp1 (by
      rintro (h | h) <;> rw [h] at hv <;> exact absurd hv (by decide))
  rw [e]

/-- The loop of `Skip_Tag` needs no more fuel than the bytes left and one. -/
theorem Skip_Tag_loop_fuel (b : Buf) :
    ∀ (f1 f2 cp : Nat), b.length - cp < f1 → b.length - cp < f2 →
      Skip_Tag_loop b f1 cp = Skip_Tag_loop b f2 cp := by
  intro f1
  induction f1 with
  | zero =>
    intro f2 cp h
    omega
  | succ f1 ih =>
    intro f2 cp h1 h2
    cases f2 with
    | zero => omega
    | succ f2 =>
      rw [Skip_Tag_loop, Skip_Tag_loop]
      dsimp only
      by_cases c1 : rd b cp ≠ 0 ∧ rd b cp ≠ 62
      · rw [if_pos c1, if_pos c1]
        have hlt := lt_length_of_rd_ne_zero b cp c1.1
        by_cases c2 : rd b cp = 34
        · rw [if_pos c2, if_pos c2]
          have hge := skipWhile_ge (fun c => c != 0 && c != 34) b (cp + 1)
          by_cases c3 : rd b (skipWhile (fun c => c != 0 && c != 34) b (cp + 1)) = 0
          · rw [if_pos c3, if_pos c3]
          · rw [if_neg c3, if_neg c3]
            exact ih _ _ (by omega) (by omega)
        · rw [if_neg c2, if_neg c2]
          exact ih _ _ (by omega) (by omega)
      · rw [if_neg c1, if_neg c1]

/-- The loop of the number case needs no more fuel than the bytes up to `end`
and one. -/
theorem num_loop_fuel (b : Buf) (end_ : Nat) :
    ∀ (f1 f2 cp : Nat), cp ≤ end_ → end_ - cp < f1 → end_ - cp < f2 →
      num_loop b end_ f1 cp = num_loop b end_ f2 cp := by
  intro f1
  induction f1 with
  | zero =>
    intro f2 cp _ h
    omega
  | succ f1 ih =>
    intro f2 cp hle h1 h2
    cases f2 with
    | zero => omega
    | succ f2 =>
      rw [num_loop, num_loop]
      by_cases c1 : cp = end_
      · rw [if_pos c1, if_pos c1]
      rw [if_neg c1, if_neg c1]
      by_cases c2 : rd b cp = 45
      · rw [if_pos c2, if_pos c2]
      rw [if_neg c2, if_neg c2]
      by_cases c3 : rd b cp = 120 ∨ rd b cp = 88
      · rw [if_pos c3, if_pos c3]
      rw [if_neg c3, if_neg c3]
      by_cases c4 : rd b cp = 69 ∨ rd b cp = 101
      · rw [if_pos c4, if_pos c4]
      rw [if_neg c4, if_neg c4]
      by_cases c5 : rd b cp = 37
      · rw [if_pos c5, if_pos c5]
      rw [if_neg c5, if_neg c5]
      exact ih _ _ (by omega) (by omega) (by omega)

/-- The loop of the date case stops when the lexeme is longer than 50 bytes:
from a lexeme of `ep - bp` bytes it needs at most `51 - (ep - bp)` rounds, and
one at least. -/
theorem date_loop_fuel (b : Buf) (fr : Frame) (bp : Nat) :
    ∀ (f1 f2 ep len begin : Nat), bp ≤ ep → 1 ≤ f1 → 1 ≤ f2 →
      51 - (ep - bp) ≤ f1 → 51 - (ep - bp) ≤ f2 →
      date_loop b fr bp f1 ep len begin = date_loop b fr bp f2 ep len begin := by
  intro f1
  induction f1 with
  | zero =>
    intro f2 ep len begin _ h
    omega
  | succ f1 ih =>
    intro f2 ep len begin hle _ h2 h3 h4
    cases f2 with
    | zero => omega
    | succ f2 =>
      rw [date_loop, date_loop]
      dsimp only
      have hge := skipWhile_ge IS_LEX_AT_LEAST_SPECIAL b (ep + 1)
      by_cases c1 : rd b ep = 47 ∧ fr.mode_char ≠ 47
      · rw [if_pos c1, if_pos c1]
        by_cases c2 : skipWhile IS_LEX_AT_LEAST_SPECIAL b (ep + 1) - bp > 50
        · rw [if_pos c2, if_pos c2]
        · rw [if_neg c2, if_neg c2]
          exact ih _ _ _ _ (by omega) (by omega) (by omega) (by omega) (by omega)
      · rw [if_neg c1, if_neg c1]

theorem Scan_Full_Block_congr (rec1 rec2 : G → Nat → Result (List REBVAL × G)) (g : G)
    (m : Nat)
    (h : rec1 { g with ss := { g.ss with opts := { g.ss.opts with SCAN_ONLY := false } } } m =
      rec2 { g with ss := { g.ss with opts := { g.ss.opts with SCAN_ONLY := false } } } m) :
    Scan_Full_Block rec1 g m = Scan_Full_Block rec2 g m := by
  unfold Scan_Full_Block
  dsimp only
  rw [h]

/-- The token switch makes no nested call unless the token opens a block, a
paren or a construct. -/
theorem Scan_Block_switch_plain (ext : Ext) (b : Buf)
    (rec1 rec2 : G → Nat → Result (List REBVAL × G)) (fr : Frame) (g : G)
    (token : Int) (bp ep len : Nat)
    (h1 : ¬ (token = TOKEN_BLOCK ∨ token = TOKEN_PAREN)) (h2 : token ≠ TOKEN_CONSTRUCT) :
    Scan_Block_switch ext b rec1 fr g token bp ep len =
      Scan_Block_switch ext b rec2 fr g token bp ep len := by
  unfold Scan_Block_switch
  rw [if_neg h1, if_neg h1, if_neg h2, if_neg h2]

/-- A round makes nested calls only for a position after its start, or in path
mode from a frame that is not in path mode. -/
theorem Scan_Block_body_congr (ext : Ext) (b : Buf) (hf : forward ext b)
    (rec1 rec2 : G → Nat → Result (List REBVAL × G)) (fr : Frame) (g : G)
    (h : ∀ g1 m, (g.ss.begin < g1.ss.begin ∧ (m = 93 ∨ m = 41)
        ∨ (m = 47 ∧ fr.mode_char ≠ 47 ∧ g.ss.begin ≤ g1.ss.begin)) →
      rec1 g1 m = rec2 g1 m) :
    Scan_Block_body ext b rec1 fr g = Scan_Block_body ext b rec2 fr g := by
  have hbg := Prescan_begin b g.ss
  have hge := skipWhile_ge IS_LEX_SPACE b g.ss.begin
  by_cases h0 : rd b (Prescan b g.ss).2.begin = 0
  · have hT := eof_lexeme ext b g.ss g.mold h0
    rw [body_eof ext b rec1 fr g _ _ hT, body_eof ext b rec2 fr g _ _ hT]
  · have hlt := lt_length_of_rd_ne_zero b _ h0
    have hadv := Scan_Token_adv ext b hf g.ss g.mold h0
    have hbd := (Scan_Token_bounds ext b g.ss g.mold (by omega)).1
    rcases hT : Scan_Token ext b g.ss g.mold with ⟨token, ss, mold⟩
    rw [hT] at hadv hbd
    obtain ⟨hne, hend⟩ := hadv
    simp only at hne hend hbd
    by_cases h1 : token < 0
    · have hneg : (Scan_Token ext b g.ss g.mold).1 < 0 := by rw [hT]; exact h1
      rw [body_negative ext b rec1 fr g hneg, body_negative ext b rec2 fr g hneg]
    by_cases h2 : fr.mode_char = 47 ∧ rd b ss.begin = 47
    · rw [body_slash ext b rec1 fr g token ss mold hT hne h1 h2,
        body_slash ext b rec2 fr g token ss mold hT hne h1 h2]
    by_cases h3 : (token = TOKEN_PATH
                ∨ ((token = TOKEN_WORD ∨ token = TOKEN_LIT ∨ token = TOKEN_GET)
                    ∧ rd b ss.end_ = 47)) ∧ fr.mode_char ≠ 47
    · rw [body_path ext b rec1 fr g token ss mold hT hne h1 h2 h3,
        body_path ext b rec2 fr g token ss mold hT hne h1 h2 h3,
        h { g with ss := ss, mold := mold } 47 (Or.inr ⟨rfl, h3.2, by show g.ss.begin ≤ ss.begin; omega⟩)]
    · rw [body_switch ext b rec1 fr g token ss mold hT hne h1 h2 h3,
        body_switch ext b rec2 fr g token ss mold hT hne h1 h2 h3]
      by_cases hb : token = TOKEN_BLOCK ∨ token = TOKEN_PAREN
      · unfold Scan_Block_switch
        have hl : ¬ token = TOKEN_LINE := by rcases hb with hb | hb <;> rw [hb] <;> decide
        have e := h { g with ss := ACCEPT_TOKEN ss, mold := mold }
          (if token = TOKEN_BLOCK then 93 else 41)
          (Or.inl ⟨by show g.ss.begin < ss.end_; omega, by split_ifs <;> simp⟩)
        rw [e, Scan_Full_Block_congr rec1 rec2 _ 93
          (h _ 93 (Or.inl ⟨by show g.ss.begin < ss.end_; omega, Or.inl rfl⟩))]
      · by_cases hc : token = TOKEN_CONSTRUCT
        · unfold Scan_Block_switch
          rw [if_neg hb, if_neg hb, Scan_Full_Block_congr rec1 rec2 _ 93
            (h _ 93 (Or.inl ⟨by show g.ss.begin < ss.end_; omega, Or.inl rfl⟩))]
        · rw [Scan_Block_switch_plain ext b rec1 rec2 fr _ token _ _ _ hb hc]

theorem open_ite (b : Buf) (bg : Nat) (c : Prop) [Decidable c]
    (x y : Int × SCAN_STATE × List Nat)
    (hx : c → opener b bg x) (hy : ¬ c → opener b bg y) :
    opener b bg (if c then x else y) := by
  split
  · exact hx (by assumption)
  · exact hy (by assumption)

theorem open_leaf (b : Buf) (bg : Nat) (t : Int) (s : SCAN_STATE) (mold : List Nat)
    (ht : plain t) : opener b bg (t, s, mold) := by
  intro h
  rcases h with h | h | h
  · exact absurd h ht.1
  · exact absurd h ht.2.1
  · exact absurd h ht.2.2

theorem open_of_plain (b : Buf) (bg : Nat) (r : Int × SCAN_STATE) (mold : List Nat)
    (h : plain r.1) : opener b bg (r.1, r.2, mold) :=
  open_leaf b bg _ _ _ h

theorem plain_ite (c : Prop) [Decidable c] (t u : Int) (ht : plain t) (hu : plain u) :
    plain (if c then t else u) := by
  split <;> assumption

theorem plain_ite_pair (c : Prop) [Decidable c] (x y : Int × SCAN_STATE)
    (hx : plain x.1) (hy : plain y.1) : plain (if c then x else y).1 := by
  split <;> assumption

theorem plain_leaf_pair (t : Int) (s : SCAN_STATE) (ht : plain t) : plain (t, s).1 := ht

/-- The word cases give no token that opens a block. -/
theorem scanword_plain (b : Buf) (ss : SCAN_STATE) (flags cp : Nat) (type : Int)
    (ht : plain type) (hn : plain (-type)) : plain (scanword b ss flags cp type).1 := by
  unfold scanword
  dsimp only
  repeat' (with_reducible apply plain_ite_pair)
  all_goals first
    | exact plain_leaf_pair _ _ (plain_ite _ _ _ ht hn)
    | exact plain_leaf_pair _ _ ht
    | exact plain_leaf_pair _ _ hn
    | exact plain_leaf_pair _ _ (by decide)

theorem pound_open (ext : Ext) (b : Buf) (bg : Nat) (ss : SCAN_STATE) (mold : List Nat)
    (cp : Nat) (hcp : bg ≤ cp) : opener b bg (pound ext b ss mold cp) := by
  unfold pound
  dsimp only
  apply open_ite
  · intro h _
    exact ⟨cp + 1, by omega, (by show cp + 1 < cp + 1 + 1; omega), Or.inl h⟩
  intro _
  apply open_ite
  · intro _
    apply open_ite <;> intro <;> exact open_leaf _ _ _ _ _ (by decide)
  intro _
  apply open_ite
  · intro _
    split <;> exact open_leaf _ _ _ _ _ (by decide)
  intro _
  apply open_ite
  · intro _
    exact open_leaf _ _ _ _ _ (plain_ite _ _ _ (by decide) (by decide))
  intro _
  apply open_ite <;> intro <;> exact open_leaf _ _ _ _ _ (by decide)

theorem num_loop_plain (b : Buf) (end_ : Nat) :
    ∀ (fuel cp : Nat) (t : Int), num_loop b end_ fuel cp = some t → plain t := by
  intro fuel
  induction fuel with
  | zero =>
    intro cp t h
    simp [num_loop] at h
  | succ n ih =>
    intro cp t h
    unfold num_loop at h
    split_ifs at h
    all_goals first
      | exact ih _ _ h
      | (rw [← Option.some.inj h]
         decide)

theorem num_open (ext : Ext) (b : Buf) (bg : Nat) (ss : SCAN_STATE) (mold : List Nat)
    (flags cp : Nat) (hcp : bg ≤ cp) : opener b bg (num ext b ss mold flags cp) := by
  unfold num
  dsimp only
  repeat' (with_reducible apply open_ite <;> intro)
  all_goals try (with_reducible exact pound_open ext b bg ss mold _ (by omega))
  all_goals try (exact open_leaf _ _ _ _ _ (by decide))
  split
  · rename_i t h
    exact open_leaf _ _ _ _ _ (num_loop_plain b _ _ _ t h)
  · apply open_ite <;> intro <;> exact open_leaf _ _ _ _ _ (by decide)

theorem special_percent_open (ext : Ext) (b : Buf) (bg : Nat) (mold : List Nat)
    (ss : SCAN_STATE) : opener b bg (special_percent ext b mold ss) := by
  unfold special_percent
  dsimp only
  apply open_ite
  · intro _
    split <;> exact open_leaf _ _ _ _ _ (by decide)
  · intro _
    exact open_leaf _ _ _ _ _ (by decide)

theorem angle_mode2_open (b : Buf) (bg : Nat) (mold : List Nat) (ss : SCAN_STATE) (cp : Nat)
    (type : Int) (ht : plain type) (hn : plain (-type)) :
    opener b bg (angle_mode2 b mold ss cp type) := by
  unfold angle_mode2
  exact open_leaf _ _ _ _ _ (plain_ite _ _ _ ht hn)

theorem special_colon_open (b : Buf) (bg : Nat) (mold : List Nat) (ss : SCAN_STATE)
    (flags cp : Nat) : opener b bg (special_colon b mold ss flags cp) := by
  unfold special_colon
  dsimp only
  repeat' (with_reducible apply open_ite <;> intro)
  all_goals first
    | exact open_leaf _ _ _ _ _ (by decide)
    | exact angle_mode2_open b bg mold ss _ _ (by decide) (by decide)
    | exact open_of_plain _ _ _ _ (scanword_plain b ss _ _ _ (by decide) (by decide))

theorem special_tick_open (b : Buf) (bg : Nat) (mold : List Nat) (ss : SCAN_STATE)
    (flags cp : Nat) : opener b bg (special_tick b mold ss flags cp) := by
  unfold special_tick
  dsimp only
  repeat' (with_reducible apply open_ite <;> intro)
  all_goals first
    | exact open_leaf _ _ _ _ _ (by decide)
    | exact angle_mode2_open b bg mold ss _ _ (by decide) (by decide)
    | exact open_of_plain _ _ _ _ (scanword_plain b ss _ _ _ (by decide) (by decide))

theorem special_comma_period_open (ext : Ext) (b : Buf) (bg : Nat) (mold : List Nat)
    (ss : SCAN_STATE) (flags cp v : Nat) (hcp : bg ≤ cp) :
    opener b bg (special_comma_period ext b mold ss flags cp v) := by
  unfold special_comma_period
  dsimp only
  repeat' (with_reducible apply open_ite <;> intro)
  · exact num_open ext b bg ss mold _ cp hcp
  · exact open_leaf _ _ _ _ _ (by decide)
  · exact open_of_plain _ _ _ _ (scanword_plain b ss _ _ _ (by decide) (by decide))

theorem special_angle_open (b : Buf) (bg : Nat) (mold : List Nat) (ss : SCAN_STATE)
    (cp : Nat) : opener b bg (special_angle b mold ss cp) := by
  unfold special_angle
  dsimp only
  repeat' (with_reducible apply open_ite <;> intro)
  all_goals first
    | exact open_leaf _ _ _ _ _ (by decide)
    | exact open_leaf _ _ _ _ _ (plain_ite _ _ _ (by decide) (by decide))
    | (split <;> exact open_leaf _ _ _ _ _ (by decide))

theorem special_sign_open (ext : Ext) (b : Buf) (bg : Nat) (mold : List Nat)
    (again : SCAN_STATE → Nat → Nat → Int × SCAN_STATE × List Nat)
    (ss : SCAN_STATE) (flags cp : Nat)
    (hagain : ∀ cp1, bg ≤ cp1 → opener b bg (again ss flags cp1))
    (hb : bg ≤ ss.begin) (hcp : bg ≤ cp) :
    opener b bg (special_sign ext b mold again ss flags cp) := by
  have hc1 : bg ≤ (if HAS_LEX_FLAG flags LEX_SPECIAL_COLON = true then ss.begin else cp) + 1 := by
    split_ifs <;> omega
  unfold special_sign
  dsimp only
  repeat' (with_reducible apply open_ite <;> intro)
  all_goals first
    | exact open_leaf _ _ _ _ _ (by decide)
    | exact open_of_plain _ _ _ _ (scanword_plain b ss _ _ _ (by decide) (by decide))
    | exact num_open ext b bg ss mold _ _ hc1
    | exact hagain _ hc1

theorem next_ls_open (ext : Ext) (b : Buf) (bg : Nat) (mold : List Nat) (fuel : Nat) :
    ∀ (ss : SCAN_STATE) (flags cp : Nat), bg ≤ ss.begin → bg ≤ cp →
      opener b bg (next_ls ext b mold fuel ss flags cp) := by
  induction fuel with
  | zero =>
    intro ss flags cp _ _
    exact open_leaf _ _ _ _ _ (by decide)
  | succ fuel ih =>
    intro ss flags cp hb hcp
    rw [next_ls]
    repeat' (with_reducible apply open_ite <;> intro)
    all_goals first
      | exact open_leaf _ _ _ _ _ (by decide)
      | exact special_percent_open ext b bg mold ss
      | exact special_colon_open b bg mold ss _ _
      | exact special_tick_open b bg mold ss _ _
      | exact special_comma_period_open ext b bg mold ss _ _ _ hcp
      | exact special_angle_open b bg mold ss _
      | exact special_sign_open ext b bg mold _ ss _ _ (fun cp1 h1 => ih ss _ cp1 hb h1) hb hcp
      | exact pound_open ext b bg ss mold _ hcp

theorem delimit_return_open (b : Buf) (bg : Nat) (ss : SCAN_STATE) (mold : List Nat)
    (cp : Nat) : opener b bg (delimit_return b ss mold cp) := by
  unfold delimit_return line_feed
  exact open_leaf _ _ _ _ _ (by decide)

theorem delimit_comment_open (b : Buf) (bg : Nat) (ss : SCAN_STATE) (mold : List Nat)
    (cp : Nat) : opener b bg (delimit_comment b ss mold cp) := by
  unfold delimit_comment
  dsimp only
  apply open_ite
  · intro _
    unfold line_feed
    exact open_leaf _ _ _ _ _ (by decide)
  · intro _
    exact delimit_return_open b bg ss mold _

theorem delimit_quote_open (ext : Ext) (b : Buf) (bg : Nat) (ss : SCAN_STATE) (cp : Nat) :
    opener b bg (delimit_quote ext b ss cp) := by
  unfold delimit_quote
  split <;> exact open_leaf _ _ _ _ _ (by decide)

theorem delimit_slash_open (b : Buf) (bg : Nat) (ss : SCAN_STATE) (mold : List Nat)
    (cp : Nat) : opener b bg (delimit_slash b ss mold cp) := by
  unfold delimit_slash
  dsimp only
  repeat' (with_reducible apply open_ite <;> intro)
  all_goals first
    | exact open_leaf _ _ _ _ _ (by decide)
    | exact open_leaf _ _ _ _ _ (plain_ite _ _ _ (by decide) (by decide))
    | exact open_of_plain _ _ _ _ (scanword_plain b _ _ _ _ (by decide) (by decide))

theorem bracket_value_byte : ∀ c : Fin 256,
    GET_LEX_CLASS c.val = LEX_CLASS_DELIMIT →
      (GET_LEX_VALUE c.val = LEX_DELIMIT_LEFT_BRACKET → c.val = 91)
      ∧ (GET_LEX_VALUE c.val = LEX_DELIMIT_LEFT_PAREN → c.val = 40) := by
  decide

theorem bracket_value_char (c : Nat) (h1 : GET_LEX_CLASS c = LEX_CLASS_DELIMIT) :
    (GET_LEX_VALUE c = LEX_DELIMIT_LEFT_BRACKET → c = 91)
      ∧ (GET_LEX_VALUE c = LEX_DELIMIT_LEFT_PAREN → c = 40) := by
  by_cases hc : c < 256
  · exact bracket_value_byte ⟨c, hc⟩ h1
  · have h0 : Lex_Map c = 0 := by
      unfold Lex_Map
      exact List.getD_eq_default _ _ (by
        have : (Lex_Map_table USE_UNICODE).length = 256 := by decide
        omega)
    unfold GET_LEX_VALUE
    rw [h0]
    exact ⟨fun h => absurd h (by decide), fun h => absurd h (by decide)⟩

theorem Scan_Token_delimit_open (ext : Ext) (b : Buf) (ss : SCAN_STATE) (mold : List Nat)
    (hcls : GET_LEX_CLASS (rd b ss.begin) = LEX_CLASS_DELIMIT) (hbe : ss.begin < ss.end_) :
    opener b ss.begin (Scan_Token_delimit ext b ss mold ss.begin) := by
  have hv := bracket_value_char _ hcls
  unfold Scan_Token_delimit
  dsimp only
  apply open_ite
  · intro _
    exact delimit_comment_open b _ ss mold _
  intro _
  apply open_ite
  · intro _
    exact delimit_return_open b _ ss mold _
  intro _
  apply open_ite
  · intro _
    unfold line_feed
    exact open_leaf _ _ _ _ _ (by decide)
  intro _
  apply open_ite
  · intro h _
    exact ⟨ss.begin, Nat.le_refl _, hbe, Or.inl (hv.1 h)⟩
  intro _
  apply open_ite
  · intro _
    exact open_leaf _ _ _ _ _ (by decide)
  intro _
  apply open_ite
  · intro h _
    exact ⟨ss.begin, Nat.le_refl _, hbe, Or.inr (hv.2 h)⟩
  intro _
  apply open_ite
  · intro _
    exact open_leaf _ _ _ _ _ (by decide)
  intro _
  apply open_ite
  · intro _
    exact delimit_quote_open ext b _ ss _
  intro _
  apply open_ite
  · intro _
    exact open_leaf _ _ _ _ _ (by decide)
  intro _
  apply open_ite
  · intro _
    exact delimit_slash_open b _ ss mold _
  intro _
  apply open_ite <;> intro <;> exact open_leaf _ _ _ _ _ (by decide)

/-- A token of `Scan_Token` that opens a nested block has a `[` or a `(` in
its lexeme. -/
theorem Scan_Token_open (ext : Ext) (b : Buf) (ss : SCAN_STATE) (mold : List Nat) :
    opener b (Prescan b ss).2.begin (Scan_Token ext b ss mold) := by
  have hend : Lex_Map (rd b (Prescan b ss).2.begin) < 32 →
      (Prescan b ss).2.begin < (Prescan b ss).2.end_ := by
    obtain ⟨bg, e, fl, hP, _, _, _, _, hdel, _, _⟩ := Prescan_spec b ss
    rw [hP]
    dsimp only
    intro hd
    have := (hdel hd).1
    omega
  unfold Scan_Token
  dsimp only
  apply open_ite
  · intro hc
    exact Scan_Token_delimit_open ext b _ mold hc (hend ((class_ranges _).1.1 hc))
  intro _
  apply open_ite
  · intro _
    apply open_ite
    · intro _
      exact open_leaf _ _ _ _ _ (by decide)
    · intro _
      exact next_ls_open ext b _ mold 2 _ _ _ (Nat.le_refl _) (Nat.le_refl _)
  intro _
  apply open_ite
  · intro _
    apply open_ite
    · intro _
      exact open_leaf _ _ _ _ _ (by decide)
    · intro _
      exact open_of_plain _ _ _ _ (scanword_plain b _ _ _ _ (by decide) (by decide))
  · intro _
    exact num_open ext b _ _ mold _ _ (Nat.le_refl _)

theorem opens_step (b : Buf) (p : Nat) :
    opens b p = (if rd b p = 91 ∨ rd b p = 40 then 1 else 0) + opens b (p + 1) := by
  unfold opens
  by_cases hlt : p < b.length
  · rw [drop_eq_rd_cons b p hlt, List.filter_cons]
    by_cases h : rd b p = 91 ∨ rd b p = 40
    · have hb : (rd b p == 91 || rd b p == 40) = true := by
        rcases h with h | h <;> simp [h]
      rw [if_pos hb, if_pos h, List.length_cons]
      omega
    · have hb : ¬ (rd b p == 91 || rd b p == 40) = true := by
        intro hc
        simp only [Bool.or_eq_true, beq_iff_eq] at hc
        exact h hc
      rw [if_neg hb, if_neg h]
      omega
  · have h0 : rd b p = 0 := rd_eq_zero_of_le b p (by omega)
    rw [List.drop_eq_nil_of_le (by omega), List.drop_eq_nil_of_le (by omega), h0]
    simp

theorem opens_mono (b : Buf) (p : Nat) : ∀ k, opens b (p + k) ≤ opens b p := by
  intro k
  induction k with
  | zero => exact Nat.le_refl _
  | succ k ih =>
    have := opens_step b (p + k)
    have e : p + (k + 1) = p + k + 1 := by omega
    rw [e]
    omega

theorem opens_le (b : Buf) (p q : Nat) (h : p ≤ q) : opens b q ≤ opens b p := by
  have := opens_mono b p (q - p)
  have e : p + (q - p) = q := by omega
  rw [e] at this
  exact this

theorem opens_lt (b : Buf) (p x q : Nat) (h1 : p ≤ x) (h2 : x < q)
    (h3 : rd b x = 91 ∨ rd b x = 40) : opens b q < opens b p := by
  have a1 := opens_le b p x h1
  have a2 := opens_le b (x + 1) q (by omega)
  have a3 := opens_step b x
  rw [if_pos h3] at a3
  omega

/-- A round makes nested calls only after a `[` or `(` of its lexeme, or in
path mode from a frame that is not in path mode. -/
theorem Scan_Block_body_congr_open (ext : Ext) (b : Buf) (hf : forward ext b)
    (rec1 rec2 : G → Nat → Result (List REBVAL × G)) (fr : Frame) (g : G)
    (h : ∀ g1 m, ((∃ x, g.ss.begin ≤ x ∧ x < g1.ss.begin ∧ (rd b x = 91 ∨ rd b x = 40))
        ∨ (m = 47 ∧ fr.mode_char ≠ 47 ∧ g.ss.begin ≤ g1.ss.begin)) →
      rec1 g1 m = rec2 g1 m) :
    Scan_Block_body ext b rec1 fr g = Scan_Block_body ext b rec2 fr g := by
  have hbg := Prescan_begin b g.ss
  have hge := skipWhile_ge IS_LEX_SPACE b g.ss.begin
  by_cases h0 : rd b (Prescan b g.ss).2.begin = 0
  · have hT := eof_lexeme ext b g.ss g.mold h0
    rw [body_eof ext b rec1 fr g _ _ hT, body_eof ext b rec2 fr g _ _ hT]
  · have hlt := lt_length_of_rd_ne_zero b _ h0
    have hadv := Scan_Token_adv ext b hf g.ss g.mold h0
    have hbd := (Scan_Token_bounds ext b g.ss g.mold (by omega)).1
    have hop := Scan_Token_open ext b g.ss g.mold
    rcases hT : Scan_Token ext b g.ss g.mold with ⟨token, ss, mold⟩
    rw [hT] at hadv hbd hop
    obtain ⟨hne, hend⟩ := hadv
    simp only at hne hend hbd
    have hcall : (token = TOKEN_BLOCK ∨ token = TOKEN_PAREN ∨ token = TOKEN_CONSTRUCT) →
        ∃ x, g.ss.begin ≤ x ∧ x < ss.end_ ∧ (rd b x = 91 ∨ rd b x = 40) := by
      intro ht
      obtain ⟨x, x1, x2, x3⟩ := hop ht
      exact ⟨x, by omega, x2, x3⟩
    by_cases h1 : token < 0
    · have hneg : (Scan_Token ext b g.ss g.mold).1 < 0 := by rw [hT]; exact h1
      rw [body_negative ext b rec1 fr g hneg, body_negative ext b rec2 fr g hneg]
    by_cases h2 : fr.mode_char = 47 ∧ rd b ss.begin = 47
    · rw [body_slash ext b rec1 fr g token ss mold hT hne h1 h2,
        body_slash ext b rec2 fr g token ss mold hT hne h1 h2]
    by_cases h3 : (token = TOKEN_PATH
                ∨ ((token = TOKEN_WORD ∨ token = TOKEN_LIT ∨ token = TOKEN_GET)
                    ∧ rd b ss.end_ = 47)) ∧ fr.mode_char ≠ 47
    · rw [body_path ext b rec1 fr g token ss mold hT hne h1 h2 h3,
        body_path ext b rec2 fr g token ss mold hT hne h1 h2 h3,
        h { g with ss := ss, mold := mold } 47
          (Or.inr ⟨rfl, h3.2, by show g.ss.begin ≤ ss.begin; omega⟩)]
    · rw [body_switch ext b rec1 fr g token ss mold hT hne h1 h2 h3,
        body_switch ext b rec2 fr g token ss mold hT hne h1 h2 h3]
      by_cases hb : token = TOKEN_BLOCK ∨ token = TOKEN_PAREN
      · have hx := hcall (by rcases hb with hb | hb <;> simp [hb])
        unfold Scan_Block_switch
        have e := h { g with ss := ACCEPT_TOKEN ss, mold := mold }
          (if token = TOKEN_BLOCK then 93 else 41) (Or.inl hx)
        rw [e, Scan_Full_Block_congr rec1 rec2 _ 93 (h _ 93 (Or.inl hx))]
      · by_cases hc : token = TOKEN_CONSTRUCT
        · have hx := hcall (Or.inr (Or.inr hc))
          unfold Scan_Block_switch
          rw [if_neg hb, if_neg hb, Scan_Full_Block_congr rec1 rec2 _ 93 (h _ 93 (Or.inl hx))]
        · rw [Scan_Block_switch_plain ext b rec1 rec2 fr _ token _ _ _ hb hc]

/-- A round of the loop of `Scan_Block` that goes on leaves `begin` after the
`begin` it started with. -/
theorem body_again_gt (ext : Ext) (b : Buf) (hf : forward ext b) (fuel : Nat) (fr : Frame)
    (g g1 : G)
    (h : Scan_Block_body ext b (fun g m => Scan_Block ext b fuel g m) fr g = .again g1) :
    g.ss.begin < g1.ss.begin := by
  have hrec : RecAdv b False g.ss.begin fr.mode_char (fun g1 m => Scan_Block ext b fuel g1 m) := by
    intro gc m _ _
    obtain ⟨e1, e2⟩ := enter_ss gc m
    have h1 := Scan_Block_loop_adv False ext b hf fuel (enter gc m).1 (enter gc m).2
      (fun t => False.elim t)
    rw [e1] at h1
    have hn : nonNul b (enter gc m).2 = nonNul b gc := by
      unfold nonNul
      rw [e1]
    rw [hn] at h1
    exact h1
  have hb := Scan_Block_body_adv False ext b hf _ fr g hrec
  rw [h] at hb
  exact hb

theorem Scan_Block_depth_succ (ext : Ext) (b : Buf) (d fuel : Nat) (fr : Frame) (g : G) :
    Scan_Block_depth ext b d (fuel + 1) fr g =
      match Scan_Block_body ext b
          (fun g1 m =>
            match d with
            | 0 => .fuel
            | d1 + 1 => Scan_Block_depth ext b d1 fuel (enter g1 m).1 (enter g1 m).2) fr g with
      | .again g1 => Scan_Block_depth ext b d fuel fr g1
      | .done r => r := by
  rw [Scan_Block_depth]

/-- The nested calls of `Scan_Block` go no deeper than twice the number of
`[` and `(` bytes left, and one more outside a path: with that bound on the
depth the loop runs as without it. -/
theorem Scan_Block_depth_eq (ext : Ext) (b : Buf) (hf : forward ext b) (fuel : Nat) :
    ∀ (d : Nat) (fr : Frame) (g : G),
      2 * opens b g.ss.begin + (if fr.mode_char = 47 then 0 else 1) ≤ d →
      Scan_Block_depth ext b d fuel fr g = Scan_Block_loop ext b fuel fr g := by
  induction fuel with
  | zero =>
    intro d fr g _
    rw [Scan_Block_depth]
    rfl
  | succ fuel ih =>
    intro d fr g hd
    have hbody : ∀ (d0 : Nat),
        2 * opens b g.ss.begin + (if fr.mode_char = 47 then 0 else 1) ≤ d0 →
        Scan_Block_body ext b
          (fun g1 m =>
            match d0 with
            | 0 => .fuel
            | d1 + 1 => Scan_Block_depth ext b d1 fuel (enter g1 m).1 (enter g1 m).2) fr g =
        Scan_Block_body ext b (fun g1 m => Scan_Block ext b fuel g1 m) fr g := by
      intro d0 hd0
      apply Scan_Block_body_congr_open ext b hf
      intro g1 m hc
      obtain ⟨e1, e2⟩ := enter_ss g1 m
      rcases hc with ⟨x, x1, x2, x3⟩ | ⟨hm, hmode, hle⟩
      · have hlt := opens_lt b g.ss.begin x g1.ss.begin x1 x2 x3
        cases d0 with
        | zero =>
          exfalso
          omega
        | succ d1 =>
          show Scan_Block_depth ext b d1 fuel (enter g1 m).1 (enter g1 m).2 = _
          rw [ih d1 (enter g1 m).1 (enter g1 m).2 (by
            rw [e1]
            split_ifs at hd0 ⊢ <;> omega)]
          rfl
      · have hle2 := opens_le b g.ss.begin g1.ss.begin hle
        rw [if_neg hmode] at hd0
        cases d0 with
        | zero =>
          exfalso
          omega
        | succ d1 =>
          show Scan_Block_depth ext b d1 fuel (enter g1 m).1 (enter g1 m).2 = _
          rw [ih d1 (enter g1 m).1 (enter g1 m).2 (by
            rw [e1, e2, if_pos hm]
            omega)]
          rfl
    rw [Scan_Block_depth_succ, Scan_Block_loop_succ, hbody d hd]
    cases hb : Scan_Block_body ext b (fun g1 m => Scan_Block ext b fuel g1 m) fr g with
    | again g1 =>
      have hgt := body_again_gt ext b hf fuel fr g g1 hb
      have hle := opens_le b g.ss.begin g1.ss.begin (Nat.le_of_lt hgt)
      show Scan_Block_depth ext b d fuel fr g1 = Scan_Block_loop ext b fuel fr g1
      exact ih d fr g1 (by split_ifs at hd ⊢ <;> omega)
    | done r => rfl

/-- Overwriting the datatype of a cell gives a cell of that datatype, whatever
the cell held. -/
theorem VAL_TYPE_VAL_SET (v : REBVAL) (t : REB_TYPE) : VAL_TYPE (VAL_SET v t) = t := by
  cases v <;> rfl

theorem line_feed_quoted {ext : Ext} {b : Buf} (ss : SCAN_STATE) (mold : List Nat) (cp : Nat) :
    QuoteLaw ext b ss.line_count ss (line_feed ss mold cp) := Or.inl ⟨rfl, rfl⟩

theorem bracket_peak_ge : ∀ (l : List (Nat × Int)) (c : Int), c ≤ bracket_peak c l := by
  intro l
  induction l with
  | nil => intro c; exact le_refl c
  | cons e es ih =>
    intro c
    rw [bracket_peak]
    exact le_max_left _ _

theorem bracket_peak_shift : ∀ (l : List (Nat × Int)) (c k : Int),
    bracket_peak (c + k) l = bracket_peak c l + k := by
  intro l
  induction l with
  | nil => intro c k; rfl
  | cons e es ih =>
    intro c k
    rw [bracket_peak, bracket_peak]
    have e1 : c + k + bracket_step e = c + bracket_step e + k := by omega
    rw [e1, ih]
    omega

theorem bracket_peak_zero (l : List (Nat × Int)) (k : Int) :
    bracket_peak k l = bracket_peak 0 l + k := by
  have h := bracket_peak_shift l 0 k
  rw [zero_add] at h
  exact h

theorem bracket_peak_append : ∀ (l1 l2 : List (Nat × Int)) (c : Int),
    bracket_peak c (l1 ++ l2) = max (bracket_peak c l1) (bracket_peak (c + bracket_sum l1) l2) := by
  intro l1
  induction l1 with
  | nil =>
    intro l2 c
    have := bracket_peak_ge l2 c
    simp only [List.nil_append, bracket_peak, bracket_sum, add_zero]
    omega
  | cons e es ih =>
    intro l2 c
    rw [List.cons_append, bracket_peak, bracket_peak, ih, bracket_sum]
    have e1 : c + (bracket_step e + bracket_sum es) = c + bracket_step e + bracket_sum es := by
      omega
    rw [e1]
    omega

theorem bracket_sum_append : ∀ (l1 l2 : List (Nat × Int)),
    bracket_sum (l1 ++ l2) = bracket_sum l1 + bracket_sum l2 := by
  intro l1
  induction l1 with
  | nil => intro l2; simp [bracket_sum]
  | cons e es ih =>
    intro l2
    rw [List.cons_append, bracket_sum, bracket_sum, ih]
    omega

theorem Scan_Block_tokens_succ (ext : Ext) (b : Buf) (fuel : Nat) (fr : Frame) (g : G) :
    Scan_Block_tokens ext b (fuel + 1) fr g =
      (fr.mode_char, (Scan_Token ext b g.ss g.mold).1) ::
        ((match nested_call ext b fr g with
          | some c => Scan_Block_tokens ext b fuel (enter c.1 c.2).1 (enter c.1 c.2).2
          | none => []) ++
         (match Scan_Block_body ext b (fun g1 m => Scan_Block ext b fuel g1 m) fr g with
          | .again g1 => Scan_Block_tokens ext b fuel fr g1
          | .done _ => [])) := by
  rw [Scan_Block_tokens]

/-- The token switch at a `[` or a `(`. -/
theorem Scan_Block_switch_open (ext : Ext) (b : Buf)
    (rec : G → Nat → Result (List REBVAL × G)) (fr : Frame) (g : G) (token : Int)
    (bp ep len : Nat) (h : token = TOKEN_BLOCK ∨ token = TOKEN_PAREN) :
    Scan_Block_switch ext b rec fr g token bp ep len =
      case_block token bp (rec g (if token = TOKEN_BLOCK then 93 else 41)) := by
  unfold Scan_Block_switch
  rcases h with h | h <;> subst h <;> rfl

/-- The token switch at a `#[`. -/
theorem Scan_Block_switch_construct (ext : Ext) (b : Buf)
    (rec : G → Nat → Result (List REBVAL × G)) (fr : Frame) (g : G) (bp ep len : Nat) :
    Scan_Block_switch ext b rec fr g TOKEN_CONSTRUCT bp ep len =
      case_construct ext TOKEN_CONSTRUCT bp (Scan_Full_Block rec g 93) := by
  unfold Scan_Block_switch
  rfl

/-- The token switch at a `]` or a `)`. -/
theorem Scan_Block_switch_close (ext : Ext) (b : Buf)
    (rec : G → Nat → Result (List REBVAL × G)) (fr : Frame) (g : G) (token : Int)
    (bp ep len : Nat) (h : token = TOKEN_BLOCK_END ∨ token = TOKEN_PAREN_END) :
    Scan_Block_switch ext b rec fr g token bp ep len =
      case_end fr g token (if token = TOKEN_BLOCK_END then 93 else 41)
        (if token = TOKEN_BLOCK_END then 91 else 40) := by
  unfold Scan_Block_switch
  rcases h with h | h <;> subst h <;> rfl

/-- A round depends on the nested scanner only through the one call it
makes. -/
theorem Scan_Block_body_call (ext : Ext) (b : Buf)
    (rec1 rec2 : G → Nat → Result (List REBVAL × G)) (fr : Frame) (g : G)
    (h : ∀ c, nested_call ext b fr g = some c → rec1 c.1 c.2 = rec2 c.1 c.2) :
    Scan_Block_body ext b rec1 fr g = Scan_Block_body ext b rec2 fr g := by
  rcases hT : Scan_Token ext b g.ss g.mold with ⟨token, ss, mold⟩
  have hn : nested_call ext b fr g =
      (if token = TOKEN_EOF ∨ token < 0 then none
        else if fr.mode_char = 47 ∧ rd b ss.begin = 47 then none
        else if (token = TOKEN_PATH
                  ∨ ((token = TOKEN_WORD ∨ token = TOKEN_LIT ∨ token = TOKEN_GET)
                      ∧ rd b ss.end_ = 47))
                ∧ fr.mode_char ≠ 47 then some ({ g with ss := ss, mold := mold }, 47)
        else if token = TOKEN_BLOCK ∨ token = TOKEN_PAREN then
          some ({ g with ss := ACCEPT_TOKEN ss, mold := mold },
            if token = TOKEN_BLOCK then 93 else 41)
        else if token = TOKEN_CONSTRUCT then
          some ({ g with ss := { ACCEPT_TOKEN ss with
                                  opts := { ss.opts with SCAN_ONLY := false } },
                         mold := mold }, 93)
        else none) := by
    unfold nested_call
    simp only [hT]
  by_cases h0 : token = TOKEN_EOF
  · subst h0
    rw [body_eof ext b rec1 fr g _ _ hT, body_eof ext b rec2 fr g _ _ hT]
  by_cases h1 : token < 0
  · have hneg : (Scan_Token ext b g.ss g.mold).1 < 0 := by rw [hT]; exact h1
    rw [body_negative ext b rec1 fr g hneg, body_negative ext b rec2 fr g hneg]
  have h01 : ¬ (token = TOKEN_EOF ∨ token < 0) := by
    rintro (h | h)
    · exact h0 h
    · exact h1 h
  by_cases h2 : fr.mode_char = 47 ∧ rd b ss.begin = 47
  · rw [body_slash ext b rec1 fr g token ss mold hT h0 h1 h2,
      body_slash ext b rec2 fr g token ss mold hT h0 h1 h2]
  by_cases h3 : (token = TOKEN_PATH
              ∨ ((token = TOKEN_WORD ∨ token = TOKEN_LIT ∨ token = TOKEN_GET)
                  ∧ rd b ss.end_ = 47)) ∧ fr.mode_char ≠ 47
  · rw [if_neg h01, if_neg h2, if_pos h3] at hn
    rw [body_path ext b rec1 fr g token ss mold hT h0 h1 h2 h3,
      body_path ext b rec2 fr g token ss mold hT h0 h1 h2 h3]
    have e := h _ hn
    simp only at e
    rw [e]
  · rw [if_neg h01, if_neg h2, if_neg h3] at hn
    rw [body_switch ext b rec1 fr g token ss mold hT h0 h1 h2 h3,
      body_switch ext b rec2 fr g token ss mold hT h0 h1 h2 h3]
    by_cases hb : token = TOKEN_BLOCK ∨ token = TOKEN_PAREN
    · rw [if_pos hb] at hn
      have e := h _ hn
      simp only at e
      rw [Scan_Block_switch_open ext b rec1 fr _ token _ _ _ hb,
        Scan_Block_switch_open ext b rec2 fr _ token _ _ _ hb, e]
    · by_cases hc : token = TOKEN_CONSTRUCT
      · rw [if_neg hb, if_pos hc] at hn
        have e := h _ hn
        simp only at e
        subst hc
        rw [Scan_Block_switch_construct, Scan_Block_switch_construct,
          Scan_Full_Block_congr rec1 rec2 _ 93 e]
      · rw [Scan_Block_switch_plain ext b rec1 rec2 fr _ token _ _ _ hb hc]

/-- What a round adds to the number of open brackets, and the call it makes:
a closer that counts ends the frame without a call; a call for a block, a
paren or a construct follows a token that opens a bracket; a call for a path
is made by a frame that is not a path frame, at a token that is no bracket. -/
theorem round_brackets (ext : Ext) (b : Buf) (rec : G → Nat → Result (List REBVAL × G))
    (fr : Frame) (g : G) :
    (bracket_step (fr.mode_char, (Scan_Token ext b g.ss g.mold).1) = -1 →
        nested_call ext b fr g = none ∧ ∃ r, Scan_Block_body ext b rec fr g = .done r)
    ∧ (fr.mode_char = 47 → 0 ≤ bracket_step (fr.mode_char, (Scan_Token ext b g.ss g.mold).1))
    ∧ -1 ≤ bracket_step (fr.mode_char, (Scan_Token ext b g.ss g.mold).1)
    ∧ (∀ c, nested_call ext b fr g = some c →
        (c.2 = 47 ∧ fr.mode_char ≠ 47
            ∧ bracket_step (fr.mode_char, (Scan_Token ext b g.ss g.mold).1) = 0)
        ∨ (c.2 ≠ 47 ∧ bracket_step (fr.mode_char, (Scan_Token ext b g.ss g.mold).1) = 1)) := by
  rcases hT : Scan_Token ext b g.ss g.mold with ⟨token, ss, mold⟩
  have hn : nested_call ext b fr g =
      (if token = TOKEN_EOF ∨ token < 0 then none
        else if fr.mode_char = 47 ∧ rd b ss.begin = 47 then none
        else if (token = TOKEN_PATH
                  ∨ ((token = TOKEN_WORD ∨ token = TOKEN_LIT ∨ token = TOKEN_GET)
                      ∧ rd b ss.end_ = 47))
                ∧ fr.mode_char ≠ 47 then some ({ g with ss := ss, mold := mold }, 47)
        else if token = TOKEN_BLOCK ∨ token = TOKEN_PAREN then
          some ({ g with ss := ACCEPT_TOKEN ss, mold := mold },
            if token = TOKEN_BLOCK then 93 else 41)
        else if token = TOKEN_CONSTRUCT then
          some ({ g with ss := { ACCEPT_TOKEN ss with
                                  opts := { ss.opts with SCAN_ONLY := false } },
                         mold := mold }, 93)
        else none) := by
    unfold nested_call
    simp only [hT]
  simp only
  refine ⟨?_, ?_, ?_, ?_⟩
  · intro hs
    unfold bracket_step at hs
    simp only at hs
    by_cases ho : token = TOKEN_BLOCK ∨ token = TOKEN_PAREN ∨ token = TOKEN_CONSTRUCT
    · rw [if_pos ho] at hs
      exact absurd hs (by decide)
    rw [if_neg ho] at hs
    by_cases hc : (token = TOKEN_BLOCK_END ∨ token = TOKEN_PAREN_END) ∧ fr.mode_char ≠ 47
    swap
    · rw [if_neg hc] at hs
      exact absurd hs (by decide)
    obtain ⟨hc1, hm⟩ := hc
    have h0 : token ≠ TOKEN_EOF := by rcases hc1 with h | h <;> rw [h] <;> decide
    have h1 : ¬ token < 0 := by rcases hc1 with h | h <;> rw [h] <;> decide
    have h01 : ¬ (token = TOKEN_EOF ∨ token < 0) := by
      rintro (h | h)
      · exact h0 h
      · exact h1 h
    have h2 : ¬ (fr.mode_char = 47 ∧ rd b ss.begin = 47) := fun h => hm h.1
    have ht : ¬ (token = TOKEN_PATH ∨ token = TOKEN_WORD ∨ token = TOKEN_LIT
        ∨ token = TOKEN_GET ∨ token = TOKEN_BLOCK ∨ token = TOKEN_PAREN
        ∨ token = TOKEN_CONSTRUCT) := by
      rcases hc1 with h | h <;> rw [h] <;> decide
    have h3 : ¬ ((token = TOKEN_PATH
              ∨ ((token = TOKEN_WORD ∨ token = TOKEN_LIT ∨ token = TOKEN_GET)
                  ∧ rd b ss.end_ = 47)) ∧ fr.mode_char ≠ 47) := by
      rintro ⟨h | ⟨h | h | h, -⟩, -⟩
      · exact ht (Or.inl h)
      · exact ht (Or.inr (Or.inl h))
      · exact ht (Or.inr (Or.inr (Or.inl h)))
      · exact ht (Or.inr (Or.inr (Or.inr (Or.inl h))))
    have hb : ¬ (token = TOKEN_BLOCK ∨ token = TOKEN_PAREN) := by
      rintro (h | h)
      · exact ho (Or.inl h)
      · exact ho (Or.inr (Or.inl h))
    have hcn : token ≠ TOKEN_CONSTRUCT := fun h => ho (Or.inr (Or.inr h))
    refine ⟨?_, ?_⟩
    · rw [hn, if_neg h01, if_neg h2, if_neg h3, if_neg hb, if_neg hcn]
    · rw [body_switch ext b rec fr g token ss mold hT h0 h1 h2 h3,
        Scan_Block_switch_close ext b rec fr _ token _ _ _ hc1]
      unfold case_end
      split_ifs <;> exact ⟨_, rfl⟩
  · intro hm
    unfold bracket_step
    simp only
    split_ifs with h1 h2
    · decide
    · exact absurd hm h2.2
    · decide
  · unfold bracket_step
    simp only
    split_ifs <;> decide
  · intro c hc
    rw [hn] at hc
    by_cases h01 : token = TOKEN_EOF ∨ token < 0
    · rw [if_pos h01] at hc
      exact Option.noConfusion hc
    rw [if_neg h01] at hc
    by_cases h2 : fr.mode_char = 47 ∧ rd b ss.begin = 47
    · rw [if_pos h2] at hc
      exact Option.noConfusion hc
    rw [if_neg h2] at hc
    by_cases h3 : (token = TOKEN_PATH
              ∨ ((token = TOKEN_WORD ∨ token = TOKEN_LIT ∨ token = TOKEN_GET)
                  ∧ rd b ss.end_ = 47)) ∧ fr.mode_char ≠ 47
    · rw [if_pos h3] at hc
      rw [← Option.some.inj hc]
      left
      refine ⟨rfl, h3.2, ?_⟩
      unfold bracket_step
      simp only
      have ht : token = TOKEN_PATH ∨ token = TOKEN_WORD ∨ token = TOKEN_LIT
          ∨ token = TOKEN_GET := by
        rcases h3.1 with h | ⟨h | h | h, -⟩
        · exact Or.inl h
        · exact Or.inr (Or.inl h)
        · exact Or.inr (Or.inr (Or.inl h))
        · exact Or.inr (Or.inr (Or.inr h))
      rcases ht with h | h | h | h <;> rw [h] <;> rfl
    rw [if_neg h3] at hc
    by_cases hb : token = TOKEN_BLOCK ∨ token = TOKEN_PAREN
    · rw [if_pos hb] at hc
      rw [← Option.some.inj hc]
      right
      refine ⟨?_, ?_⟩
      · show (if token = TOKEN_BLOCK then 93 else 41) ≠ 47
        split_ifs <;> decide
      · unfold bracket_step
        simp only
        rcases hb with h | h <;> rw [h] <;> rfl
    rw [if_neg hb] at hc
    by_cases hcn : token = TOKEN_CONSTRUCT
    · rw [if_pos hcn] at hc
      rw [← Option.some.inj hc]
      right
      refine ⟨by show (93 : Nat) ≠ 47; decide, ?_⟩
      unfold bracket_step
      simp only
      rw [hcn]
      rfl
    · rw [if_neg hcn] at hc
      exact Option.noConfusion hc

/-- A frame closes at most one bracket more than it opens, and a path frame
none. -/
theorem Scan_Block_tokens_sum (ext : Ext) (b : Buf) (fuel : Nat) :
    ∀ (fr : Frame) (g : G),
      -1 ≤ bracket_sum (Scan_Block_tokens ext b fuel fr g)
      ∧ (fr.mode_char = 47 → 0 ≤ bracket_sum (Scan_Block_tokens ext b fuel fr g)) := by
  induction fuel with
  | zero =>
    intro fr g
    rw [Scan_Block_tokens]
    exact ⟨by decide, fun _ => by decide⟩
  | succ fuel ih =>
    intro fr g
    obtain ⟨r1, r2, r3, r4⟩ :=
      round_brackets ext b (fun g1 m => Scan_Block ext b fuel g1 m) fr g
    rw [Scan_Block_tokens_succ, bracket_sum, bracket_sum_append]
    have hrest : -1 ≤ bracket_sum
          (match Scan_Block_body ext b (fun g1 m => Scan_Block ext b fuel g1 m) fr g with
            | .again g1 => Scan_Block_tokens ext b fuel fr g1
            | .done _ => [])
        ∧ (fr.mode_char = 47 → 0 ≤ bracket_sum
          (match Scan_Block_body ext b (fun g1 m => Scan_Block ext b fuel g1 m) fr g with
            | .again g1 => Scan_Block_tokens ext b fuel fr g1
            | .done _ => [])) := by
      cases Scan_Block_body ext b (fun g1 m => Scan_Block ext b fuel g1 m) fr g with
      | again g1 => exact ih fr g1
      | done r => exact ⟨by simp [bracket_sum], fun _ => by simp [bracket_sum]⟩
    by_cases hs : bracket_step (fr.mode_char, (Scan_Token ext b g.ss g.mold).1) = -1
    · obtain ⟨hn, r, hr⟩ := r1 hs
      rw [hn, hr, hs]
      refine ⟨by simp [bracket_sum], ?_⟩
      intro hm
      have := r2 hm
      omega
    cases hc : nested_call ext b fr g with
    | none =>
      simp only [bracket_sum]
      refine ⟨by omega, ?_⟩
      intro hm
      have := r2 hm
      have := hrest.2 hm
      omega
    | some c =>
      have hchild := ih (enter c.1 c.2).1 (enter c.1 c.2).2
      rw [(enter_emit c.1 c.2).2.2.2.1] at hchild
      simp only
      rcases r4 c hc with ⟨h47, hm, h0⟩ | ⟨h47, h1⟩
      · have := hchild.2 h47
        refine ⟨by omega, ?_⟩
        intro hm2
        exact absurd hm2 hm
      · refine ⟨by omega, ?_⟩
        intro hm
        have := hrest.2 hm
        omega

/-- The nested calls of `Scan_Block` go no deeper than twice the bracket
nesting of the tokens the frame reads, and one more outside a path: with that
bound on the depth the loop runs as without it. -/
theorem Scan_Block_depth_nesting (ext : Ext) (b : Buf) (fuel : Nat) :
    ∀ (d : Nat) (fr : Frame) (g : G),
      2 * bracket_peak 0 (Scan_Block_tokens ext b fuel fr g)
          + (if fr.mode_char = 47 then 0 else 1) ≤ (d : Int) →
      Scan_Block_depth ext b d fuel fr g = Scan_Block_loop ext b fuel fr g := by
  induction fuel with
  | zero =>
    intro d fr g _
    rw [Scan_Block_depth]
    rfl
  | succ fuel ih =>
    intro d fr g hd
    obtain ⟨r1, r2, r3, r4⟩ :=
      round_brackets ext b (fun g1 m => Scan_Block ext b fuel g1 m) fr g
    rw [Scan_Block_tokens_succ, bracket_peak, bracket_peak_append] at hd
    have hp0 := bracket_peak_ge
      (match nested_call ext b fr g with
        | some c => Scan_Block_tokens ext b fuel (enter c.1 c.2).1 (enter c.1 c.2).2
        | none => [])
      (0 + bracket_step (fr.mode_char, (Scan_Token ext b g.ss g.mold).1))
    have hcall : ∀ (d0 : Nat), d0 = d → ∀ c, nested_call ext b fr g = some c →
        (match d0 with
          | 0 => Result.fuel
          | d1 + 1 => Scan_Block_depth ext b d1 fuel (enter c.1 c.2).1 (enter c.1 c.2).2) =
        Scan_Block ext b fuel c.1 c.2 := by
      intro d0 hd0 c hc
      rw [hc] at hd hp0
      simp only at hd hp0
      have hsh := bracket_peak_zero
        (Scan_Block_tokens ext b fuel (enter c.1 c.2).1 (enter c.1 c.2).2)
        ((0 : Int) + bracket_step (fr.mode_char, (Scan_Token ext b g.ss g.mold).1))
      have hpc := bracket_peak_ge
        (Scan_Block_tokens ext b fuel (enter c.1 c.2).1 (enter c.1 c.2).2) 0
      have hmode := (enter_emit c.1 c.2).2.2.2.1
      cases d0 with
      | zero =>
        exfalso
        rcases r4 c hc with ⟨h47, hm, h0⟩ | ⟨h47, h1⟩
        · rw [if_neg hm] at hd
          omega
        · split_ifs at hd <;> omega
      | succ d1 =>
        show Scan_Block_depth ext b d1 fuel (enter c.1 c.2).1 (enter c.1 c.2).2 = _
        rw [ih d1 (enter c.1 c.2).1 (enter c.1 c.2).2 (by
          rw [hmode]
          rcases r4 c hc with ⟨h47, hm, h0⟩ | ⟨h47, h1⟩
          · rw [if_neg hm] at hd
            rw [if_pos h47]
            omega
          · split_ifs at hd ⊢ <;> omega)]
        rfl
    rw [Scan_Block_depth_succ, Scan_Block_loop_succ]
    refine Eq.trans (congrArg
      (fun s => match s with
        | .again g1 => Scan_Block_depth ext b d fuel fr g1
        | .done r => r)
      (Scan_Block_body_call ext b _ (fun g1 m => Scan_Block ext b fuel g1 m) fr g
        (fun c hc => hcall d rfl c hc))) ?_
    cases hb : Scan_Block_body ext b (fun g1 m => Scan_Block ext b fuel g1 m) fr g with
    | again g1 =>
      show Scan_Block_depth ext b d fuel fr g1 = Scan_Block_loop ext b fuel fr g1
      rw [hb] at hd
      simp only at hd
      have hs : bracket_step (fr.mode_char, (Scan_Token ext b g.ss g.mold).1) ≠ -1 := by
        intro hs
        obtain ⟨-, r, hr⟩ := r1 hs
        rw [hb] at hr
        exact Step.noConfusion hr
      have hsum : (0 : Int) ≤ (0 : Int) + bracket_step (fr.mode_char, (Scan_Token ext b g.ss g.mold).1)
          + bracket_sum
            (match nested_call ext b fr g with
              | some c => Scan_Block_tokens ext b fuel (enter c.1 c.2).1 (enter c.1 c.2).2
              | none => []) := by
        cases hc : nested_call ext b fr g with
        | none =>
          simp only [bracket_sum]
          omega
        | some c =>
          have hchild := Scan_Block_tokens_sum ext b fuel (enter c.1 c.2).1 (enter c.1 c.2).2
          rw [(enter_emit c.1 c.2).2.2.2.1] at hchild
          simp only
          rcases r4 c hc with ⟨h47, hm, h0⟩ | ⟨h47, h1⟩
          · have := hchild.2 h47
            omega
          · omega
      have hsh := bracket_peak_zero (Scan_Block_tokens ext b fuel fr g1)
        ((0 : Int) + bracket_step (fr.mode_char, (Scan_Token ext b g.ss g.mold).1)
          + bracket_sum
            (match nested_call ext b fr g with
              | some c => Scan_Block_tokens ext b fuel (enter c.1 c.2).1 (enter c.1 c.2).2
              | none => []))
      apply ih d fr g1
      omega
    | done r => rfl

/-- The bound on the depth of the nested calls in terms of the bracket nesting
of the tokens read. -/
theorem Scan_Block_depth_of_nesting (ext : Ext) (b : Buf) (d fuel : Nat) (g : G) (m : Nat)
    (h : 2 * nesting (Scan_Block_tokens ext b fuel (enter g m).1 (enter g m).2) + 1 ≤ d) :
    Scan_Block_depth ext b d fuel (enter g m).1 (enter g m).2 = Scan_Block ext b fuel g m := by
  have hp := bracket_peak_ge (Scan_Block_tokens ext b fuel (enter g m).1 (enter g m).2) 0
  unfold nesting at h
  exact Scan_Block_depth_nesting ext b fuel d (enter g m).1 (enter g m).2 (by
    split_ifs <;> omega)

/-! ## Properties of the specification -/

/-- C2, counterexample: for `[a b] c` under ONLY the top-level scan returns one
value although the input has the two top-level lexemes `[a b]` and `c`; that
value is a block holding the word `a`, so the scanner was re-entered for the
text after `[`, and it stopped at byte 2. -/
theorem only_block_then_word :
    Scan_Code sampleExt block_then_word 10 (scan_state_with 0 7 opts_only) 0 =
      .ok ([.series .REB_BLOCK [.word .REB_WORD 2]],
        { ss := { begin := 2, end_ := 2, limit := 7, line_count := 1, head_line := 0,
                  opts := opts_only, errors := 0 },
          emit := [], mold := [] }) := by
  rfl

/-- C2, amended: under ONLY every frame of `Scan_Block` exits after the first
value it appends, so a top-level scan returns at most one value.  A `[` or `(`
is not kept as one lexeme: outside a path the round calls `Scan_Block` with
mode `]` or `)` whatever the options are. -/
theorem only_returns_at_most_one_value :
    (∀ (ext : Ext) (b : Buf) (fuel : Nat) (ss : SCAN_STATE) (blk : List REBVAL) (g : G),
      ss.opts.SCAN_ONLY = true →
      Scan_Code ext b fuel ss 0 = .ok (blk, g) → blk.length ≤ 1)
    ∧ (∀ (ext : Ext) (b : Buf) (rec : G → Nat → Result (List REBVAL × G)) (fr : Frame) (g : G)
        (token : Int) (ss : SCAN_STATE) (mold : List Nat),
      Scan_Token ext b g.ss g.mold = (token, ss, mold) →
      token = TOKEN_BLOCK ∨ token = TOKEN_PAREN → fr.mode_char ≠ 47 →
      Scan_Block_body ext b rec fr g =
        after_switch b fr
          (case_block token ss.begin
            (rec { g with ss := ACCEPT_TOKEN ss, mold := mold }
              (if token = TOKEN_BLOCK then 93 else 41)))) := by
  constructor
  · intro ext b fuel ss blk g honly hr
    have h := Scan_Block_loop_ok ext b fuel
      (enter { ss := ss, emit := [], mold := [] } 0).1
      (enter { ss := ss, emit := [], mold := [] } 0).2
      (by rw [(enter_emit _ _).1, (enter_emit _ _).2.1])
    have hr' : Scan_Block_loop ext b fuel (enter { ss := ss, emit := [], mold := [] } 0).1
        (enter { ss := ss, emit := [], mold := [] } 0).2 = .ok (blk, g) := hr
    rw [hr'] at h
    obtain ⟨-, -, l, h1, -, h3⟩ := h
    rw [(enter_emit _ _).1] at h1
    simp only [List.drop_nil, List.nil_append] at h1
    subst h1
    apply h3
    have he := enter_emit { ss := ss, emit := [], mold := [] } 0
    refine ⟨by rw [he.2.2.2.1]; decide, Or.inl ?_⟩
    rw [he.2.2.1.1]
    exact honly
  · intro ext b rec fr g token ss mold hT htok hm
    have h0 : token ≠ TOKEN_EOF := by rcases htok with h | h <;> rw [h] <;> decide
    have h1 : ¬ token < 0 := by rcases htok with h | h <;> rw [h] <;> decide
    have h2 : ¬ (fr.mode_char = 47 ∧ rd b ss.begin = 47) := fun h => hm h.1
    have h3 : ¬ ((token = TOKEN_PATH
              ∨ ((token = TOKEN_WORD ∨ token = TOKEN_LIT ∨ token = TOKEN_GET)
                  ∧ rd b ss.end_ = 47)) ∧ fr.mode_char ≠ 47) := by
      rcases htok with h | h <;> rw [h] <;> simp +decide
    rw [body_switch ext b rec fr g token ss mold hT h0 h1 h2 h3]
    congr 1
    unfold Scan_Block_switch
    rcases htok with h | h <;> subst h <;> simp +decide

/-- C2, witness: the block returned for `[a b] c` under ONLY has one value. -/
theorem only_returns_at_most_one_value_witness :
    ([.series .REB_BLOCK [.word .REB_WORD 2]] : List REBVAL).length ≤ 1 :=
  only_returns_at_most_one_value.1 sampleExt block_then_word 10 (scan_state_with 0 7 opts_only)
    _ _ rfl (by rfl)

/-- C3: under NEXT a top-level scan that returns holds at most one value.  The
code at the failing input: for `1/2/98 x` under NEXT, with a date constructor
that accepts the six bytes `1/2/98`, the top-level scan returns the one date
value and moves `begin` to byte 6, just past the date, but leaves `end` at
byte 1, the end of the lexeme `1` that `Scan_Token` returned. -/
theorem next_date_leaves_end_behind (ext : Ext) (fuel : Nat)
    (hd : ext.Scan_Date [49, 47, 50, 47, 57, 56] = some 6) :
    (∀ (b : Buf) (n : Nat) (ss : SCAN_STATE) (blk : List REBVAL) (g : G),
      ss.opts.SCAN_NEXT = true → Scan_Code ext b n ss 0 = .ok (blk, g) → blk.length ≤ 1)
    ∧ Scan_Code ext date_then_word (fuel + 1) (scan_state_with 0 8 opts_next) 0 =
      .ok ([.data .REB_DATE [49, 47, 50, 47, 57, 56]],
        { ss := { begin := 6, end_ := 1, limit := 8, line_count := 1, head_line := 0,
                  opts := ⟨false, false, false⟩, errors := 0 },
          emit := [], mold := [] }) := by
  refine ⟨?_, ?_⟩
  · intro b n ss blk g hnext hr
    have h := Scan_Block_loop_ok ext b n
      (enter { ss := ss, emit := [], mold := [] } 0).1
      (enter { ss := ss, emit := [], mold := [] } 0).2
      (by rw [(enter_emit _ _).1, (enter_emit _ _).2.1])
    have hr' : Scan_Block_loop ext b n (enter { ss := ss, emit := [], mold := [] } 0).1
        (enter { ss := ss, emit := [], mold := [] } 0).2 = .ok (blk, g) := hr
    rw [hr'] at h
    obtain ⟨-, -, l, h1, -, h3⟩ := h
    rw [(enter_emit _ _).1] at h1
    simp only [List.drop_nil, List.nil_append] at h1
    subst h1
    apply h3
    have he := enter_emit { ss := ss, emit := [], mold := [] } 0
    refine ⟨by rw [he.2.2.2.1]; decide, Or.inr ?_⟩
    rw [he.2.2.2.2]
    exact hnext
  have e1 : skipWhile (fun c => c == 47 || IS_LEX_AT_LEAST_SPECIAL c) date_then_word 1 = 6 := by
    rfl
  have s1 : slice date_then_word 0 6 = [49, 47, 50, 47, 57, 56] := rfl
  have r1 : ∀ rec, Scan_Block_body ext date_then_word rec
      { mode_char := 0, begin := 0, start := 1, start_line := 0, just_once := true }
      { ss := scan_state_with 0 8 ⟨false, false, false⟩, emit := [], mold := [] } =
      .done (.ok ([.data .REB_DATE [49, 47, 50, 47, 57, 56]],
        { ss := { begin := 6, end_ := 1, limit := 8, line_count := 1, head_line := 0,
                  opts := ⟨false, false, false⟩, errors := 0 },
          emit := [], mold := [] })) := by
    intro rec
    rw [body_switch ext date_then_word rec _
      { ss := scan_state_with 0 8 ⟨false, false, false⟩, emit := [], mold := [] }
      TOKEN_INTEGER { scan_state_with 0 8 ⟨false, false, false⟩ with end_ := 1 } [] (by rfl)
      (by decide) (by decide) (by decide) (by decide)]
    show after_switch date_then_word _
      (case_integer ext date_then_word
        { mode_char := 0, begin := 0, start := 1, start_line := 0, just_once := true }
        { ss := { begin := 1, end_ := 1, limit := 8, line_count := 1, head_line := 0,
                  opts := ⟨false, false, false⟩, errors := 0 },
          emit := [], mold := [] } TOKEN_INTEGER 0 1 1) = _
    unfold case_integer
    have hr : rd date_then_word 1 = 47 := rfl
    simp only [hr, e1, ne_eq, not_true_eq_false, false_or, Nat.sub_zero, Nat.zero_add, s1, hd,
      if_true]
    simp +decide [after_switch, finish, VAL_TYPE, exit_block, ACCEPT_TOKEN, scan_state_with,
      Init_Scan_State]
  show Scan_Block_loop ext date_then_word (fuel + 1)
      { mode_char := 0, begin := 0, start := 1, start_line := 0, just_once := true }
      { ss := scan_state_with 0 8 ⟨false, false, false⟩, emit := [], mold := [] } = _
  rw [Scan_Block_loop_done _ _ _ _ _ _ (r1 _)]

/-- C3, witness: the sample collaborators accept `1/2/98` as a date. -/
theorem next_date_leaves_end_behind_witness :
    Scan_Code sampleExt date_then_word 1 (scan_state_with 0 8 opts_next) 0 =
      .ok ([.data .REB_DATE [49, 47, 50, 47, 57, 56]],
        { ss := { begin := 6, end_ := 1, limit := 8, line_count := 1, head_line := 0,
                  opts := ⟨false, false, false⟩, errors := 0 },
          emit := [], mold := [] }) :=
  (next_date_leaves_end_behind sampleExt 0 (by rfl)).2

/-- C4: one round of `Scan_Block` whose token is `(token, ss, mold)`.
(a) At EOF with mode `]` or `)` the frame ends with an RE_MISSING error that
names the mode character, at the line where the frame started; at EOF in any
other mode it returns with no error.  (b) A `]` or `)` token with mode 0 ends
the frame with an RE_MISSING error naming `[` or `(`.  (c) A closer of the
wrong kind ends the frame with an RE_MISSING error naming the mode character.
(d) A closer that matches the mode ends the frame with no error.  (e) The
token switch leaves through the missing or extra label exactly when the token
is a closer that does not match the mode. -/
theorem missing_error_for_bracket_mismatch (ext : Ext) (b : Buf) (fuel : Nat) (fr : Frame)
    (g : G) (token : Int) (ss : SCAN_STATE) (mold : List Nat)
    (hT : Scan_Token ext b g.ss g.mold = (token, ss, mold))
    (hle : fr.begin ≤ g.emit.length) :
    (token = TOKEN_EOF → fr.mode_char = 93 ∨ fr.mode_char = 41 →
      Scan_Block_loop ext b (fuel + 1) fr g =
        reports fr g.emit { ss with line_count := fr.start, head_line := fr.start_line } mold
          (.error .RE_MISSING fr.start (error_line b fr.start_line) TOKEN_EOF [fr.mode_char]))
    ∧ (token = TOKEN_EOF → fr.mode_char ≠ 93 → fr.mode_char ≠ 41 →
      Scan_Block_loop ext b (fuel + 1) fr g =
        .ok (g.emit.drop fr.begin, { ss := ss, emit := g.emit.take fr.begin, mold := mold }))
    ∧ (token = TOKEN_BLOCK_END ∨ token = TOKEN_PAREN_END → fr.mode_char = 0 →
      Scan_Block_loop ext b (fuel + 1) fr g =
        reports fr g.emit { ss with begin := ss.end_ } mold
          (.error .RE_MISSING ss.line_count (error_line b ss.head_line) token
            [if token = TOKEN_BLOCK_END then 91 else 40]))
    ∧ ((token = TOKEN_BLOCK_END ∧ fr.mode_char = 41)
        ∨ (token = TOKEN_PAREN_END ∧ fr.mode_char = 93) →
      Scan_Block_loop ext b (fuel + 1) fr g =
        reports fr g.emit
          { ss with begin := ss.end_, line_count := fr.start, head_line := fr.start_line } mold
          (.error .RE_MISSING fr.start (error_line b fr.start_line) token [fr.mode_char]))
    ∧ ((token = TOKEN_BLOCK_END ∧ fr.mode_char = 93)
        ∨ (token = TOKEN_PAREN_END ∧ fr.mode_char = 41) →
      Scan_Block_loop ext b (fuel + 1) fr g =
        .ok (g.emit.drop fr.begin,
          { ss := { ss with begin := ss.end_ }, emit := g.emit.take fr.begin, mold := mold }))
    ∧ (∀ (rec : G → Nat → Result (List REBVAL × G)) (g1 : G) (bp ep len : Nat),
      isMissing (Scan_Block_switch ext b rec fr g1 token bp ep len) = true ↔
        (token = TOKEN_BLOCK_END ∧ fr.mode_char ≠ 93)
          ∨ (token = TOKEN_PAREN_END ∧ fr.mode_char ≠ 41)) := by
  have hend : token = TOKEN_BLOCK_END ∨ token = TOKEN_PAREN_END → fr.mode_char ≠ 47 →
      Scan_Block_loop ext b (fuel + 1) fr g =
        match case_end fr { g with ss := ACCEPT_TOKEN ss, mold := mold } token
          (if token = TOKEN_BLOCK_END then 93 else 41)
          (if token = TOKEN_BLOCK_END then 91 else 40) with
        | .missing_error token g => missing_error b fr g token
        | .extra_error token mode_char g => extra_error b fr g token mode_char
        | .exit_block g => .ok (exit_block fr g)
        | _ => .fuel := by
    intro htok hm
    have h0 : token ≠ TOKEN_EOF := by rcases htok with h | h <;> rw [h] <;> decide
    have h1 : ¬ token < 0 := by rcases htok with h | h <;> rw [h] <;> decide
    have h2 : ¬ (fr.mode_char = 47 ∧ rd b ss.begin = 47) := fun h => hm h.1
    have h3 : ¬ ((token = TOKEN_PATH
              ∨ ((token = TOKEN_WORD ∨ token = TOKEN_LIT ∨ token = TOKEN_GET)
                  ∧ rd b ss.end_ = 47)) ∧ fr.mode_char ≠ 47) := by
      rcases htok with h | h <;> rw [h] <;> simp +decide
    have hb := body_switch ext b (fun g1 m => Scan_Block ext b fuel g1 m) fr g token ss mold hT
      h0 h1 h2 h3
    rw [Scan_Block_switch_end ext b _ fr _ token _ _ _ htok] at hb
    rw [Scan_Block_loop_succ, hb]
    unfold case_end
    split_ifs <;> rfl
  refine ⟨?_, ?_, ?_, ?_, ?_, ?_⟩
  · intro htok hm
    subst htok
    have hb := body_eof ext b (fun g1 m => Scan_Block ext b fuel g1 m) fr g ss mold hT
    rw [Scan_Block_loop_done ext b fuel fr g _ hb, if_pos hm]
    unfold missing_error extra_error
    refine (scan_error_exit_reports b fr _ _ _ _ ?_).trans ?_
    · exact hle
    · rfl
  · intro htok h93 h41
    subst htok
    have hb := body_eof ext b (fun g1 m => Scan_Block ext b fuel g1 m) fr g ss mold hT
    rw [Scan_Block_loop_done ext b fuel fr g _ hb, if_neg (by simp [h93, h41])]
    rfl
  · intro htok hm
    rw [hend htok (by rw [hm]; decide)]
    unfold case_end
    rw [if_pos hm]
    show extra_error b fr _ _ _ = _
    unfold extra_error
    refine (scan_error_exit_reports b fr _ _ _ _ ?_).trans ?_
    · exact hle
    · rfl
  · intro h
    have htok : token = TOKEN_BLOCK_END ∨ token = TOKEN_PAREN_END := by
      rcases h with h | h
      · exact Or.inl h.1
      · exact Or.inr h.1
    have hm : fr.mode_char ≠ 47 := by rcases h with h | h <;> rw [h.2] <;> decide
    have hm0 : fr.mode_char ≠ 0 := by rcases h with h | h <;> rw [h.2] <;> decide
    have hmc : fr.mode_char ≠ (if token = TOKEN_BLOCK_END then 93 else 41) := by
      rcases h with h | h <;> rw [h.1, h.2] <;> decide
    rw [hend htok hm]
    unfold case_end
    rw [if_neg hm0, if_pos hmc]
    show missing_error b fr _ _ = _
    unfold missing_error extra_error
    refine (scan_error_exit_reports b fr _ _ _ _ ?_).trans ?_
    · exact hle
    · rfl
  · intro h
    have htok : token = TOKEN_BLOCK_END ∨ token = TOKEN_PAREN_END := by
      rcases h with h | h
      · exact Or.inl h.1
      · exact Or.inr h.1
    have hm : fr.mode_char ≠ 47 := by rcases h with h | h <;> rw [h.2] <;> decide
    have hm0 : fr.mode_char ≠ 0 := by rcases h with h | h <;> rw [h.2] <;> decide
    have hmc : ¬ fr.mode_char ≠ (if token = TOKEN_BLOCK_END then 93 else 41) := by
      rcases h with h | h <;> rw [h.1, h.2] <;> decide
    rw [hend htok hm]
    unfold case_end
    rw [if_neg hm0, if_neg hmc]
    rfl
  · intro rec g1 bp ep len
    by_cases h1 : token = TOKEN_BLOCK_END
    · subst h1
      rw [Scan_Block_switch_end ext b rec fr g1 _ bp ep len (Or.inl rfl)]
      unfold case_end
      by_cases hm0 : fr.mode_char = 0
      · rw [if_pos hm0]
        simp +decide [isMissing, hm0]
      · rw [if_neg hm0]
        by_cases hm : fr.mode_char = 93
        · simp +decide [isMissing, hm]
        · simp +decide [isMissing, hm]
    · by_cases h2 : token = TOKEN_PAREN_END
      · subst h2
        rw [Scan_Block_switch_end ext b rec fr g1 _ bp ep len (Or.inr rfl)]
        unfold case_end
        by_cases hm0 : fr.mode_char = 0
        · rw [if_pos hm0]
          simp +decide [isMissing, hm0]
        · rw [if_neg hm0]
          by_cases hm : fr.mode_char = 41
          · simp +decide [isMissing, hm]
          · simp +decide [isMissing, hm]
      · rw [Scan_Block_switch_not_missing ext b rec fr g1 token bp ep len h1 h2]
        simp [h1, h2]

/-- C4, witness: a `]` at top level under RELAX returns the RE_MISSING error
that names `[`. -/
theorem missing_error_for_bracket_mismatch_witness :
    Scan_Block_loop sampleExt stray_bracket 1
        (enter ⟨scan_state_with 0 1 opts_relax, [], []⟩ 0).1
        (enter ⟨scan_state_with 0 1 opts_relax, [], []⟩ 0).2 =
      .ok ([.error .RE_MISSING 1 stray_bracket TOKEN_BLOCK_END [91]],
        { ss := { begin := 1, end_ := 1, limit := 1, line_count := 1, head_line := 0,
                  opts := opts_relax, errors := 1 },
          emit := [], mold := [] }) :=
  (missing_error_for_bracket_mismatch sampleExt stray_bracket 0
    (enter ⟨scan_state_with 0 1 opts_relax, [], []⟩ 0).1
    (enter ⟨scan_state_with 0 1 opts_relax, [], []⟩ 0).2 TOKEN_BLOCK_END
    { begin := 0, end_ := 1, limit := 1, line_count := 1, head_line := 0,
      opts := opts_relax, errors := 0 } [] (by rfl) (by decide)).2.2.1 (Or.inl rfl) rfl

/-- C5: when `Scan_Token` returns a negative token, the round of `Scan_Block`
records one `invalid` error (the error count goes up by one) for the lexeme
`[begin, end)` with the negated token as kind, appends no ordinary value and
ends the frame: under RELAX the frame returns its values followed by the error
value, otherwise the error is thrown. -/
theorem negative_token_is_invalid_error (ext : Ext) (b : Buf) (fuel : Nat) (fr : Frame) (g : G)
    (token : Int) (ss : SCAN_STATE) (mold : List Nat)
    (hT : Scan_Token ext b g.ss g.mold = (token, ss, mold)) (hneg : token < 0)
    (hle : fr.begin ≤ g.emit.length) :
    (ss.opts.SCAN_RELAX = true →
      Scan_Block_loop ext b (fuel + 1) fr g =
        .ok (g.emit.drop fr.begin ++
              [.error .RE_INVALID ss.line_count (error_line b ss.head_line) (-token)
                (slice b ss.begin ss.end_)],
          { ss := { ss with begin := ss.end_, errors := ss.errors + 1 },
            emit := g.emit.take fr.begin, mold := mold }))
    ∧ (ss.opts.SCAN_RELAX = false →
      Scan_Block_loop ext b (fuel + 1) fr g =
        .thrown (.error .RE_INVALID ss.line_count (error_line b ss.head_line) (-token)
          (slice b ss.begin ss.end_))) := by
  have hneg' : (Scan_Token ext b g.ss g.mold).1 < 0 := by rw [hT]; exact hneg
  have hb := body_negative ext b (fun g1 m => Scan_Block ext b fuel g1 m) fr g hneg'
  rw [hT] at hb
  rw [Scan_Block_loop_done ext b fuel fr g _ hb]
  unfold syntax_error scan_error_exit Scan_Error exit_block ACCEPT_TOKEN error_line
  constructor
  · intro h
    simp only [h, if_true]
    rw [List.drop_append_of_le_length hle, List.take_append_of_le_length hle]
  · intro h
    simp only [h]
    rfl

/-- C5, witness: a stray `}` gives the token `-TOKEN_STRING`; under RELAX the
frame returns the RE_INVALID error for the byte `}`. -/
theorem negative_token_is_invalid_error_witness :
    Scan_Block_loop sampleExt stray_brace 1 (enter ⟨scan_state_with 0 3 opts_relax, [], []⟩ 0).1
        (enter ⟨scan_state_with 0 3 opts_relax, [], []⟩ 0).2 =
      .ok ([.error .RE_INVALID 1 stray_brace TOKEN_STRING [125]],
        { ss := { begin := 1, end_ := 1, limit := 3, line_count := 1, head_line := 0,
                  opts := opts_relax, errors := 1 },
          emit := [], mold := [] }) :=
  (negative_token_is_invalid_error sampleExt stray_brace 0
    (enter ⟨scan_state_with 0 3 opts_relax, [], []⟩ 0).1
    (enter ⟨scan_state_with 0 3 opts_relax, [], []⟩ 0).2 (-TOKEN_STRING)
    { begin := 0, end_ := 1, limit := 3, line_count := 1, head_line := 0,
      opts := opts_relax, errors := 0 } [] (by rfl) (by decide) (by decide)).1 rfl

/-- C6: for two or more simple alphabetic words that `Make_Word` accepts, the
top-level scan of `w1/w2/.../wn:` returns, with fuel for the n words and the
two rounds of the top frame, exactly one value: a SET_PATH whose block is the
n words in order; `begin` and `end` are then at the end of the text, past the
`:`. -/
theorem set_path_of_words (ext : Ext) (ws : List Buf) (k : Nat) (hn : 2 ≤ ws.length)
    (hall : ∀ w ∈ ws, isSimpleWord w ∧ ext.Make_Word w ≠ 0) :
    Scan_Code ext (pathText ws) (ws.length + 1 + k)
        (Init_Scan_State 0 (pathText ws).length) 0 =
      .ok ([.series .REB_SET_PATH (ws.map (fun w => .word .REB_WORD (ext.Make_Word w)))],
        { ss := { Init_Scan_State 0 (pathText ws).length with
                    begin := (pathText ws).length, end_ := (pathText ws).length },
          emit := [], mold := [] }) := by
  match ws, hn, hall with
  | w :: w1 :: rest, _, hall =>
    have hf : (w :: w1 :: rest).length + 1 + k = (w :: w1 :: rest).length + k + 1 := by omega
    have hf2 : (w :: w1 :: rest).length + k = (w1 :: rest).length + k + 1 := by
      simp only [List.length_cons]
      omega
    have hb : (pathText (w :: w1 :: rest)).drop 0 = pathText (w :: w1 :: rest) := rfl
    have hL := rd_pathText_last (pathText (w :: w1 :: rest)) 0 _ hb
    have hr := round_set_path ext (pathText (w :: w1 :: rest)) k
      { mode_char := 0, begin := 0, start := 1, start_line := 0, just_once := false }
      { ss := Init_Scan_State 0 (pathText (w :: w1 :: rest)).length, emit := [], mold := [] }
      w w1 rest (by decide) rfl rfl rfl hb hall
    have he := eof_token ext (pathText (w :: w1 :: rest))
      { Init_Scan_State 0 (pathText (w :: w1 :: rest)).length with
          begin := 0 + (pathText (w :: w1 :: rest)).length,
          end_ := 0 + (pathText (w :: w1 :: rest)).length } [] hL.2
    have hd := body_eof ext (pathText (w :: w1 :: rest))
      (fun g1 m => Scan_Block ext (pathText (w :: w1 :: rest)) ((w1 :: rest).length + k) g1 m)
      { mode_char := 0, begin := 0, start := 1, start_line := 0, just_once := false }
      { ss := { Init_Scan_State 0 (pathText (w :: w1 :: rest)).length with
                  begin := 0 + (pathText (w :: w1 :: rest)).length,
                  end_ := 0 + (pathText (w :: w1 :: rest)).length },
        emit := [] ++ [.series .REB_SET_PATH
          ((w :: w1 :: rest).map (fun x => .word .REB_WORD (ext.Make_Word x)))],
        mold := [] } _ _ he
    have e1 := Scan_Block_loop_again ext (pathText (w :: w1 :: rest))
      ((w :: w1 :: rest).length + k)
      { mode_char := 0, begin := 0, start := 1, start_line := 0, just_once := false }
      { ss := Init_Scan_State 0 (pathText (w :: w1 :: rest)).length, emit := [], mold := [] }
      { ss := { Init_Scan_State 0 (pathText (w :: w1 :: rest)).length with
                  begin := 0 + (pathText (w :: w1 :: rest)).length,
                  end_ := 0 + (pathText (w :: w1 :: rest)).length },
        emit := [] ++ [.series .REB_SET_PATH
          ((w :: w1 :: rest).map (fun x => .word .REB_WORD (ext.Make_Word x)))],
        mold := [] } hr
    have e2 := Scan_Block_loop_done ext (pathText (w :: w1 :: rest)) ((w1 :: rest).length + k)
      { mode_char := 0, begin := 0, start := 1, start_line := 0, just_once := false }
      { ss := { Init_Scan_State 0 (pathText (w :: w1 :: rest)).length with
                  begin := 0 + (pathText (w :: w1 :: rest)).length,
                  end_ := 0 + (pathText (w :: w1 :: rest)).length },
        emit := [] ++ [.series .REB_SET_PATH
          ((w :: w1 :: rest).map (fun x => .word .REB_WORD (ext.Make_Word x)))],
        mold := [] } _ hd
    show Scan_Block_loop ext (pathText (w :: w1 :: rest)) ((w :: w1 :: rest).length + 1 + k)
      { mode_char := 0, begin := 0, start := 1, start_line := 0, just_once := false }
      { ss := Init_Scan_State 0 (pathText (w :: w1 :: rest)).length, emit := [], mold := [] }
      = _
    rw [hf, e1, hf2, e2]
    simp [exit_block, Init_Scan_State]

/-- C6, witness: `a/b/c:` scans to one set-path of three words. -/
theorem set_path_of_words_witness :
    Scan_Code sampleExt [97, 47, 98, 47, 99, 58] 4 (Init_Scan_State 0 6) 0 =
      .ok ([.series .REB_SET_PATH [.word .REB_WORD 2, .word .REB_WORD 2, .word .REB_WORD 2]],
        { ss := { Init_Scan_State 0 6 with begin := 6, end_ := 6 }, emit := [], mold := [] }) :=
  set_path_of_words sampleExt abc_words 0 (by decide) (by
    intro w hw
    simp only [abc_words, List.mem_cons, List.mem_singleton, List.not_mem_nil, or_false] at hw
    rcases hw with h | h | h <;> subst h <;> exact ⟨⟨by decide, by decide⟩, by decide⟩)

/-- C7: for `1 + 2` the successive calls of `Scan_Token` return INTEGER for
`1`, WORD for `+`, INTEGER for `2` and then EOF, and the top-level scan returns
the three values integer, word, integer (with an integer constructor that
accepts `1` and `2` and a symbol for `+`).  In general a `+` or `-` at `begin`
followed at once by a delimiter is a WORD, and one or more decimal digits
followed by a delimiter are an INTEGER. -/
theorem one_plus_two_scans (ext : Ext) (k : Nat) (h1 : ext.Scan_Integer [49] = true)
    (h2 : ext.Scan_Integer [50] = true) (hw : ext.Make_Word [43] ≠ 0) :
    Scan_Token ext one_plus_two (Init_Scan_State 0 5) [] =
      (TOKEN_INTEGER, { Init_Scan_State 0 5 with begin := 0, end_ := 1 }, [])
    ∧ Scan_Token ext one_plus_two { Init_Scan_State 0 5 with begin := 1, end_ := 1 } [] =
      (TOKEN_WORD, { Init_Scan_State 0 5 with begin := 2, end_ := 3 }, [])
    ∧ Scan_Token ext one_plus_two { Init_Scan_State 0 5 with begin := 3, end_ := 3 } [] =
      (TOKEN_INTEGER, { Init_Scan_State 0 5 with begin := 4, end_ := 5 }, [])
    ∧ Scan_Token ext one_plus_two { Init_Scan_State 0 5 with begin := 5, end_ := 5 } [] =
      (TOKEN_EOF, { Init_Scan_State 0 5 with begin := 5, end_ := 5 }, [])
    ∧ Scan_Code ext one_plus_two (k + 4) (Init_Scan_State 0 5) 0 =
      .ok ([.data .REB_INTEGER [49], .word .REB_WORD (ext.Make_Word [43]),
          .data .REB_INTEGER [50]],
        { ss := { Init_Scan_State 0 5 with begin := 5, end_ := 5 }, emit := [], mold := [] })
    ∧ (∀ (b : Buf) (ss : SCAN_STATE) (mold : List Nat),
        rd b ss.begin = 43 ∨ rd b ss.begin = 45 →
        IS_LEX_DELIMIT (rd b (ss.begin + 1)) = true →
        Scan_Token ext b ss mold = (TOKEN_WORD, { ss with end_ := ss.begin + 1 }, mold))
    ∧ (∀ (b : Buf) (ss : SCAN_STATE) (mold : List Nat) (n : Nat),
        0 < n → (∀ i, i < n → isDigit (rd b (ss.begin + i)) = true) →
        IS_LEX_DELIMIT (rd b (ss.begin + n)) = true →
        Scan_Token ext b ss mold = (TOKEN_INTEGER, { ss with end_ := ss.begin + n }, mold)) := by
  refine ⟨by rfl, by rfl, by rfl, by rfl, ?_, fun b ss mold => sign_token ext b ss mold,
    fun b ss mold n => digits_token ext b ss mold n⟩
  simp only [one_plus_two]
  have t3 : Scan_Token ext [49, 32, 43, 32, 50]
      { Init_Scan_State 0 5 with begin := 3, end_ := 3 } [] =
      (TOKEN_INTEGER, { Init_Scan_State 0 5 with begin := 4, end_ := 5 }, []) := by rfl
  have t4 : Scan_Token ext [49, 32, 43, 32, 50]
      { Init_Scan_State 0 5 with begin := 5, end_ := 5 } [] =
      (TOKEN_EOF, { Init_Scan_State 0 5 with begin := 5, end_ := 5 }, []) := by rfl
  have s1 : slice [49, 32, 43, 32, 50] 0 1 = [49] := rfl
  have s2 : slice [49, 32, 43, 32, 50] 2 3 = [43] := rfl
  have s3 : slice [49, 32, 43, 32, 50] 4 5 = [50] := rfl
  have r1 : ∀ rec, Scan_Block_body ext [49, 32, 43, 32, 50] rec
      { mode_char := 0, begin := 0, start := 1, start_line := 0, just_once := false }
      { ss := Init_Scan_State 0 5, emit := [], mold := [] } =
      .again { ss := { Init_Scan_State 0 5 with begin := 1, end_ := 1 },
               emit := [.data .REB_INTEGER [49]], mold := [] } := by
    intro rec
    rw [body_switch ext [49, 32, 43, 32, 50] rec _ { ss := Init_Scan_State 0 5, emit := [], mold := [] }
      TOKEN_INTEGER { Init_Scan_State 0 5 with end_ := 1 } [] rfl
      (by decide) (by decide) (by decide) (by decide)]
    simp +decide [Scan_Block_switch, case_integer, after_switch, finish, h1, s1, rd,
      Init_Scan_State, ACCEPT_TOKEN, VAL_TYPE]
  have r2 : ∀ rec, Scan_Block_body ext [49, 32, 43, 32, 50] rec
      { mode_char := 0, begin := 0, start := 1, start_line := 0, just_once := false }
      { ss := { Init_Scan_State 0 5 with begin := 1, end_ := 1 },
               emit := [.data .REB_INTEGER [49]], mold := [] } =
      .again { ss := { Init_Scan_State 0 5 with begin := 3, end_ := 3 },
               emit := [.data .REB_INTEGER [49], .word .REB_WORD (ext.Make_Word [43])],
               mold := [] } := by
    intro rec
    rw [body_switch ext [49, 32, 43, 32, 50] rec _
      { ss := { Init_Scan_State 0 5 with begin := 1, end_ := 1 },
               emit := [.data .REB_INTEGER [49]], mold := [] }
      TOKEN_WORD { Init_Scan_State 0 5 with begin := 2, end_ := 3 } [] rfl
      (by decide) (by decide) (by decide) (by decide)]
    simp +decide [Scan_Block_switch, after_switch, finish, hw, s2, rd, Init_Scan_State,
      ACCEPT_TOKEN, VAL_TYPE, case_word, word_type]
  have r3 : ∀ rec, Scan_Block_body ext [49, 32, 43, 32, 50] rec
      { mode_char := 0, begin := 0, start := 1, start_line := 0, just_once := false }
      { ss := { Init_Scan_State 0 5 with begin := 3, end_ := 3 },
               emit := [.data .REB_INTEGER [49], .word .REB_WORD (ext.Make_Word [43])],
               mold := [] } =
      .again { ss := { Init_Scan_State 0 5 with begin := 5, end_ := 5 },
               emit := [.data .REB_INTEGER [49], .word .REB_WORD (ext.Make_Word [43]),
                 .data .REB_INTEGER [50]], mold := [] } := by
    intro rec
    rw [body_switch ext [49, 32, 43, 32, 50] rec _
      { ss := { Init_Scan_State 0 5 with begin := 3, end_ := 3 },
               emit := [.data .REB_INTEGER [49], .word .REB_WORD (ext.Make_Word [43])],
               mold := [] }
      TOKEN_INTEGER { Init_Scan_State 0 5 with begin := 4, end_ := 5 } [] t3
      (by decide) (by decide) (by decide) (by decide)]
    simp +decide [Scan_Block_switch, case_integer, after_switch, finish, h2, s3, rd,
      Init_Scan_State, ACCEPT_TOKEN, VAL_TYPE]
  have r4 : ∀ rec, Scan_Block_body ext [49, 32, 43, 32, 50] rec
      { mode_char := 0, begin := 0, start := 1, start_line := 0, just_once := false }
      { ss := { Init_Scan_State 0 5 with begin := 5, end_ := 5 },
               emit := [.data .REB_INTEGER [49], .word .REB_WORD (ext.Make_Word [43]),
                 .data .REB_INTEGER [50]], mold := [] } =
      .done (.ok ([.data .REB_INTEGER [49], .word .REB_WORD (ext.Make_Word [43]),
          .data .REB_INTEGER [50]],
        { ss := { Init_Scan_State 0 5 with begin := 5, end_ := 5 }, emit := [], mold := [] })) := by
    intro rec
    rw [body_eof ext [49, 32, 43, 32, 50] rec _
      { ss := { Init_Scan_State 0 5 with begin := 5, end_ := 5 },
               emit := [.data .REB_INTEGER [49], .word .REB_WORD (ext.Make_Word [43]),
                 .data .REB_INTEGER [50]], mold := [] } _ _ t4]
    simp +decide [exit_block]
  show Scan_Block_loop ext [49, 32, 43, 32, 50] (k + 3 + 1)
      { mode_char := 0, begin := 0, start := 1, start_line := 0, just_once := false }
      { ss := Init_Scan_State 0 5, emit := [], mold := [] } = _
  rw [Scan_Block_loop_again _ _ _ _ _ _ (r1 _), Scan_Block_loop_again _ _ _ _ _ _ (r2 _),
    Scan_Block_loop_again _ _ _ _ _ _ (r3 _), Scan_Block_loop_done _ _ _ _ _ _ (r4 _)]

/-- C7, witness: with the sample collaborators `1 + 2` scans to three values. -/
theorem one_plus_two_scans_witness :
    Scan_Code sampleExt one_plus_two 4 (Init_Scan_State 0 5) 0 =
      .ok ([.data .REB_INTEGER [49], .word .REB_WORD 2, .data .REB_INTEGER [50]],
        { ss := { Init_Scan_State 0 5 with begin := 5, end_ := 5 }, emit := [], mold := [] }) :=
  (one_plus_two_scans sampleExt 0 (by rfl) (by rfl) (by decide)).2.2.2.2.1

/-- C9, the code at the failing input: for the four bytes of ` abc` (a space,
then `abc`) `Scan_Word` returns the symbol `Make_Word` gives for all four
bytes, the space included, while the lexeme `Scan_Token` classified as a word
is the three bytes `[1, 4)`; with the sample word table the result is the
non-zero symbol 5. -/
theorem Scan_Word_accepts_leading_space (ext : Ext) :
    Scan_Word ext [32, 97, 98, 99] 0 4 = ext.Make_Word [32, 97, 98, 99]
    ∧ Scan_Token ext [32, 97, 98, 99] (Init_Scan_State 0 4) [] =
      (TOKEN_WORD, { Init_Scan_State 0 4 with begin := 1, end_ := 4 }, [])
    ∧ Scan_Word sampleExt [32, 97, 98, 99] 0 4 = 5 := by
  refine ⟨?_, ?_, ?_⟩ <;> rfl

/-- C10, the code at the failing input: with one leading space and `len = 2`
the check loop of `Scan_Issue` runs over the bytes at offsets 1 and 2, so the
result for the two bytes ` a` depends on the byte after them: zero when a NUL
or a space follows, the symbol of `a` when the letter `b` follows. -/
theorem Scan_Issue_reads_past_len (ext : Ext) :
    Scan_Issue ext [32, 97] 0 2 = 0
    ∧ Scan_Issue ext [32, 97, 32] 0 2 = 0
    ∧ Scan_Issue ext [32, 97, 98] 0 2 = ext.Make_Word [97] := by
  refine ⟨?_, ?_, ?_⟩ <;> rfl

/-- C11: `Scan_Head` returns for every input, and after a header
`Scan_Header` returns the offset of the nearest `r` or `R` (plain header),
of the nearest `[` (embedded header), before the byte that precedes the `[` of
the header.  That is the `R` of the word `REBOL`, and the `[` before it, when
no such byte lies between; it is not for `REBOL ;r` LF `[`, where the offset
is 7, the `r` of the comment, and for `[REBOL ;[` LF `[`, where it is 8,
while a comment without these bytes leaves the offset 0. -/
theorem Scan_Header_offset_nearest_mark :
    (∀ (b : Buf) (src len : Nat), ∃ r ss1,
      Scan_Head b (Init_Scan_State src len) = some (r, ss1)
      ∧ (r = 0 ∨ ∃ (p pb q : Nat), head_found b src r p pb ss1.begin
          ∧ Scan_Header b src len = some ((q : Int) - src)
          ∧ header_start r p pb ≤ q ∧ q + 2 ≤ ss1.begin
          ∧ header_mark r (rd b q) = true
          ∧ (∀ k : Nat, q < k → k + 2 ≤ ss1.begin → header_mark r (rd b k) = false)
          ∧ ((∀ k : Nat, header_start r p pb < k → k + 2 ≤ ss1.begin → header_mark r (rd b k) = false)
              → q = header_start r p pb)))
    ∧ Scan_Header [82, 69, 66, 79, 76, 32, 59, 114, 10, 91] 0 10 = some 7
    ∧ Scan_Header [91, 82, 69, 66, 79, 76, 32, 59, 91, 10, 91] 0 11 = some 8
    ∧ Scan_Header [82, 69, 66, 79, 76, 32, 59, 99, 10, 91] 0 10 = some 0
    ∧ Scan_Header [91, 82, 69, 66, 79, 76, 32, 59, 99, 10, 91] 0 11 = some 0 := by
  refine ⟨?_, by rfl, by rfl, by rfl, by rfl⟩
  intro b src len
  rcases Scan_Head_spec b (Init_Scan_State src len) with h | ⟨r, p, pb, bg, cnt, h, hf⟩
  · exact ⟨0, _, h, Or.inl rfl⟩
  · obtain ⟨q, q1, _, q3, q4, q5, q6⟩ := Scan_Header_found b src len r p pb bg cnt h hf
    refine ⟨r, _, h, Or.inr ⟨p, pb, q, hf, q1, q3, q4, q5, q6, ?_⟩⟩
    intro hall
    by_contra hne
    have := hall q (by omega) q4
    rw [q5] at this
    exact Bool.noConfusion this

/-- C11, witness: the general statement at `REBOL ;r` LF `[`. -/
theorem Scan_Header_offset_nearest_mark_witness :
    ∃ r ss1,
      Scan_Head [82, 69, 66, 79, 76, 32, 59, 114, 10, 91] (Init_Scan_State 0 10) = some (r, ss1)
      ∧ (r = 0 ∨ ∃ (p pb q : Nat),
          head_found [82, 69, 66, 79, 76, 32, 59, 114, 10, 91] 0 r p pb ss1.begin
          ∧ Scan_Header [82, 69, 66, 79, 76, 32, 59, 114, 10, 91] 0 10 = some ((q : Int) - (0 : Nat))
          ∧ header_start r p pb ≤ q ∧ q + 2 ≤ ss1.begin
          ∧ header_mark r (rd [82, 69, 66, 79, 76, 32, 59, 114, 10, 91] q) = true
          ∧ (∀ k : Nat, q < k → k + 2 ≤ ss1.begin →
              header_mark r (rd [82, 69, 66, 79, 76, 32, 59, 114, 10, 91] k) = false)
          ∧ ((∀ k : Nat, header_start r p pb < k → k + 2 ≤ ss1.begin →
                header_mark r (rd [82, 69, 66, 79, 76, 32, 59, 114, 10, 91] k) = false)
              → q = header_start r p pb)) :=
  Scan_Header_offset_nearest_mark.1 [82, 69, 66, 79, 76, 32, 59, 114, 10, 91] 0 10

/-- C12: `Scan_Head` returns 0, 1 or -1 for every input, `Scan_Header`
returns -1 exactly when `Scan_Head` returns 0, and a result other than 0
comes with the word `REBOL`, a `[` after it and, for -1, a `[` before it.
The bytes between the word and the `[` are not only white space, line breaks
and comments: for `REBOL r` LF `[` the result is 1 with `begin` past the `[`
and `Scan_Header` returns 6, while for `REBOL x` LF `[` the result is 0 and
`Scan_Header` returns -1. -/
theorem Scan_Head_result :
    (∀ (b : Buf) (src len : Nat), ∃ r ss1,
      Scan_Head b (Init_Scan_State src len) = some (r, ss1)
      ∧ (r = 0 ∨ r = 1 ∨ r = -1)
      ∧ (Scan_Header b src len = some (-1) ↔ r = 0)
      ∧ (r ≠ 0 → ∃ p pb, head_found b src r p pb ss1.begin))
    ∧ Scan_Head [82, 69, 66, 79, 76, 32, 114, 10, 91] (Init_Scan_State 0 9)
        = some (1, { Init_Scan_State 0 9 with begin := 9, line_count := 2 })
    ∧ Scan_Header [82, 69, 66, 79, 76, 32, 114, 10, 91] 0 9 = some 6
    ∧ Scan_Head [82, 69, 66, 79, 76, 32, 120, 10, 91] (Init_Scan_State 0 9)
        = some (0, Init_Scan_State 0 9)
    ∧ Scan_Header [82, 69, 66, 79, 76, 32, 120, 10, 91] 0 9 = some (-1) := by
  refine ⟨?_, by rfl, by rfl, by rfl, by rfl⟩
  intro b src len
  rcases Scan_Head_spec b (Init_Scan_State src len) with h | ⟨r, p, pb, bg, cnt, h, hf⟩
  · refine ⟨0, _, h, Or.inl rfl, ⟨fun _ => rfl, fun _ => ?_⟩, fun hne => absurd rfl hne⟩
    unfold Scan_Header
    rw [h]
    rfl
  · obtain ⟨q, q1, q2, _⟩ := Scan_Header_found b src len r p pb bg cnt h hf
    have hr : r = 1 ∨ r = -1 := by
      rcases hf.2.2.2.2 with e | e
      · exact Or.inl e
      · exact Or.inr e.1
    refine ⟨r, _, h, Or.inr hr, ⟨fun e => ?_, fun e => ?_⟩, fun _ => ⟨p, pb, hf⟩⟩
    · rw [q1] at e
      have := Option.some.inj e
      omega
    · rcases hr with h1 | h1 <;> rw [h1] at e <;> exact absurd e (by decide)

/-- C12, witness: the general statement at `REBOL r` LF `[`. -/
theorem Scan_Head_result_witness :
    ∃ r ss1,
      Scan_Head [82, 69, 66, 79, 76, 32, 114, 10, 91] (Init_Scan_State 0 9) = some (r, ss1)
      ∧ (r = 0 ∨ r = 1 ∨ r = -1)
      ∧ (Scan_Header [82, 69, 66, 79, 76, 32, 114, 10, 91] 0 9 = some (-1) ↔ r = 0)
      ∧ (r ≠ 0 → ∃ p pb, head_found [82, 69, 66, 79, 76, 32, 114, 10, 91] 0 r p pb ss1.begin) :=
  Scan_Head_result.1 [82, 69, 66, 79, 76, 32, 114, 10, 91] 0 9

/-- C13: on a byte below 0x80 other than `^`, `Scan_Char` returns the byte
and moves the cursor by one; on `^` followed by a byte `c` other than `(` it
moves the cursor by two and returns 0 for NUL, LF for `/`, `^` for `^`, TAB
for `-`, 0x1E for `!`, 0x7F for `~`, the upper-case letter minus `@` for a
letter and for the other bytes of `@`..`_`, and `c` itself otherwise. -/
theorem Scan_Char_single (ext : Ext) (b : Buf) (bp : Nat) :
    (rd b bp < 0x80 → rd b bp ≠ 94 → Scan_Char ext b bp = ((rd b bp : Int), bp + 1))
    ∧ (rd b bp = 94 → rd b (bp + 1) ≠ 40 →
        Scan_Char ext b bp = ((caret_value (rd b (bp + 1)) : Int), bp + 2))
    ∧ caret_value 0 = 0 ∧ caret_value 47 = LF ∧ caret_value 94 = 94 ∧ caret_value 45 = TAB
    ∧ caret_value 33 = 0x1E ∧ caret_value 126 = 0x7F
    ∧ (∀ c, isAlpha c = true ∨ (64 ≤ c ∧ c ≤ 95 ∧ c ≠ 94) →
        caret_value c = ascii_upper c - 64)
    ∧ (∀ c, isAlpha c = false → ¬ (64 ≤ c ∧ c ≤ 95) → c ≠ 0 → c ≠ 47 → c ≠ 45 → c ≠ 33 →
        c ≠ 126 → caret_value c = c) := by
  refine ⟨?_, Scan_Char_caret ext b bp, by decide, by decide, by decide, by decide, by decide,
    by decide, ?_, ?_⟩
  · intro h1 h2
    unfold Scan_Char
    simp only [ge_iff_le, Nat.not_le.mpr h1, if_false, h2, ne_eq, not_false_eq_true, if_true]
  · intro c hc
    have hu : 64 ≤ ascii_upper c ∧ ascii_upper c ≤ 95 ∧ c ≠ 0 ∧ c ≠ 47 ∧ c ≠ 94 ∧ c ≠ 45
        ∧ c ≠ 33 ∧ c ≠ 126 := by
      unfold ascii_upper
      rcases hc with hc | hc
      · have := alpha_range c hc
        split <;> omega
      · split <;> omega
    unfold caret_value
    rw [if_neg hu.2.2.1, if_neg hu.2.2.2.1, if_neg hu.2.2.2.2.1, if_neg hu.2.2.2.2.2.1,
      if_neg hu.2.2.2.2.2.2.1, if_neg hu.2.2.2.2.2.2.2, if_pos ⟨hu.1, hu.2.1⟩]
  · intro c hc hr h0 h47 h45 h33 h126
    have h94 : c ≠ 94 := fun h => hr (by omega)
    have hu : ¬ (64 ≤ ascii_upper c ∧ ascii_upper c ≤ 95) := by
      unfold ascii_upper
      have hc' : ¬ ((65 ≤ c ∧ c ≤ 90) ∨ (97 ≤ c ∧ c ≤ 122)) := by
        intro h
        have : isAlpha c = true := by
          unfold isAlpha
          exact decide_eq_true h
        rw [this] at hc
        exact Bool.noConfusion hc
      split <;> omega
    unfold caret_value
    rw [if_neg h0, if_neg h47, if_neg h94, if_neg h45, if_neg h33, if_neg h126, if_neg hu]

/-- C13, witness: `^A` gives the control code 1 and moves the cursor by two. -/
theorem Scan_Char_single_witness :
    Scan_Char sampleExt [94, 65] 0 = ((caret_value 65 : Int), 2) :=
  (Scan_Char_single sampleExt [94, 65] 0).2.1 rfl (by decide)

/-- C14, counterexample: for `^()`, whose body is neither one to four
hexadecimal digits nor a name, `Scan_Char` returns 0, not -1, and leaves the
cursor past the `)`. -/
theorem Scan_Char_empty_paren :
    Scan_Char sampleExt [94, 40, 41] 0 = (0, 3) := by
  rfl

/-- C14, amended: for `^(` followed by the hexadecimal digits `h` (either
case).  With at most four digits, none included, and `)` next, `Scan_Char`
returns the number `h` spells, which is below 0x10000, and leaves the cursor
just past the `)`.  With five or more digits it returns -1.  With at most four
digits, the run ended by a byte that is not `)`, and no escape name followed
by `)` matching, it returns -1. -/
theorem Scan_Char_hex_escape (ext : Ext) (b : Buf) (bp : Nat) (h rest : List Nat)
    (hb : b.drop bp = 94 :: 40 :: (h ++ rest)) (hh : ∀ d ∈ h, isHex d = true) :
    (h.length ≤ 4 → rd rest 0 = 41 →
      Scan_Char ext b bp = ((hex_value h : Int), bp + h.length + 3) ∧ hex_value h < 0x10000)
    ∧ (5 ≤ h.length → (Scan_Char ext b bp).1 = -1)
    ∧ (h.length ≤ 4 → isHex (rd rest 0) = false → rd rest 0 ≠ 41 →
        noEscapeName ext b (bp + 2) → (Scan_Char ext b bp).1 = -1) := by
  obtain ⟨h94, h40, hd⟩ := paren_setup b bp h rest hb
  have hcp := Scan_Char_paren ext b bp h94 h40
  refine ⟨?_, ?_, ?_⟩
  · intro h4 hr
    have hnh : isHex (rd rest 0) = false := by rw [hr]; decide
    have hrun := hex_run_exact b (bp + 2) h rest hd hh hnh
    have hrd : rd b (bp + 2 + h.length) = 41 := by
      rw [rd_add_of_drop b _ _ _ hd]
      have := rd_append_right h rest 0
      rw [Nat.add_zero] at this
      rw [this, hr]
    constructor
    · rw [hcp, hrun, if_neg (by omega), if_pos hrd, slice_of_drop b h rest (bp + 2) hd,
        hex_fold h hh 0]
      have e : bp + 2 + h.length + 1 = bp + h.length + 3 := by omega
      rw [e]
      rfl
    · have := hex_fold_lt h 0
      have h16 : (16 : Nat) ^ h.length ≤ 16 ^ 4 := Nat.pow_le_pow_right (by decide) h4
      unfold hex_value
      omega
  · intro h5
    have hge := skipWhile_ge_run Scan_Char_hex b (by decide) h.length (bp + 2) (by
      intro i hi
      rw [rd_add_of_drop b _ _ i hd, rd_append_left h rest i hi, (hex_facts _).1]
      exact hh _ (rd_mem h i hi))
    rw [hcp, if_pos (by omega)]
  · intro h4 hnh hr hnames
    have hrun := hex_run_exact b (bp + 2) h rest hd hh hnh
    have hrd : rd b (bp + 2 + h.length) ≠ 41 := by
      rw [rd_add_of_drop b _ _ _ hd]
      have := rd_append_right h rest 0
      rw [Nat.add_zero] at this
      rw [this]
      exact hr
    rw [hcp, hrun, if_neg (by omega), if_neg hrd,
      Scan_Char_names_none b (bp + 2) ext.Esc_Names ext.Esc_Codes hnames]

/-- C14, witness: `^(2022)` gives the code point 0x2022 and the cursor 7. -/
theorem Scan_Char_hex_escape_witness :
    Scan_Char sampleExt [94, 40, 50, 48, 50, 50, 41] 0 = (8226, 7)
      ∧ hex_value [50, 48, 50, 50] < 0x10000 :=
  (Scan_Char_hex_escape sampleExt [94, 40, 50, 48, 50, 50, 41] 0 [50, 48, 50, 50] [41] rfl
    (by decide)).1 (by decide) rfl

/-- C15, counterexample: `"^(zz)"` has no CR and no LF, and its first `"`
that no escape consumes closes it, but `Scan_Quote` returns the null pointer,
because `Scan_Char` rejects the escape; so it does for `"ab` followed by NUL
and a later `"`. -/
theorem Scan_Quote_rejected_escape :
    (Scan_Quote sampleExt [34, 94, 40, 122, 122, 41, 34] 0 (Init_Scan_State 0 7)).1 = none
    ∧ (Scan_Quote sampleExt [34, 97, 98, 0, 34] 0 (Init_Scan_State 0 5)).1 = none := by
  refine ⟨by rfl, by rfl⟩

/-- C15, amended: for a `"`-string whose body starts with pieces that are
plain ASCII bytes, single-byte `^` escapes, and longer escapes and UTF-8
sequences that decode.  When a bare CR or LF follows the pieces, `Scan_Quote`
returns the null pointer; so it does when a NUL, an escape that `Scan_Char`
rejects or a UTF-8 sequence that does not decode follows them.  When a `"`
follows them, the first `"` that no escape consumed, it returns the position
just past that `"`, with the characters of the pieces in the mold buffer and
the line count unchanged. -/
theorem Scan_Quote_double_quote (ext : Ext) (b : Buf) (src : Nat) (ss : SCAN_STATE)
    (items : List QItem) (tl : List Nat) (hi : items_ok (qitem_ok ext b) (src + 1) items)
    (hb : b.drop src = 34 :: (qitems_text items ++ tl)) :
    (rd tl 0 = CR ∨ rd tl 0 = LF → (Scan_Quote ext b src ss).1 = none)
    ∧ (rd tl 0 = 34 →
      Scan_Quote ext b src ss =
        (some (src + (qitems_text items).length + 2), ss, items.map qitem_char))
    ∧ (rd tl 0 = 0 → (Scan_Quote ext b src ss).1 = none)
    ∧ (rd tl 0 = 94 → (Scan_Char ext b (src + 1 + (qitems_text items).length)).1 = -1 →
        (Scan_Quote ext b src ss).1 = none)
    ∧ (128 ≤ rd tl 0 →
        (ext.Decode_UTF8_Char b (src + 1 + (qitems_text items).length)).1 = 0 →
        (Scan_Quote ext b src ss).1 = none) := by
  obtain ⟨e, hrd⟩ := Scan_Quote_items ext b src ss items tl hi hb
  have hlast := Scan_Quote_loop_last ext b (b.length - items.length + 1)
    (src + 1 + (qitems_text items).length) 0 (items.map qitem_char)
  have fail : ∀ r : Option Nat × Nat × List Nat, r.1 = none →
      (match r with
        | (some p, lines, buf) =>
          (some (p + 1), { ss with line_count := ss.line_count + lines }, buf)
        | (none, _, buf) => (none, ss, buf)).1 = none := by
    rintro ⟨_ | p, lines, buf⟩ h
    · rfl
    · exact absurd h (by simp)
  rw [← hrd]
  refine ⟨?_, ?_, ?_, ?_, ?_⟩
  · intro h
    rw [e]
    exact fail _ (hlast.2 (Or.inr (h.elim Or.inl (fun h => Or.inr (Or.inl h)))))
  · intro h
    rw [e, hlast.1 h]
    simp only [Nat.add_zero]
    have e2 : src + 1 + (qitems_text items).length + 1 = src + (qitems_text items).length + 2 := by
      omega
    rw [e2]
  · intro h
    rw [e]
    exact fail _ (hlast.2 (Or.inl h))
  · intro h hs
    rw [e]
    exact fail _ (hlast.2 (Or.inr (Or.inr (Or.inr (Or.inl ⟨h, hs⟩)))))
  · intro h hs
    rw [e]
    exact fail _ (hlast.2 (Or.inr (Or.inr (Or.inr (Or.inr ⟨h, hs⟩)))))

/-- C15, witness: in the text `"a^(tab)^"b"c` the scan passes the escape
`^(tab)` and the escaped `"`, and stops past the `"` after `b`. -/
theorem Scan_Quote_double_quote_witness :
    Scan_Quote sampleExt [34, 97, 94, 40, 116, 97, 98, 41, 94, 34, 98, 34, 99] 0
        (Init_Scan_State 0 13) = (some 12, Init_Scan_State 0 13, [97, 9, 34, 98]) :=
  (Scan_Quote_double_quote sampleExt [34, 97, 94, 40, 116, 97, 98, 41, 94, 34, 98, 34, 99] 0
    (Init_Scan_State 0 13)
    [.plain 97, .seq [94, 40, 116, 97, 98, 41] 9, .esc 34, .plain 98] [34, 99]
    ⟨by simp +decide [qitem_ok], ⟨by decide, Or.inl ⟨by rfl, by decide, by rfl, by rfl⟩⟩,
      by simp +decide [qitem_ok], by simp +decide [qitem_ok], trivial⟩
    rfl).2.1 rfl

/-- C16, counterexample: for `{`, CR, `}` the body is the one byte CR, an
ASCII byte that is neither `^` nor NUL and has no brace, and the mold buffer
holds the one byte LF, not the body. -/
theorem brace_string_cr_body :
    Scan_Quote sampleExt [123, 13, 125] 0 (Init_Scan_State 0 3) =
      (some 3, { Init_Scan_State 0 3 with line_count := 2 }, [10])
    ∧ nested 0 [13] = true ∧ plainBody [13] := by
  refine ⟨by rfl, by rfl, ?_⟩
  intro c hc
  rw [List.mem_singleton.mp hc]
  decide

/-- C16, amended: for a body of ASCII bytes without `^` and NUL whose braces
are properly nested, `Scan_Quote` on `{` body `}` returns the position just
past the final `}`, and the mold buffer holds the body, inner braces included,
with each CR LF pair and each other CR written as one LF; it holds the body
itself when the body has no CR. -/
theorem Scan_Quote_brace_body (ext : Ext) (b : Buf) (src : Nat) (ss : SCAN_STATE)
    (body rest : List Nat) (hn : nested 0 body = true) (hp : plainBody body)
    (hb : b.drop src = 123 :: (body ++ 125 :: rest)) :
    (Scan_Quote ext b src ss).1 = some (src + body.length + 2)
    ∧ (Scan_Quote ext b src ss).2.2 = nl_norm false body
    ∧ ((∀ c ∈ body, c ≠ CR) → (Scan_Quote ext b src ss).2.2 = body) := by
  obtain ⟨g1, g2, g3, g4⟩ := plain_items ext b body
  have e := Scan_Quote_brace_items ext b src ss (body.map QItem.plain) rest
    (by rw [g3]; exact hn) (g2 hp _) (by rw [g1]; exact hb)
  rw [g1, g4] at e
  rw [e]
  exact ⟨rfl, rfl, fun h => nl_norm_no_cr body h⟩

/-- C16, witness: `{a{b}c}d` scans to the position 7 with `a{b}c` in the mold
buffer. -/
theorem Scan_Quote_brace_body_witness :
    (Scan_Quote sampleExt [123, 97, 123, 98, 125, 99, 125, 100] 0 (Init_Scan_State 0 8)).1 =
        some 7
    ∧ (Scan_Quote sampleExt [123, 97, 123, 98, 125, 99, 125, 100] 0
        (Init_Scan_State 0 8)).2.2 = [97, 123, 98, 125, 99]
    ∧ ((∀ c ∈ [97, 123, 98, 125, 99], c ≠ CR) →
        (Scan_Quote sampleExt [123, 97, 123, 98, 125, 99, 125, 100] 0
          (Init_Scan_State 0 8)).2.2 = [97, 123, 98, 125, 99]) :=
  Scan_Quote_brace_body sampleExt [123, 97, 123, 98, 125, 99, 125, 100] 0 (Init_Scan_State 0 8)
    [97, 123, 98, 125, 99] [100] (by rfl) (by
      intro c hc
      simp only [List.mem_cons, List.mem_singleton, List.not_mem_nil, or_false] at hc
      rcases hc with h | h | h | h | h <;> subst h <;> decide) rfl

/-- C17, counterexample: for `{`, CR, `}` the line count goes from 1 to 2
while the three bytes consumed hold no LF byte. -/
theorem brace_string_cr_line :
    (Scan_Quote sampleExt [123, 13, 125] 0 (Init_Scan_State 0 3)).1 = some 3
    ∧ (Scan_Quote sampleExt [123, 13, 125] 0 (Init_Scan_State 0 3)).2.1.line_count = 1 + 1
    ∧ countLF (([123, 13, 125] : Buf).take 3) = 0 := by
  refine ⟨by rfl, by rfl, by rfl⟩

/-- C17, amended: for a `{`-string whose body is pieces (plain ASCII bytes,
escapes and sequences that decode) with properly nested braces, `Scan_Quote`
succeeds, writes to the mold buffer one LF for each bare CR LF pair, each
other bare CR and each other bare LF, and the character of every other
piece, and adds to `line_count` the number of these line breaks; the LFs of
the mold buffer are these and the ones that escapes stand for. -/
theorem Scan_Quote_brace_lines (ext : Ext) (b : Buf) (src : Nat) (ss : SCAN_STATE)
    (items : List QItem) (rest : List Nat) (hn : nested_items 0 items = true)
    (hp : items_ok (bitem_ok ext b) (src + 1) items)
    (hb : b.drop src = 123 :: (qitems_text items ++ 125 :: rest)) :
    (Scan_Quote ext b src ss).1 = some (src + (qitems_text items).length + 2)
    ∧ (Scan_Quote ext b src ss).2.2 = nl_chars false items
    ∧ (Scan_Quote ext b src ss).2.1.line_count = ss.line_count + nl_breaks false items
    ∧ countLF (Scan_Quote ext b src ss).2.2 = nl_breaks false items + lf_escapes items := by
  rw [Scan_Quote_brace_items ext b src ss items rest hn hp hb]
  exact ⟨rfl, rfl, rfl, nl_chars_count items false⟩

/-- C17, witness: the body CR LF, `a`, `^/`, CR has two line breaks and one
escape that stands for LF. -/
theorem Scan_Quote_brace_lines_witness :
    (Scan_Quote sampleExt [123, 13, 10, 97, 94, 47, 13, 125] 0 (Init_Scan_State 0 8)).1 = some 8
    ∧ (Scan_Quote sampleExt [123, 13, 10, 97, 94, 47, 13, 125] 0 (Init_Scan_State 0 8)).2.2 =
        [10, 97, 10, 10]
    ∧ (Scan_Quote sampleExt [123, 13, 10, 97, 94, 47, 13, 125] 0
        (Init_Scan_State 0 8)).2.1.line_count = 1 + 2
    ∧ countLF (Scan_Quote sampleExt [123, 13, 10, 97, 94, 47, 13, 125] 0
        (Init_Scan_State 0 8)).2.2 = 2 + 1 :=
  Scan_Quote_brace_lines sampleExt [123, 13, 10, 97, 94, 47, 13, 125] 0 (Init_Scan_State 0 8)
    [.plain 13, .plain 10, .plain 97, .esc 47, .plain 13] [] (by rfl)
    ⟨by simp +decide [bitem_ok], by simp +decide [bitem_ok], by simp +decide [bitem_ok],
      by simp +decide [bitem_ok], by simp +decide [bitem_ok], trivial⟩ rfl

/-- C18, counterexample: a byte below 0x20 and a byte of the forbidden set
occur before the terminator `"` and `Scan_Item` succeeds, when the byte is
taken by a `^` escape (`^` TAB, and `^[` with `[` forbidden); at a NUL before
the terminator the scan ends with a continuation point; and a forbidden `\`
and a forbidden `%` are translated, not refused (`a\b"` and `a%41b"`). -/
theorem Scan_Item_escaped_control :
    Scan_Item sampleExt sampleWhite [94, 9, 34] 0 3 34 none = (some 3, [9])
    ∧ Scan_Item sampleExt sampleWhite [97, 94, 91, 98, 34] 0 5 34
        (some [58, 59, 40, 41, 91, 93, 34]) = (some 5, [97, 27, 98])
    ∧ Scan_Item sampleExt sampleWhite [97, 0, 34] 0 3 34 none = (some 1, [97])
    ∧ Scan_Item sampleExt sampleWhite [97, 92, 98, 34] 0 4 34 (some [92]) = (some 4, [97, 47, 98])
    ∧ Scan_Item sampleExt sampleWhite [97, 37, 52, 49, 98, 34] 0 6 34 (some [37])
        = (some 6, [97, 65, 98]) := by
  refine ⟨?_, ?_, ?_, ?_, ?_⟩ <;> rfl

/-- C18, amended: after pieces that `Scan_Item` copies, a literal byte from
0x01 to 0x1F, and a literal ASCII byte of the forbidden set other than `\`,
`%` and `^`, that lies before the end pointer and is not the terminator (nor,
without a terminator, a white character) makes `Scan_Item` return zero. -/
theorem Scan_Item_invalid_byte (ext : Ext) (IS_WHITE : Nat → Bool) (b : Buf)
    (src end_ term : Nat) (invalid : Option (List Nat)) (items : List IItem) (c : Nat)
    (tl : List Nat)
    (hi : iitems_ok (iitem_ok ext IS_WHITE b end_ term invalid) src items)
    (hb : b.drop src = iitems_text items ++ c :: tl)
    (he : src + (iitems_text items).length < end_)
    (h0 : c ≠ 0) (ht : c ≠ term) (hw : term = 0 → IS_WHITE c = false)
    (hbad : c < 32 ∨ (c < 128 ∧ c ≠ 92 ∧ c ≠ 37 ∧ c ≠ 94 ∧ forbidden invalid c = true)) :
    Scan_Item ext IS_WHITE b src end_ term invalid = (none, items.map iitem_char) := by
  have hrd : rd b (src + (iitems_text items).length) = c :=
    rd_of_drop b _ c tl (drop_add_of_drop b (iitems_text items) _ src hb)
  rw [Scan_Item_items ext IS_WHITE b src end_ term invalid items _ hi hb (by omega),
    Scan_Item_loop_invalid ext IS_WHITE b end_ term invalid _ _ _ he (by rw [hrd]; exact h0)
      (by rw [hrd]; exact ht) (by rw [hrd]; exact hw) (by rw [hrd]; exact hbad)]

/-- C18, witness: in `a^(tab)[b"` with `[` forbidden the scan fails at `[`,
after the character `a` and the TAB of the escape, and in `a` BEL `b"` it
fails at the control byte. -/
theorem Scan_Item_invalid_byte_witness :
    Scan_Item sampleExt sampleWhite [97, 94, 40, 116, 97, 98, 41, 91, 98, 34] 0 10 34
        (some [58, 59, 40, 41, 91, 93, 34]) = (none, [97, 9])
    ∧ Scan_Item sampleExt sampleWhite [97, 7, 98, 34] 0 4 34 none = (none, [97]) :=
  ⟨Scan_Item_invalid_byte sampleExt sampleWhite [97, 94, 40, 116, 97, 98, 41, 91, 98, 34] 0 10 34
      (some [58, 59, 40, 41, 91, 93, 34]) [.lit 97, .seq [94, 40, 116, 97, 98, 41] 9] 91 [98, 34]
      ⟨by simp +decide [iitem_ok],
        ⟨by decide, by decide, fun h => absurd h (by decide),
          Or.inl ⟨by rfl, by decide, by rfl, by rfl, fun h => absurd h (by decide)⟩⟩, trivial⟩
      rfl (by decide) (by decide) (by decide) (by decide) (Or.inr (by decide)),
    Scan_Item_invalid_byte sampleExt sampleWhite [97, 7, 98, 34] 0 4 34 none [.lit 97] 7 [98, 34]
      ⟨by simp +decide [iitem_ok], trivial⟩
      rfl (by decide) (by decide) (by decide) (by decide) (Or.inl (by decide))⟩

/-- C19, counterexample: `^` is a printable ASCII byte outside the forbidden
set and is not copied: `^A"` leaves the single character 1 in the mold
buffer. -/
theorem Scan_Item_caret_not_copied :
    Scan_Item sampleExt sampleWhite [94, 65, 34] 0 3 34 none = (some 3, [1]) := by
  rfl

/-- C19, amended: over pieces that are literal bytes, `%` with two
hexadecimal digits, `^` escapes and UTF-8 sequences, `Scan_Item` writes one
character per piece to the mold buffer: `/` for a literal `\`, the byte that
the two digits spell for `%HH`, which takes three source bytes, the literal
byte itself for every other printable ASCII byte other than `^` outside the
forbidden set, and the decoded character for an escape and a UTF-8 sequence;
the continuation point is where the pieces end, past the terminator when it
stands there.  A literal `%` that two hexadecimal digits do not follow makes
`Scan_Item` return zero. -/
theorem Scan_Item_translate (ext : Ext) (IS_WHITE : Nat → Bool) (b : Buf)
    (src end_ term : Nat) (invalid : Option (List Nat)) (items : List IItem) (tl : List Nat)
    (hi : iitems_ok (iitem_ok ext IS_WHITE b end_ term invalid) src items)
    (hb : b.drop src = iitems_text items ++ tl)
    (he : src + (iitems_text items).length ≤ end_) :
    (item_stop IS_WHITE b end_ term (src + (iitems_text items).length) →
      Scan_Item ext IS_WHITE b src end_ term invalid =
        (some (if rd b (src + (iitems_text items).length) ≠ 0
                ∧ rd b (src + (iitems_text items).length) = term
              then src + (iitems_text items).length + 1
              else src + (iitems_text items).length),
          items.map iitem_char))
    ∧ (src + (iitems_text items).length < end_ →
        rd b (src + (iitems_text items).length) = 37 → term ≠ 37 →
        (term = 0 → IS_WHITE 37 = false) →
        ¬ (isHex (rd b (src + (iitems_text items).length + 1)) = true
          ∧ isHex (rd b (src + (iitems_text items).length + 2)) = true) →
        Scan_Item ext IS_WHITE b src end_ term invalid = (none, items.map iitem_char))
    ∧ iitem_char (.lit 92) = 47
    ∧ (∀ c, c ≠ 92 → iitem_char (.lit c) = c)
    ∧ (∀ h1 h2, iitem_char (.pct h1 h2) = (hex_digit h1).getD 0 * 16 + (hex_digit h2).getD 0
        ∧ (iitem_bytes (.pct h1 h2)).length = 3) := by
  have e := Scan_Item_items ext IS_WHITE b src end_ term invalid items _ hi hb he
  refine ⟨?_, ?_, rfl, ?_, ?_⟩
  · intro hs
    rw [e, Scan_Item_loop_stop ext IS_WHITE b end_ term invalid _ _ _ hs]
  · intro hlt h37 ht hw hx
    rw [e, Scan_Item_loop_percent ext IS_WHITE b end_ term invalid _ _ _ hlt h37 ht hw hx]
  · intro c hc
    simp [iitem_char, hc]
  · intro h1 h2
    simp [iitem_char, iitem_bytes, hex_value]

/-- C19, witness: `a\b%41c"` with the terminator `"` leaves `a/bAc` in the
mold buffer and continues past the `"`. -/
theorem Scan_Item_translate_witness :
    Scan_Item sampleExt sampleWhite [97, 92, 98, 37, 52, 49, 99, 34, 120] 0 9 34
        (some [58, 59, 40, 41, 91, 93, 34]) = (some 8, [97, 47, 98, 65, 99]) :=
  (Scan_Item_translate sampleExt sampleWhite [97, 92, 98, 37, 52, 49, 99, 34, 120] 0 9 34
    (some [58, 59, 40, 41, 91, 93, 34]) [.lit 97, .lit 92, .lit 98, .pct 52 49, .lit 99]
    [34, 120]
    ⟨by simp +decide [iitem_ok], by simp +decide [iitem_ok], by simp +decide [iitem_ok],
      by simp +decide [iitem_ok], by simp +decide [iitem_ok], trivial⟩
    rfl (by decide)).1 (Or.inr (Or.inl rfl))

/-- C20: for `<` followed by pieces that are plain bytes or runs quoted by
`"`.  When `>` follows the pieces, the first `>` outside a quoted run,
`Skip_Tag` returns the position just past it; when a NUL follows them, and
when a `"` follows them whose run reaches a NUL before a closing `"`, it
returns the null pointer. -/
theorem Skip_Tag_first_closer (b : Buf) (cp : Nat) (items : List TagItem) (tl : List Nat)
    (hi : ∀ i ∈ items, tagitem_ok i) :
    (b.drop cp = 60 :: (tag_text items ++ 62 :: tl) →
      Skip_Tag b cp = some (cp + (tag_text items).length + 2))
    ∧ (b.drop cp = 60 :: (tag_text items ++ tl) → rd tl 0 = 0 → Skip_Tag b cp = none)
    ∧ (∀ q : List Nat, (∀ c ∈ q, c ≠ 0 ∧ c ≠ 34) →
        b.drop cp = 60 :: (tag_text items ++ 34 :: (q ++ tl)) → rd tl 0 = 0 →
        Skip_Tag b cp = none) := by
  refine ⟨?_, ?_, ?_⟩
  · intro hb
    obtain ⟨h1, h2⟩ := Skip_Tag_items b cp items _ hi hb
    have hrd : rd b (cp + 1 + (tag_text items).length) = 62 := by
      have := rd_add_of_drop b _ _ 0 h2
      rwa [Nat.add_zero] at this
    rw [h1, Skip_Tag_loop, hrd, if_neg (by simp), if_pos (by decide)]
    congr 1
    omega
  · intro hb h0
    obtain ⟨h1, h2⟩ := Skip_Tag_items b cp items _ hi hb
    have hrd : rd b (cp + 1 + (tag_text items).length) = 0 := by
      have := rd_add_of_drop b _ _ 0 h2
      rw [Nat.add_zero] at this
      rw [this, h0]
    rw [h1, Skip_Tag_loop, hrd, if_neg (by simp), if_neg (by simp)]
  · intro q hq hb h0
    obtain ⟨h1, h2⟩ := Skip_Tag_items b cp items _ hi hb
    have hrd : rd b (cp + 1 + (tag_text items).length) = 34 := by
      have := rd_add_of_drop b _ _ 0 h2
      rwa [Nat.add_zero] at this
    have hd : b.drop (cp + 1 + (tag_text items).length + 1) = q ++ tl :=
      drop_add_of_drop b [34] _ _ h2
    obtain ⟨hs, hr⟩ := quoted_run b _ q tl 0 hq (Or.inl rfl) hd h0
    rw [h1, Skip_Tag_loop, hrd, if_pos ⟨by decide, by decide⟩, if_pos rfl]
    simp only [hs, hr, if_true]

/-- C20, witness: in `<a "x>y" b>c` the `>` inside the quoted run is passed
and the scan stops past the `>` after `b`. -/
theorem Skip_Tag_first_closer_witness :
    Skip_Tag [60, 97, 32, 34, 120, 62, 121, 34, 32, 98, 62, 99] 0 = some 11 :=
  (Skip_Tag_first_closer [60, 97, 32, 34, 120, 62, 121, 34, 32, 98, 62, 99] 0
    [.plain 97, .plain 32, .quoted [120, 62, 121], .plain 32, .plain 98] [99] (by
      intro i hi
      simp only [List.mem_cons, List.mem_singleton, List.not_mem_nil, or_false] at hi
      rcases hi with h | h | h | h | h <;> subst h <;> simp +decide [tagitem_ok])).1 rfl

/-- C21: the flags `Prescan` returns.  The flag of a special value other than
the WORD flag is set exactly when a byte of class SPECIAL with that value
stands in the lexeme after its first byte, and the WORD flag is set exactly
when a byte of class WORD stands anywhere in the lexeme. -/
theorem Prescan_flags (b : Buf) (ss : SCAN_STATE) :
    (∀ v, v ≠ LEX_SPECIAL_WORD →
      (HAS_LEX_FLAG (Prescan b ss).1 v = true ↔
        ∃ p, (Prescan b ss).2.begin < p ∧ p < (Prescan b ss).2.end_
          ∧ GET_LEX_CLASS (rd b p) = LEX_CLASS_SPECIAL ∧ GET_LEX_VALUE (rd b p) = v))
    ∧ (HAS_LEX_FLAG (Prescan b ss).1 LEX_SPECIAL_WORD = true ↔
        ∃ p, (Prescan b ss).2.begin ≤ p ∧ p < (Prescan b ss).2.end_
          ∧ GET_LEX_CLASS (rd b p) = LEX_CLASS_WORD) := by
  obtain ⟨bg, e, fl, heq, _, _, _, _, _, _, hfl⟩ := Prescan_spec b ss
  rw [heq]
  constructor
  · intro v hv
    rw [HAS_LEX_FLAG_testBit, hfl v]
    constructor
    · rintro (h | h)
      · exact h
      · exact absurd h.1 hv
    · exact Or.inl
  · rw [HAS_LEX_FLAG_testBit, hfl LEX_SPECIAL_WORD]
    constructor
    · rintro (⟨p, _, _, h3, h4⟩ | h)
      · exact absurd h4 (special_value_ne_word _ h3)
      · exact h.2
    · intro h
      exact Or.inr ⟨rfl, h⟩

/-- C21, witness: in ` a.b:c ` the lexeme is `a.b:c`; the PERIOD flag is set
by the `.` at position 2 and the WORD flag by the `a` at position 1. -/
theorem Prescan_flags_witness :
    HAS_LEX_FLAG (Prescan [32, 97, 46, 98, 58, 99, 32] (Init_Scan_State 0 7)).1
        LEX_SPECIAL_PERIOD = true
    ∧ HAS_LEX_FLAG (Prescan [32, 97, 46, 98, 58, 99, 32] (Init_Scan_State 0 7)).1
        LEX_SPECIAL_WORD = true :=
  ⟨((Prescan_flags [32, 97, 46, 98, 58, 99, 32] (Init_Scan_State 0 7)).1 LEX_SPECIAL_PERIOD
      (by decide)).2 ⟨2, by decide, by decide, by decide, by decide⟩,
    (Prescan_flags [32, 97, 46, 98, 58, 99, 32] (Init_Scan_State 0 7)).2.2
      ⟨1, by decide, by decide, by decide⟩⟩

/-- C22: `Prescan` sets `begin` to the first byte at or after the old `begin`
that is not white space.  If that byte is a delimiter, `end` is `begin + 1`
and no flag is set; otherwise `end` is the position of the first delimiter
after `begin`, and no byte of the lexeme is a delimiter. -/
theorem Prescan_lexeme (b : Buf) (ss : SCAN_STATE) :
    ss.begin ≤ (Prescan b ss).2.begin
    ∧ (∀ p, ss.begin ≤ p → p < (Prescan b ss).2.begin → IS_LEX_SPACE (rd b p) = true)
    ∧ IS_LEX_SPACE (rd b (Prescan b ss).2.begin) = false
    ∧ (GET_LEX_CLASS (rd b (Prescan b ss).2.begin) = LEX_CLASS_DELIMIT →
        (Prescan b ss).2.end_ = (Prescan b ss).2.begin + 1 ∧ (Prescan b ss).1 = 0)
    ∧ (GET_LEX_CLASS (rd b (Prescan b ss).2.begin) ≠ LEX_CLASS_DELIMIT →
        (Prescan b ss).2.begin < (Prescan b ss).2.end_
        ∧ GET_LEX_CLASS (rd b (Prescan b ss).2.end_) = LEX_CLASS_DELIMIT
        ∧ ∀ p, (Prescan b ss).2.begin ≤ p → p < (Prescan b ss).2.end_ →
            GET_LEX_CLASS (rd b p) ≠ LEX_CLASS_DELIMIT) := by
  obtain ⟨bg, e, fl, heq, _, h1, h2, h3, h4, h5, _⟩ := Prescan_spec b ss
  rw [heq]
  refine ⟨h1, h2, h3, ?_, ?_⟩
  · intro h
    exact h4 ((class_ranges _).1.1 h)
  · intro h
    obtain ⟨k1, _, k3, k4⟩ := h5 (fun hd => h ((class_ranges _).1.2 hd))
    exact ⟨k1, (class_ranges _).1.2 k3, fun p p1 p2 hc => k4 p p1 p2 ((class_ranges _).1.1 hc)⟩

/-- C22, witness: in two spaces and `ab]` the lexeme begins at 2 and ends at
the `]` at 4; in a space and `]` the lexeme is the one byte `]`. -/
theorem Prescan_lexeme_witness :
    ((Prescan [32, 32, 97, 98, 93] (Init_Scan_State 0 5)).2.begin
        < (Prescan [32, 32, 97, 98, 93] (Init_Scan_State 0 5)).2.end_
      ∧ GET_LEX_CLASS (rd [32, 32, 97, 98, 93]
          (Prescan [32, 32, 97, 98, 93] (Init_Scan_State 0 5)).2.end_) = LEX_CLASS_DELIMIT
      ∧ ∀ p, (Prescan [32, 32, 97, 98, 93] (Init_Scan_State 0 5)).2.begin ≤ p →
          p < (Prescan [32, 32, 97, 98, 93] (Init_Scan_State 0 5)).2.end_ →
          GET_LEX_CLASS (rd [32, 32, 97, 98, 93] p) ≠ LEX_CLASS_DELIMIT)
    ∧ ((Prescan [32, 93] (Init_Scan_State 0 2)).2.end_
          = (Prescan [32, 93] (Init_Scan_State 0 2)).2.begin + 1
        ∧ (Prescan [32, 93] (Init_Scan_State 0 2)).1 = 0) :=
  ⟨(Prescan_lexeme [32, 32, 97, 98, 93] (Init_Scan_State 0 5)).2.2.2.2 (by decide),
    (Prescan_lexeme [32, 93] (Init_Scan_State 0 2)).2.2.2.1 (by decide)⟩

/-- C23: the state after every call of `Scan_Token` in a run that starts from
`Init_Scan_State cp limit` inside the memory `b`.  `end` stays inside the
memory, so `end <= limit` when the memory holds nothing after the buffer;
`limit` is unchanged and `line_count >= 1`; `cp <= begin <= end` when the
UTF-8 decoder does not move backwards; a NUL at the start of the lexeme gives
EOF with `end = begin`.  But a lexeme that opens with `"^` followed by a NUL
and by the byte `"` is a STRING with `end = begin + 4`: the NUL is consumed. -/
theorem Scan_Token_state (ext : Ext) (b : Buf) (cp limit n : Nat) (h : cp ≤ b.length) :
    (Scan_Token ext b (before_call ext b (Init_Scan_State cp limit) [] n).1
        (before_call ext b (Init_Scan_State cp limit) [] n).2).2.1.end_ ≤ b.length
    ∧ (b.length ≤ cp + limit →
        (Scan_Token ext b (before_call ext b (Init_Scan_State cp limit) [] n).1
          (before_call ext b (Init_Scan_State cp limit) [] n).2).2.1.end_
        ≤ (Scan_Token ext b (before_call ext b (Init_Scan_State cp limit) [] n).1
          (before_call ext b (Init_Scan_State cp limit) [] n).2).2.1.limit)
    ∧ (Scan_Token ext b (before_call ext b (Init_Scan_State cp limit) [] n).1
        (before_call ext b (Init_Scan_State cp limit) [] n).2).2.1.limit = cp + limit
    ∧ 1 ≤ (Scan_Token ext b (before_call ext b (Init_Scan_State cp limit) [] n).1
        (before_call ext b (Init_Scan_State cp limit) [] n).2).2.1.line_count
    ∧ (forward ext b →
        cp ≤ (Scan_Token ext b (before_call ext b (Init_Scan_State cp limit) [] n).1
          (before_call ext b (Init_Scan_State cp limit) [] n).2).2.1.begin
        ∧ (Scan_Token ext b (before_call ext b (Init_Scan_State cp limit) [] n).1
            (before_call ext b (Init_Scan_State cp limit) [] n).2).2.1.begin
          ≤ (Scan_Token ext b (before_call ext b (Init_Scan_State cp limit) [] n).1
            (before_call ext b (Init_Scan_State cp limit) [] n).2).2.1.end_)
    ∧ (rd b (Scan_Token ext b (before_call ext b (Init_Scan_State cp limit) [] n).1
          (before_call ext b (Init_Scan_State cp limit) [] n).2).2.1.begin = 0 →
        (Scan_Token ext b (before_call ext b (Init_Scan_State cp limit) [] n).1
          (before_call ext b (Init_Scan_State cp limit) [] n).2).1 = TOKEN_EOF
        ∧ (Scan_Token ext b (before_call ext b (Init_Scan_State cp limit) [] n).1
            (before_call ext b (Init_Scan_State cp limit) [] n).2).2.1.end_
          = (Scan_Token ext b (before_call ext b (Init_Scan_State cp limit) [] n).1
            (before_call ext b (Init_Scan_State cp limit) [] n).2).2.1.begin)
    ∧ (rd b (Scan_Token ext b (before_call ext b (Init_Scan_State cp limit) [] n).1
          (before_call ext b (Init_Scan_State cp limit) [] n).2).2.1.begin = 34 →
        rd b ((Scan_Token ext b (before_call ext b (Init_Scan_State cp limit) [] n).1
          (before_call ext b (Init_Scan_State cp limit) [] n).2).2.1.begin + 1) = 94 →
        rd b ((Scan_Token ext b (before_call ext b (Init_Scan_State cp limit) [] n).1
          (before_call ext b (Init_Scan_State cp limit) [] n).2).2.1.begin + 2) = 0 →
        rd b ((Scan_Token ext b (before_call ext b (Init_Scan_State cp limit) [] n).1
          (before_call ext b (Init_Scan_State cp limit) [] n).2).2.1.begin + 3) = 34 →
        (Scan_Token ext b (before_call ext b (Init_Scan_State cp limit) [] n).1
          (before_call ext b (Init_Scan_State cp limit) [] n).2).1 = TOKEN_STRING
        ∧ (Scan_Token ext b (before_call ext b (Init_Scan_State cp limit) [] n).1
            (before_call ext b (Init_Scan_State cp limit) [] n).2).2.1.end_
          = (Scan_Token ext b (before_call ext b (Init_Scan_State cp limit) [] n).1
            (before_call ext b (Init_Scan_State cp limit) [] n).2).2.1.begin + 4) := by
  obtain ⟨i1, i2, i3, i4⟩ := before_call_inv ext b cp limit h n
  generalize before_call ext b (Init_Scan_State cp limit) [] n = s at *
  have hb := Scan_Token_bounds ext b s.1 s.2 i1
  have hs := (Scan_Token_setup ext b s.1 s.2).2.2.2
  have hl := Scan_Token_line_mono ext b s.1 s.2
  have hge : s.1.begin ≤ (Prescan b s.1).2.begin := by
    rw [Prescan_eq]
    exact skipWhile_ge IS_LEX_SPACE b s.1.begin
  obtain ⟨hb1, hb2, hb3⟩ := hb
  refine ⟨hb2, fun hm => by omega, by omega, by omega, fun hf => ?_, ?_, ?_⟩
  · have := hb3 hf
    have := i4 hf
    omega
  · rw [hb1]
    intro h0
    rw [eof_lexeme ext b s.1 s.2 h0]
    exact ⟨rfl, rfl⟩
  · rw [hb1]
    intro h1 h2 h3 h4
    rw [caret_nul_string ext b s.1 s.2 h1 h2 h3 h4]
    exact ⟨rfl, rfl⟩

/-- C23, witness: the memory holds the buffer `"^` of length 2, its NUL, and
the byte `"` after it.  The first call returns STRING with `end = 4`, past the
limit 2.  With a NUL after the terminator the call returns -STRING with
`end = 2`.  In the same way `#"^`, NUL, `"` is CHAR with `end = 5`, past the
limit 3. -/
theorem Scan_Token_state_witness :
    ((Scan_Token sampleExt [34, 94, 0, 34] (Init_Scan_State 0 2) []).1 = TOKEN_STRING
      ∧ (Scan_Token sampleExt [34, 94, 0, 34] (Init_Scan_State 0 2) []).2.1.end_
          = (Scan_Token sampleExt [34, 94, 0, 34] (Init_Scan_State 0 2) []).2.1.begin + 4)
    ∧ (Scan_Token sampleExt [34, 94, 0, 34] (Init_Scan_State 0 2) []).2.1.begin = 0
    ∧ (Scan_Token sampleExt [34, 94, 0, 34] (Init_Scan_State 0 2) []).2.1.limit = 2
    ∧ rd [34, 94, 0, 34] 2 = 0
    ∧ Scan_Token sampleExt [34, 94, 0, 0] (Init_Scan_State 0 2) [] =
        (-TOKEN_STRING, { Init_Scan_State 0 2 with end_ := 2 }, [0])
    ∧ Scan_Token sampleExt [35, 34, 94, 0, 34] (Init_Scan_State 0 3) [] =
        (TOKEN_CHAR, { Init_Scan_State 0 3 with end_ := 5 }, []) :=
  ⟨(Scan_Token_state sampleExt [34, 94, 0, 34] 0 2 0 (by decide)).2.2.2.2.2.2
      (by rfl) (by rfl) (by rfl) (by rfl),
    by rfl, by rfl, by rfl, by rfl, by rfl⟩

/-- C24, counterexample: the bytes from 0x80 up that are not of class WORD are
four, 0xC0, 0xC1, 0xF5 and 0xFF, not seven; in the build without Unicode the
only one is 0xA0. -/
theorem Lex_Map_four_high_bytes :
    high_not_word USE_UNICODE = [0xC0, 0xC1, 0xF5, 0xFF]
    ∧ (high_not_word USE_UNICODE).length = 4
    ∧ high_not_word false = [0xA0] := by
  decide

/-- C24, amended: in `Lex_Map` a byte from 0x80 up has class WORD except for
exactly the four bytes 0xC0, 0xC1, 0xF5 and 0xFF, whose entry is
`LEX_DEFAULT`; these four are the entries tagged `LEX_UTFE` in either build,
the entry of 0xA0 follows the build and every other entry from 0x80 up is
`LEX_WORD`. -/
theorem Lex_Map_high_bytes (c : Nat) (h : 128 ≤ c) (h256 : c < 256) :
    (GET_LEX_CLASS c = LEX_CLASS_WORD ↔ c ≠ 0xC0 ∧ c ≠ 0xC1 ∧ c ≠ 0xF5 ∧ c ≠ 0xFF)
    ∧ (GET_LEX_CLASS c ≠ LEX_CLASS_WORD → Lex_Map c = LEX_DEFAULT)
    ∧ (∀ u : Bool, (c = 0xC0 ∨ c = 0xC1 ∨ c = 0xF5 ∨ c = 0xFF) →
        (Lex_Map_table u).getD c 0 = LEX_UTFE u)
    ∧ (∀ u : Bool, c = 0xA0 → (Lex_Map_table u).getD c 0 = LEX_A0 u)
    ∧ (∀ u : Bool, c ≠ 0xC0 → c ≠ 0xC1 → c ≠ 0xF5 → c ≠ 0xFF → c ≠ 0xA0 →
        (Lex_Map_table u).getD c 0 = LEX_WORD) :=
  ⟨(Lex_Map_high_byte ⟨c, h256⟩ h).1, (Lex_Map_high_byte ⟨c, h256⟩ h).2,
    fun u => (Lex_Map_table_high_byte u ⟨c, h256⟩ h).1,
    fun u => (Lex_Map_table_high_byte u ⟨c, h256⟩ h).2.1,
    fun u h1 h2 h3 h4 h5 => (Lex_Map_table_high_byte u ⟨c, h256⟩ h).2.2 ⟨h1, h2, h3, h4, h5⟩⟩

/-- C24, witness: 0xF5 is not of class WORD and 0xF6 is. -/
theorem Lex_Map_high_bytes_witness :
    GET_LEX_CLASS 0xF5 ≠ LEX_CLASS_WORD ∧ GET_LEX_CLASS 0xF6 = LEX_CLASS_WORD :=
  ⟨fun h => ((Lex_Map_high_bytes 0xF5 (by decide) (by decide)).1.1 h).2.2.1 rfl,
    (Lex_Map_high_bytes 0xF6 (by decide) (by decide)).1.2
      ⟨by decide, by decide, by decide, by decide⟩⟩

/-- C25: a lexeme that starts with a digit and has the PERIOD flag and none of
the AT, POUND and COLON flags is classified PAIR when an `x` stands in it,
otherwise TUPLE when two `.` and no `,` stand in it, otherwise DECIMAL. -/
theorem period_number (ext : Ext) (b : Buf) (ss : SCAN_STATE) (mold : List Nat)
    (hd : isDigit (rd b (Prescan b ss).2.begin) = true)
    (hp : HAS_LEX_FLAG (Prescan b ss).1 LEX_SPECIAL_PERIOD = true)
    (ha : HAS_LEX_FLAG (Prescan b ss).1 LEX_SPECIAL_AT = false)
    (hq : HAS_LEX_FLAG (Prescan b ss).1 LEX_SPECIAL_POUND = false)
    (hc : HAS_LEX_FLAG (Prescan b ss).1 LEX_SPECIAL_COLON = false) :
    (occurs b (Prescan b ss).2.begin (Prescan b ss).2.end_ 120 →
      Scan_Token ext b ss mold = (TOKEN_PAIR, (Prescan b ss).2, mold))
    ∧ (¬ occurs b (Prescan b ss).2.begin (Prescan b ss).2.end_ 120 →
        occurs_twice b (Prescan b ss).2.begin (Prescan b ss).2.end_ 46 →
        ¬ occurs b (Prescan b ss).2.begin (Prescan b ss).2.end_ 44 →
        Scan_Token ext b ss mold = (TOKEN_TUPLE, (Prescan b ss).2, mold))
    ∧ (¬ occurs b (Prescan b ss).2.begin (Prescan b ss).2.end_ 120 →
        (¬ occurs_twice b (Prescan b ss).2.begin (Prescan b ss).2.end_ 46
          ∨ occurs b (Prescan b ss).2.begin (Prescan b ss).2.end_ 44) →
        Scan_Token ext b ss mold = (TOKEN_DECIMAL, (Prescan b ss).2, mold)) := by
  have hdot := Prescan_flag_char b ss LEX_SPECIAL_PERIOD 46 (fun c => (special_char c).2.2.1)
  have hcom := Prescan_flag_char b ss LEX_SPECIAL_COMMA 44 (fun c => (special_char c).2.1)
  have hcls := (digit_class _ hd).1
  have hfl0 : (Prescan b ss).1 ≠ 0 := by
    intro e
    rw [e] at hp
    exact absurd hp (by decide)
  have hnum : Scan_Token ext b ss mold =
      num ext b (Prescan b ss).2 mold (Prescan b ss).1 (Prescan b ss).2.begin := by
    unfold Scan_Token
    simp +decide [hcls]
  have hcomma : HAS_LEX_FLAG (Prescan b ss).1 LEX_SPECIAL_COMMA = true ↔
      occurs b (Prescan b ss).2.begin (Prescan b ss).2.end_ 44 := by
    rw [hcom]
    constructor
    · rintro ⟨i, h1, h2, h3⟩
      exact ⟨i, by omega, h2, h3⟩
    · rintro ⟨i, h1, h2, h3⟩
      refine ⟨i, ?_, h2, h3⟩
      by_contra hlt
      have e : i = (Prescan b ss).2.begin := by omega
      rw [e] at h3
      rw [h3] at hd
      exact absurd hd (by decide)
  -- the first `.` and the search for a second one
  obtain ⟨q1, e1, k1, k2, k3, k4⟩ : ∃ q, Skip_To_Char b (Prescan b ss).2.begin
      (Prescan b ss).2.end_ 46 = some q ∧ (Prescan b ss).2.begin ≤ q ∧ q < (Prescan b ss).2.end_
      ∧ rd b q = 46 ∧ ∀ p, (Prescan b ss).2.begin ≤ p → p < q → rd b p ≠ 46 := by
    rcases Skip_To_Char_spec b (Prescan b ss).2.begin (Prescan b ss).2.end_ 46 with
      ⟨_, hn⟩ | h
    · obtain ⟨i, h1, h2, h3⟩ := hdot.1 hp
      exact absurd h3 (hn i (by omega) h2)
    · exact h
  have htwice : (Skip_To_Char b (q1 + 1) (Prescan b ss).2.end_ 46).isSome = true ↔
      occurs_twice b (Prescan b ss).2.begin (Prescan b ss).2.end_ 46 := by
    rw [Skip_To_Char_isSome]
    constructor
    · rintro ⟨j, h1, h2, h3⟩
      exact ⟨q1, j, k1, by omega, h2, k3, h3⟩
    · rintro ⟨i, j, h1, h2, h3, h4, h5⟩
      have : q1 ≤ i := by
        by_contra hlt
        exact k4 i h1 (by omega) h4
      exact ⟨j, by omega, h3, h5⟩
  have hx := Skip_To_Char_isSome b (Prescan b ss).2.begin (Prescan b ss).2.end_ 120
  rw [hnum]
  unfold num
  rw [if_neg hfl0]
  simp only [ha, hq, hc, hp, Bool.false_eq_true, if_false, if_true, e1, ptr, Option.getD_some]
  refine ⟨?_, ?_, ?_⟩
  · intro ho
    rw [if_pos (hx.2 ho)]
  · intro ho ht hnc
    have hcf : HAS_LEX_FLAG (Prescan b ss).1 LEX_SPECIAL_COMMA = false := by
      cases e : HAS_LEX_FLAG (Prescan b ss).1 LEX_SPECIAL_COMMA
      · rfl
      · exact absurd (hcomma.1 e) hnc
    rw [if_neg (fun h => ho (hx.1 h)), if_pos ⟨by simp [hcf], htwice.2 ht⟩]
  · intro ho ht
    rw [if_neg (fun h => ho (hx.1 h)), if_neg]
    rintro ⟨h1, h2⟩
    rcases ht with ht | ht
    · exact ht (htwice.1 h2)
    · have := hcomma.2 ht
      rw [this] at h1
      simp at h1

/-- C25, witness: `1.2.3` is TUPLE, `1.2` is DECIMAL and `1.5x2.5` is PAIR. -/
theorem period_number_witness :
    Scan_Token sampleExt [49, 46, 50, 46, 51] (Init_Scan_State 0 5) [] =
      (TOKEN_TUPLE, (Prescan [49, 46, 50, 46, 51] (Init_Scan_State 0 5)).2, [])
    ∧ Scan_Token sampleExt [49, 46, 50] (Init_Scan_State 0 3) [] =
      (TOKEN_DECIMAL, (Prescan [49, 46, 50] (Init_Scan_State 0 3)).2, [])
    ∧ Scan_Token sampleExt [49, 46, 53, 120, 50, 46, 53] (Init_Scan_State 0 7) [] =
      (TOKEN_PAIR, (Prescan [49, 46, 53, 120, 50, 46, 53] (Init_Scan_State 0 7)).2, []) :=
  ⟨(period_number sampleExt [49, 46, 50, 46, 51] (Init_Scan_State 0 5) [] (by rfl) (by rfl)
      (by rfl) (by rfl) (by rfl)).2.1
      (by
        rintro ⟨i, h1, h2, h3⟩
        have h4 : i < 5 := h2
        interval_cases i <;> exact absurd h3 (by decide))
      ⟨1, 3, by decide, by decide, by decide, by rfl, by rfl⟩
      (by
        rintro ⟨i, h1, h2, h3⟩
        have h4 : i < 5 := h2
        interval_cases i <;> exact absurd h3 (by decide)),
    (period_number sampleExt [49, 46, 50] (Init_Scan_State 0 3) [] (by rfl) (by rfl)
      (by rfl) (by rfl) (by rfl)).2.2
      (by
        rintro ⟨i, h1, h2, h3⟩
        have h4 : i < 3 := h2
        interval_cases i <;> exact absurd h3 (by decide))
      (Or.inl (by
        rintro ⟨i, j, h1, h2, h3, h4, h5⟩
        have h6 : j < 3 := h3
        interval_cases j <;> interval_cases i <;>
          first | exact absurd h4 (by decide) | exact absurd h5 (by decide))),
    (period_number sampleExt [49, 46, 53, 120, 50, 46, 53] (Init_Scan_State 0 7) [] (by rfl)
      (by rfl) (by rfl) (by rfl) (by rfl)).1 ⟨3, by decide, by decide, by rfl⟩⟩

/-- C26: a lexeme that starts with a digit and has the POUND flag and not the
AT flag.  When it begins with exactly `64#{`, `16#{` or `2#{` the token is
the one of the `#` branch at the `{`: BINARY with `end` where `Scan_Quote`
stops, or -BINARY when `Scan_Quote` fails; in every other case it is
-INTEGER.  A lexeme that starts with a sign followed by a digit and has the
POUND flag, and not the AT, DOLLAR and COLON flags, is -INTEGER. -/
theorem radix_number (ext : Ext) (b : Buf) (ss : SCAN_STATE) (mold : List Nat)
    (hq : HAS_LEX_FLAG (Prescan b ss).1 LEX_SPECIAL_POUND = true)
    (ha : HAS_LEX_FLAG (Prescan b ss).1 LEX_SPECIAL_AT = false) :
    (isDigit (rd b (Prescan b ss).2.begin) = true →
      (∀ p, radix_brace b (Prescan b ss).2.begin = some p →
        ((Scan_Quote ext b p (Prescan b ss).2).1 = none →
          (Scan_Token ext b ss mold).1 = -TOKEN_BINARY)
        ∧ (∀ q, (Scan_Quote ext b p (Prescan b ss).2).1 = some q →
          (Scan_Token ext b ss mold).1 = TOKEN_BINARY
            ∧ (Scan_Token ext b ss mold).2.1.end_ = q))
      ∧ (radix_brace b (Prescan b ss).2.begin = none →
          Scan_Token ext b ss mold = (-TOKEN_INTEGER, (Prescan b ss).2, mold)))
    ∧ ((rd b (Prescan b ss).2.begin = 43 ∨ rd b (Prescan b ss).2.begin = 45) →
        isDigit (rd b ((Prescan b ss).2.begin + 1)) = true →
        HAS_LEX_FLAG (Prescan b ss).1 LEX_SPECIAL_DOLLAR = false →
        HAS_LEX_FLAG (Prescan b ss).1 LEX_SPECIAL_COLON = false →
        Scan_Token ext b ss mold = (-TOKEN_INTEGER, (Prescan b ss).2, mold)) := by
  have hfl0 : (Prescan b ss).1 ≠ 0 := by
    intro e
    rw [e] at hq
    exact absurd hq (by decide)
  constructor
  · intro hd
    have hcls := (digit_class _ hd).1
    have hnum : Scan_Token ext b ss mold =
        num ext b (Prescan b ss).2 mold (Prescan b ss).1 (Prescan b ss).2.begin := by
      unfold Scan_Token
      simp +decide [hcls]
    have hpound : ∀ p, rd b (p + 1) = 123 →
        pound ext b (Prescan b ss).2 mold p =
          (match Scan_Quote ext b (p + 1) (Prescan b ss).2 with
            | (some q, ss1, mold1) => (TOKEN_BINARY, { ss1 with end_ := q }, mold1)
            | (none, ss1, mold1) =>
              (-TOKEN_BINARY, { ss1 with end_ := recover_line b (Prescan b ss).2.begin }, mold1)) := by
      intro p hp
      unfold pound
      simp only [hp]
      rw [if_neg (by decide), if_neg (by decide), if_pos trivial]
    have hres : ∀ p, Scan_Token ext b ss mold =
        (match Scan_Quote ext b p (Prescan b ss).2 with
          | (some q, ss1, mold1) => (TOKEN_BINARY, { ss1 with end_ := q }, mold1)
          | (none, ss1, mold1) =>
            (-TOKEN_BINARY, { ss1 with end_ := recover_line b (Prescan b ss).2.begin }, mold1)) →
        ((Scan_Quote ext b p (Prescan b ss).2).1 = none →
          (Scan_Token ext b ss mold).1 = -TOKEN_BINARY)
        ∧ (∀ q, (Scan_Quote ext b p (Prescan b ss).2).1 = some q →
          (Scan_Token ext b ss mold).1 = TOKEN_BINARY
            ∧ (Scan_Token ext b ss mold).2.1.end_ = q) := by
      intro p e
      rw [e]
      rcases hsq : Scan_Quote ext b p (Prescan b ss).2 with ⟨_ | q, ss1, mold1⟩
      · exact ⟨fun _ => rfl, fun q h => absurd h (by simp)⟩
      · refine ⟨fun h => absurd h (by simp), fun q1 h => ?_⟩
        have : q = q1 := Option.some.inj h
        subst this
        exact ⟨rfl, rfl⟩
    constructor
    · intro p hp
      apply hres
      rw [hnum]
      unfold num
      rw [if_neg hfl0]
      simp only [ha, hq, Bool.false_eq_true, if_false, if_true]
      unfold radix_brace at hp
      by_cases h4 : ((rd b (Prescan b ss).2.begin = 54 ∧ rd b ((Prescan b ss).2.begin + 1) = 52)
          ∨ (rd b (Prescan b ss).2.begin = 49 ∧ rd b ((Prescan b ss).2.begin + 1) = 54))
          ∧ rd b ((Prescan b ss).2.begin + 2) = 35 ∧ rd b ((Prescan b ss).2.begin + 3) = 123
      · rw [if_pos h4] at hp
        have ep : p = (Prescan b ss).2.begin + 2 + 1 := (Option.some.inj hp).symm
        rw [if_pos ⟨trivial, by
          rcases h4 with ⟨⟨a1, a2⟩ | ⟨a1, a2⟩, a3, a4⟩
          · exact Or.inl ⟨a1, a2, a3, a4⟩
          · exact Or.inr ⟨a1, a2, a3, a4⟩⟩, ep]
        exact hpound _ h4.2.2
      · rw [if_neg h4] at hp
        by_cases h3 : rd b (Prescan b ss).2.begin = 50 ∧ rd b ((Prescan b ss).2.begin + 1) = 35
            ∧ rd b ((Prescan b ss).2.begin + 2) = 123
        · rw [if_pos h3] at hp
          have ep : p = (Prescan b ss).2.begin + 1 + 1 := (Option.some.inj hp).symm
          rw [if_neg (by
            rintro ⟨_, ⟨a1, a2, a3, a4⟩ | ⟨a1, a2, a3, a4⟩⟩
            · exact h4 ⟨Or.inl ⟨a1, a2⟩, a3, a4⟩
            · exact h4 ⟨Or.inr ⟨a1, a2⟩, a3, a4⟩), if_pos ⟨trivial, h3⟩, ep]
          exact hpound _ h3.2.2
        · rw [if_neg h3] at hp
          exact absurd hp (by simp)
    · intro hp
      unfold radix_brace at hp
      have h4 : ¬ (((rd b (Prescan b ss).2.begin = 54 ∧ rd b ((Prescan b ss).2.begin + 1) = 52)
          ∨ (rd b (Prescan b ss).2.begin = 49 ∧ rd b ((Prescan b ss).2.begin + 1) = 54))
          ∧ rd b ((Prescan b ss).2.begin + 2) = 35 ∧ rd b ((Prescan b ss).2.begin + 3) = 123) := by
        intro h
        rw [if_pos h] at hp
        exact absurd hp (by simp)
      rw [if_neg h4] at hp
      have h3 : ¬ (rd b (Prescan b ss).2.begin = 50 ∧ rd b ((Prescan b ss).2.begin + 1) = 35
            ∧ rd b ((Prescan b ss).2.begin + 2) = 123) := by
        intro h
        rw [if_pos h] at hp
        exact absurd hp (by simp)
      rw [hnum]
      unfold num
      rw [if_neg hfl0]
      simp only [ha, hq, Bool.false_eq_true, if_false, if_true]
      rw [if_neg (by
        rintro ⟨_, ⟨a1, a2, a3, a4⟩ | ⟨a1, a2, a3, a4⟩⟩
        · exact h4 ⟨Or.inl ⟨a1, a2⟩, a3, a4⟩
        · exact h4 ⟨Or.inr ⟨a1, a2⟩, a3, a4⟩), if_neg (fun h => h3 h.2)]
  · intro hs hd hdol hcol
    have hcls : GET_LEX_CLASS (rd b (Prescan b ss).2.begin) = LEX_CLASS_SPECIAL := by
      rcases hs with h | h <;> rw [h] <;> decide
    have hv : GET_LEX_VALUE (rd b (Prescan b ss).2.begin) = LEX_SPECIAL_PLUS
        ∨ GET_LEX_VALUE (rd b (Prescan b ss).2.begin) = LEX_SPECIAL_MINUS := by
      rcases hs with h | h <;> rw [h] <;> decide
    have hnn := (digit_class _ hd).2.1
    have hne : (Prescan b ss).2.begin + 1 ≠ (Prescan b ss).2.begin := by omega
    unfold Scan_Token
    rcases hv with hv | hv
    · simp +decide [hcls, ha, next_ls, special_sign, hv, hdol, hcol, hnn, num, hfl0, hq, hne]
    · simp +decide [hcls, ha, next_ls, special_sign, hv, hdol, hcol, hnn, num, hfl0, hq, hne]

/-- C26, witness: `16#{AB}` is BINARY with `end` past the `}`, `17#{AB}` is
-INTEGER, and `+16#{AB}` is -INTEGER. -/
theorem radix_number_witness :
    ((Scan_Token sampleExt [49, 54, 35, 123, 65, 66, 125] (Init_Scan_State 0 7) []).1
        = TOKEN_BINARY
      ∧ (Scan_Token sampleExt [49, 54, 35, 123, 65, 66, 125] (Init_Scan_State 0 7) []).2.1.end_
        = 7)
    ∧ Scan_Token sampleExt [49, 55, 35, 123, 65, 66, 125] (Init_Scan_State 0 7) [] =
        (-TOKEN_INTEGER, (Prescan [49, 55, 35, 123, 65, 66, 125] (Init_Scan_State 0 7)).2, [])
    ∧ Scan_Token sampleExt [43, 49, 54, 35, 123, 65, 66, 125] (Init_Scan_State 0 8) [] =
        (-TOKEN_INTEGER, (Prescan [43, 49, 54, 35, 123, 65, 66, 125] (Init_Scan_State 0 8)).2, []) :=
  ⟨(((radix_number sampleExt [49, 54, 35, 123, 65, 66, 125] (Init_Scan_State 0 7) [] (by rfl)
      (by rfl)).1 (by rfl)).1 3 (by rfl)).2 7 (by rfl),
    ((radix_number sampleExt [49, 55, 35, 123, 65, 66, 125] (Init_Scan_State 0 7) [] (by rfl)
      (by rfl)).1 (by rfl)).2 (by rfl),
    (radix_number sampleExt [43, 49, 54, 35, 123, 65, 66, 125] (Init_Scan_State 0 8) [] (by rfl)
      (by rfl)).2 (Or.inl (by rfl)) (by rfl) (by rfl) (by rfl)⟩

/-- C27, counterexample: the lexeme `$a@b` begins with `$` and is classified
EMAIL, not MONEY. -/
theorem dollar_at_is_email :
    (Scan_Token sampleExt [36, 97, 64, 98] (Init_Scan_State 0 4) []).1 = TOKEN_EMAIL := by
  rfl

/-- C27, amended: a lexeme whose first byte is `$` is classified MONEY, unless
an `@` stands in it, in which case it is classified EMAIL. -/
theorem dollar_lexeme (ext : Ext) (b : Buf) (ss : SCAN_STATE) (mold : List Nat)
    (h : rd b (Prescan b ss).2.begin = 36) :
    (occurs b ((Prescan b ss).2.begin + 1) (Prescan b ss).2.end_ 64 →
      Scan_Token ext b ss mold = (TOKEN_EMAIL, (Prescan b ss).2, mold))
    ∧ (¬ occurs b ((Prescan b ss).2.begin + 1) (Prescan b ss).2.end_ 64 →
      Scan_Token ext b ss mold = (TOKEN_MONEY, (Prescan b ss).2, mold)) := by
  have hat := Prescan_flag_char b ss LEX_SPECIAL_AT 64 (fun c => (special_char c).1)
  have hcls : GET_LEX_CLASS (rd b (Prescan b ss).2.begin) = LEX_CLASS_SPECIAL := by
    rw [h]
    decide
  constructor
  · intro ho
    have hf := hat.2 ho
    unfold Scan_Token
    simp +decide [hcls, hf, h]
  · intro ho
    have hf : HAS_LEX_FLAG (Prescan b ss).1 LEX_SPECIAL_AT = false := by
      cases e : HAS_LEX_FLAG (Prescan b ss).1 LEX_SPECIAL_AT
      · rfl
      · exact absurd (hat.1 e) ho
    unfold Scan_Token
    simp +decide [hcls, hf, h, next_ls]

/-- C27, witness: `$1.50` is MONEY. -/
theorem dollar_lexeme_witness :
    Scan_Token sampleExt [36, 49, 46, 53, 48] (Init_Scan_State 0 5) [] =
      (TOKEN_MONEY, (Prescan [36, 49, 46, 53, 48] (Init_Scan_State 0 5)).2, []) :=
  (dollar_lexeme sampleExt [36, 49, 46, 53, 48] (Init_Scan_State 0 5) [] rfl).2 (by
    rintro ⟨i, h1, h2, h3⟩
    have h4 : i < 5 := h2
    have h5 : 1 ≤ i := h1
    interval_cases i <;> exact absurd h3 (by decide))

/-- C28: a lexeme that begins with `<` or `>` and continues with characters
of `-=<|>+~` up to `e`.  When a delimiter stands at `e`, and the lexeme is not
exactly `<` followed by `/`, the token is WORD and the lexeme ends at `e`.
When `:` stands at `e` and a delimiter after it, the token is SET and the
lexeme ends after the `:`. -/
theorem angle_word_token (ext : Ext) (b : Buf) (ss : SCAN_STATE) (mold : List Nat) (e : Nat)
    (h1 : rd b (Prescan b ss).2.begin = 60 ∨ rd b (Prescan b ss).2.begin = 62)
    (he : (Prescan b ss).2.begin < e)
    (hrun : ∀ p, (Prescan b ss).2.begin < p → p < e → IS_ANGLE_CHAR (rd b p) = true) :
    (IS_LEX_DELIMIT (rd b e) = true →
        ¬ (rd b (Prescan b ss).2.begin = 60 ∧ e = (Prescan b ss).2.begin + 1 ∧ rd b e = 47) →
        Scan_Token ext b ss mold =
          (TOKEN_WORD, { ss with begin := (Prescan b ss).2.begin, end_ := e }, mold))
    ∧ (rd b e = 58 → IS_LEX_DELIMIT (rd b (e + 1)) = true →
        Scan_Token ext b ss mold =
          (TOKEN_SET, { ss with begin := (Prescan b ss).2.begin, end_ := e + 1 }, mold)) := by
  constructor
  · intro hd hex
    have hd32 := (IS_LEX_DELIMIT_iff _).1 hd
    obtain ⟨hP, hf⟩ := Prescan_angle_run b ss e h1 he hrun hd32
    have hstop : IS_ANGLE_CHAR (rd b e) = false := by
      cases hs : IS_ANGLE_CHAR (rd b e)
      · rfl
      · exact absurd hd32 (angle_char_facts _ hs).1
    have hsk := skip_angle_run b _ e he hrun hstop
    rw [angle_token ext b ss mold h1 (fun h => absurd h (by rw [hf]; decide))]
    rw [← hP]
    unfold special_angle
    simp only [hsk, hd, Bool.true_or, Bool.true_and]
    have hcond : (rd b e != 47 || decide (e - (Prescan b ss).2.begin > 1)
        || rd b (e - 1) != 60) = true := by
      by_cases h47 : rd b e = 47
      · by_cases hgt : e - (Prescan b ss).2.begin > 1
        · simp [hgt]
        · have he1 : e = (Prescan b ss).2.begin + 1 := by omega
          have h60 : rd b (Prescan b ss).2.begin ≠ 60 := fun h => hex ⟨h, he1, h47⟩
          have : e - 1 = (Prescan b ss).2.begin := by omega
          rw [this]
          simp [h60]
      · simp [h47]
    rw [if_pos hcond, if_neg (by
      intro h58
      rw [h58] at hd32
      exact absurd hd32 (by decide))]
  · intro hc hd
    have hd32 := (IS_LEX_DELIMIT_iff _).1 hd
    obtain ⟨hP, hf⟩ := Prescan_angle_set b ss e h1 he hrun hc hd32
    have hstop : IS_ANGLE_CHAR (rd b e) = false := by
      rw [hc]
      decide
    have hsk := skip_angle_run b _ e he hrun hstop
    rw [angle_token ext b ss mold h1 (fun h => absurd h (by rw [hf]; decide))]
    rw [← hP]
    unfold special_angle
    simp only [hsk, hd, hc]
    rw [if_pos (by simp +decide), if_pos trivial]

/-- C28, witness: `<<`, `<=`, `>>` and `<>` before a space are WORD, and `<=:`
before a space is SET. -/
theorem angle_word_token_witness :
    Scan_Token sampleExt [60, 60, 32] (Init_Scan_State 0 3) [] =
        (TOKEN_WORD, { Init_Scan_State 0 3 with begin := 0, end_ := 2 }, [])
    ∧ Scan_Token sampleExt [60, 61, 32] (Init_Scan_State 0 3) [] =
        (TOKEN_WORD, { Init_Scan_State 0 3 with begin := 0, end_ := 2 }, [])
    ∧ Scan_Token sampleExt [62, 62, 32] (Init_Scan_State 0 3) [] =
        (TOKEN_WORD, { Init_Scan_State 0 3 with begin := 0, end_ := 2 }, [])
    ∧ Scan_Token sampleExt [60, 62, 32] (Init_Scan_State 0 3) [] =
        (TOKEN_WORD, { Init_Scan_State 0 3 with begin := 0, end_ := 2 }, [])
    ∧ Scan_Token sampleExt [60, 61, 58, 32] (Init_Scan_State 0 4) [] =
        (TOKEN_SET, { Init_Scan_State 0 4 with begin := 0, end_ := 3 }, []) :=
  ⟨(angle_word_token sampleExt [60, 60, 32] (Init_Scan_State 0 3) [] 2 (Or.inl (by rfl))
      (by decide) (fun p h1 h2 => by
        have h3 : 0 < p := h1
        interval_cases p
        rfl)).1 (by rfl) (by decide),
    (angle_word_token sampleExt [60, 61, 32] (Init_Scan_State 0 3) [] 2 (Or.inl (by rfl))
      (by decide) (fun p h1 h2 => by
        have h3 : 0 < p := h1
        interval_cases p
        rfl)).1 (by rfl) (by decide),
    (angle_word_token sampleExt [62, 62, 32] (Init_Scan_State 0 3) [] 2 (Or.inr (by rfl))
      (by decide) (fun p h1 h2 => by
        have h3 : 0 < p := h1
        interval_cases p
        rfl)).1 (by rfl) (by decide),
    (angle_word_token sampleExt [60, 62, 32] (Init_Scan_State 0 3) [] 2 (Or.inl (by rfl))
      (by decide) (fun p h1 h2 => by
        have h3 : 0 < p := h1
        interval_cases p
        rfl)).1 (by rfl) (by decide),
    (angle_word_token sampleExt [60, 61, 58, 32] (Init_Scan_State 0 4) [] 2 (Or.inl (by rfl))
      (by decide) (fun p h1 h2 => by
        have h3 : 0 < p := h1
        interval_cases p
        rfl)).2 (by rfl) (by rfl)⟩

/-- C29, counterexample: the lexeme `>a@b` starts with `>` and is no
angle-word (the byte after the `>` is `a`, neither a delimiter nor `:`), and
its token is EMAIL, not -WORD.  The text `</a"b>` has the body `a"b`, without
`>` and without NUL, and its token is -TAG: the `"` opens a run that is not
closed. -/
theorem closing_tag_exceptions :
    (rd [62, 97, 64, 98] 0 = 62
      ∧ skip_angle [62, 97, 64, 98] 1 = 1
      ∧ IS_LEX_DELIMIT (rd [62, 97, 64, 98] 1) = false
      ∧ rd [62, 97, 64, 98] 1 ≠ 58
      ∧ (Scan_Token sampleExt [62, 97, 64, 98] (Init_Scan_State 0 4) []).1 = TOKEN_EMAIL)
    ∧ (Scan_Token sampleExt [60, 47, 97, 34, 98, 62] (Init_Scan_State 0 6) []).1
        = -TOKEN_TAG := by
  refine ⟨⟨by rfl, by rfl, by rfl, by decide, by rfl⟩, by rfl⟩

/-- C29, amended: a lexeme `</` body `>`, the body being pieces that are
bytes other than NUL, `"` and `>` or runs between two `"` (so that every `"`
is closed), is classified TAG with `end` just past the `>`.  A lexeme that
starts with `>`, holds no `@` and whose run of angle characters ends at `e`
with neither a delimiter nor `:` and a delimiter is classified -WORD. -/
theorem closing_tag_token (ext : Ext) (b : Buf) (ss : SCAN_STATE) (mold : List Nat) :
    (∀ (items : List TagItem) (tl : List Nat),
      (∀ i ∈ items, tagitem_ok i) →
      b.drop (Prescan b ss).2.begin = 60 :: 47 :: (tag_text items ++ 62 :: tl) →
      Scan_Token ext b ss mold =
        (TOKEN_TAG, { (Prescan b ss).2 with
            end_ := (Prescan b ss).2.begin + 2 + (tag_text items).length + 1 }, mold))
    ∧ (∀ e : Nat, rd b (Prescan b ss).2.begin = 62 →
        ¬ occurs b ((Prescan b ss).2.begin + 1) (Prescan b ss).2.end_ 64 →
        (Prescan b ss).2.begin < e →
        (∀ p, (Prescan b ss).2.begin < p → p < e → IS_ANGLE_CHAR (rd b p) = true) →
        IS_ANGLE_CHAR (rd b e) = false →
        IS_LEX_DELIMIT (rd b e) = false →
        ¬ (rd b e = 58 ∧ IS_LEX_DELIMIT (rd b (e + 1)) = true) →
        Scan_Token ext b ss mold = (-TOKEN_WORD, (Prescan b ss).2, mold)) := by
  constructor
  · intro items tl hi hb
    have h60 : rd b (Prescan b ss).2.begin = 60 := by
      have := rd_add_of_drop b _ _ 0 hb
      rwa [Nat.add_zero] at this
    have h47 : rd b ((Prescan b ss).2.begin + 1) = 47 := rd_add_of_drop b _ _ 1 hb
    have hd : b.drop ((Prescan b ss).2.begin + 1)
        = tag_text (TagItem.plain 47 :: items) ++ 62 :: tl :=
      drop_add_of_drop b [60] _ _ hb
    have hok : ∀ i ∈ TagItem.plain 47 :: items, tagitem_ok i := by
      intro i hm
      rcases List.mem_cons.1 hm with h | h
      · rw [h]
        exact ⟨by decide, by decide, by decide⟩
      · exact hi i h
    have hst := Skip_Tag_plain_items b _ (TagItem.plain 47 :: items) tl
      (by rw [h47]; decide) hok hd
    have hlen : (tag_text (TagItem.plain 47 :: items)).length = 1 + (tag_text items).length := by
      simp [tag_text, tagitem_bytes]
      omega
    rw [hlen] at hst
    have hsk : skip_angle b ((Prescan b ss).2.begin + 1) = (Prescan b ss).2.begin + 1 := by
      unfold skip_angle
      exact skipWhile_stop _ _ _ (by rw [h47]; decide)
    rw [angle_token ext b ss mold (Or.inl h60) (fun _ => h60)]
    unfold special_angle
    simp only [hsk, h47, h60, hst]
    rw [if_neg (by simp +decide [h60]), if_neg (by simp)]
    have : (Prescan b ss).2.begin + 1 + (1 + (tag_text items).length) + 1
        = (Prescan b ss).2.begin + 2 + (tag_text items).length + 1 := by omega
    rw [this]
  · intro e h62 hno he hrun hstop hnd hns
    have hat := Prescan_flag_char b ss LEX_SPECIAL_AT 64 (fun c => (special_char c).1)
    have hsk := skip_angle_run b _ e he hrun hstop
    rw [angle_token ext b ss mold (Or.inr h62) (fun h => absurd (hat.1 h) hno)]
    unfold special_angle
    simp only [hsk, hnd, h62]
    have hc : (rd b e == 58 && IS_LEX_DELIMIT (rd b (e + 1))) = false := by
      cases h1 : (rd b e == 58 && IS_LEX_DELIMIT (rd b (e + 1)))
      · rfl
      · simp only [Bool.and_eq_true, beq_iff_eq] at h1
        exact absurd h1 hns
    rw [hc]
    rw [if_neg (by simp), if_pos (by decide)]

/-- C29, witness: `</a "x>y" b>c` is TAG with `end` just past the second `>`,
and `>a` before a space is -WORD. -/
theorem closing_tag_token_witness :
    Scan_Token sampleExt [60, 47, 97, 32, 34, 120, 62, 121, 34, 32, 98, 62, 99]
        (Init_Scan_State 0 13) [] =
      (TOKEN_TAG, { Init_Scan_State 0 13 with begin := 0, end_ := 12 }, [])
    ∧ Scan_Token sampleExt [62, 97, 32] (Init_Scan_State 0 3) [] =
      (-TOKEN_WORD, { Init_Scan_State 0 3 with begin := 0, end_ := 2 }, []) :=
  ⟨(closing_tag_token sampleExt [60, 47, 97, 32, 34, 120, 62, 121, 34, 32, 98, 62, 99]
      (Init_Scan_State 0 13) []).1
      [.plain 97, .plain 32, .quoted [120, 62, 121], .plain 32, .plain 98] [99]
      (by simp +decide [tagitem_ok]) (by rfl),
    (closing_tag_token sampleExt [62, 97, 32] (Init_Scan_State 0 3) []).2 1 (by rfl)
      (by
        rintro ⟨i, h1, h2, h3⟩
        have h4 : i < 2 := h2
        have h5 : 1 ≤ i := h1
        interval_cases i
        exact absurd h3 (by decide))
      (by decide) (fun p h1 h2 => by
        have h3 : 0 < p := h1
        have h4 : p < 1 := h2
        omega) (by rfl) (by rfl) (by decide)⟩

/-- C30, counterexample: in `#{}` the lexeme is the bare `#`, followed by the
delimiter `{`, which is not `(`; the token is BINARY and the block scanner
emits a binary value, not NONE. -/
theorem pound_brace_is_binary :
    rd [35, 123, 125] 0 = 35
      ∧ (Prescan [35, 123, 125] (Init_Scan_State 0 3)).2.begin = 0
      ∧ (Prescan [35, 123, 125] (Init_Scan_State 0 3)).2.end_ = 1
      ∧ IS_LEX_DELIMIT (rd [35, 123, 125] 1) = true
      ∧ rd [35, 123, 125] 1 ≠ 40
      ∧ (Scan_Token sampleExt [35, 123, 125] (Init_Scan_State 0 3) []).1 = TOKEN_BINARY
      ∧ block_of (Scan_Code sampleExt [35, 123, 125] 2 (Init_Scan_State 0 3) 0)
          = [.data .REB_BINARY [35, 123, 125]] := by
  refine ⟨by rfl, by rfl, by rfl, by rfl, by decide, by rfl, by rfl⟩

/-- C30, amended: a lexeme that starts with `#`.  Followed by `[` it is CONSTRUCT with
`end` just past the `[`.  Followed by a delimiter other than `(`, `[`, `"`
and `{` it is an ISSUE of one byte, for which a round of `Scan_Block` appends
NONE.  Followed by `(` the round of `Scan_Block` ends in a syntax error for
the token CONSTRUCT.  Followed by `"`, a character that `Scan_Char` decodes
and `"`, it is CHAR with `end` just past the second `"`. -/
theorem pound_forms (ext : Ext) (b : Buf) (rec : G → Nat → Result (List REBVAL × G))
    (fr : Frame) (g : G) (h : rd b (Prescan b g.ss).2.begin = 35) :
    (rd b ((Prescan b g.ss).2.begin + 1) = 91 →
      Scan_Token ext b g.ss g.mold =
        (TOKEN_CONSTRUCT, { g.ss with begin := (Prescan b g.ss).2.begin,
                                      end_ := (Prescan b g.ss).2.begin + 2 }, g.mold))
    ∧ (IS_LEX_DELIMIT (rd b ((Prescan b g.ss).2.begin + 1)) = true →
        rd b ((Prescan b g.ss).2.begin + 1) ≠ 40 →
        rd b ((Prescan b g.ss).2.begin + 1) ≠ 91 →
        rd b ((Prescan b g.ss).2.begin + 1) ≠ 34 →
        rd b ((Prescan b g.ss).2.begin + 1) ≠ 123 →
        Scan_Token ext b g.ss g.mold =
            (TOKEN_ISSUE, { g.ss with begin := (Prescan b g.ss).2.begin,
                                      end_ := (Prescan b g.ss).2.begin + 1 }, g.mold)
          ∧ Scan_Block_body ext b rec fr g =
              finish b fr .NONE TOKEN_ISSUE (Prescan b g.ss).2.begin
                ((Prescan b g.ss).2.begin + 1)
                { g with ss := { g.ss with begin := (Prescan b g.ss).2.begin + 1,
                                           end_ := (Prescan b g.ss).2.begin + 1 } }
          ∧ (fr.mode_char ≠ 47 → g.ss.opts.SCAN_ONLY = false → fr.just_once = false →
              Scan_Block_body ext b rec fr g =
                .again { g with
                  ss := { g.ss with begin := (Prescan b g.ss).2.begin + 1,
                                    end_ := (Prescan b g.ss).2.begin + 1 },
                  emit := g.emit ++ [.NONE] }))
    ∧ (rd b ((Prescan b g.ss).2.begin + 1) = 40 →
        Scan_Block_body ext b rec fr g =
          .done (syntax_error b fr
            { g with ss := { g.ss with begin := (Prescan b g.ss).2.begin + 1,
                                       end_ := (Prescan b g.ss).2.begin + 1 } }
            TOKEN_CONSTRUCT (Prescan b g.ss).2.begin ((Prescan b g.ss).2.begin + 1)))
    ∧ (rd b ((Prescan b g.ss).2.begin + 1) = 34 →
        0 ≤ (Scan_Char ext b ((Prescan b g.ss).2.begin + 2)).1 →
        rd b (Scan_Char ext b ((Prescan b g.ss).2.begin + 2)).2 = 34 →
        Scan_Token ext b g.ss g.mold =
          (TOKEN_CHAR, { g.ss with begin := (Prescan b g.ss).2.begin,
                                   end_ := (Scan_Char ext b ((Prescan b g.ss).2.begin + 2)).2 + 1 },
            g.mold)) := by
  have hissue : ∀ c, rd b ((Prescan b g.ss).2.begin + 1) = c → Lex_Map c < 32 →
      c ≠ 91 → c ≠ 34 → c ≠ 123 →
      Scan_Token ext b g.ss g.mold =
        (TOKEN_ISSUE, { g.ss with begin := (Prescan b g.ss).2.begin,
                                  end_ := (Prescan b g.ss).2.begin + 1 }, g.mold) := by
    intro c hc hd h91 h34 h123
    obtain ⟨hP, ht⟩ := pound_token ext b g.ss g.mold h (by rw [hc]; exact hd)
    have h60 : c ≠ 60 := by
      intro e
      rw [e] at hd
      exact absurd hd (by decide)
    have h62 : c ≠ 62 := by
      intro e
      rw [e] at hd
      exact absurd hd (by decide)
    rw [ht, ← hP]
    unfold pound
    simp only [hc]
    rw [if_neg h91, if_neg h34, if_neg h123, if_neg (by
      rintro (e | e)
      · exact h60 e
      · exact h62 e), if_pos (by omega)]
  have hround : ∀ c, rd b ((Prescan b g.ss).2.begin + 1) = c → Lex_Map c < 32 →
      c ≠ 91 → c ≠ 34 → c ≠ 123 →
      Scan_Block_body ext b rec fr g =
        after_switch b fr (case_issue ext b
          { g with ss := { g.ss with begin := (Prescan b g.ss).2.begin + 1,
                                     end_ := (Prescan b g.ss).2.begin + 1 } }
          TOKEN_ISSUE (Prescan b g.ss).2.begin ((Prescan b g.ss).2.begin + 1) 1) := by
    intro c hc hd h91 h34 h123
    have ht := hissue c hc hd h91 h34 h123
    rw [body_switch ext b rec fr g TOKEN_ISSUE _ _ ht (by decide) (by decide)
      (by
        rintro ⟨_, h47⟩
        simp only at h47
        rw [h] at h47
        exact absurd h47 (by decide))
      (by
        rintro ⟨h1 | ⟨h1 | h1 | h1, _⟩, _⟩ <;> exact absurd h1 (by decide))]
    unfold Scan_Block_switch
    simp +decide [ACCEPT_TOKEN]
  refine ⟨?_, ?_, ?_, ?_⟩
  · intro h91
    obtain ⟨hP, ht⟩ := pound_token ext b g.ss g.mold h (by rw [h91]; decide)
    rw [ht]
    unfold pound
    simp only [h91]
    rw [if_pos trivial, hP]
  · intro hd h40 h91 h34 h123
    have hd32 := (IS_LEX_DELIMIT_iff _).1 hd
    have hb := hround _ rfl hd32 h91 h34 h123
    have hfin : Scan_Block_body ext b rec fr g =
        finish b fr .NONE TOKEN_ISSUE (Prescan b g.ss).2.begin
          ((Prescan b g.ss).2.begin + 1)
          { g with ss := { g.ss with begin := (Prescan b g.ss).2.begin + 1,
                                     end_ := (Prescan b g.ss).2.begin + 1 } } := by
      rw [hb]
      unfold case_issue
      rw [if_pos rfl, if_neg h40]
      rfl
    refine ⟨hissue _ rfl hd32 h91 h34 h123, hfin, ?_⟩
    intro hm ho hj
    rw [hfin]
    unfold finish
    simp +decide [hm, ho, hj]
  · intro h40
    have hb := hround 40 h40 (by decide) (by decide) (by decide) (by decide)
    rw [hb]
    unfold case_issue
    rw [if_pos rfl, if_pos h40]
    rfl
  · intro h34 hc hq
    obtain ⟨hP, ht⟩ := pound_token ext b g.ss g.mold h (by rw [h34]; decide)
    rw [ht]
    unfold pound
    simp only [h34]
    rw [if_neg (by decide), if_pos trivial, if_pos ⟨hc, hq⟩, hP]

/-- C30, witness: `#[` is CONSTRUCT with `end` 2; a round on `# ` appends
NONE; a round on `#(` ends in a syntax error for CONSTRUCT; `#"a"` is CHAR
with `end` 4. -/
theorem pound_forms_witness :
    Scan_Token sampleExt [35, 91] (Init_Scan_State 0 2) [] =
        (TOKEN_CONSTRUCT, { Init_Scan_State 0 2 with begin := 0, end_ := 2 }, [])
    ∧ Scan_Block_body sampleExt [35, 32] (fun _ _ => .fuel) ⟨0, 0, 1, 0, false⟩
          ⟨Init_Scan_State 0 2, [], []⟩ =
        .again ⟨{ Init_Scan_State 0 2 with begin := 1, end_ := 1 }, [.NONE], []⟩
    ∧ Scan_Block_body sampleExt [35, 40] (fun _ _ => .fuel) ⟨0, 0, 1, 0, false⟩
          ⟨Init_Scan_State 0 2, [], []⟩ =
        .done (syntax_error [35, 40] ⟨0, 0, 1, 0, false⟩
          ⟨{ Init_Scan_State 0 2 with begin := 1, end_ := 1 }, [], []⟩ TOKEN_CONSTRUCT 0 1)
    ∧ Scan_Token sampleExt [35, 34, 97, 34] (Init_Scan_State 0 4) [] =
        (TOKEN_CHAR, { Init_Scan_State 0 4 with begin := 0, end_ := 4 }, []) :=
  ⟨(pound_forms sampleExt [35, 91] (fun _ _ => .fuel) ⟨0, 0, 1, 0, false⟩
      ⟨Init_Scan_State 0 2, [], []⟩ (by rfl)).1 (by rfl),
    ((pound_forms sampleExt [35, 32] (fun _ _ => .fuel) ⟨0, 0, 1, 0, false⟩
      ⟨Init_Scan_State 0 2, [], []⟩ (by rfl)).2.1 (by rfl) (by decide) (by decide)
        (by decide) (by decide)).2.2 (by decide) (by rfl) (by rfl),
    (pound_forms sampleExt [35, 40] (fun _ _ => .fuel) ⟨0, 0, 1, 0, false⟩
      ⟨Init_Scan_State 0 2, [], []⟩ (by rfl)).2.2.1 (by rfl),
    (pound_forms sampleExt [35, 34, 97, 34] (fun _ _ => .fuel) ⟨0, 0, 1, 0, false⟩
      ⟨Init_Scan_State 0 4, [], []⟩ (by rfl)).2.2.2 (by rfl) (by decide) (by rfl)⟩

/-- C32: progress and termination, for a UTF-8 decoder that does not move
backwards.  The loops of `Prescan` and `Scan_Token` have fuel to spare (more
fuel gives the same result), and so has the date loop of `Scan_Block`, so
every call returns.  A call of `Scan_Token` returns `TOKEN_EOF` exactly when
the lexeme starts with a NUL, and otherwise leaves `end` after the `begin` it
was called with.  A round of the loop of
`Scan_Block` that goes on leaves `begin` after the `begin` it started with; it
makes nested calls only for a position after its start, or in path mode from a
frame that is not in path mode.  With two units of fuel for every byte left,
and two more, `Scan_Block` does not run out of fuel: the rounds and the nested
calls together are bounded by the length of the input.  The nested calls go no
deeper than twice the bracket nesting of the tokens the scan reads, and one
more (a bracket level holds at most one block frame and one path frame): with
that bound on the depth of the calls the scan runs as without it, whatever the
fuel.  Nor do they go deeper than twice the number of `[` and `(` bytes left,
and one more. -/
theorem scanner_terminates (ext : Ext) (b : Buf) (hf : forward ext b) :
    (∀ (bg k cp flags : Nat),
        Prescan_loop b bg (b.length + 1 + k) cp flags = Prescan_loop b bg (b.length + 1) cp flags)
    ∧ (∀ (mold : List Nat) (k : Nat) (ss : SCAN_STATE) (flags cp : Nat),
        next_ls ext b mold (k + 2) ss flags cp = next_ls ext b mold 2 ss flags cp)
    ∧ (∀ (term k src nest lines : Nat) (buf : List Nat),
        Scan_Quote_loop ext b term (b.length + 2 + k) src nest lines buf =
          Scan_Quote_loop ext b term (b.length + 2) src nest lines buf)
    ∧ (∀ (k cp : Nat), Skip_Tag_loop b (b.length + 1 + k) cp = Skip_Tag_loop b (b.length + 1) cp)
    ∧ (∀ (end_ k cp : Nat), cp ≤ end_ →
        num_loop b end_ (end_ - cp + 1 + k) cp = num_loop b end_ (end_ - cp + 1) cp)
    ∧ (∀ (fr : Frame) (bp k ep len begin : Nat), bp ≤ ep →
        date_loop b fr bp (51 + k) ep len begin = date_loop b fr bp 51 ep len begin)
    ∧ (∀ (ss : SCAN_STATE) (mold : List Nat),
        ((Scan_Token ext b ss mold).1 = TOKEN_EOF ↔ rd b (Prescan b ss).2.begin = 0)
        ∧ ((Scan_Token ext b ss mold).1 ≠ TOKEN_EOF →
            ss.begin < (Scan_Token ext b ss mold).2.1.end_))
    ∧ (∀ (fuel : Nat) (fr : Frame) (g g1 : G),
        Scan_Block_body ext b (fun g m => Scan_Block ext b fuel g m) fr g = .again g1 →
          g.ss.begin < g1.ss.begin)
    ∧ (∀ (rec1 rec2 : G → Nat → Result (List REBVAL × G)) (fr : Frame) (g : G),
        (∀ g1 m, (g.ss.begin < g1.ss.begin ∧ (m = 93 ∨ m = 41)
            ∨ (m = 47 ∧ fr.mode_char ≠ 47 ∧ g.ss.begin ≤ g1.ss.begin)) →
          rec1 g1 m = rec2 g1 m) →
        Scan_Block_body ext b rec1 fr g = Scan_Block_body ext b rec2 fr g)
    ∧ (∀ (fuel : Nat) (g : G) (m : Nat), 2 * (b.length - g.ss.begin) + 2 ≤ fuel →
        Scan_Block ext b fuel g m ≠ .fuel)
    ∧ (∀ (d fuel : Nat) (g : G) (m : Nat),
        2 * nesting (Scan_Block_tokens ext b fuel (enter g m).1 (enter g m).2) + 1 ≤ d →
        Scan_Block_depth ext b d fuel (enter g m).1 (enter g m).2 = Scan_Block ext b fuel g m)
    ∧ (∀ (d fuel : Nat) (g : G) (m : Nat), 2 * opens b g.ss.begin + 1 ≤ d →
        Scan_Block_depth ext b d fuel (enter g m).1 (enter g m).2 = Scan_Block ext b fuel g m) := by
  refine ⟨?_, ?_, ?_, ?_, ?_, ?_, ?_, body_again_gt ext b hf, Scan_Block_body_congr ext b hf,
    ?_, fun d fuel g m h => Scan_Block_depth_of_nesting ext b d fuel g m h, ?_⟩
  · intro bg k cp flags
    exact Prescan_loop_fuel b bg _ _ cp flags (by omega) (by omega)
  · intro mold k ss flags cp
    exact next_ls_fuel ext b mold k ss flags cp
  · intro term k src nest lines buf
    exact Scan_Quote_loop_fuel ext b term hf _ _ _ _ _ _ (by omega) (by omega)
  · intro k cp
    exact Skip_Tag_loop_fuel b _ _ cp (by omega) (by omega)
  · intro end_ k cp hle
    exact num_loop_fuel b end_ _ _ cp hle (by omega) (by omega)
  · intro fr bp k ep len begin hle
    exact date_loop_fuel b fr bp _ _ ep len begin hle (by omega) (by omega) (by omega) (by omega)
  · intro ss mold
    refine ⟨eof_iff_nul ext b hf ss mold, ?_⟩
    intro hne
    have h0 : rd b (Prescan b ss).2.begin ≠ 0 := fun h => hne ((eof_iff_nul ext b hf ss mold).2 h)
    have := (Scan_Token_adv ext b hf ss mold h0).2
    have hge := skipWhile_ge IS_LEX_SPACE b ss.begin
    rw [Prescan_begin] at this
    omega
  · intro fuel g m hfuel
    obtain ⟨e1, e2⟩ := enter_ss g m
    have h1 := Scan_Block_loop_adv True ext b hf fuel (enter g m).1 (enter g m).2 (by
      intro _
      rw [e1, e2]
      unfold fuel_need
      split_ifs <;> omega)
    exact h1.1 trivial
  · intro d fuel g m hd
    obtain ⟨e1, e2⟩ := enter_ss g m
    exact Scan_Block_depth_eq ext b hf fuel d (enter g m).1 (enter g m).2 (by
      rw [e1]
      split_ifs <;> omega)

/-- C32, witness: with the sample decoder, which does not move, the scan of
`[a b] c` (7 bytes, one `[`) with 16 units of fuel does not run out of fuel,
runs the same with the depth of the calls bounded by 3, and its first token,
the `[`, leaves `end` after `begin`.  The tokens of `[] [] [] []` have the
bracket nesting 1, so that its scan runs the same with the depth of the calls
bounded by 3, where the count of its four `[` bytes asks for 9. -/
theorem scanner_terminates_witness :
    forward sampleExt block_then_word
    ∧ Scan_Block sampleExt block_then_word 16 ⟨Init_Scan_State 0 7, [], []⟩ 0 ≠ .fuel
    ∧ Scan_Block_depth sampleExt block_then_word 3 16
          (enter ⟨Init_Scan_State 0 7, [], []⟩ 0).1 (enter ⟨Init_Scan_State 0 7, [], []⟩ 0).2 =
        Scan_Block sampleExt block_then_word 16 ⟨Init_Scan_State 0 7, [], []⟩ 0
    ∧ (Init_Scan_State 0 7).begin <
        (Scan_Token sampleExt block_then_word (Init_Scan_State 0 7) []).2.1.end_
    ∧ nesting (Scan_Block_tokens sampleExt four_blocks 24
          (enter ⟨Init_Scan_State 0 11, [], []⟩ 0).1 (enter ⟨Init_Scan_State 0 11, [], []⟩ 0).2) = 1
    ∧ Scan_Block_depth sampleExt four_blocks 3 24
          (enter ⟨Init_Scan_State 0 11, [], []⟩ 0).1 (enter ⟨Init_Scan_State 0 11, [], []⟩ 0).2 =
        Scan_Block sampleExt four_blocks 24 ⟨Init_Scan_State 0 11, [], []⟩ 0
    ∧ 2 * opens four_blocks 0 + 1 = 9 :=
  ⟨fun p => Nat.le_refl p,
    (scanner_terminates sampleExt block_then_word (fun p => Nat.le_refl p)).2.2.2.2.2.2.2.2.2.1
      16 ⟨Init_Scan_State 0 7, [], []⟩ 0 (by decide),
    (scanner_terminates sampleExt block_then_word (fun p => Nat.le_refl p)).2.2.2.2.2.2.2.2.2.2.2
      3 16 ⟨Init_Scan_State 0 7, [], []⟩ 0 (by decide),
    ((scanner_terminates sampleExt block_then_word (fun p => Nat.le_refl p)).2.2.2.2.2.2.1
      (Init_Scan_State 0 7) []).2 (by decide),
    by rfl,
    (scanner_terminates sampleExt four_blocks (fun p => Nat.le_refl p)).2.2.2.2.2.2.2.2.2.2.1
      3 24 ⟨Init_Scan_State 0 11, [], []⟩ 0 (Nat.le_of_eq (by rfl)),
    by rfl⟩

/-- C33: in `Lex_Map` the bytes `0`-`9` have class NUMBER with the values 0-9
and are the only bytes of that class; `A`-`F` and `a`-`f` have class WORD with
the values 10-15; every other byte of class WORD has the value 0; and the test
of the hexadecimal loop of `Scan_Char` holds exactly for the bytes of
`[0-9A-Fa-f]`. -/
theorem Lex_Map_hex_values (c : Nat) :
    ((48 ≤ c ∧ c ≤ 57) → GET_LEX_CLASS c = LEX_CLASS_NUMBER ∧ GET_LEX_VALUE c = c - 48)
    ∧ (GET_LEX_CLASS c = LEX_CLASS_NUMBER → 48 ≤ c ∧ c ≤ 57)
    ∧ ((65 ≤ c ∧ c ≤ 70) → GET_LEX_CLASS c = LEX_CLASS_WORD ∧ GET_LEX_VALUE c = c - 55)
    ∧ ((97 ≤ c ∧ c ≤ 102) → GET_LEX_CLASS c = LEX_CLASS_WORD ∧ GET_LEX_VALUE c = c - 87)
    ∧ (GET_LEX_CLASS c = LEX_CLASS_WORD → ¬ (65 ≤ c ∧ c ≤ 70) → ¬ (97 ≤ c ∧ c ≤ 102) →
        GET_LEX_VALUE c = 0)
    ∧ (Scan_Char_hex c = true ↔
        ((48 ≤ c ∧ c ≤ 57) ∨ (65 ≤ c ∧ c ≤ 70) ∨ (97 ≤ c ∧ c ≤ 102))) := by
  by_cases h : c < 256
  · exact hex_table_byte ⟨c, h⟩
  · have h0 := Lex_Map_out c h
    have hcl : GET_LEX_CLASS c = 0 := by
      unfold GET_LEX_CLASS
      rw [h0]
      rfl
    have hv : GET_LEX_VALUE c = 0 := by
      unfold GET_LEX_VALUE
      rw [h0]
      rfl
    have hx : Scan_Char_hex c = false := by
      unfold Scan_Char_hex
      rw [h0]
      rfl
    refine ⟨fun h1 => by omega, fun h1 => ?_, fun h1 => by omega, fun h1 => by omega,
      fun _ _ _ => hv, ?_⟩
    · rw [hcl] at h1
      exact absurd h1 (by decide)
    · rw [hx]
      constructor
      · intro h1
        exact absurd h1 (by decide)
      · intro h1
        omega

/-- C34: `Scan_Quote` does not keep to the text before the NUL terminator.
With a UTF-8 decoder that moves forward the loop has fuel to spare, so a null
result is the code's own.  With a decoder that passes no NUL, a successful
scan ends right after a closing delimiter inside the memory, and every NUL
between the opening delimiter and the returned position stands right after a
`^`: a NUL that is not preceded by `^` is never passed, and a string with no
closing delimiter before such a NUL fails.  But on `"^`, NUL, `"` the escape
decoder steps over the NUL and the scan succeeds four bytes on, past the
NUL. -/
theorem Scan_Quote_passes_nul (ext : Ext) (b : Buf) (src : Nat) (ss : SCAN_STATE) :
    (forward ext b → ∀ (term k : Nat),
        Scan_Quote_loop ext b term (b.length + 2 + k) (src + 1) 0 0 [] =
          Scan_Quote_loop ext b term (b.length + 2) (src + 1) 0 0 [])
    ∧ (decoder_in_text ext b → ∀ q, (Scan_Quote ext b src ss).1 = some q →
        src + 1 < q ∧ q ≤ b.length
          ∧ rd b (q - 1) = (if rd b src = 123 then 125 else 34)
          ∧ (∀ x, src < x → x < q → rd b x = 0 → rd b (x - 1) = 94)
          ∧ (∀ z, src < z → rd b z = 0 → rd b (z - 1) ≠ 94 → q ≤ z))
    ∧ (rd b src = 34 → rd b (src + 1) = 94 → rd b (src + 2) = 0 → rd b (src + 3) = 34 →
        Scan_Quote ext b src ss = (some (src + 4), ss, [0])) := by
  refine ⟨fun hf term k => Scan_Quote_loop_fuel ext b term hf _ _ _ _ _ _ (by omega) (by omega),
    ?_, Scan_Quote_caret_nul ext b src ss⟩
  intro hd q hq
  unfold Scan_Quote at hq
  dsimp only at hq
  split at hq
  · rename_i p lines buf hl
    have hq2 : p + 1 = q := Option.some.inj hq
    subst hq2
    have hs := Scan_Quote_loop_some ext b _ _ _ _ _ _ p (by rw [hl])
    have hn := Scan_Quote_loop_nul ext b _ hd _ _ _ _ _ p (by rw [hl])
    have hne : rd b p ≠ 0 := by
      rw [hs.1]
      split_ifs <;> decide
    have hlen := lt_length_of_rd_ne_zero b p hne
    have hfw := Scan_Quote_loop_ge ext b _ hd _ _ _ _ _ p (by rw [hl])
    have key : ∀ x, src < x → x < p + 1 → rd b x = 0 → rd b (x - 1) = 94 := by
      intro x h1 h2 h3
      by_cases hx : x = p
      · subst hx
        exact absurd h3 hne
      · exact (hn x (by omega) (by omega) h3).2
    refine ⟨by omega, by omega, hs.1, key, ?_⟩
    intro z h1 h2 h3
    by_contra hc
    exact h3 (key z h1 (by omega) h2)
  · exact absurd hq (by simp)

/-- C34, witness: in the memory `"^`, NUL, `"` the scan of the string at 0
succeeds at 4, two bytes past the NUL at 2; the scan of `"a"` ends at 3, inside
the memory, with no NUL passed. -/
theorem Scan_Quote_passes_nul_witness :
    (Scan_Quote sampleExt [34, 94, 0, 34] 0 (Init_Scan_State 0 2) =
        (some 4, Init_Scan_State 0 2, [0])
      ∧ rd [34, 94, 0, 34] 2 = 0)
    ∧ (decoder_in_text sampleExt [34, 97, 34]
      ∧ (Scan_Quote sampleExt [34, 97, 34] 0 (Init_Scan_State 0 3)).1 = some 3
      ∧ ∀ z, 0 < z → rd [34, 97, 34] z = 0 → rd [34, 97, 34] (z - 1) ≠ 94 → 3 ≤ z) :=
  ⟨⟨(Scan_Quote_passes_nul sampleExt [34, 94, 0, 34] 0 (Init_Scan_State 0 2)).2.2
      (by decide) (by decide) (by decide) (by decide), by decide⟩,
    fun _ _ h => absurd rfl h, by rfl,
    ((Scan_Quote_passes_nul sampleExt [34, 97, 34] 0 (Init_Scan_State 0 3)).2.1
      (fun _ _ h => absurd rfl h) 3 (by rfl)).2.2.2.2⟩

/-- C35: `Scan_Item` does not keep to its slice and stores a rejected escape.
With a UTF-8 decoder that moves forward a result `r` is at or after `src`, and
over literal bytes (no `%`, no `^`, no high byte before `end`) it is at most
`end`, unless the terminator stands at `end` (it is then `end + 1`).  But a
`%HH` that starts within the last two bytes before `end` is decoded in full
and the result is `src + 3` (or `src + 4` when the terminator follows), past
`end`; and when `Scan_Char` returns -1 for a `^` escape the loop does not
fail: it appends the character 65535 and goes on after the bytes that
`Scan_Char` took. -/
theorem Scan_Item_leaves_slice (ext : Ext) (IS_WHITE : Nat → Bool) (b : Buf)
    (src end_ term : Nat) (invalid : Option (List Nat)) :
    (forward ext b → ∀ r, (Scan_Item ext IS_WHITE b src end_ term invalid).1 = some r → src ≤ r)
    ∧ (src ≤ end_ → (∀ x, src ≤ x → x < end_ → rd b x ≠ 37 ∧ rd b x ≠ 94 ∧ rd b x < 128) →
        ∀ r, (Scan_Item ext IS_WHITE b src end_ term invalid).1 = some r →
          r ≤ end_ + 1 ∧ (rd b end_ = 0 ∨ rd b end_ ≠ term → r ≤ end_))
    ∧ (∀ v, src < end_ → end_ ≤ src + 3 → rd b src = 37 → Scan_Hex2 b (src + 1) = some v →
        term ≠ 37 → (term = 0 → IS_WHITE 37 = false) →
        Scan_Item ext IS_WHITE b src end_ term invalid =
          (some (if rd b (src + 3) ≠ 0 ∧ rd b (src + 3) = term then src + 4 else src + 3), [v]))
    ∧ (src < end_ → src + 1 ≠ end_ → rd b src = 94 → (Scan_Char ext b src).1 = -1 →
        term ≠ 94 → (term = 0 → IS_WHITE 94 = false ∧ IS_WHITE 65535 = false) →
        Scan_Item_loop ext IS_WHITE b end_ term invalid (b.length + 2) src [] =
            Scan_Item_loop ext IS_WHITE b end_ term invalid (b.length + 1)
              (Scan_Char ext b src).2 [65535]
          ∧ ∃ l, (Scan_Item ext IS_WHITE b src end_ term invalid).2 = 65535 :: l) := by
  refine ⟨?_, ?_, ?_, ?_⟩
  · intro hf r hr
    unfold Scan_Item at hr
    split at hr
    · rename_i p buf hl
      have := Scan_Item_loop_ge ext IS_WHITE b end_ term invalid hf _ _ _ p (by rw [hl])
      have hr2 := Option.some.inj hr
      split_ifs at hr2 <;> omega
    · exact absurd hr (by simp)
  · intro hle hlit r hr
    unfold Scan_Item at hr
    split at hr
    · rename_i p buf hl
      have hp := Scan_Item_loop_le ext IS_WHITE b end_ term invalid _ _ _ p hle hlit
        (by rw [hl])
      have hr2 := Option.some.inj hr
      by_cases hc : rd b p ≠ 0 ∧ rd b p = term
      · rw [if_pos hc] at hr2
        refine ⟨by omega, fun h => ?_⟩
        by_contra hgt
        have : p = end_ := by omega
        subst this
        rcases h with h | h
        · exact hc.1 h
        · exact h hc.2
      · rw [if_neg hc] at hr2
        exact ⟨by omega, fun _ => by omega⟩
    · exact absurd hr (by simp)
  · intro v hlt hend h37 hx ht hw
    unfold Scan_Item
    rw [Scan_Item_loop_hex ext IS_WHITE b end_ term invalid _ src v [] hlt h37 ht hw hx,
      Scan_Item_loop, if_neg (by omega)]
    rfl
  · intro hlt hne h94 hc ht hw
    have e := Scan_Item_loop_rejected ext IS_WHITE b end_ term invalid (b.length + 1) src []
      hlt h94 hne hc ht hw
    refine ⟨e, ?_⟩
    obtain ⟨l, hl⟩ := Scan_Item_loop_prefix ext IS_WHITE b end_ term invalid (b.length + 1)
      (Scan_Char ext b src).2 ([] ++ [65535])
    refine ⟨l, ?_⟩
    unfold Scan_Item
    rw [e]
    split
    · rename_i p buf hq
      rw [hq] at hl
      exact hl
    · rename_i buf hq
      rw [hq] at hl
      exact hl

/-- C35, witness: at `%41` with `end` one byte after `src` the result is
`src + 3`, two bytes past `end`, with `A` in the mold buffer; at `^(zz)`, which
`Scan_Char` rejects, the result is not the failure: the mold buffer holds
65535 and the bytes `zz)`. -/
theorem Scan_Item_leaves_slice_witness :
    Scan_Item sampleExt sampleWhite [37, 52, 49] 0 1 0 none = (some 3, [65])
    ∧ (Scan_Char sampleExt [94, 40, 122, 122, 41] 0).1 = -1
    ∧ Scan_Item sampleExt sampleWhite [94, 40, 122, 122, 41] 0 5 0 none =
        (some 5, [65535, 122, 122, 41])
    ∧ ∃ l, (Scan_Item sampleExt sampleWhite [94, 40, 122, 122, 41] 0 5 0 none).2 = 65535 :: l :=
  ⟨(Scan_Item_leaves_slice sampleExt sampleWhite [37, 52, 49] 0 1 0 none).2.2.1 65
      (by decide) (by decide) (by decide) (by rfl) (by decide) (fun _ => by decide),
    by rfl, by rfl,
    ((Scan_Item_leaves_slice sampleExt sampleWhite [94, 40, 122, 122, 41] 0 5 0 none).2.2.2
      (by decide) (by decide) (by decide) (by rfl) (by decide)
      (fun _ => ⟨by decide, by decide⟩)).2⟩

/-- C36: the tables `Upper_Case` and `Lower_Case` are idempotent and absorb
each other, and below 0x80 they map `a`-`z` to `A`-`Z`, `A`-`Z` to `a`-`z` and
keep every other byte. -/
theorem case_tables_consistent (c : Nat) :
    Upper_Case (Upper_Case c) = Upper_Case c
    ∧ Lower_Case (Lower_Case c) = Lower_Case c
    ∧ Upper_Case (Lower_Case c) = Upper_Case c
    ∧ Lower_Case (Upper_Case c) = Lower_Case c
    ∧ (c < 128 → Upper_Case c = if 97 ≤ c ∧ c ≤ 122 then c - 32 else c)
    ∧ (c < 128 → Lower_Case c = if 65 ≤ c ∧ c ≤ 90 then c + 32 else c) := by
  by_cases h : c < 256
  · exact case_table_byte ⟨c, h⟩
  · obtain ⟨h1, h2⟩ := case_out c h
    rw [h1, h2, h1, h2]
    exact ⟨rfl, rfl, rfl, rfl, fun h3 => by omega, fun h3 => by omega⟩

end Rebol
